import Mathlib

/-! LPC23xx/LPC24xx peripheral drivers: the I2C master and the USB device controller.

A shallow embedding of `Targets/LPC23xx_LPC24xx/LPC24_I2C.cpp` and of the
device events and the endpoint engine of
`Targets/LPC23xx_LPC24xx/LPC24_UsbDevice.cpp`.

Conventions of the embedding.

* Memory-mapped registers are write-only from the point of view of the
  properties studied here, so a register block is represented by the list of
  the writes performed on it, oldest first.  Values read from a register
  (`I2STAT`, `I2DAT`) are inputs carried by the interrupt event.
* `size_t` is 32 bits wide on this ARM7 target: the two byte counters of a
  transaction are natural numbers below `2 ^ 32`; `++` wraps from `2 ^ 32 - 1`
  to 0 and `--` wraps from 0 to `2 ^ 32 - 1`.
* A pointer that may be null is an `Option`; a function that dereferences a
  pointer returns `Option`, and `none` stands for the dereference of a null
  pointer.
* The caller's byte buffer is a `List Nat` (the bytes the pointer designates);
  a store through an index past its end is dropped, a load past its end reads 0.
* Interrupts are taken while the synchronous wrapper sits in
  `LPC24_Time_Delay`: the bus is a function giving, for the `k`-th delay of a
  wait loop, the interrupt events served during that delay, in order.  The
  wrapper reports the durations it passed to `LPC24_Time_Delay`.
* The USB registers that the driver polls (`USBDevIntSt`, `USBRxPLen`) are
  lists of the values the coming reads return; a busy-wait consumes them up to
  the first value that ends it, and is `none` when no value does.
* A loop or a mutual recursion of the USB driver whose end depends on the
  client layer takes a bound `fuel` and is `none` when the bound runs out.
-/

namespace LPC24

/-! ## Types shared with the native API (declared in `TinyCLR.h`) -/

/-- Result codes of `TinyCLR_Result` that the I2C driver returns. -/
inductive TinyCLR_Result where
  | Success
  | ArgumentNull
  | SharingViolation
  | NotSupported
  | TimedOut
  deriving DecidableEq

/-- Values of `TinyCLR_I2c_TransferStatus`: the two enumerators the driver
writes, and any other value the caller's variable may hold on entry. -/
inductive TinyCLR_I2c_TransferStatus where
  | FullTransfer
  | PartialTransfer
  | other (raw : Nat)
  deriving DecidableEq

/-- Values of `TinyCLR_I2c_BusSpeed`: the two enumerators the driver
recognises, and any other value of the underlying integer type. -/
inductive TinyCLR_I2c_BusSpeed where
  | StandardMode
  | FastMode
  | other (raw : Nat)
  deriving DecidableEq

/-- A non-null `const TinyCLR_I2c_Controller*`.  Its `ApiInfo->State` is the
driver of the modelled controller, so the handle carries no data; a possibly
null handle is an `Option TinyCLR_I2c_Controller`. -/
abbrev TinyCLR_I2c_Controller := Unit

/-! ## I2C registers -/

/-- Bits of the I2C control register (`LPC24XX_I2C::AA`, `SI`, `STO`, `STA`,
`I2EN`).  A mask built with `|` is the list of its bits. -/
inductive I2cControlBit where
  | AA
  | SI
  | STO
  | STA
  | I2EN
  deriving DecidableEq

/-- One write to a register of the `LPC24XX_I2C` block. -/
inductive I2cRegWrite where
  | I2DAT (value : Nat)
  | I2CONSET (bits : List I2cControlBit)
  | I2CONCLR (bits : List I2cControlBit)
  | I2SCLH (value : Nat)
  | I2SCLL (value : Nat)
  deriving DecidableEq

/-- What the interrupt handler reads from the hardware when it is entered:
the status register `I2STAT` and, for the states that read it, the data
register `I2DAT`. -/
structure IrqEvent where
  status : Nat
  dat : Nat
  deriving DecidableEq

/-! ## Driver state -/

/-- Number of values of `size_t`, `2 ^ 32`. -/
def SIZE_MAX_PLUS_ONE : Nat := 4294967296

/-- `#define I2C_TRANSACTION_TIMEOUT 2000`. -/
def I2C_TRANSACTION_TIMEOUT : Nat := 2000

/-- `struct I2cConfiguration`. -/
structure I2cConfiguration where
  address : Int
  clockRate : Nat
  clockRate2 : Nat
  isOpened : Bool
  deriving DecidableEq

/-- `struct I2cTransaction` (its `result` member is never read or written by
the driver and is left out). -/
structure I2cTransaction where
  isReadTransaction : Bool
  repeatedStart : Bool
  isDone : Bool
  buffer : List Nat
  bytesToTransfer : Nat
  bytesTransferred : Nat
  deriving DecidableEq

/-- The two transaction slots a `currentI2cTransactionAction` pointer can
designate. -/
inductive Slot where
  | readSlot
  | writeSlot
  deriving DecidableEq

/-- `struct I2cDriver`; `currentI2cTransactionAction` is `none` for a null
pointer. -/
structure I2cDriver where
  controllerIndex : Nat
  i2cConfiguration : I2cConfiguration
  currentI2cTransactionAction : Option Slot
  readI2cTransactionAction : I2cTransaction
  writeI2cTransactionAction : I2cTransaction
  deriving DecidableEq

/-- The driver of one controller together with the history of its register
block. -/
structure I2cWorld where
  driver : I2cDriver
  regs : List I2cRegWrite
  deriving DecidableEq

/-- The transaction stored in a slot. -/
def I2cDriver.slot (d : I2cDriver) : Slot → I2cTransaction
  | .readSlot => d.readI2cTransactionAction
  | .writeSlot => d.writeI2cTransactionAction

/-- Store a transaction into a slot. -/
def I2cDriver.setSlot (d : I2cDriver) (s : Slot) (t : I2cTransaction) : I2cDriver :=
  match s with
  | .readSlot => { d with readI2cTransactionAction := t }
  | .writeSlot => { d with writeI2cTransactionAction := t }

/-- Dereference of `driver->currentI2cTransactionAction`. -/
def I2cDriver.current (d : I2cDriver) : Option I2cTransaction :=
  match d.currentI2cTransactionAction with
  | none => none
  | some s => some (d.slot s)

/-- Perform register writes, in order. -/
def I2cWorld.write (w : I2cWorld) (ws : List I2cRegWrite) : I2cWorld :=
  { w with regs := w.regs ++ ws }

/-- Store a transaction into a slot of the driver. -/
def I2cWorld.setSlot (w : I2cWorld) (s : Slot) (t : I2cTransaction) : I2cWorld :=
  { w with driver := w.driver.setSlot s t }

/-- Assign `driver->currentI2cTransactionAction`. -/
def I2cWorld.setCurrent (w : I2cWorld) (s : Option Slot) : I2cWorld :=
  { w with driver := { w.driver with currentI2cTransactionAction := s } }

/-! ## Transaction engine -/

/-- `LPC24_I2c_StartTransaction`. -/
def LPC24_I2c_StartTransaction (w : I2cWorld) : I2cWorld :=
  let driver := w.driver
  if !driver.writeI2cTransactionAction.repeatedStart
      || driver.writeI2cTransactionAction.bytesTransferred == 0 then
    let scl := driver.i2cConfiguration.clockRate ||| (driver.i2cConfiguration.clockRate2 <<< 8)
    w.write [.I2SCLH scl, .I2SCLL scl, .I2CONSET [.STA]]
  else
    w.write [.I2CONSET [.STA]]

/-- `LPC24_I2c_StopTransaction`. -/
def LPC24_I2c_StopTransaction (w : I2cWorld) : Option I2cWorld :=
  let w1 := w.write [.I2CONSET [.STO], .I2CONCLR [.AA, .SI, .STA]]
  match w1.driver.currentI2cTransactionAction with
  | none => none
  | some s => some (w1.setSlot s { w1.driver.slot s with isDone := true })

/-- The byte `address` that the handler sends after a start condition:
`0xFE & (driver->i2cConfiguration.address << 1)`, then `|= 1` for a read.
The left shift of the 32-bit address followed by the truncation to `uint8_t`
keeps `2 * address` modulo 256. -/
def addressByte (address : Int) (isReadTransaction : Bool) : Nat :=
  (0xFE &&& ((address * 2) % 256).toNat) ||| (if isReadTransaction then 1 else 0)

/-- The groups of `case` labels of the `switch (status)` in
`LPC24_I2c_InterruptHandler`. -/
inductive StatusCase where
  | startSent
  | writeAck
  | notAck
  | arbitrationLost
  | readAddressAck
  | dataReceived
  | busError
  | unrecognised
  deriving DecidableEq

/-- The group of `case` labels a status code selects. -/
def statusCase (status : Nat) : StatusCase :=
  if status = 0x08 ∨ status = 0x10 then .startSent
  else if status = 0x18 ∨ status = 0x28 then .writeAck
  else if status = 0x20 ∨ status = 0x30 ∨ status = 0x48 then .notAck
  else if status = 0x38 then .arbitrationLost
  else if status = 0x40 then .readAddressAck
  else if status = 0x50 ∨ status = 0x58 then .dataReceived
  else if status = 0x00 then .busError
  else .unrecognised

/-- `x++` on a `size_t`. -/
def sizeIncrement (x : Nat) : Nat := (x + 1) % SIZE_MAX_PLUS_ONE

/-- `x--` on a `size_t`: the predecessor, and `2 ^ 32 - 1` from 0. -/
def sizeDecrement (x : Nat) : Nat := if x = 0 then SIZE_MAX_PLUS_ONE - 1 else x - 1

/-- `transaction->bytesTransferred++; transaction->bytesToTransfer--;` on two
`size_t` counters. -/
def I2cTransaction.advance (t : I2cTransaction) : I2cTransaction :=
  { t with
    bytesTransferred := sizeIncrement t.bytesTransferred
    bytesToTransfer := sizeDecrement t.bytesToTransfer }

/-- `transaction->buffer[transaction->bytesTransferred] = I2C.I2DAT;`, the
register value being truncated to a byte. -/
def I2cTransaction.store (t : I2cTransaction) (dat : Nat) : I2cTransaction :=
  { t with buffer := t.buffer.set t.bytesTransferred (dat % 256) }

/-- The block that ends a slot's transfer, written twice in the handler
(lines 117-123 and 164-172): stop when `repeatedStart` is false, otherwise make
the read slot current and start again. -/
def stopOrChain (repeatedStart : Bool) (w : I2cWorld) : Option I2cWorld :=
  if repeatedStart = false then
    LPC24_I2c_StopTransaction w
  else
    some (LPC24_I2c_StartTransaction (w.setCurrent (some .readSlot)))

/-- The `switch (status)` of `LPC24_I2c_InterruptHandler`, entered with a
non-null `transaction` designating slot `s`; `uint8_t status = I2C.I2STAT`
keeps the low byte of the register. -/
def interruptSwitch (ev : IrqEvent) (s : Slot) (w : I2cWorld) : Option I2cWorld :=
  let transaction := w.driver.slot s
  match statusCase (ev.status % 256) with
  | .startSent =>
    some (w.write [.I2DAT (addressByte w.driver.i2cConfiguration.address
      transaction.isReadTransaction), .I2CONCLR [.STA]])
  | .writeAck =>
    if transaction.bytesToTransfer = 0 then
      stopOrChain transaction.repeatedStart w
    else
      some ((w.write [.I2DAT (transaction.buffer.getD transaction.bytesTransferred 0)]).setSlot s
        transaction.advance)
  | .notAck => LPC24_I2c_StopTransaction w
  | .arbitrationLost => LPC24_I2c_StopTransaction w
  | .readAddressAck =>
    if transaction.bytesToTransfer = 1 then
      some (w.write [.I2CONCLR [.AA]])
    else
      some (w.write [.I2CONSET [.AA]])
  | .dataReceived =>
    let transaction1 := (transaction.store ev.dat).advance
    let w1 := w.setSlot s transaction1
    let w2 := if transaction1.bytesToTransfer = 1 then w1.write [.I2CONCLR [.AA]] else w1
    if transaction1.bytesToTransfer = 0 then
      stopOrChain transaction1.repeatedStart w2
    else
      some w2
  | .busError => LPC24_I2c_StopTransaction (w.write [.I2CONSET [.STO]])
  | .unrecognised => LPC24_I2c_StopTransaction w

/-- `LPC24_I2c_InterruptHandler`. -/
def LPC24_I2c_InterruptHandler (ev : IrqEvent) (w : I2cWorld) : Option I2cWorld :=
  match w.driver.currentI2cTransactionAction with
  | none => some (w.write [.I2CONCLR [.SI]])
  | some s =>
    match interruptSwitch ev s w with
    | none => none
    | some w1 => some (w1.write [.I2CONCLR [.SI]])

/-- What serving one interrupt can do to the driver while slot `s` is
current: the relation lists, for every path through the handler, the new
content of slot `s` and the new current slot. -/
inductive DriverStep (d : I2cDriver) (s : Slot) : I2cDriver → Prop where
  | unchanged : DriverStep d s d
  | sent (h : (d.slot s).bytesToTransfer ≠ 0) :
      DriverStep d s (d.setSlot s (d.slot s).advance)
  | stopped : DriverStep d s (d.setSlot s { d.slot s with isDone := true })
  | chained (h0 : (d.slot s).bytesToTransfer = 0) (hr : (d.slot s).repeatedStart = true) :
      DriverStep d s { d with currentI2cTransactionAction := some .readSlot }
  | received (dat : Nat) (h : ((d.slot s).store dat).advance.bytesToTransfer ≠ 0) :
      DriverStep d s (d.setSlot s ((d.slot s).store dat).advance)
  | receivedStopped (dat : Nat) (h0 : ((d.slot s).store dat).advance.bytesToTransfer = 0)
      (hr : (d.slot s).repeatedStart = false) :
      DriverStep d s (d.setSlot s { ((d.slot s).store dat).advance with isDone := true })
  | receivedChained (dat : Nat) (h0 : ((d.slot s).store dat).advance.bytesToTransfer = 0)
      (hr : (d.slot s).repeatedStart = true) :
      DriverStep d s { d.setSlot s ((d.slot s).store dat).advance with
        currentI2cTransactionAction := some .readSlot }

/-! ## Synchronous wrapper -/

/-- Serve a sequence of interrupts, in order. -/
def serve : List IrqEvent → I2cWorld → Option I2cWorld
  | [], w => some w
  | ev :: evs, w =>
    match LPC24_I2c_InterruptHandler ev w with
    | none => none
    | some w1 => serve evs w1

/-- What a wait loop leaves behind: the final value of `timeout`, the
durations passed to `LPC24_Time_Delay` (in order), and the state. -/
structure WaitOut where
  timeout : Nat
  delays : List Nat
  world : I2cWorld
  deriving DecidableEq

/-- The wait loop shared by the three transfer operations,
`while (current->isDone == false && timeout > 0)
   { LPC24_Time_Delay(nullptr, 1000); timeout--; }`,
started with the given value of `timeout`.  The delay executed when `timeout`
has the value `t` is delay number `I2C_TRANSACTION_TIMEOUT - t` of the loop,
and the interrupts the bus raises during it are served. -/
def waitLoop (bus : Nat → List IrqEvent) : Nat → I2cWorld → Option WaitOut
  | 0, w =>
    match w.driver.current with
    | none => none
    | some _ => some { timeout := 0, delays := [], world := w }
  | timeout + 1, w =>
    match w.driver.current with
    | none => none
    | some transaction =>
      if transaction.isDone = false then
        match serve (bus (I2C_TRANSACTION_TIMEOUT - (timeout + 1))) w with
        | none => none
        | some w1 =>
          match waitLoop bus timeout w1 with
          | none => none
          | some r => some { r with delays := 1000 :: r.delays }
      else
        some { timeout := timeout + 1, delays := [], world := w }

/-- Values returned by `LPC24_I2c_Read` and `LPC24_I2c_Write`: the result
code, the two reference parameters after the call, the delays executed, and
the final state. -/
structure TransferOut where
  code : TinyCLR_Result
  length : Nat
  result : TinyCLR_I2c_TransferStatus
  delays : List Nat
  world : I2cWorld
  deriving DecidableEq

/-- Values returned by `LPC24_I2c_WriteRead`. -/
structure WriteReadOut where
  code : TinyCLR_Result
  writeLength : Nat
  readLength : Nat
  result : TinyCLR_I2c_TransferStatus
  delays : List Nat
  world : I2cWorld
  deriving DecidableEq

/-- The transaction record written by the wrappers into a slot. -/
def armedTransaction (isRead repeatedStart : Bool) (buffer : List Nat) (length : Nat) :
    I2cTransaction :=
  { isReadTransaction := isRead, buffer := buffer, bytesToTransfer := length,
    isDone := false, repeatedStart := repeatedStart, bytesTransferred := 0 }

/-- State of `LPC24_I2c_Read` when it enters its wait loop (lines 224-233). -/
def readArmed (buffer : List Nat) (length : Nat) (w : I2cWorld) : I2cWorld :=
  LPC24_I2c_StartTransaction
    { w with driver :=
      { w.driver with
        readI2cTransactionAction := armedTransaction true false buffer length
        currentI2cTransactionAction := some .readSlot } }

/-- State of `LPC24_I2c_Write` when it enters its wait loop (lines 257-266). -/
def writeArmed (buffer : List Nat) (length : Nat) (w : I2cWorld) : I2cWorld :=
  LPC24_I2c_StartTransaction
    { w with driver :=
      { w.driver with
        writeI2cTransactionAction := armedTransaction false false buffer length
        currentI2cTransactionAction := some .writeSlot } }

/-- State of `LPC24_I2c_WriteRead` when it enters its wait loop (lines 290-306). -/
def writeReadArmed (writeBuffer : List Nat) (writeLength : Nat) (readBuffer : List Nat)
    (readLength : Nat) (w : I2cWorld) : I2cWorld :=
  LPC24_I2c_StartTransaction
    { w with driver :=
      { w.driver with
        writeI2cTransactionAction := armedTransaction false true writeBuffer writeLength
        readI2cTransactionAction := armedTransaction true false readBuffer readLength
        currentI2cTransactionAction := some .writeSlot } }

/-- The classification at the end of `LPC24_I2c_Read` and `LPC24_I2c_Write`
(lines 241-248 and 274-281), from what the wait loop left. -/
def transferFinish (length : Nat) (result : TinyCLR_I2c_TransferStatus) (r : WaitOut) :
    Option TransferOut :=
  match r.world.driver.current with
  | none => none
  | some transaction =>
    let result1 :=
      if transaction.bytesTransferred = length then
        TinyCLR_I2c_TransferStatus.FullTransfer
      else if transaction.bytesTransferred < length ∧ transaction.bytesTransferred > 0 then
        TinyCLR_I2c_TransferStatus.PartialTransfer
      else result
    some { code := if r.timeout > 0 then .Success else .TimedOut
           length := transaction.bytesTransferred
           result := result1
           delays := r.delays
           world := r.world }

/-- `LPC24_I2c_Read`. -/
def LPC24_I2c_Read (self : Option TinyCLR_I2c_Controller) (buffer : List Nat) (length : Nat)
    (result : TinyCLR_I2c_TransferStatus) (bus : Nat → List IrqEvent) (w : I2cWorld) :
    Option TransferOut :=
  match self with
  | none =>
    some { code := .ArgumentNull, length := length, result := result, delays := [], world := w }
  | some _ =>
    match waitLoop bus I2C_TRANSACTION_TIMEOUT (readArmed buffer length w) with
    | none => none
    | some r => transferFinish length result r

/-- `LPC24_I2c_Write`.  The function dereferences `self` without testing it. -/
def LPC24_I2c_Write (self : Option TinyCLR_I2c_Controller) (buffer : List Nat) (length : Nat)
    (result : TinyCLR_I2c_TransferStatus) (bus : Nat → List IrqEvent) (w : I2cWorld) :
    Option TransferOut :=
  match self with
  | none => none
  | some _ =>
    match waitLoop bus I2C_TRANSACTION_TIMEOUT (writeArmed buffer length w) with
    | none => none
    | some r => transferFinish length result r

/-- `LPC24_I2c_WriteRead`.  The function dereferences `self` without testing it. -/
def LPC24_I2c_WriteRead (self : Option TinyCLR_I2c_Controller) (writeBuffer : List Nat)
    (writeLength : Nat) (readBuffer : List Nat) (readLength : Nat)
    (result : TinyCLR_I2c_TransferStatus) (bus : Nat → List IrqEvent) (w : I2cWorld) :
    Option WriteReadOut :=
  match self with
  | none => none
  | some _ =>
    match waitLoop bus I2C_TRANSACTION_TIMEOUT
        (writeReadArmed writeBuffer writeLength readBuffer readLength w) with
    | none => none
    | some r =>
      let driver := r.world.driver
      let code := if r.timeout > 0 then TinyCLR_Result.Success else TinyCLR_Result.TimedOut
      if driver.writeI2cTransactionAction.bytesTransferred ≠ writeLength then
        some { code := code
               writeLength := driver.writeI2cTransactionAction.bytesTransferred
               readLength := readLength
               result := .PartialTransfer
               delays := r.delays
               world := r.world }
      else
        let readLength1 := driver.readI2cTransactionAction.bytesTransferred
        match driver.current with
        | none => none
        | some transaction =>
          let result1 :=
            if transaction.bytesTransferred = readLength1 then
              TinyCLR_I2c_TransferStatus.FullTransfer
            else if transaction.bytesTransferred < readLength1
                ∧ transaction.bytesTransferred > 0 then
              TinyCLR_I2c_TransferStatus.PartialTransfer
            else result
          some { code := code
                 writeLength := writeLength
                 readLength := readLength1
                 result := result1
                 delays := r.delays
                 world := r.world }

/-- The clock divider of `LPC24_I2c_SetActiveSettings`,
`LPC24XX_I2C::c_I2C_Clk_KHz / (2 * rateKhz)` in `uint32_t` arithmetic.  The
constant is declared in `LPC24.h` and is a parameter here. -/
def clockDivider (c_I2C_Clk_KHz rateKhz : Nat) : Nat :=
  c_I2C_Clk_KHz / ((2 * rateKhz) % 2 ^ 32)

/-- The `rateKhz` selected by `LPC24_I2c_SetActiveSettings`, `none` for a bus
speed that makes it return `NotSupported`. -/
def rateKhzOf : TinyCLR_I2c_BusSpeed → Option Nat
  | .FastMode => some 400
  | .StandardMode => some 100
  | .other _ => none

/-- `LPC24_I2c_SetActiveSettings`, for the peripheral clock constant
`c_I2C_Clk_KHz`. -/
def LPC24_I2c_SetActiveSettings (c_I2C_Clk_KHz : Nat) (self : Option TinyCLR_I2c_Controller)
    (slaveAddress : Int) (busSpeed : TinyCLR_I2c_BusSpeed) (w : I2cWorld) :
    TinyCLR_Result × I2cWorld :=
  match self with
  | none => (.ArgumentNull, w)
  | some _ =>
    match rateKhzOf busSpeed with
    | none => (.NotSupported, w)
    | some rateKhz =>
      let divider := clockDivider c_I2C_Clk_KHz rateKhz
      (.Success,
        { w with driver :=
          { w.driver with i2cConfiguration :=
            { w.driver.i2cConfiguration with
              clockRate := divider % 256
              clockRate2 := (divider >>> 8) % 256
              address := slaveAddress } } })

/-! ## USB device controller: device events

The client layer (`Drivers/USBClient`) is outside the sources at hand.  Its
two functions called by the reset handler are parameters of the model, and
the constants the handler takes from `LPC24.h` and `USBClient.h` are too. -/

/-- `#define EP_SLOW_INT 0x00000004`. -/
def EP_SLOW_INT : Nat := 0x00000004

/-- `#define DEV_STAT_INT 0x00000008`. -/
def DEV_STAT_INT : Nat := 0x00000008

/-- `#define EP_RLZED_INT 0x00000100`. -/
def EP_RLZED_INT : Nat := 0x00000100

/-- `#define USB_MAX_PACKET0 64`. -/
def USB_MAX_PACKET0 : Nat := 64

/-- `#define USB_DMA_EP 0x00000000`. -/
def USB_DMA_EP : Nat := 0x00000000

/-- Constants used by the device-event handlers and declared outside
`LPC24_UsbDevice.cpp`. -/
structure UsbConstants where
  LPC24_USB_ENDPOINT_COUNT : Nat
  USB_DEVICE_STATE_DEFAULT : Nat

/-- One write to a register of the USB device block; `USBReEpOr bits` is the
read-modify-write `USBReEp |= bits`. -/
inductive UsbRegWrite where
  | USBEpInd (value : Nat)
  | USBEpMaxPSize (value : Nat)
  | USBEpIntClr (value : Nat)
  | USBEpIntEn (value : Nat)
  | USBDevIntClr (value : Nat)
  | USBDevIntEn (value : Nat)
  | USBCtrl (value : Nat)
  | USBTxPLen (value : Nat)
  | USBTxData (value : Nat)
  | USBCmdCode (value : Nat)
  | USBReEp (value : Nat)
  | USBReEpOr (bits : Nat)
  deriving DecidableEq

/-- `struct UsbDeviceDriver` without its `usClientState` pointer, which is
the client record of the world below.  The two arrays are indexed by endpoint
number. -/
structure UsbDeviceDriver where
  txRunning : Nat → Bool
  txNeedZLPS : Nat → Bool
  previousDeviceState : Nat
  firstDescriptorPacket : Bool

/-- `USB_PACKET64`: a queue entry of the client layer, its byte count and its
buffer. -/
structure USB_PACKET64 where
  Size : Nat
  Buffer : List Nat
  deriving DecidableEq

/-- The members of `UsClientState` that the driver and the client layer's
callbacks work on.  A pointer to a `USB_PACKET64` of the client's queues is an
index into `packets`; `dataCallback` is a function pointer, `none` for
`nullptr`, whose function the client layer designates; `ptrData` is the bytes
at the address the pointer holds; `queues` holds, for each non-null queue
pointer, the packet pointers of the queue it points to. -/
structure UsClientState where
  controllerIndex : Nat
  currentState : Nat
  deviceState : Nat
  address : Nat
  dataCallback : Option Nat := none
  dataSize : Nat := 0
  ptrData : List Nat := []
  controlEndpointBuffer : List Nat := []
  endpointStatus : Nat → Nat := fun _ => 0
  isTxQueue : Nat → Bool := fun _ => false
  queues : Nat → Option (List Nat) := fun _ => none
  packets : Nat → USB_PACKET64 := fun _ => { Size := 0, Buffer := [] }

/-- The two functions of the client layer that the reset handler calls,
`TinyCLR_UsbClient_ClearEvent(usClientState, event)` and
`TinyCLR_UsbClient_StateCallback(usClientState)`, as functions of the client
record they are handed. -/
structure UsbClientLayer where
  TinyCLR_UsbClient_ClearEvent : UsClientState → Nat → UsClientState
  TinyCLR_UsbClient_StateCallback : UsClientState → UsClientState

/-- The USB driver of the controller, the client record it points to, the
file-level variable `LPC24_UsbDevice_DeviceAddress`, the history of register
writes, and the values that the coming reads of `USBDevIntSt` return.  The
further members are the file-level array `nacking_rx_OUT_data`, the values
that the coming reads of `USBRxPLen`, `USBRxData`, `USBEpIntSt` and
`USBCmdData` return (a read past the end of `rxData`, `epIntSt` or `cmdData`
returns 0), and a history variable that counts the entries into
`LPC24_UsbDevice_ControlNext`. -/
structure UsbWorld where
  driver : UsbDeviceDriver
  usClientState : UsClientState
  LPC24_UsbDevice_DeviceAddress : Nat
  regs : List UsbRegWrite
  devIntSt : List Nat
  nacking_rx_OUT_data : Nat → Nat := fun _ => 0
  rxPLen : List Nat := []
  rxData : List Nat := []
  epIntSt : List Nat := []
  cmdData : List Nat := []
  controlNextCalls : Nat := 0

/-- Perform register writes, in order. -/
def UsbWorld.write (w : UsbWorld) (ws : List UsbRegWrite) : UsbWorld :=
  { w with regs := w.regs ++ ws }

/-- `while ((USBDevIntSt & mask) == 0);` over the values the coming reads
return: the reads left once a value with a bit of `mask` was read, or `none`
when no value has one (the loop does not exit). -/
def spinUntil (mask : Nat) : List Nat → Option (List Nat)
  | [] => none
  | v :: vs => if v &&& mask = 0 then spinUntil mask vs else some vs

/-- `LPC24_UsbDevice_HardwareReset`.  `USB_SOF_EVENT` and `USB_ERROR_EVENT` are
defined as 0, so the value written to `USBDevIntEn` is
`DEV_STAT_INT | EP_SLOW_INT`. -/
def LPC24_UsbDevice_HardwareReset (w : UsbWorld) : Option UsbWorld :=
  let w1 := w.write [.USBEpInd 0, .USBEpMaxPSize USB_MAX_PACKET0,
    .USBEpInd 1, .USBEpMaxPSize USB_MAX_PACKET0]
  match spinUntil EP_RLZED_INT w1.devIntSt with
  | none => none
  | some rest =>
    some (({ w1 with devIntSt := rest } : UsbWorld).write
      [.USBEpIntClr 0xFFFFFFFF, .USBEpIntEn (0xFFFFFFFF ^^^ USB_DMA_EP),
       .USBDevIntClr 0xFFFFFFFF, .USBDevIntEn (DEV_STAT_INT ||| EP_SLOW_INT)])

/-- The body of the loop of `LPC24_UsbDevice_ResetEvent` for endpoint `ep`. -/
def clearTxState (d : UsbDeviceDriver) (ep : Nat) : UsbDeviceDriver :=
  { d with
    txRunning := Function.update d.txRunning ep false
    txNeedZLPS := Function.update d.txNeedZLPS ep false }

/-- `LPC24_UsbDevice_ResetEvent`. -/
def LPC24_UsbDevice_ResetEvent (k : UsbConstants) (client : UsbClientLayer) (w : UsbWorld) :
    Option UsbWorld :=
  match LPC24_UsbDevice_HardwareReset w with
  | none => none
  | some w1 =>
    let w2 : UsbWorld := { w1 with LPC24_UsbDevice_DeviceAddress := 0 }
    let w3 : UsbWorld :=
      { w2 with usClientState := client.TinyCLR_UsbClient_ClearEvent w2.usClientState 0xFFFFFFFF }
    let w4 : UsbWorld :=
      { w3 with driver := (List.range k.LPC24_USB_ENDPOINT_COUNT).foldl clearTxState w3.driver }
    let w5 : UsbWorld :=
      { w4 with usClientState :=
        { w4.usClientState with deviceState := k.USB_DEVICE_STATE_DEFAULT, address := 0 } }
    some { w5 with usClientState := client.TinyCLR_UsbClient_StateCallback w5.usClientState }

/-! ## USB device controller: the endpoint engine

The command engine and the endpoint FIFOs are driven by register writes and
busy-waits; the busy-waits consume the values the hardware returns.  The
functions of the client layer, the layout of its setup packet and the constants
of `LPC24.h` and `USBClient.h` are parameters. -/

/-- `#define CCEMTY_INT 0x00000010`. -/
def CCEMTY_INT : Nat := 0x00000010

/-- `#define CDFULL_INT 0x00000020`. -/
def CDFULL_INT : Nat := 0x00000020

/-- `#define PKT_LNGTH_MASK 0x000003FF`. -/
def PKT_LNGTH_MASK : Nat := 0x000003FF

/-- `#define PKT_RDY 0x00000800`. -/
def PKT_RDY : Nat := 0x00000800

/-- `#define CTRL_RD_EN 0x00000001`. -/
def CTRL_RD_EN : Nat := 0x00000001

/-- `#define CTRL_WR_EN 0x00000002`. -/
def CTRL_WR_EN : Nat := 0x00000002

/-- `#define CMD_SET_ADDR 0x00D00500`. -/
def CMD_SET_ADDR : Nat := 0x00D00500

/-- `#define CMD_CFG_DEV 0x00D80500`. -/
def CMD_CFG_DEV : Nat := 0x00D80500

/-- `#define CMD_CLR_BUF 0x00F20500`. -/
def CMD_CLR_BUF : Nat := 0x00F20500

/-- `#define CMD_VALID_BUF 0x00FA0500`. -/
def CMD_VALID_BUF : Nat := 0x00FA0500

/-- `#define DAT_WR_BYTE(x) (0x00000100 | ((x) << 16))`, in 32 bits. -/
def DAT_WR_BYTE (x : Nat) : Nat := (0x00000100 ||| (x <<< 16)) % 4294967296

/-- `#define CMD_SEL_EP(x) (0x00000500 | ((x) << 16))`, in 32 bits. -/
def CMD_SEL_EP (x : Nat) : Nat := (0x00000500 ||| (x <<< 16)) % 4294967296

/-- `#define CMD_SET_EP_STAT(x) (0x00400500 | ((x) << 16))`, in 32 bits. -/
def CMD_SET_EP_STAT (x : Nat) : Nat := (0x00400500 ||| (x <<< 16)) % 4294967296

/-- `#define DEV_EN 0x80`. -/
def DEV_EN : Nat := 0x80

/-- `#define CONF_DVICE 0x01`. -/
def CONF_DVICE : Nat := 0x01

/-- `#define EP_SEL_STP 0x04`. -/
def EP_SEL_STP : Nat := 0x04

/-- `#define EP_STAT_ST 0x01`. -/
def EP_STAT_ST : Nat := 0x01

/-- `#define CONTORL_EP_ADDR 0x80`. -/
def CONTORL_EP_ADDR : Nat := 0x80

/-- `#define EP_MSK_ISO 0x1248`. -/
def EP_MSK_ISO : Nat := 0x1248

/-- The value of `uint8_t result` after `TinyCLR_UsbClient_ControlCallback`,
as the `switch` of `LPC24_UsbDevice_ProcessEP0` tells it apart: one of the four
`case` constants of `USBClient.h`, or another value. -/
inductive UsbSetupResult where
  | USB_STATE_ADDRESS
  | USB_STATE_DONE
  | USB_STATE_STALL
  | USB_STATE_CONFIGURATION
  | other (raw : Nat)
  deriving DecidableEq

/-- Constants of the endpoint engine declared outside `LPC24_UsbDevice.cpp`,
added to those of the device events. -/
structure UsbEngineConstants extends UsbConstants where
  USB_DEVICE_STATE_SUSPENDED : Nat
  LPC24_USB_ENDPOINT_SIZE : Nat
  USB_STATUS_ENDPOINT_HALT : Nat
  USB_GET_DESCRIPTOR : Nat
  USB_DEVICE_DESCRIPTOR_TYPE : Nat

/-- What the engine takes from the client layer and from `LPC24.h`, added to
the two functions of the device events: the queue functions
`TinyCLR_UsbClient_TxDequeue` and `TinyCLR_UsbClient_RxEnqueue` (the packet
pointer they return and the record they leave),
`TinyCLR_UsbClient_ClearEndpoints`, `TinyCLR_UsbClient_ControlCallback`, the
function a non-null `dataCallback` pointer designates, the members `Request`,
`Value` and `Length` of the `TinyCLR_UsbClient_SetupPacket` laid over the
control endpoint buffer, and what `irq.IsDisabled()` returns inside
`LPC24_UsbDevice_StartOutput`. -/
structure UsbClientEngine extends UsbClientLayer where
  TinyCLR_UsbClient_TxDequeue : UsClientState → Nat → Option Nat × UsClientState
  TinyCLR_UsbClient_RxEnqueue : UsClientState → Nat → Option Nat × UsClientState
  TinyCLR_UsbClient_ClearEndpoints : UsClientState → Nat → UsClientState
  TinyCLR_UsbClient_ControlCallback : UsClientState → UsbSetupResult × UsClientState
  dataCallback : Nat → UsClientState → UsClientState
  Request : List Nat → Nat
  Value : List Nat → Nat
  Length : List Nat → Nat
  irqIsDisabled : Bool

/-- `while ((USBDevIntSt & mask) == 0);` on the world. -/
def UsbWorld.await (w : UsbWorld) (mask : Nat) : Option UsbWorld :=
  match spinUntil mask w.devIntSt with
  | none => none
  | some rest => some { w with devIntSt := rest }

/-- `do { cnt = USBRxPLen; } while ((cnt & PKT_RDY) == 0);` over the values the
coming reads return: the value that ended the loop and the reads left, or
`none` when no value has the bit. -/
def awaitPacket : List Nat → Option (Nat × List Nat)
  | [] => none
  | v :: vs => if v &&& PKT_RDY = 0 then awaitPacket vs else some (v, vs)

/-- `LPC24_UsbDevice_WrCmd`. -/
def LPC24_UsbDevice_WrCmd (cmd : Nat) (w : UsbWorld) : Option UsbWorld :=
  (w.write [.USBDevIntClr (CCEMTY_INT ||| CDFULL_INT), .USBCmdCode cmd]).await CCEMTY_INT

/-- `LPC24_UsbDevice_WrCmdDat`. -/
def LPC24_UsbDevice_WrCmdDat (cmd val : Nat) (w : UsbWorld) : Option UsbWorld :=
  match (w.write [.USBDevIntClr CCEMTY_INT, .USBCmdCode cmd]).await CCEMTY_INT with
  | none => none
  | some w1 => (w1.write [.USBDevIntClr CCEMTY_INT, .USBCmdCode val]).await CCEMTY_INT

/-- `LPC24_UsbDevice_SetAddress`. -/
def LPC24_UsbDevice_SetAddress (adr : Nat) (w : UsbWorld) : Option UsbWorld :=
  match LPC24_UsbDevice_WrCmdDat CMD_SET_ADDR (DAT_WR_BYTE (DEV_EN ||| adr)) w with
  | none => none
  | some w1 => LPC24_UsbDevice_WrCmdDat CMD_SET_ADDR (DAT_WR_BYTE (DEV_EN ||| adr)) w1

/-- `LPC24_UsbDevice_EPAdr`; `inDir` is the parameter `in`. -/
def LPC24_UsbDevice_EPAdr (EPNum : Nat) (inDir : Nat) : Nat :=
  ((EPNum &&& 0x0F) <<< 1) + (if inDir ≠ 0 then 1 else 0)

/-- The 32-bit word `USB_WriteEP` assembles from the four bytes at `pData`
for its write number `n`; a byte past the end of the list reads as 0. -/
def txWord (pData : List Nat) (n : Nat) : Nat :=
  ((((((pData.getD (4 * n + 3) 0 % 256) <<< 8) ||| (pData.getD (4 * n + 2) 0 % 256)) <<< 8)
    ||| (pData.getD (4 * n + 1) 0 % 256)) <<< 8) ||| (pData.getD (4 * n) 0 % 256)

/-- The register writes of `USB_WriteEP` that fill the endpoint FIFO. -/
def txFifoWrites (EPNum : Nat) (pData : List Nat) (cnt : Nat) : List UsbRegWrite :=
  [.USBCtrl (((EPNum &&& 0x0F) <<< 2) ||| CTRL_WR_EN), .USBTxPLen cnt]
    ++ (List.range ((cnt + 3) / 4)).map (fun n => .USBTxData (txWord pData n))
    ++ [.USBCtrl 0]

/-- `USB_WriteEP`; a null `pData` is the empty list. -/
def USB_WriteEP (EPNum : Nat) (pData : List Nat) (cnt : Nat) (w : UsbWorld) : Option UsbWorld :=
  match LPC24_UsbDevice_WrCmd (CMD_SEL_EP (LPC24_UsbDevice_EPAdr EPNum 1))
      (w.write (txFifoWrites EPNum pData cnt)) with
  | none => none
  | some w2 => LPC24_UsbDevice_WrCmd CMD_VALID_BUF w2

/-- The four bytes `LPC24_UsbDevice_ReadEP` stores for a word read from
`USBRxData`. -/
def rxBytes (d : Nat) : List Nat :=
  [d % 256, (d >>> 8) % 256, (d >>> 16) % 256, (d >>> 24) % 256]

/-- `LPC24_UsbDevice_ReadEP`: the count returned, the bytes stored at `pData`
and the world.  The source does not bound the count by the size of the
destination. -/
def LPC24_UsbDevice_ReadEP (EPNum : Nat) (w : UsbWorld) : Option (Nat × List Nat × UsbWorld) :=
  let w1 := w.write [.USBCtrl (((EPNum &&& 0x0F) <<< 2) ||| CTRL_RD_EN)]
  match awaitPacket w1.rxPLen with
  | none => none
  | some (v, rest) =>
    let cnt := v &&& PKT_LNGTH_MASK
    let words := (List.range ((cnt + 3) / 4)).map (fun n => w1.rxData.getD n 0)
    let w2 : UsbWorld := { w1 with rxPLen := rest, rxData := w1.rxData.drop ((cnt + 3) / 4) }
    let w3 := w2.write [.USBCtrl 0]
    if (EP_MSK_ISO >>> EPNum) &&& 1 = 0 then
      match LPC24_UsbDevice_WrCmd (CMD_SEL_EP (LPC24_UsbDevice_EPAdr EPNum 0)) w3 with
      | none => none
      | some w4 =>
        match LPC24_UsbDevice_WrCmd CMD_CLR_BUF w4 with
        | none => none
        | some w5 => some (cnt, words.flatMap rxBytes, w5)
    else some (cnt, words.flatMap rxBytes, w3)

/-- The bytes of a destination after `bytes` were stored from its start on. -/
def storeBytes (dest bytes : List Nat) : List Nat :=
  bytes ++ dest.drop bytes.length

/-- `LPC24_UsbDevice_SetStallEP`. -/
def LPC24_UsbDevice_SetStallEP (EPNum inDir : Nat) (w : UsbWorld) : Option UsbWorld :=
  LPC24_UsbDevice_WrCmdDat (CMD_SET_EP_STAT (LPC24_UsbDevice_EPAdr EPNum inDir))
    (DAT_WR_BYTE EP_STAT_ST) w

/-- `LPC24_UsbDevice_ConfigEP`. -/
def LPC24_UsbDevice_ConfigEP (ep_addr inDir size : Nat) (w : UsbWorld) : Option UsbWorld :=
  let num := LPC24_UsbDevice_EPAdr ep_addr inDir
  match (w.write [.USBReEpOr (1 <<< num), .USBEpInd num, .USBEpMaxPSize size]).await
      EP_RLZED_INT with
  | none => none
  | some w1 => some (w1.write [.USBDevIntClr EP_RLZED_INT])

/-- `LPC24_UsbDevice_EnableEP`. -/
def LPC24_UsbDevice_EnableEP (EPNum inDir : Nat) (w : UsbWorld) : Option UsbWorld :=
  LPC24_UsbDevice_WrCmdDat (CMD_SET_EP_STAT (LPC24_UsbDevice_EPAdr EPNum inDir)) (DAT_WR_BYTE 0) w

/-- `LPC24_UsbDevice_ResetEP`. -/
def LPC24_UsbDevice_ResetEP (EPNum inDir : Nat) (w : UsbWorld) : Option UsbWorld :=
  LPC24_UsbDevice_WrCmdDat (CMD_SET_EP_STAT (LPC24_UsbDevice_EPAdr EPNum inDir)) (DAT_WR_BYTE 0) w

/-- `USB_HW_Configure`. -/
def USB_HW_Configure (cfg : Bool) (w : UsbWorld) : Option UsbWorld :=
  match LPC24_UsbDevice_WrCmdDat CMD_CFG_DEV (DAT_WR_BYTE (if cfg then CONF_DVICE else 0)) w with
  | none => none
  | some w1 =>
    match (w1.write [.USBReEp 0x00000003]).await EP_RLZED_INT with
    | none => none
    | some w2 => some (w2.write [.USBDevIntClr EP_RLZED_INT])

/-- The `for (;;)` loop of `LPC24_UsbDevice_TxPacket`: dequeue until the queue
returns no packet or a packet of non-zero size.  `fuel` bounds the number of
turns; `none` when it runs out. -/
def txDequeueLoop (client : UsbClientEngine) (endpoint : Nat) :
    Nat → UsClientState → Option (Option Nat × UsClientState)
  | 0, _ => none
  | fuel + 1, s =>
    match client.TinyCLR_UsbClient_TxDequeue s endpoint with
    | (none, s1) => some (none, s1)
    | (some p, s1) =>
      if (s1.packets p).Size > 0 then some (some p, s1)
      else txDequeueLoop client endpoint fuel s1

/-- `LPC24_UsbDevice_TxPacket`. -/
def LPC24_UsbDevice_TxPacket (client : UsbClientEngine) (fuel : Nat) (endpoint : Nat)
    (w : UsbWorld) : Option UsbWorld :=
  match txDequeueLoop client endpoint fuel w.usClientState with
  | none => none
  | some (some p, s1) =>
    match USB_WriteEP endpoint (s1.packets p).Buffer (s1.packets p).Size
        { w with usClientState := s1 } with
    | none => none
    | some w1 =>
      some { w1 with driver :=
        { w1.driver with txNeedZLPS :=
          Function.update w1.driver.txNeedZLPS endpoint (decide ((s1.packets p).Size = 64)) } }
  | some (none, s1) =>
    let w1 : UsbWorld := { w with usClientState := s1 }
    let sent : Option UsbWorld :=
      if w1.driver.txNeedZLPS endpoint then
        match USB_WriteEP endpoint [] 0 w1 with
        | none => none
        | some w2 =>
          some { w2 with driver :=
            { w2.driver with txNeedZLPS := Function.update w2.driver.txNeedZLPS endpoint false } }
      else some w1
    match sent with
    | none => none
    | some w3 =>
      some { w3 with driver :=
        { w3.driver with txRunning := Function.update w3.driver.txRunning endpoint false } }

/-- `LPC24_UsbDevice_ControlNext`.  Each entry is counted in the history
variable `controlNextCalls`. -/
def LPC24_UsbDevice_ControlNext (k : UsbEngineConstants) (client : UsbClientEngine)
    (w : UsbWorld) : Option UsbWorld :=
  let w0 : UsbWorld := { w with controlNextCalls := w.controlNextCalls + 1 }
  match w0.usClientState.dataCallback with
  | none => some w0
  | some callback =>
    let w1 : UsbWorld := { w0 with usClientState := client.dataCallback callback w0.usClientState }
    if w1.usClientState.dataSize = 0 then
      match USB_WriteEP CONTORL_EP_ADDR [] 0 w1 with
      | none => none
      | some w2 => some { w2 with usClientState := { w2.usClientState with dataCallback := none } }
    else
      match USB_WriteEP CONTORL_EP_ADDR w1.usClientState.ptrData w1.usClientState.dataSize w1 with
      | none => none
      | some w2 =>
        let w3 : UsbWorld :=
          if w2.usClientState.dataSize < k.LPC24_USB_ENDPOINT_SIZE then
            { w2 with usClientState := { w2.usClientState with dataCallback := none } }
          else w2
        if w3.driver.firstDescriptorPacket then
          some { w3 with usClientState := { w3.usClientState with dataCallback := none } }
        else some w3

/-- `LPC24_UsbDevice_Enpoint_TxInterruptHandler`. -/
def LPC24_UsbDevice_Enpoint_TxInterruptHandler (client : UsbClientEngine) (fuel : Nat)
    (endpoint : Nat) (w : UsbWorld) : Option UsbWorld :=
  let w1 : UsbWorld := { w with epIntSt := w.epIntSt.tail }
  if w.epIntSt.headD 0 &&& (1 <<< LPC24_UsbDevice_EPAdr endpoint 1) ≠ 0 then
    match (w1.write [.USBEpIntClr (1 <<< LPC24_UsbDevice_EPAdr endpoint 1)]).await CDFULL_INT with
    | none => none
    | some w2 =>
      LPC24_UsbDevice_TxPacket client fuel endpoint { w2 with cmdData := w2.cmdData.tail }
  else some w1

/-- `LPC24_UsbDevice_Enpoint_RxInterruptHandler`.  The count returned by
`LPC24_UsbDevice_ReadEP` is assigned to `uint8_t len`. -/
def LPC24_UsbDevice_Enpoint_RxInterruptHandler (client : UsbClientEngine) (endpoint : Nat)
    (w : UsbWorld) : Option UsbWorld :=
  match client.TinyCLR_UsbClient_RxEnqueue w.usClientState endpoint with
  | (some p, s1) =>
    match LPC24_UsbDevice_ReadEP endpoint { w with usClientState := s1 } with
    | none => none
    | some (cnt, bytes, w1) =>
      let len := cnt % 256
      let packet : USB_PACKET64 :=
        { Size := len, Buffer := storeBytes (w1.usClientState.packets p).Buffer bytes }
      some { w1 with
        nacking_rx_OUT_data := Function.update w1.nacking_rx_OUT_data endpoint 0
        usClientState :=
          { w1.usClientState with packets := Function.update w1.usClientState.packets p packet } }
  | (none, s1) =>
    some { w with
      usClientState := s1
      nacking_rx_OUT_data := Function.update w.nacking_rx_OUT_data endpoint 1 }

/-- `LPC24_UsbDevice_ProcessEndPoint`. -/
def LPC24_UsbDevice_ProcessEndPoint (client : UsbClientEngine) (fuel : Nat) (ep inDir : Nat)
    (w : UsbWorld) : Option UsbWorld :=
  if inDir ≠ 0 then LPC24_UsbDevice_Enpoint_TxInterruptHandler client fuel ep w
  else
    match (w.write [.USBEpIntClr (1 <<< LPC24_UsbDevice_EPAdr ep inDir)]).await CDFULL_INT with
    | none => none
    | some w1 =>
      LPC24_UsbDevice_Enpoint_RxInterruptHandler client ep { w1 with cmdData := w1.cmdData.tail }

/-- `LPC24_UsbDevice_StartOutput`, with the function it calls for endpoint 0,
`LPC24_UsbDevice_ProcessEP0`, as the parameter `processEP0`.  The value
returned by the source is `true` on every path. -/
def LPC24_UsbDevice_StartOutput (k : UsbEngineConstants) (client : UsbClientEngine)
    (processEP0 : Nat → Nat → UsbWorld → Option UsbWorld) (fuel : Nat) (endpoint : Nat)
    (w : UsbWorld) : Option UsbWorld :=
  if w.usClientState.endpointStatus endpoint &&& k.USB_STATUS_ENDPOINT_HALT ≠ 0 then
    some { w with
      usClientState := client.TinyCLR_UsbClient_ClearEndpoints w.usClientState endpoint }
  else if ¬ w.driver.txRunning endpoint then
    LPC24_UsbDevice_TxPacket client fuel endpoint
      { w with driver :=
        { w.driver with txRunning := Function.update w.driver.txRunning endpoint true } }
  else if client.irqIsDisabled then
    let n := LPC24_UsbDevice_EPAdr endpoint 1
    let w1 : UsbWorld := { w with epIntSt := w.epIntSt.tail }
    if w.epIntSt.headD 0 &&& (1 <<< n) ≠ 0 then
      let m := n >>> 1
      if m = 0 then
        match (w1.write [.USBEpIntClr (1 <<< n)]).await CDFULL_INT with
        | none => none
        | some w2 =>
          let val := w2.cmdData.headD 0
          let w3 : UsbWorld := { w2 with cmdData := w2.cmdData.tail }
          if val &&& EP_SEL_STP ≠ 0 then processEP0 0 1 w3
          else if n &&& 1 = 0 then processEP0 0 0 w3
          else processEP0 1 0 w3
      else if (w1.usClientState.queues m).isSome && w1.usClientState.isTxQueue endpoint then
        LPC24_UsbDevice_ProcessEndPoint client fuel m 1 w1
      else LPC24_UsbDevice_ProcessEndPoint client fuel m 0 w1
    else some w1
  else some w

/-- The `case USB_STATE_CONFIGURATION` loop body of
`LPC24_UsbDevice_ProcessEP0` for endpoint `i`. -/
def configureEndpoint (i : Nat) (w : UsbWorld) : Option UsbWorld :=
  (((((LPC24_UsbDevice_ConfigEP i 1 64 w).bind (LPC24_UsbDevice_EnableEP i 1)).bind
    (LPC24_UsbDevice_ResetEP i 1)).bind (LPC24_UsbDevice_ConfigEP i 0 64)).bind
    (LPC24_UsbDevice_EnableEP i 0)).bind (LPC24_UsbDevice_ResetEP i 0)

/-- Run a loop body over the given indices, in order. -/
def forEach (body : Nat → UsbWorld → Option UsbWorld) : List Nat → UsbWorld → Option UsbWorld
  | [], w => some w
  | i :: rest, w =>
    match body i w with
    | none => none
    | some w1 => forEach body rest w1

/-- The `switch (result)` of `LPC24_UsbDevice_ProcessEP0`. -/
def setupSwitch (result : UsbSetupResult) (w : UsbWorld) : Option UsbWorld :=
  match result with
  | .USB_STATE_ADDRESS =>
    some { w with LPC24_UsbDevice_DeviceAddress := (w.usClientState.address ||| 0x80) % 256 }
  | .USB_STATE_DONE =>
    some { w with usClientState := { w.usClientState with dataCallback := none } }
  | .USB_STATE_STALL =>
    match LPC24_UsbDevice_SetStallEP 0 0 w with
    | none => none
    | some w1 => LPC24_UsbDevice_SetStallEP 0 1 w1
  | .USB_STATE_CONFIGURATION =>
    match USB_HW_Configure true w with
    | none => none
    | some w1 => forEach configureEndpoint ((List.range 16).drop 1) w1
  | .other _ => some w

/-- The setup branch of `LPC24_UsbDevice_ProcessEP0` up to the call of
`TinyCLR_UsbClient_ControlCallback`: the setup packet is read into the control
endpoint buffer, `firstDescriptorPacket` is assigned, `ptrData` and `dataSize`
are set.  The count returned by `LPC24_UsbDevice_ReadEP` is assigned to
`uint8_t len`. -/
def setupRead (k : UsbEngineConstants) (client : UsbClientEngine) (w : UsbWorld) :
    Option UsbWorld :=
  match LPC24_UsbDevice_ReadEP 0x00 w with
  | none => none
  | some (cnt, bytes, w1) =>
    let len := cnt % 256
    let buffer := storeBytes w1.usClientState.controlEndpointBuffer bytes
    let first : Bool :=
      decide (client.Request buffer = k.USB_GET_DESCRIPTOR) &&
      decide ((client.Value buffer &&& 0xFF00) >>> 8 = k.USB_DEVICE_DESCRIPTOR_TYPE) &&
      decide (client.Length buffer ≠ 0x12)
    some { w1 with
      driver := { w1.driver with firstDescriptorPacket := first }
      usClientState :=
        { w1.usClientState with
          controlEndpointBuffer := buffer, ptrData := buffer, dataSize := len } }

/-- The loop of `LPC24_UsbDevice_ProcessEP0` that outputs withheld data once
the port is configured, with `LPC24_UsbDevice_StartOutput` as `startOutput`. -/
def flushOutput (startOutput : Nat → UsbWorld → Option UsbWorld) :
    List Nat → UsbWorld → Option UsbWorld :=
  forEach (fun ep w => if w.usClientState.isTxQueue ep then startOutput ep w else some w)

/-- `LPC24_UsbDevice_ProcessEP0`; `inDir` is the parameter `in`.  The function
and `LPC24_UsbDevice_StartOutput` call each other; `fuel` bounds the depth of
these calls and the turns of the dequeue loops, and the result is `none` when
it runs out. -/
def LPC24_UsbDevice_ProcessEP0 (k : UsbEngineConstants) (client : UsbClientEngine) :
    Nat → Nat → Nat → UsbWorld → Option UsbWorld
  | 0, _, _, _ => none
  | fuel + 1, inDir, setup, w =>
    if setup ≠ 0 then
      match setupRead k client w with
      | none => none
      | some w1 =>
        let called := client.TinyCLR_UsbClient_ControlCallback w1.usClientState
        let result := called.1
        match setupSwitch result { w1 with usClientState := called.2 } with
        | none => none
        | some w2 =>
          if result ≠ .USB_STATE_STALL then
            match LPC24_UsbDevice_ControlNext k client w2 with
            | none => none
            | some w3 =>
              if result = .USB_STATE_CONFIGURATION then
                flushOutput
                  (LPC24_UsbDevice_StartOutput k client (LPC24_UsbDevice_ProcessEP0 k client fuel)
                    fuel)
                  (List.range k.LPC24_USB_ENDPOINT_COUNT) w3
              else some w3
          else some w2
    else if inDir ≠ 0 then
      match LPC24_UsbDevice_ControlNext k client w with
      | none => none
      | some w1 =>
        if w1.LPC24_UsbDevice_DeviceAddress &&& 0x80 ≠ 0 then
          LPC24_UsbDevice_SetAddress (w1.LPC24_UsbDevice_DeviceAddress &&& 0x7F)
            { w1 with
              LPC24_UsbDevice_DeviceAddress := w1.LPC24_UsbDevice_DeviceAddress &&& 0x7F }
        else some w1
    else some w

/-- `LPC24_UsbDevice_RxEnable`: the value returned and the world.  `endpoint`
is an `int32_t`; a negative one passes the test against the endpoint count and
indexes `nacking_rx_OUT_data` out of bounds, which is `none` here. -/
def LPC24_UsbDevice_RxEnable (k : UsbEngineConstants) (client : UsbClientEngine)
    (endpoint : Int) (w : UsbWorld) : Option (Bool × UsbWorld) :=
  if endpoint ≥ (k.LPC24_USB_ENDPOINT_COUNT : Int) then some (false, w)
  else if endpoint < 0 then none
  else if w.nacking_rx_OUT_data endpoint.toNat ≠ 0 then
    match LPC24_UsbDevice_Enpoint_RxInterruptHandler client endpoint.toNat w with
    | none => none
    | some w1 => some (true, w1)
  else some (true, w)

/-- `LPC24_UsbDevice_SuspendEvent`; `previousDeviceState` is a `uint8_t`. -/
def LPC24_UsbDevice_SuspendEvent (k : UsbEngineConstants) (client : UsbClientLayer)
    (w : UsbWorld) : UsbWorld :=
  let w1 : UsbWorld :=
    { w with driver := { w.driver with previousDeviceState := w.usClientState.deviceState % 256 } }
  let w2 : UsbWorld :=
    { w1 with usClientState :=
      { w1.usClientState with deviceState := k.USB_DEVICE_STATE_SUSPENDED } }
  { w2 with usClientState := client.TinyCLR_UsbClient_StateCallback w2.usClientState }

/-- `LPC24_UsbDevice_ResumeEvent`. -/
def LPC24_UsbDevice_ResumeEvent (client : UsbClientLayer) (w : UsbWorld) : UsbWorld :=
  let w1 : UsbWorld :=
    { w with usClientState :=
      { w.usClientState with deviceState := w.driver.previousDeviceState } }
  { w1 with usClientState := client.TinyCLR_UsbClient_StateCallback w1.usClientState }

/-! ## Vocabulary of the statements -/

/-- The interrupts the bus raises during `count` consecutive delays, the
first of which is delay number `first`. -/
def eventsDuring (bus : Nat → List IrqEvent) (first : Nat) : Nat → List IrqEvent
  | 0 => []
  | count + 1 => bus first ++ eventsDuring bus (first + 1) count

/-- The values written to the data register, in order, in a register history. -/
def dataWrites : List I2cRegWrite → List Nat
  | [] => []
  | .I2DAT v :: ws => v :: dataWrites ws
  | _ :: ws => dataWrites ws

/-- The register writes of the interrupts that send the given bytes: each
writes the byte to the data register and clears `SI`. -/
def sentBytes : List Nat → List I2cRegWrite
  | [] => []
  | x :: xs => .I2DAT x :: .I2CONCLR [.SI] :: sentBytes xs

/-- The write slot of a plain `Write` of buffer `b` after `j` bytes were sent. -/
def writeProgress (b : List Nat) (j : Nat) : I2cTransaction :=
  { isReadTransaction := false, repeatedStart := false, isDone := false, buffer := b,
    bytesToTransfer := b.length - j, bytesTransferred := j }

/-- Invariant of the driver during a `WriteRead` of `writeLength` bytes whose
read slot was armed as `readArmedSlot`: the write slot asks for a repeated
start and the read slot does not; and either the write slot is current, the
read slot is as armed and the two counters of the write slot add up to
`writeLength` modulo `2 ^ 32`, or the read slot is current and the write slot
has transferred `writeLength` bytes. -/
def WriteReadInv (writeLength : Nat) (readArmedSlot : I2cTransaction) (d : I2cDriver) : Prop :=
  d.writeI2cTransactionAction.repeatedStart = true ∧
  d.readI2cTransactionAction.repeatedStart = false ∧
  d.writeI2cTransactionAction.bytesTransferred < SIZE_MAX_PLUS_ONE ∧
  ((d.currentI2cTransactionAction = some .writeSlot ∧
      d.readI2cTransactionAction = readArmedSlot ∧
      (d.writeI2cTransactionAction.bytesTransferred
        + d.writeI2cTransactionAction.bytesToTransfer) % SIZE_MAX_PLUS_ONE = writeLength) ∨
    (d.currentI2cTransactionAction = some .readSlot ∧
      d.writeI2cTransactionAction.bytesTransferred = writeLength))

/-- The register history and the driver after the start status and `j`
acknowledge statuses of a plain write of `b`, from the armed state. -/
def writeRunState (b : List Nat) (w : I2cWorld) (j : Nat) : I2cWorld :=
  { driver := (writeArmed b b.length w).driver.setSlot .writeSlot (writeProgress b j)
    regs := (writeArmed b b.length w).regs
      ++ [.I2DAT (addressByte w.driver.i2cConfiguration.address false), .I2CONCLR [.STA],
          .I2CONCLR [.SI]]
      ++ sentBytes (b.take j) }

/-- The register history and the driver once the last acknowledge status of a
plain write of `b` was served. -/
def writeRunDone (b : List Nat) (w : I2cWorld) : I2cWorld :=
  { driver := (writeArmed b b.length w).driver.setSlot .writeSlot
      { writeProgress b b.length with isDone := true }
    regs := (writeArmed b b.length w).regs
      ++ [.I2DAT (addressByte w.driver.i2cConfiguration.address false), .I2CONCLR [.STA],
          .I2CONCLR [.SI]]
      ++ sentBytes b
      ++ [.I2CONSET [.STO], .I2CONCLR [.AA, .SI, .STA], .I2CONCLR [.SI]] }

/-- The read slot of a plain `Read` of `n` bytes into `buffer` once the bytes
`received` were stored: it is done when all `n` have arrived. -/
def readProgress (buffer : List Nat) (n : Nat) (received : List Nat) : I2cTransaction :=
  { isReadTransaction := true, repeatedStart := false, isDone := decide (received.length = n),
    buffer := received ++ buffer.drop received.length,
    bytesToTransfer := n - received.length, bytesTransferred := received.length }

/-- The register writes of the interrupt that receives a data byte of a plain
read and leaves `remaining` bytes to come: `AA` is cleared when one remains, the
stop is issued when none remains, and `SI` is cleared. -/
def receivedRegs (remaining : Nat) : List I2cRegWrite :=
  (if remaining = 1 then [.I2CONCLR [.AA]] else [])
    ++ (if remaining = 0 then [.I2CONSET [.STO], .I2CONCLR [.AA, .SI, .STA]] else [])
    ++ [.I2CONCLR [.SI]]

/-- The register writes of `count` successive data-received interrupts of a
plain read, the first of which finds `remaining` bytes to come. -/
def receiveRegs (remaining : Nat) : Nat → List I2cRegWrite
  | 0 => []
  | count + 1 => receivedRegs (remaining - 1) ++ receiveRegs (remaining - 1) count

/-- The register writes of the interrupt for the acknowledged read address
when `n` bytes are to come. -/
def readAddressAckRegs (n : Nat) : List I2cRegWrite :=
  [if n = 1 then .I2CONCLR [.AA] else .I2CONSET [.AA], .I2CONCLR [.SI]]

/-- The state of a plain `Read` of `n` bytes after the start status, the
address acknowledge and the data-received interrupts `datas`. -/
def readRunState (buffer : List Nat) (n : Nat) (w : I2cWorld) (datas : List IrqEvent) :
    I2cWorld :=
  { driver := (readArmed buffer n w).driver.setSlot .readSlot
      (readProgress buffer n (datas.map (fun ev => ev.dat % 256)))
    regs := (readArmed buffer n w).regs
      ++ [.I2DAT (addressByte w.driver.i2cConfiguration.address true), .I2CONCLR [.STA],
          .I2CONCLR [.SI]]
      ++ readAddressAckRegs n
      ++ receiveRegs n datas.length }

/-- The reads of `USBDevIntSt` left after successive busy-waits, one for each
of the given masks in order; `none` when one of the waits does not end. -/
def afterWaits : List Nat → List Nat → Option (List Nat)
  | [], reads => some reads
  | mask :: masks, reads =>
    match spinUntil mask reads with
    | none => none
    | some rest => afterWaits masks rest

/-- The world once a command sequence has performed the given register writes
and its busy-waits have left the given reads of `USBDevIntSt`. -/
def UsbWorld.ran (w : UsbWorld) (writes : List UsbRegWrite) (rest : List Nat) : UsbWorld :=
  { w with regs := w.regs ++ writes, devIntSt := rest }

/-- The register writes of `LPC24_UsbDevice_WrCmd`. -/
def wrCmdWrites (cmd : Nat) : List UsbRegWrite :=
  [.USBDevIntClr (CCEMTY_INT ||| CDFULL_INT), .USBCmdCode cmd]

/-- The register writes of `LPC24_UsbDevice_WrCmdDat`. -/
def wrCmdDatWrites (cmd val : Nat) : List UsbRegWrite :=
  [.USBDevIntClr CCEMTY_INT, .USBCmdCode cmd, .USBDevIntClr CCEMTY_INT, .USBCmdCode val]

/-- The register writes of `USB_WriteEP`: the FIFO is filled, then the
endpoint is selected and its buffer validated. -/
def writeEPWrites (EPNum : Nat) (pData : List Nat) (cnt : Nat) : List UsbRegWrite :=
  txFifoWrites EPNum pData cnt
    ++ wrCmdWrites (CMD_SEL_EP (LPC24_UsbDevice_EPAdr EPNum 1)) ++ wrCmdWrites CMD_VALID_BUF

/-- The busy-waits of `LPC24_UsbDevice_ReadEP`: none for an isochronous
endpoint, else those of the two commands that clear the buffer. -/
def readEPWaits (EPNum : Nat) : List Nat :=
  if (EP_MSK_ISO >>> EPNum) &&& 1 = 0 then [CCEMTY_INT, CCEMTY_INT] else []

/-- The register writes of `LPC24_UsbDevice_ReadEP`. -/
def readEPWrites (EPNum : Nat) : List UsbRegWrite :=
  [.USBCtrl (((EPNum &&& 0x0F) <<< 2) ||| CTRL_RD_EN), .USBCtrl 0]
    ++ (if (EP_MSK_ISO >>> EPNum) &&& 1 = 0 then
          wrCmdWrites (CMD_SEL_EP (LPC24_UsbDevice_EPAdr EPNum 0)) ++ wrCmdWrites CMD_CLR_BUF
        else [])

/-- The bytes `LPC24_UsbDevice_ReadEP` stores for a packet whose length word
is `v`, from the words the reads of `USBRxData` return. -/
def readEPBytes (v : Nat) (rxData : List Nat) : List Nat :=
  ((List.range (((v &&& PKT_LNGTH_MASK) + 3) / 4)).map (fun n => rxData.getD n 0)).flatMap rxBytes

/-- The busy-waits of `LPC24_UsbDevice_ControlNext` on the client record `s`:
those of one endpoint write when a data callback is registered, none
otherwise. -/
def controlNextWaits (s : UsClientState) : List Nat :=
  match s.dataCallback with
  | none => []
  | some _ => [CCEMTY_INT, CCEMTY_INT]

/-- The register writes of `LPC24_UsbDevice_ControlNext` on the client record
`s`: when a data callback is registered, the write to the control endpoint of
the data the callback has set up. -/
def controlNextWrites (client : UsbClientEngine) (s : UsClientState) : List UsbRegWrite :=
  match s.dataCallback with
  | none => []
  | some callback =>
    if (client.dataCallback callback s).dataSize = 0 then writeEPWrites CONTORL_EP_ADDR [] 0
    else writeEPWrites CONTORL_EP_ADDR (client.dataCallback callback s).ptrData
      (client.dataCallback callback s).dataSize

/-- The client record `LPC24_UsbDevice_ControlNext` leaves, from the record
`s` and the flag `firstDescriptorPacket`. -/
def controlNextRecord (k : UsbEngineConstants) (client : UsbClientEngine) (first : Bool)
    (s : UsClientState) : UsClientState :=
  match s.dataCallback with
  | none => s
  | some callback =>
    if (client.dataCallback callback s).dataSize = 0
        ∨ (client.dataCallback callback s).dataSize < k.LPC24_USB_ENDPOINT_SIZE
        ∨ first = true then
      { client.dataCallback callback s with dataCallback := none }
    else client.dataCallback callback s

/-- The control endpoint buffer once the setup packet with length word `v` was
read into it. -/
def setupBuffer (w : UsbWorld) (v : Nat) : List Nat :=
  storeBytes w.usClientState.controlEndpointBuffer (readEPBytes v w.rxData)

/-- The client record handed to `TinyCLR_UsbClient_ControlCallback` once the
setup packet with length word `v` was read. -/
def setupRecord (w : UsbWorld) (v : Nat) : UsClientState :=
  { w.usClientState with
    controlEndpointBuffer := setupBuffer w v
    ptrData := setupBuffer w v
    dataSize := (v &&& PKT_LNGTH_MASK) % 256 }

/-- The value the setup branch assigns to `firstDescriptorPacket` for the
setup packet in `buffer`: the request is `USB_GET_DESCRIPTOR`, the high byte of
`Value` is `USB_DEVICE_DESCRIPTOR_TYPE`, and `Length` is not 0x12. -/
def isFirstDescriptorRequest (k : UsbEngineConstants) (client : UsbClientEngine)
    (buffer : List Nat) : Bool :=
  decide (client.Request buffer = k.USB_GET_DESCRIPTOR) &&
    decide ((client.Value buffer &&& 0xFF00) >>> 8 = k.USB_DEVICE_DESCRIPTOR_TYPE) &&
    decide (client.Length buffer ≠ 0x12)

/-- The client record after the `switch (result)` of the setup branch, for a
result other than a stall or a configuration: `USB_STATE_DONE` clears the data
callback. -/
def switchRecord (result : UsbSetupResult) (s : UsClientState) : UsClientState :=
  match result with
  | .USB_STATE_DONE => { s with dataCallback := none }
  | _ => s

/-- The variable `LPC24_UsbDevice_DeviceAddress` after the `switch (result)`
of the setup branch: `USB_STATE_ADDRESS` records the address of the client
record with bit 7 set, every other result leaves the variable as it is. -/
def switchAddress (result : UsbSetupResult) (s : UsClientState) (current : Nat) : Nat :=
  match result with
  | .USB_STATE_ADDRESS => (s.address ||| 0x80) % 256
  | _ => current

/-- The world in which the `switch (result)` of the setup branch runs: the
setup packet with length word `v` was read, `firstDescriptorPacket` was
assigned, and the control callback has left the client record `s`. -/
def setupWorld (k : UsbEngineConstants) (client : UsbClientEngine) (w : UsbWorld) (v : Nat)
    (lens rest : List Nat) (s : UsClientState) : UsbWorld :=
  { w with
    regs := w.regs ++ readEPWrites 0
    devIntSt := rest
    rxPLen := lens
    rxData := w.rxData.drop (((v &&& PKT_LNGTH_MASK) + 3) / 4)
    driver :=
      { w.driver with
        firstDescriptorPacket := isFirstDescriptorRequest k client (setupBuffer w v) }
    usClientState := s }

/-- The register writes that stall endpoint 0 in both directions. -/
def stallWrites : List UsbRegWrite :=
  wrCmdDatWrites (CMD_SET_EP_STAT (LPC24_UsbDevice_EPAdr 0 0)) (DAT_WR_BYTE EP_STAT_ST)
    ++ wrCmdDatWrites (CMD_SET_EP_STAT (LPC24_UsbDevice_EPAdr 0 1)) (DAT_WR_BYTE EP_STAT_ST)

/-- The register writes of `LPC24_UsbDevice_SetAddress`. -/
def setAddressWrites (adr : Nat) : List UsbRegWrite :=
  wrCmdDatWrites CMD_SET_ADDR (DAT_WR_BYTE (DEV_EN ||| adr))
    ++ wrCmdDatWrites CMD_SET_ADDR (DAT_WR_BYTE (DEV_EN ||| adr))

/-- The values written to the command register, in order, in a register
history. -/
def commandCodes : List UsbRegWrite → List Nat
  | [] => []
  | .USBCmdCode v :: ws => v :: commandCodes ws
  | _ :: ws => commandCodes ws

/-- The register writes of `LPC24_UsbDevice_ConfigEP`. -/
def configEPWrites (ep_addr inDir size : Nat) : List UsbRegWrite :=
  [.USBReEpOr (1 <<< LPC24_UsbDevice_EPAdr ep_addr inDir),
   .USBEpInd (LPC24_UsbDevice_EPAdr ep_addr inDir), .USBEpMaxPSize size,
   .USBDevIntClr EP_RLZED_INT]

/-- The register writes of `LPC24_UsbDevice_EnableEP` and of
`LPC24_UsbDevice_ResetEP`, which issue the same command. -/
def enableEPWrites (EPNum inDir : Nat) : List UsbRegWrite :=
  wrCmdDatWrites (CMD_SET_EP_STAT (LPC24_UsbDevice_EPAdr EPNum inDir)) (DAT_WR_BYTE 0)

/-- The busy-waits of the configuration of one endpoint in both directions. -/
def configureEndpointWaits : List Nat :=
  [EP_RLZED_INT, CCEMTY_INT, CCEMTY_INT, CCEMTY_INT, CCEMTY_INT,
   EP_RLZED_INT, CCEMTY_INT, CCEMTY_INT, CCEMTY_INT, CCEMTY_INT]

/-- The register writes of the configuration of endpoint `i` in both
directions: each is realised with a maximum packet size of 64, enabled and
reset. -/
def configureEndpointWrites (i : Nat) : List UsbRegWrite :=
  configEPWrites i 1 64 ++ enableEPWrites i 1 ++ enableEPWrites i 1
    ++ configEPWrites i 0 64 ++ enableEPWrites i 0 ++ enableEPWrites i 0

/-- The busy-waits of the `switch (result)` of the setup branch. -/
def switchWaits (result : UsbSetupResult) : List Nat :=
  match result with
  | .USB_STATE_STALL => [CCEMTY_INT, CCEMTY_INT, CCEMTY_INT, CCEMTY_INT]
  | .USB_STATE_CONFIGURATION =>
    [CCEMTY_INT, CCEMTY_INT, EP_RLZED_INT]
      ++ ((List.range 16).drop 1).flatMap (fun _ => configureEndpointWaits)
  | _ => []

/-- The register writes of the `switch (result)` of the setup branch: a stall
stalls endpoint 0 in both directions, a configuration configures the device
and the endpoints 1 to 15, every other result writes nothing. -/
def switchWrites (result : UsbSetupResult) : List UsbRegWrite :=
  match result with
  | .USB_STATE_STALL => stallWrites
  | .USB_STATE_CONFIGURATION =>
    wrCmdDatWrites CMD_CFG_DEV (DAT_WR_BYTE CONF_DVICE)
      ++ [.USBReEp 0x00000003, .USBDevIntClr EP_RLZED_INT]
      ++ ((List.range 16).drop 1).flatMap configureEndpointWrites
  | _ => []

/-- The busy-waits of the setup branch of `LPC24_UsbDevice_ProcessEP0` up to
the loop that outputs withheld data, for the result and the client record the
control callback returns. -/
def setupWaits (result : UsbSetupResult) (s : UsClientState) : List Nat :=
  [CCEMTY_INT, CCEMTY_INT] ++ switchWaits result
    ++ (if result = .USB_STATE_STALL then [] else controlNextWaits (switchRecord result s))

/-- The state in which the setup branch of `LPC24_UsbDevice_ProcessEP0` ends,
or in which its loop that outputs withheld data starts when the result is
`USB_STATE_CONFIGURATION`: the setup packet with length word `v` was read, the
control callback has returned `result` and the client record `s`, the switch
has run, and `LPC24_UsbDevice_ControlNext` has run unless the result is a
stall. -/
def setupOutcome (k : UsbEngineConstants) (client : UsbClientEngine) (w : UsbWorld) (v : Nat)
    (lens rest : List Nat) (result : UsbSetupResult) (s : UsClientState) : UsbWorld :=
  { w with
    regs := w.regs ++ readEPWrites 0 ++ switchWrites result
      ++ (if result = .USB_STATE_STALL then []
          else controlNextWrites client (switchRecord result s))
    devIntSt := rest
    rxPLen := lens
    rxData := w.rxData.drop (((v &&& PKT_LNGTH_MASK) + 3) / 4)
    driver :=
      { w.driver with
        firstDescriptorPacket := isFirstDescriptorRequest k client (setupBuffer w v) }
    usClientState :=
      if result = .USB_STATE_STALL then s
      else controlNextRecord k client (isFirstDescriptorRequest k client (setupBuffer w v))
        (switchRecord result s)
    LPC24_UsbDevice_DeviceAddress := switchAddress result s w.LPC24_UsbDevice_DeviceAddress
    controlNextCalls := w.controlNextCalls + (if result = .USB_STATE_STALL then 0 else 1) }

/-- The state in which the endpoint-0 IN branch of
`LPC24_UsbDevice_ProcessEP0` ends: `LPC24_UsbDevice_ControlNext` has run, and a
pending address (bit 7 of `LPC24_UsbDevice_DeviceAddress`) was masked to 7
bits and given to the hardware. -/
def inOutcome (k : UsbEngineConstants) (client : UsbClientEngine) (w : UsbWorld)
    (rest : List Nat) : UsbWorld :=
  { w with
    controlNextCalls := w.controlNextCalls + 1
    usClientState := controlNextRecord k client w.driver.firstDescriptorPacket w.usClientState
    regs := w.regs ++ controlNextWrites client w.usClientState
      ++ (if w.LPC24_UsbDevice_DeviceAddress &&& 0x80 ≠ 0 then
            setAddressWrites (w.LPC24_UsbDevice_DeviceAddress &&& 0x7F) else [])
    devIntSt := rest
    LPC24_UsbDevice_DeviceAddress :=
      if w.LPC24_UsbDevice_DeviceAddress &&& 0x80 ≠ 0 then
        w.LPC24_UsbDevice_DeviceAddress &&& 0x7F
      else w.LPC24_UsbDevice_DeviceAddress }

/-- The command codes in a register history that set the status of endpoint
0, in either direction: the stalls of endpoint 0. -/
def endpoint0Stalls (regs : List UsbRegWrite) : List Nat :=
  (commandCodes regs).filter (fun c => c = CMD_SET_EP_STAT 0 ∨ c = CMD_SET_EP_STAT 1)

/-- What the output of withheld data on the endpoints other than endpoint 0
leaves as it is: the count of entries into `LPC24_UsbDevice_ControlNext`, the
flag `firstDescriptorPacket`, the recorded address and the stalls of endpoint
0. -/
def flushKeeps (w w1 : UsbWorld) : Prop :=
  w1.controlNextCalls = w.controlNextCalls ∧
  w1.driver.firstDescriptorPacket = w.driver.firstDescriptorPacket ∧
  w1.LPC24_UsbDevice_DeviceAddress = w.LPC24_UsbDevice_DeviceAddress ∧
  endpoint0Stalls w1.regs = endpoint0Stalls w.regs

/-- Whether a register write puts data into an endpoint FIFO. -/
def isTxWrite : UsbRegWrite → Bool
  | .USBTxPLen _ => true
  | .USBTxData _ => true
  | _ => false

/-- The register write by which `USB_WriteEP` opens the FIFO of an endpoint for
a packet. -/
def txFifoOpen (endpoint : Nat) : UsbRegWrite :=
  .USBCtrl (((endpoint &&& 0x0F) <<< 2) ||| CTRL_WR_EN)

/-- The register write by which `LPC24_UsbDevice_Enpoint_TxInterruptHandler`
acknowledges the completion interrupt of an endpoint. -/
def txCompletionClear (endpoint : Nat) : UsbRegWrite :=
  .USBEpIntClr (1 <<< LPC24_UsbDevice_EPAdr endpoint 1)

/-- One register write seen by the count of packets in flight on an endpoint:
a packet written adds one, a completion acknowledged takes one away if there
is one. -/
def inFlightStep (endpoint : Nat) (n : Nat) (r : UsbRegWrite) : Nat :=
  if r = txFifoOpen endpoint then n + 1
  else if r = txCompletionClear endpoint then n - 1
  else n

/-- The packets written to the FIFO of an endpoint whose completion interrupt
has not been processed, counted along the register history. -/
def packetsInFlight (endpoint : Nat) (regs : List UsbRegWrite) : Nat :=
  regs.foldl (inFlightStep endpoint) 0

/-- What happens to the transmit side of an endpoint: a call of
`LPC24_UsbDevice_StartOutput`, a transmit-completion interrupt, a reset event,
and, between the calls into the driver, the client layer and the hardware
changing what is theirs (the client record and the values the coming register
reads return). -/
inductive TxEvent where
  | startOutput
  | txInterrupt
  | reset
  | environment (usClientState : UsClientState) (devIntSt epIntSt cmdData : List Nat)

/-- One event on the transmit side of `endpoint`. -/
def txStep (k : UsbEngineConstants) (client : UsbClientEngine)
    (processEP0 : Nat → Nat → UsbWorld → Option UsbWorld) (fuel endpoint : Nat) :
    TxEvent → UsbWorld → Option UsbWorld
  | .startOutput, w => LPC24_UsbDevice_StartOutput k client processEP0 fuel endpoint w
  | .txInterrupt, w => LPC24_UsbDevice_Enpoint_TxInterruptHandler client fuel endpoint w
  | .reset, w => LPC24_UsbDevice_ResetEvent k.toUsbConstants client.toUsbClientLayer w
  | .environment s d e c, w =>
    some { w with usClientState := s, devIntSt := d, epIntSt := e, cmdData := c }

/-- A sequence of events on the transmit side of `endpoint`, in order. -/
def txRun (k : UsbEngineConstants) (client : UsbClientEngine)
    (processEP0 : Nat → Nat → UsbWorld → Option UsbWorld) (fuel endpoint : Nat) :
    List TxEvent → UsbWorld → Option UsbWorld
  | [], w => some w
  | ev :: rest, w =>
    match txStep k client processEP0 fuel endpoint ev w with
    | none => none
    | some w1 => txRun k client processEP0 fuel endpoint rest w1

/-- The coming reads of `USBDevIntSt` end at least `n` busy-waits of the
command engine: there are at least `n` of them, and each has `CCEMTY_INT` and
`CDFULL_INT` set. -/
def commandEngineAnswers (n : Nat) (reads : List Nat) : Prop :=
  n ≤ reads.length ∧ ∀ v ∈ reads, v &&& CCEMTY_INT ≠ 0 ∧ v &&& CDFULL_INT ≠ 0

instance (n : Nat) (reads : List Nat) : Decidable (commandEngineAnswers n reads) := by
  unfold commandEngineAnswers
  exact inferInstance

/-- The coming reads of `USBRxPLen` report at least `n` packets: there are at
least `n` of them, and each has `PKT_RDY` set. -/
def packetsReady (n : Nat) (reads : List Nat) : Prop :=
  n ≤ reads.length ∧ ∀ v ∈ reads, v &&& PKT_RDY ≠ 0

instance (n : Nat) (reads : List Nat) : Decidable (packetsReady n reads) := by
  unfold packetsReady
  exact inferInstance

/-! ## Small runs -/

/-- A driver at rest: no configuration, no current transaction. -/
def idleDriver : I2cDriver :=
  { controllerIndex := 0
    i2cConfiguration := { address := 0x50, clockRate := 90, clockRate2 := 0, isOpened := true }
    currentI2cTransactionAction := none
    readI2cTransactionAction := armedTransaction false false [] 0
    writeI2cTransactionAction := armedTransaction false false [] 0 }

/-- A world at rest with an empty register history. -/
def idleWorld : I2cWorld := { driver := idleDriver, regs := [] }

/-- The state after serving the given interrupts (the state itself if serving
dereferenced a null pointer). -/
def afterServing (evs : List IrqEvent) (w : I2cWorld) : I2cWorld :=
  (serve evs w).getD w

/-- A bus that raises the given events during the first delay and none later. -/
def busAtOnce (evs : List IrqEvent) : Nat → List IrqEvent :=
  fun tick => if tick = 0 then evs else []

/-- A bus that is silent until the last of the 2000 delays and raises the
given events during it. -/
def busAtLastDelay (evs : List IrqEvent) : Nat → List IrqEvent :=
  fun tick => if tick = 1999 then evs else []

/-- A client layer whose two functions leave the record as it is. -/
def quietClient : UsbClientLayer :=
  { TinyCLR_UsbClient_ClearEvent := fun s _ => s
    TinyCLR_UsbClient_StateCallback := fun s => s }

/-- A configured device in the middle of transmissions on every endpoint,
with address 5 assigned and address 9 pending; the hardware reports the
endpoints realised at the second read. -/
def busyUsbWorld : UsbWorld :=
  { driver := { txRunning := fun _ => true, txNeedZLPS := fun _ => true,
                previousDeviceState := 4, firstDescriptorPacket := true }
    usClientState := { controllerIndex := 0, currentState := 5, deviceState := 5, address := 5 }
    LPC24_UsbDevice_DeviceAddress := 0x89
    regs := []
    devIntSt := [0, 0x100] }

/-- Values for the constants of the endpoint engine: 16 endpoints of 64
bytes, and the request and descriptor codes of the USB standard. -/
def engineConstants : UsbEngineConstants :=
  { LPC24_USB_ENDPOINT_COUNT := 16, USB_DEVICE_STATE_DEFAULT := 3,
    USB_DEVICE_STATE_SUSPENDED := 6, LPC24_USB_ENDPOINT_SIZE := 64,
    USB_STATUS_ENDPOINT_HALT := 1, USB_GET_DESCRIPTOR := 6, USB_DEVICE_DESCRIPTOR_TYPE := 1 }

/-- A client layer with first-in first-out queues.  Dequeuing takes the first
packet pointer of the endpoint's queue; enqueuing for reception hands out the
packet pointer after the last one queued while the queue holds fewer than two.
The control callback answers a request by its request code (5 set address, 9
set configuration, 6 get descriptor with a data callback, 0xFF a stall,
anything else done); the data callback leaves the record as it is; the setup
packet has the layout of the USB standard. -/
def fifoClient : UsbClientEngine :=
  { TinyCLR_UsbClient_ClearEvent := fun s _ => s
    TinyCLR_UsbClient_StateCallback := fun s => s
    TinyCLR_UsbClient_TxDequeue := fun s ep =>
      match s.queues ep with
      | some (p :: rest) => (some p, { s with queues := Function.update s.queues ep (some rest) })
      | _ => (none, s)
    TinyCLR_UsbClient_RxEnqueue := fun s ep =>
      match s.queues ep with
      | some q =>
        if q.length < 2 then
          (some (q.length + 10),
            { s with queues := Function.update s.queues ep (some (q ++ [q.length + 10])) })
        else (none, s)
      | none => (none, s)
    TinyCLR_UsbClient_ClearEndpoints := fun s ep =>
      { s with queues := Function.update s.queues ep (some []) }
    TinyCLR_UsbClient_ControlCallback := fun s =>
      match s.controlEndpointBuffer.getD 1 0 with
      | 5 => (.USB_STATE_ADDRESS, { s with address := s.controlEndpointBuffer.getD 2 0 })
      | 9 => (.USB_STATE_CONFIGURATION, s)
      | 6 => (.other 0, { s with dataCallback := some 1 })
      | 0xFF => (.USB_STATE_STALL, s)
      | _ => (.USB_STATE_DONE, s)
    dataCallback := fun _ s => s
    Request := fun b => b.getD 1 0
    Value := fun b => b.getD 2 0 + 256 * b.getD 3 0
    Length := fun b => b.getD 6 0 + 256 * b.getD 7 0
    irqIsDisabled := true }

/-- A configured device whose endpoint 2 has one packet queued for
transmission, of `size` bytes 0xAB, and whose endpoint 1 has an empty receive
queue; the command engine answers every second read of `USBDevIntSt`, and an
11-byte packet 1, 2, ..., 11 waits in the receive FIFO. -/
def queuedWorld (size : Nat) : UsbWorld :=
  { driver := { txRunning := fun ep => decide (ep = 2), txNeedZLPS := fun _ => false,
                previousDeviceState := 0, firstDescriptorPacket := false }
    usClientState :=
      { controllerIndex := 0, currentState := 5, deviceState := 5, address := 5
        isTxQueue := fun ep => decide (ep = 2)
        queues := fun ep => if ep = 2 then some [7] else if ep = 1 then some [] else none
        packets := fun p =>
          if p = 7 then { Size := size, Buffer := List.replicate 64 0xAB }
          else { Size := 0, Buffer := List.replicate 64 0 } }
    LPC24_UsbDevice_DeviceAddress := 5
    regs := []
    devIntSt := [0, 0x10, 0, 0x10, 0, 0x10, 0, 0x10, 0, 0x10, 0, 0x10]
    rxPLen := [0, 0x80B]
    rxData := [0x04030201, 0x08070605, 0x000B0A09, 0x77777777] }

/-- A device in the default state during enumeration: an 8-byte setup packet
with the given two words waits in the receive FIFO of endpoint 0, and the
command engine answers every read of `USBDevIntSt`. -/
def enumeratingWorld (words : List Nat) : UsbWorld :=
  { driver := { txRunning := fun _ => false, txNeedZLPS := fun _ => false,
                previousDeviceState := 0, firstDescriptorPacket := false }
    usClientState :=
      { controllerIndex := 0, currentState := 3, deviceState := 3, address := 0
        controlEndpointBuffer := List.replicate 64 0 }
    LPC24_UsbDevice_DeviceAddress := 0
    regs := []
    devIntSt := List.replicate 12 0x10
    rxPLen := [0x808]
    rxData := words }

/-- The client `fifoClient` with a data callback that sets up `size` bytes
0x12 as the next piece of the answer. -/
def chunkClient (size : Nat) : UsbClientEngine :=
  { fifoClient with
    dataCallback := fun _ s => { s with ptrData := List.replicate size 0x12, dataSize := size } }

/-- The device of `enumeratingWorld` in the data phase of a control transfer:
a data callback is registered, and the quirk flag `firstDescriptorPacket` is
as given. -/
def answeringWorld (first : Bool) : UsbWorld :=
  { enumeratingWorld [] with
    driver := { txRunning := fun _ => false, txNeedZLPS := fun _ => false,
                previousDeviceState := 0, firstDescriptorPacket := first }
    usClientState :=
      { controllerIndex := 0, currentState := 3, deviceState := 3, address := 0
        controlEndpointBuffer := List.replicate 64 0
        dataCallback := some 1 } }

/-- The device of `queuedWorld 64` with no transmission running: endpoint 2
has one packet of 64 bytes queued, the command engine answers every read of
`USBDevIntSt`, and the first read of `USBEpIntSt` reports the completion
interrupt of endpoint 2. -/
def txIdleWorld : UsbWorld :=
  { queuedWorld 64 with
    driver := { txRunning := fun _ => false, txNeedZLPS := fun _ => false,
                previousDeviceState := 0, firstDescriptorPacket := false }
    devIntSt := List.replicate 8 0x30
    epIntSt := [0x20] }

/-- The state after the given events on the transmit side of endpoint 2, for
the client `fifoClient` (the state itself if a call did not return). -/
def afterTxEvents (events : List TxEvent) (w : UsbWorld) : UsbWorld :=
  (txRun engineConstants fifoClient (fun _ _ _ => none) 1 2 events w).getD w

/-- A device in the default state that receives SET_CONFIGURATION, followed in
the receive FIFO by a setup packet that the client layer answers with a
stall.  When `queued` holds, endpoint 0 has a transmit queue and a
transmission marked as running, and the first read of `USBEpIntSt` reports
the IN interrupt of endpoint 0; `cmd` is the value the read of `USBCmdData`
returns.  The hardware answers every read of `USBDevIntSt`. -/
def configuringWorld (queued : Bool) (cmd : Nat) : UsbWorld :=
  { driver := { txRunning := fun ep => queued && decide (ep = 0), txNeedZLPS := fun _ => false,
                previousDeviceState := 0, firstDescriptorPacket := false }
    usClientState :=
      { controllerIndex := 0, currentState := 3, deviceState := 3, address := 0
        controlEndpointBuffer := List.replicate 64 0
        isTxQueue := fun ep => queued && decide (ep = 0) }
    LPC24_UsbDevice_DeviceAddress := 0
    regs := []
    devIntSt := List.replicate 170 0x130
    rxPLen := [0x808, 0x808]
    rxData := [0x00010900, 0, 0x0000FF00, 0]
    epIntSt := [2]
    cmdData := [cmd] }

/-- A device whose endpoint 0 has a transmit queue holding one packet of 8
bytes, with no transmission running; the command engine answers every read
of `USBDevIntSt`, the first read of `USBEpIntSt` reports the IN interrupt of
endpoint 0, and the read of `USBCmdData` that follows does not report a setup
packet. -/
def controlQueueWorld : UsbWorld :=
  { driver := { txRunning := fun _ => false, txNeedZLPS := fun _ => false,
                previousDeviceState := 0, firstDescriptorPacket := false }
    usClientState :=
      { controllerIndex := 0, currentState := 5, deviceState := 5, address := 5
        isTxQueue := fun ep => decide (ep = 0)
        queues := fun ep => if ep = 0 then some [7] else none
        packets := fun p =>
          if p = 7 then { Size := 8, Buffer := List.replicate 64 0xAB }
          else { Size := 0, Buffer := List.replicate 64 0 } }
    LPC24_UsbDevice_DeviceAddress := 5
    regs := []
    devIntSt := List.replicate 8 0x30
    epIntSt := [2]
    cmdData := [0] }

/-- The client `fifoClient` with a transmit queue that hands out no packet of
size 0: at such a packet, as at the end of the queue, dequeuing returns no
packet. -/
def readyClient : UsbClientEngine :=
  { fifoClient with
    TinyCLR_UsbClient_TxDequeue := fun s ep =>
      match s.queues ep with
      | some (p :: rest) =>
        if 0 < (s.packets p).Size then
          (some p, { s with queues := Function.update s.queues ep (some rest) })
        else (none, s)
      | _ => (none, s) }

/-- A device in the default state that receives SET_CONFIGURATION while
endpoint 2 has one packet of 8 bytes withheld in its transmit queue; the
hardware answers every read of `USBDevIntSt` and reports a packet at every
read of `USBRxPLen`. -/
def withheldWorld : UsbWorld :=
  { configuringWorld false 0 with
    usClientState :=
      { controllerIndex := 0, currentState := 3, deviceState := 3, address := 0
        controlEndpointBuffer := List.replicate 64 0
        isTxQueue := fun ep => decide (ep = 2)
        queues := fun ep => if ep = 2 then some [7] else none
        packets := fun p =>
          if p = 7 then { Size := 8, Buffer := List.replicate 64 0xAB }
          else { Size := 0, Buffer := List.replicate 64 0 } }
    devIntSt := List.replicate 210 0x130
    rxPLen := List.replicate 17 0x808 }

/-! ## Projections of the state updates -/

@[simp] theorem write_driver (w : I2cWorld) (ws : List I2cRegWrite) :
    (w.write ws).driver = w.driver := rfl

@[simp] theorem write_regs (w : I2cWorld) (ws : List I2cRegWrite) :
    (w.write ws).regs = w.regs ++ ws := rfl

@[simp] theorem setSlot_driver (w : I2cWorld) (s : Slot) (t : I2cTransaction) :
    (w.setSlot s t).driver = w.driver.setSlot s t := rfl

@[simp] theorem setSlot_regs (w : I2cWorld) (s : Slot) (t : I2cTransaction) :
    (w.setSlot s t).regs = w.regs := rfl

@[simp] theorem setCurrent_driver (w : I2cWorld) (c : Option Slot) :
    (w.setCurrent c).driver = { w.driver with currentI2cTransactionAction := c } := rfl

@[simp] theorem setCurrent_regs (w : I2cWorld) (c : Option Slot) :
    (w.setCurrent c).regs = w.regs := rfl

@[simp] theorem slot_setSlot (d : I2cDriver) (s : Slot) (t : I2cTransaction) :
    (d.setSlot s t).slot s = t := by
  cases s <;> rfl

@[simp] theorem current_setSlot (d : I2cDriver) (s : Slot) (t : I2cTransaction) :
    (d.setSlot s t).currentI2cTransactionAction = d.currentI2cTransactionAction := by
  cases s <;> rfl

@[simp] theorem config_setSlot (d : I2cDriver) (s : Slot) (t : I2cTransaction) :
    (d.setSlot s t).i2cConfiguration = d.i2cConfiguration := by
  cases s <;> rfl

@[simp] theorem start_driver (w : I2cWorld) : (LPC24_I2c_StartTransaction w).driver = w.driver := by
  unfold LPC24_I2c_StartTransaction
  dsimp only
  split_ifs <;> rfl

theorem stop_eq (w : I2cWorld) (s : Slot)
    (h : w.driver.currentI2cTransactionAction = some s) :
    LPC24_I2c_StopTransaction w =
      some ((w.write [.I2CONSET [.STO], .I2CONCLR [.AA, .SI, .STA]]).setSlot s
        { w.driver.slot s with isDone := true }) := by
  unfold LPC24_I2c_StopTransaction
  simp only [write_driver, h]

/-! ## One interrupt -/

/-- The block that stops or chains acts on the driver as a `stopped` or a
`chained` step would. -/
theorem stopOrChain_spec (w : I2cWorld) (s : Slot)
    (h : w.driver.currentI2cTransactionAction = some s) :
    ∃ w1, stopOrChain (w.driver.slot s).repeatedStart w = some w1 ∧
      (((w.driver.slot s).repeatedStart = false ∧
          w1.driver = w.driver.setSlot s { w.driver.slot s with isDone := true }) ∨
        ((w.driver.slot s).repeatedStart = true ∧
          w1.driver = { w.driver with currentI2cTransactionAction := some .readSlot })) := by
  unfold stopOrChain
  by_cases hr : (w.driver.slot s).repeatedStart = false
  · rw [if_pos hr, stop_eq w s h]
    exact ⟨_, rfl, Or.inl ⟨hr, rfl⟩⟩
  · rw [if_neg hr]
    refine ⟨_, rfl, Or.inr ⟨by simpa using hr, ?_⟩⟩
    simp

/-- The switch never dereferences a null pointer, and its effect on the
driver is one of the steps of `DriverStep`. -/
theorem interruptSwitch_spec (ev : IrqEvent) (s : Slot) (w : I2cWorld)
    (h : w.driver.currentI2cTransactionAction = some s) :
    ∃ w1, interruptSwitch ev s w = some w1 ∧ DriverStep w.driver s w1.driver := by
  unfold interruptSwitch
  cases statusCase (ev.status % 256) with
  | startSent => exact ⟨_, rfl, .unchanged⟩
  | writeAck =>
    dsimp only
    split_ifs with h0
    · obtain ⟨w1, h1, h2⟩ := stopOrChain_spec w s h
      refine ⟨w1, h1, ?_⟩
      rcases h2 with ⟨_, h2⟩ | ⟨hr, h2⟩
      · rw [h2]; exact .stopped
      · rw [h2]; exact .chained h0 hr
    · exact ⟨_, rfl, .sent h0⟩
  | notAck => exact ⟨_, stop_eq w s h, .stopped⟩
  | arbitrationLost => exact ⟨_, stop_eq w s h, .stopped⟩
  | readAddressAck =>
    dsimp only
    split_ifs
    · exact ⟨_, rfl, .unchanged⟩
    · exact ⟨_, rfl, .unchanged⟩
  | dataReceived =>
    dsimp only
    have key : ∀ w2 : I2cWorld,
        w2.driver = w.driver.setSlot s ((w.driver.slot s).store ev.dat).advance →
        ∃ w1, (if ((w.driver.slot s).store ev.dat).advance.bytesToTransfer = 0 then
            stopOrChain ((w.driver.slot s).store ev.dat).advance.repeatedStart w2
          else some w2) = some w1 ∧ DriverStep w.driver s w1.driver := by
      intro w2 hw2
      split_ifs with h0
      · have hc : w2.driver.currentI2cTransactionAction = some s := by
          rw [hw2, current_setSlot, h]
        have hs : w2.driver.slot s = ((w.driver.slot s).store ev.dat).advance := by
          rw [hw2, slot_setSlot]
        obtain ⟨w1, h1, h2⟩ := stopOrChain_spec w2 s hc
        rw [hs] at h1 h2
        refine ⟨w1, h1, ?_⟩
        rcases h2 with ⟨hr, h2⟩ | ⟨hr, h2⟩
        · rw [h2, hw2]
          have := DriverStep.receivedStopped (d := w.driver) (s := s) ev.dat h0 hr
          cases s <;> exact this
        · rw [h2, hw2]
          exact .receivedChained ev.dat h0 hr
      · refine ⟨w2, rfl, ?_⟩
        rw [hw2]
        exact .received ev.dat h0
    exact key _ (by split_ifs <;> rfl)
  | busError => exact ⟨_, stop_eq _ s h, .stopped⟩
  | unrecognised => exact ⟨_, stop_eq w s h, .stopped⟩

/-- The handler always returns: with no current transaction it leaves the
driver alone, and with slot `s` current it performs one `DriverStep`. -/
theorem handler_spec (ev : IrqEvent) (w : I2cWorld) :
    ∃ w1, LPC24_I2c_InterruptHandler ev w = some w1 ∧
      (w.driver.currentI2cTransactionAction = none → w1.driver = w.driver) ∧
      (∀ s, w.driver.currentI2cTransactionAction = some s → DriverStep w.driver s w1.driver) := by
  unfold LPC24_I2c_InterruptHandler
  cases h : w.driver.currentI2cTransactionAction with
  | none => exact ⟨_, rfl, fun _ => rfl, fun s hs => by cases hs⟩
  | some s =>
    obtain ⟨w1, h1, h2⟩ := interruptSwitch_spec ev s w h
    refine ⟨w1.write [.I2CONCLR [.SI]], by simp only [h1], (fun hn => by cases hn), ?_⟩
    intro s1 hs
    cases hs
    exact h2

/-- A step keeps the current pointer non-null. -/
theorem DriverStep.current_ne_none {d d1 : I2cDriver} {s : Slot}
    (hc : d.currentI2cTransactionAction = some s) (h : DriverStep d s d1) :
    d1.currentI2cTransactionAction ≠ none := by
  cases h <;> simp [hc]

/-! ## Sequences of interrupts and the wait loop -/

/-- A property of the driver that every step preserves is preserved by
serving any sequence of interrupts, and serving always returns. -/
theorem serve_inv (Inv : I2cDriver → Prop)
    (hstep : ∀ d s d1, Inv d → d.currentI2cTransactionAction = some s →
      DriverStep d s d1 → Inv d1)
    (evs : List IrqEvent) (w : I2cWorld) (h : Inv w.driver) :
    ∃ w1, serve evs w = some w1 ∧ Inv w1.driver := by
  induction evs generalizing w with
  | nil => exact ⟨w, rfl, h⟩
  | cons ev evs ih =>
    obtain ⟨w1, h1, hnone, hsome⟩ := handler_spec ev w
    have hinv : Inv w1.driver := by
      cases hc : w.driver.currentI2cTransactionAction with
      | none => rw [hnone hc]; exact h
      | some s => exact hstep _ s _ h hc (hsome s hc)
    obtain ⟨w2, h2, hinv2⟩ := ih w1 hinv
    exact ⟨w2, by simp only [serve, h1, h2], hinv2⟩

/-- Serving a concatenation is serving its parts in turn. -/
theorem serve_append (evs1 evs2 : List IrqEvent) (w : I2cWorld) :
    serve (evs1 ++ evs2) w = (serve evs1 w).bind (serve evs2) := by
  induction evs1 generalizing w with
  | nil => rfl
  | cons ev evs ih =>
    simp only [List.cons_append, serve]
    cases LPC24_I2c_InterruptHandler ev w with
    | none => rfl
    | some w1 => exact ih w1

/-- A wait loop started with a non-null current pointer returns, and keeps
every property of the driver that the steps preserve. -/
theorem waitLoop_inv (Inv : I2cDriver → Prop)
    (hstep : ∀ d s d1, Inv d → d.currentI2cTransactionAction = some s →
      DriverStep d s d1 → Inv d1)
    (hcur : ∀ d, Inv d → d.currentI2cTransactionAction ≠ none)
    (bus : Nat → List IrqEvent) (n : Nat) (w : I2cWorld) (h : Inv w.driver) :
    ∃ r, waitLoop bus n w = some r ∧ Inv r.world.driver := by
  induction n generalizing w with
  | zero =>
    cases hc : w.driver.currentI2cTransactionAction with
    | none => exact absurd hc (hcur _ h)
    | some s =>
      have e : waitLoop bus 0 w = some { timeout := 0, delays := [], world := w } := by
        simp only [waitLoop, I2cDriver.current, hc]
      exact ⟨_, e, h⟩
  | succ n ih =>
    cases hc : w.driver.currentI2cTransactionAction with
    | none => exact absurd hc (hcur _ h)
    | some s =>
      by_cases hd : (w.driver.slot s).isDone = false
      · obtain ⟨w1, h1, hinv1⟩ := serve_inv Inv hstep (bus (I2C_TRANSACTION_TIMEOUT - (n + 1))) w h
        obtain ⟨r, hr, hinvr⟩ := ih w1 hinv1
        have e : waitLoop bus (n + 1) w = some { r with delays := 1000 :: r.delays } := by
          simp only [waitLoop, I2cDriver.current, hc, hd, if_true, h1, hr]
        exact ⟨_, e, hinvr⟩
      · have e : waitLoop bus (n + 1) w = some { timeout := n + 1, delays := [], world := w } := by
          rw [Bool.not_eq_false] at hd
          simp [waitLoop, I2cDriver.current, hc, hd]
        exact ⟨_, e, h⟩

/-- How a wait loop ends: it has executed `n - timeout` delays of 1000
microseconds, its current pointer is non-null, and if the current transaction
is not done then `timeout` is 0. -/
theorem waitLoop_exit (bus : Nat → List IrqEvent) (n : Nat) (w : I2cWorld) (r : WaitOut)
    (h : waitLoop bus n w = some r) :
    r.timeout ≤ n ∧ r.delays = List.replicate (n - r.timeout) 1000 ∧
      ∃ s, r.world.driver.currentI2cTransactionAction = some s ∧
        ((r.world.driver.slot s).isDone = false → r.timeout = 0) := by
  induction n generalizing w r with
  | zero =>
    cases hc : w.driver.currentI2cTransactionAction with
    | none => simp [waitLoop, I2cDriver.current, hc] at h
    | some s =>
      simp only [waitLoop, I2cDriver.current, hc, Option.some.injEq] at h
      subst h
      exact ⟨le_refl _, rfl, s, hc, fun _ => rfl⟩
  | succ n ih =>
    cases hc : w.driver.currentI2cTransactionAction with
    | none => simp [waitLoop, I2cDriver.current, hc] at h
    | some s =>
      by_cases hd : (w.driver.slot s).isDone = false
      · simp only [waitLoop, I2cDriver.current, hc, hd, if_true] at h
        cases h1 : serve (bus (I2C_TRANSACTION_TIMEOUT - (n + 1))) w with
        | none => simp [h1] at h
        | some w1 =>
          cases h2 : waitLoop bus n w1 with
          | none => simp [h1, h2] at h
          | some r1 =>
            simp only [h1, h2, Option.some.injEq] at h
            subst h
            obtain ⟨hle, hdel, s1, hs1, hnd⟩ := ih w1 r1 h2
            refine ⟨Nat.le_succ_of_le hle, ?_, s1, hs1, hnd⟩
            show 1000 :: r1.delays = _
            rw [hdel, Nat.succ_sub hle]
            rfl
      · have hd1 := hd
        rw [Bool.not_eq_false] at hd1
        simp [waitLoop, I2cDriver.current, hc, hd1] at h
        subst h
        exact ⟨le_refl _, by simp, s, hc, fun h0 => absurd h0 hd⟩

/-- The interrupts of consecutive delays, split at a delay. -/
theorem eventsDuring_add (bus : Nat → List IrqEvent) (first k m : Nat) :
    eventsDuring bus first (k + m) =
      eventsDuring bus first k ++ eventsDuring bus (first + k) m := by
  induction k generalizing first with
  | zero => simp [eventsDuring]
  | succ k ih =>
    have e : k + 1 + m = (k + m) + 1 := by omega
    rw [e]
    simp only [eventsDuring, ih, List.append_assoc]
    have e2 : first + 1 + k = first + (k + 1) := by omega
    rw [e2]

/-- The state a wait loop leaves is the state reached by serving, in order,
the interrupts of the delays it executed; when it leaves with `timeout > 0`
the current transaction is done. -/
theorem waitLoop_serve (bus : Nat → List IrqEvent) (n : Nat) (w : I2cWorld) (r : WaitOut)
    (hn : n ≤ I2C_TRANSACTION_TIMEOUT) (h : waitLoop bus n w = some r) :
    ∃ k, k + r.timeout = n ∧
      serve (eventsDuring bus (I2C_TRANSACTION_TIMEOUT - n) k) w = some r.world := by
  induction n generalizing w r with
  | zero =>
    cases hc : w.driver.currentI2cTransactionAction with
    | none => simp [waitLoop, I2cDriver.current, hc] at h
    | some s =>
      simp only [waitLoop, I2cDriver.current, hc, Option.some.injEq] at h
      subst h
      exact ⟨0, rfl, rfl⟩
  | succ n ih =>
    cases hc : w.driver.currentI2cTransactionAction with
    | none => simp [waitLoop, I2cDriver.current, hc] at h
    | some s =>
      by_cases hd : (w.driver.slot s).isDone = false
      · simp only [waitLoop, I2cDriver.current, hc, hd, if_true] at h
        cases h1 : serve (bus (I2C_TRANSACTION_TIMEOUT - (n + 1))) w with
        | none => simp [h1] at h
        | some w1 =>
          cases h2 : waitLoop bus n w1 with
          | none => simp [h1, h2] at h
          | some r1 =>
            simp only [h1, h2, Option.some.injEq] at h
            subst h
            obtain ⟨k, hk, hs⟩ := ih w1 r1 (Nat.le_of_succ_le hn) h2
            refine ⟨k + 1, by show k + 1 + r1.timeout = n + 1; omega, ?_⟩
            have e : I2C_TRANSACTION_TIMEOUT - (n + 1) + 1 = I2C_TRANSACTION_TIMEOUT - n := by
              omega
            show serve (eventsDuring bus (I2C_TRANSACTION_TIMEOUT - (n + 1)) (k + 1)) w = some r1.world
            simp only [eventsDuring, serve_append, h1, Option.some_bind, e, hs]
      · have hd1 := hd
        rw [Bool.not_eq_false] at hd1
        simp [waitLoop, I2cDriver.current, hc, hd1] at h
        subst h
        exact ⟨0, by simp, rfl⟩

/-- A wait loop entered with a non-null current pointer returns. -/
theorem waitLoop_total (bus : Nat → List IrqEvent) (n : Nat) (w : I2cWorld)
    (hc : w.driver.currentI2cTransactionAction ≠ none) :
    ∃ r, waitLoop bus n w = some r :=
  let ⟨r, hr, _⟩ := waitLoop_inv (fun d => d.currentI2cTransactionAction ≠ none)
    (fun _ _ _ _ hs hstep => hstep.current_ne_none hs) (fun _ h => h) bus n w hc
  ⟨r, hr⟩

/-- The classification step returns whenever the loop did, with the loop's
state, delays and `timeout`. -/
theorem transferFinish_spec (length : Nat) (result : TinyCLR_I2c_TransferStatus)
    (bus : Nat → List IrqEvent) (n : Nat) (w : I2cWorld) (r : WaitOut)
    (h : waitLoop bus n w = some r) :
    ∃ s, r.world.driver.currentI2cTransactionAction = some s ∧
      transferFinish length result r = some
        { code := if r.timeout > 0 then .Success else .TimedOut
          length := (r.world.driver.slot s).bytesTransferred
          result :=
            if (r.world.driver.slot s).bytesTransferred = length then .FullTransfer
            else if (r.world.driver.slot s).bytesTransferred < length
                ∧ (r.world.driver.slot s).bytesTransferred > 0 then .PartialTransfer
            else result
          delays := r.delays
          world := r.world } := by
  obtain ⟨_, _, s, hs, _⟩ := waitLoop_exit bus n w r h
  exact ⟨s, hs, by simp only [transferFinish, I2cDriver.current, hs]⟩

/-- `LPC24_I2c_Read` with a non-null handle returns: it runs the wait loop from
the armed state and classifies what the loop left. -/
theorem read_returns (buffer : List Nat) (length : Nat) (result : TinyCLR_I2c_TransferStatus)
    (bus : Nat → List IrqEvent) (w : I2cWorld) :
    ∃ r out, waitLoop bus I2C_TRANSACTION_TIMEOUT (readArmed buffer length w) = some r ∧
      transferFinish length result r = some out ∧
      LPC24_I2c_Read (some ()) buffer length result bus w = some out := by
  obtain ⟨r, hr⟩ := waitLoop_total bus I2C_TRANSACTION_TIMEOUT (readArmed buffer length w)
    (by simp [readArmed])
  obtain ⟨s, _, hf⟩ := transferFinish_spec length result bus _ _ r hr
  exact ⟨r, _, hr, hf, by simp only [LPC24_I2c_Read, hr, hf]⟩

/-- `LPC24_I2c_Write` with a non-null handle returns, in the same way. -/
theorem write_returns (buffer : List Nat) (length : Nat) (result : TinyCLR_I2c_TransferStatus)
    (bus : Nat → List IrqEvent) (w : I2cWorld) :
    ∃ r out, waitLoop bus I2C_TRANSACTION_TIMEOUT (writeArmed buffer length w) = some r ∧
      transferFinish length result r = some out ∧
      LPC24_I2c_Write (some ()) buffer length result bus w = some out := by
  obtain ⟨r, hr⟩ := waitLoop_total bus I2C_TRANSACTION_TIMEOUT (writeArmed buffer length w)
    (by simp [writeArmed])
  obtain ⟨s, _, hf⟩ := transferFinish_spec length result bus _ _ r hr
  exact ⟨r, _, hr, hf, by simp only [LPC24_I2c_Write, hr, hf]⟩

/-- The classification reports `FullTransfer` and the requested length when
the current transaction has transferred exactly the requested length. -/
theorem transferFinish_full (length : Nat) (result : TinyCLR_I2c_TransferStatus) (r : WaitOut)
    (out : TransferOut) (transaction : I2cTransaction)
    (hf : transferFinish length result r = some out)
    (hc : r.world.driver.current = some transaction)
    (hfull : transaction.bytesTransferred = length) :
    out.length = length ∧ out.result = .FullTransfer := by
  simp only [transferFinish, hc, hfull, if_true, Option.some.injEq] at hf
  subst hf
  exact ⟨rfl, rfl⟩

/-! ## C1 -/

/-- C1: `LPC24_I2c_Read` and `LPC24_I2c_Write` called with a non-null handle
and a requested length `n` return, and if the current transaction's
`bytesTransferred` equals `n` when the wait loop ends, the length
out-parameter equals `n` and status-out is `FullTransfer`.  (The property
holds for every `n`, in particular for `n > 0`.) -/
theorem C1_full_transfer_reports_requested_length (buffer : List Nat) (n : Nat)
    (result : TinyCLR_I2c_TransferStatus) (bus : Nat → List IrqEvent) (w : I2cWorld) :
    (∃ r out, waitLoop bus I2C_TRANSACTION_TIMEOUT (readArmed buffer n w) = some r ∧
      LPC24_I2c_Read (some ()) buffer n result bus w = some out ∧
      ∀ transaction, r.world.driver.current = some transaction →
        transaction.bytesTransferred = n → out.length = n ∧ out.result = .FullTransfer) ∧
    (∃ r out, waitLoop bus I2C_TRANSACTION_TIMEOUT (writeArmed buffer n w) = some r ∧
      LPC24_I2c_Write (some ()) buffer n result bus w = some out ∧
      ∀ transaction, r.world.driver.current = some transaction →
        transaction.bytesTransferred = n → out.length = n ∧ out.result = .FullTransfer) := by
  constructor
  · obtain ⟨r, out, hr, hf, hout⟩ := read_returns buffer n result bus w
    exact ⟨r, out, hr, hout, fun t hc hfull => transferFinish_full n result r out t hf hc hfull⟩
  · obtain ⟨r, out, hr, hf, hout⟩ := write_returns buffer n result bus w
    exact ⟨r, out, hr, hout, fun t hc hfull => transferFinish_full n result r out t hf hc hfull⟩

/-- C1 at a concrete input: a two-byte read whose two bytes arrive, and a
two-byte write whose two bytes are acknowledged, report length 2 and
`FullTransfer`. -/
theorem C1_full_transfer_witness :
    (∃ out, LPC24_I2c_Read (some ()) [0, 0] 2 (.other 9)
        (busAtOnce [⟨0x08, 0⟩, ⟨0x40, 0⟩, ⟨0x50, 7⟩, ⟨0x58, 8⟩]) idleWorld = some out ∧
      out.length = 2 ∧ out.result = .FullTransfer) ∧
    (∃ out, LPC24_I2c_Write (some ()) [0xAA, 0xBB] 2 (.other 9)
        (busAtOnce [⟨0x08, 0⟩, ⟨0x18, 0⟩, ⟨0x28, 0⟩, ⟨0x28, 0⟩]) idleWorld = some out ∧
      out.length = 2 ∧ out.result = .FullTransfer) := by
  obtain ⟨⟨r1, out1, hr1, ho1, h1⟩, _⟩ :=
    C1_full_transfer_reports_requested_length [0, 0] 2 (.other 9)
      (busAtOnce [⟨0x08, 0⟩, ⟨0x40, 0⟩, ⟨0x50, 7⟩, ⟨0x58, 8⟩]) idleWorld
  obtain ⟨_, ⟨r2, out2, hr2, ho2, h2⟩⟩ :=
    C1_full_transfer_reports_requested_length [0xAA, 0xBB] 2 (.other 9)
      (busAtOnce [⟨0x08, 0⟩, ⟨0x18, 0⟩, ⟨0x28, 0⟩, ⟨0x28, 0⟩]) idleWorld
  have e1 : (waitLoop (busAtOnce [⟨0x08, 0⟩, ⟨0x40, 0⟩, ⟨0x50, 7⟩, ⟨0x58, 8⟩])
      I2C_TRANSACTION_TIMEOUT (readArmed [0, 0] 2 idleWorld)).map
        (fun r => r.world.driver.current.map (fun t => t.bytesTransferred)) = some (some 2) := by
    decide
  have e2 : (waitLoop (busAtOnce [⟨0x08, 0⟩, ⟨0x18, 0⟩, ⟨0x28, 0⟩, ⟨0x28, 0⟩])
      I2C_TRANSACTION_TIMEOUT (writeArmed [0xAA, 0xBB] 2 idleWorld)).map
        (fun r => r.world.driver.current.map (fun t => t.bytesTransferred)) = some (some 2) := by
    decide
  rw [hr1] at e1
  rw [hr2] at e2
  simp only [Option.map_some', Option.some.injEq, Option.map_eq_some'] at e1 e2
  obtain ⟨t1, ht1, hb1⟩ := e1
  obtain ⟨t2, ht2, hb2⟩ := e2
  exact ⟨⟨out1, ho1, h1 t1 ht1 hb1⟩, ⟨out2, ho2, h2 t2 ht2 hb2⟩⟩

/-! ## C2 -/

/-- The classification of `LPC24_I2c_Read` and `LPC24_I2c_Write`, for every
state the loop can leave: the reported length is the current transaction's
`bytesTransferred`; strictly between 0 and the requested length the status is
`PartialTransfer`; and with nothing transferred of a non-empty request the
status keeps the caller's value. -/
theorem transferFinish_classes (length : Nat) (result : TinyCLR_I2c_TransferStatus)
    (r : WaitOut) (out : TransferOut) (hf : transferFinish length result r = some out) :
    (0 < out.length → out.length < length → out.result = .PartialTransfer) ∧
    (out.length = 0 → 0 < length → out.result = result) := by
  unfold transferFinish at hf
  cases hc : r.world.driver.current with
  | none => simp [hc] at hf
  | some t =>
    simp only [hc, Option.some.injEq] at hf
    subst hf
    constructor
    · intro h0 hlt
      have hne : t.bytesTransferred ≠ length := Nat.ne_of_lt hlt
      simp only [hne, if_false, hlt, h0, gt_iff_lt, and_self, if_true]
    · intro h0 hpos
      have h0' : t.bytesTransferred = 0 := h0
      have hne : ¬ (0 = length) := by omega
      simp [hne, h0']

/-- C2, the code at a failing input: a `Read` of length 0 from a slave that
acknowledges its address and sends one byte, followed by a bus error.  The
data-received case decrements `bytesToTransfer` from 0 to `2 ^ 32 - 1` and
counts the byte, so the call reports length 1 for a request of length 0, and
status-out keeps the caller's value. -/
theorem C2_zero_length_read_reports_more_than_requested :
    ∃ out, LPC24_I2c_Read (some ()) [] 0 (.other 9)
        (busAtOnce [⟨0x08, 0⟩, ⟨0x40, 0⟩, ⟨0x50, 7⟩, ⟨0x00, 0⟩]) idleWorld = some out ∧
      out.code = .Success ∧ out.length = 1 ∧ ¬ out.length ≤ 0 ∧ out.result = .other 9 ∧
      out.world.driver.readI2cTransactionAction.bytesToTransfer = 2 ^ 32 - 1 ∧
      out.world.driver.readI2cTransactionAction.isDone = true := by
  decide

/-! ## The invariant of `WriteRead` -/

/-- Every step of the handler preserves the invariant of `WriteRead`. -/
theorem writeReadInv_step (writeLength : Nat) (readArmedSlot : I2cTransaction)
    (d : I2cDriver) (s : Slot) (d1 : I2cDriver)
    (hinv : WriteReadInv writeLength readArmedSlot d)
    (hc : d.currentI2cTransactionAction = some s) (hstep : DriverStep d s d1) :
    WriteReadInv writeLength readArmedSlot d1 := by
  obtain ⟨hws, hrs, hlt, hcase⟩ := hinv
  simp only [SIZE_MAX_PLUS_ONE] at hlt hcase
  rcases hcase with ⟨hcw, hread, hsum⟩ | ⟨hcr, hfull⟩
  · have hs : s = .writeSlot := by
      rw [hcw] at hc
      exact (Option.some.inj hc).symm
    subst hs
    cases hstep with
    | unchanged =>
      simp only [WriteReadInv, SIZE_MAX_PLUS_ONE]
      exact ⟨hws, hrs, hlt, Or.inl ⟨hcw, hread, hsum⟩⟩
    | sent h =>
      simp only [I2cDriver.slot] at h
      simp only [WriteReadInv, I2cDriver.setSlot, I2cDriver.slot, I2cTransaction.advance,
        sizeIncrement, sizeDecrement, SIZE_MAX_PLUS_ONE]
      refine ⟨hws, hrs, ?_, Or.inl ⟨hcw, hread, ?_⟩⟩
      · omega
      · rw [if_neg h]
        omega
    | stopped =>
      simp only [WriteReadInv, I2cDriver.setSlot, I2cDriver.slot, SIZE_MAX_PLUS_ONE]
      exact ⟨hws, hrs, hlt, Or.inl ⟨hcw, hread, hsum⟩⟩
    | chained h0 hr =>
      simp only [I2cDriver.slot] at h0
      simp only [WriteReadInv, SIZE_MAX_PLUS_ONE]
      refine ⟨hws, hrs, hlt, Or.inr ⟨trivial, ?_⟩⟩
      omega
    | received dat h =>
      simp only [WriteReadInv, I2cDriver.setSlot, I2cDriver.slot, I2cTransaction.advance,
        I2cTransaction.store, sizeIncrement, sizeDecrement, SIZE_MAX_PLUS_ONE]
      refine ⟨hws, hrs, ?_, Or.inl ⟨hcw, hread, ?_⟩⟩
      · omega
      · split_ifs <;> omega
    | receivedStopped dat h0 hr =>
      simp only [I2cDriver.slot] at hr
      rw [hws] at hr
      cases hr
    | receivedChained dat h0 hr =>
      simp only [I2cDriver.slot, I2cTransaction.advance, I2cTransaction.store,
        sizeDecrement, SIZE_MAX_PLUS_ONE] at h0
      simp only [WriteReadInv, I2cDriver.setSlot, I2cDriver.slot, I2cTransaction.advance,
        I2cTransaction.store, sizeIncrement, SIZE_MAX_PLUS_ONE]
      refine ⟨hws, hrs, ?_, Or.inr ⟨trivial, ?_⟩⟩
      · omega
      · split_ifs at h0
        omega
  · have hs : s = .readSlot := by
      rw [hcr] at hc
      exact (Option.some.inj hc).symm
    subst hs
    cases hstep with
    | unchanged =>
      simp only [WriteReadInv, SIZE_MAX_PLUS_ONE]
      exact ⟨hws, hrs, hlt, Or.inr ⟨hcr, hfull⟩⟩
    | sent h =>
      simp only [WriteReadInv, I2cDriver.setSlot, I2cDriver.slot, I2cTransaction.advance,
        SIZE_MAX_PLUS_ONE]
      exact ⟨hws, hrs, hlt, Or.inr ⟨hcr, hfull⟩⟩
    | stopped =>
      simp only [WriteReadInv, I2cDriver.setSlot, I2cDriver.slot, SIZE_MAX_PLUS_ONE]
      exact ⟨hws, hrs, hlt, Or.inr ⟨hcr, hfull⟩⟩
    | chained h0 hr =>
      simp only [WriteReadInv, SIZE_MAX_PLUS_ONE]
      exact ⟨hws, hrs, hlt, Or.inr ⟨trivial, hfull⟩⟩
    | received dat h =>
      simp only [WriteReadInv, I2cDriver.setSlot, I2cDriver.slot, I2cTransaction.advance,
        I2cTransaction.store, SIZE_MAX_PLUS_ONE]
      exact ⟨hws, hrs, hlt, Or.inr ⟨hcr, hfull⟩⟩
    | receivedStopped dat h0 hr =>
      simp only [WriteReadInv, I2cDriver.setSlot, I2cDriver.slot, I2cTransaction.advance,
        I2cTransaction.store, SIZE_MAX_PLUS_ONE]
      exact ⟨hws, hrs, hlt, Or.inr ⟨hcr, hfull⟩⟩
    | receivedChained dat h0 hr =>
      simp only [WriteReadInv, I2cDriver.setSlot, I2cDriver.slot, I2cTransaction.advance,
        I2cTransaction.store, SIZE_MAX_PLUS_ONE]
      exact ⟨hws, hrs, hlt, Or.inr ⟨trivial, hfull⟩⟩

/-- The armed state of a `WriteRead` satisfies the invariant. -/
theorem writeReadInv_armed (writeBuffer : List Nat) (writeLength : Nat) (readBuffer : List Nat)
    (readLength : Nat) (w : I2cWorld) (hwl : writeLength < 2 ^ 32) :
    WriteReadInv writeLength (armedTransaction true false readBuffer readLength)
      (writeReadArmed writeBuffer writeLength readBuffer readLength w).driver := by
  simp only [writeReadArmed, start_driver]
  simp only [WriteReadInv, armedTransaction, SIZE_MAX_PLUS_ONE, Nat.zero_add]
  refine ⟨trivial, trivial, by omega, Or.inl ⟨trivial, trivial, ?_⟩⟩
  omega

/-- The invariant keeps the current pointer non-null. -/
theorem writeReadInv_current (writeLength : Nat) (readArmedSlot : I2cTransaction)
    (d : I2cDriver) (h : WriteReadInv writeLength readArmedSlot d) :
    d.currentI2cTransactionAction ≠ none := by
  obtain ⟨_, _, _, ⟨hc, _⟩ | ⟨hc, _⟩⟩ := h <;> simp [hc]

/-- Once the read slot is current it stays current. -/
theorem serve_current_read (evs : List IrqEvent) (w w1 : I2cWorld)
    (hc : w.driver.currentI2cTransactionAction = some .readSlot)
    (h : serve evs w = some w1) :
    w1.driver.currentI2cTransactionAction = some .readSlot := by
  obtain ⟨w2, h2, hc2⟩ := serve_inv
    (fun d => d.currentI2cTransactionAction = some .readSlot)
    (fun d s d1 hd _ hstep => by
      cases hstep <;> simp [hd, current_setSlot])
    evs w hc
  rw [h] at h2
  cases h2
  exact hc2

/-- `LPC24_I2c_WriteRead` with a non-null handle and a write length that fits
a `size_t` returns: it runs the wait loop from the armed state, the invariant
holds of the state the loop leaves, and the out-parameters are set by one of
the two branches of lines 314-325. -/
theorem writeRead_returns (writeBuffer : List Nat) (writeLength : Nat) (readBuffer : List Nat)
    (readLength : Nat) (result : TinyCLR_I2c_TransferStatus) (bus : Nat → List IrqEvent)
    (w : I2cWorld) (hwl : writeLength < 2 ^ 32) :
    ∃ r s out,
      waitLoop bus I2C_TRANSACTION_TIMEOUT
        (writeReadArmed writeBuffer writeLength readBuffer readLength w) = some r ∧
      r.world.driver.currentI2cTransactionAction = some s ∧
      WriteReadInv writeLength (armedTransaction true false readBuffer readLength)
        r.world.driver ∧
      LPC24_I2c_WriteRead (some ()) writeBuffer writeLength readBuffer readLength result bus w
        = some out ∧
      out.world = r.world ∧ out.delays = r.delays ∧
      out.code = (if r.timeout > 0 then .Success else .TimedOut) ∧
      (r.world.driver.writeI2cTransactionAction.bytesTransferred ≠ writeLength →
        out.writeLength = r.world.driver.writeI2cTransactionAction.bytesTransferred ∧
        out.readLength = readLength ∧ out.result = .PartialTransfer) ∧
      (r.world.driver.writeI2cTransactionAction.bytesTransferred = writeLength →
        out.writeLength = writeLength ∧
        out.readLength = r.world.driver.readI2cTransactionAction.bytesTransferred) := by
  obtain ⟨r, hr, hinv⟩ := waitLoop_inv
    (WriteReadInv writeLength (armedTransaction true false readBuffer readLength))
    (writeReadInv_step writeLength _) (writeReadInv_current writeLength _)
    bus I2C_TRANSACTION_TIMEOUT _
    (writeReadInv_armed writeBuffer writeLength readBuffer readLength w hwl)
  obtain ⟨_, _, s, hs, _⟩ := waitLoop_exit bus _ _ r hr
  by_cases hne : r.world.driver.writeI2cTransactionAction.bytesTransferred ≠ writeLength
  · have hout : LPC24_I2c_WriteRead (some ()) writeBuffer writeLength readBuffer readLength
        result bus w = some
          { code := if r.timeout > 0 then .Success else .TimedOut
            writeLength := r.world.driver.writeI2cTransactionAction.bytesTransferred
            readLength := readLength
            result := .PartialTransfer
            delays := r.delays
            world := r.world } := by
      simp only [LPC24_I2c_WriteRead, hr, hne, if_true, ne_eq, not_false_eq_true]
    exact ⟨r, s, _, hr, hs, hinv, hout, rfl, rfl, rfl, fun _ => ⟨rfl, rfl, rfl⟩,
      fun h => absurd h hne⟩
  · rw [not_not] at hne
    have hout : LPC24_I2c_WriteRead (some ()) writeBuffer writeLength readBuffer readLength
        result bus w = some
          { code := if r.timeout > 0 then .Success else .TimedOut
            writeLength := writeLength
            readLength := r.world.driver.readI2cTransactionAction.bytesTransferred
            result :=
              if (r.world.driver.slot s).bytesTransferred
                  = r.world.driver.readI2cTransactionAction.bytesTransferred then .FullTransfer
              else if (r.world.driver.slot s).bytesTransferred
                  < r.world.driver.readI2cTransactionAction.bytesTransferred
                  ∧ (r.world.driver.slot s).bytesTransferred > 0 then .PartialTransfer
              else result
            delays := r.delays
            world := r.world } := by
      simp only [LPC24_I2c_WriteRead, hr, hne, ne_eq, not_true_eq_false, if_false,
        I2cDriver.current, hs]
    exact ⟨r, s, _, hr, hs, hinv, hout, rfl, rfl, rfl,
      fun h => absurd hne h, fun _ => ⟨rfl, rfl⟩⟩

/-! ## C3 -/

/-- C3: `LPC24_I2c_WriteRead` called with a non-null handle returns, and when
the write slot has not transferred all `writeLength` bytes as the wait loop
ends: the write slot is still current and was current after every interrupt
served during the wait, the read slot is exactly as it was armed (its
`bytesTransferred` is 0), `writeLength` is set to the number of bytes written,
status-out is `PartialTransfer`, and `readLength` is as the caller passed it. -/
theorem C3_failed_write_phase_skips_read (writeBuffer : List Nat) (writeLength : Nat)
    (readBuffer : List Nat) (readLength : Nat) (result : TinyCLR_I2c_TransferStatus)
    (bus : Nat → List IrqEvent) (w : I2cWorld) (hwl : writeLength < 2 ^ 32) :
    ∃ r out,
      waitLoop bus I2C_TRANSACTION_TIMEOUT
        (writeReadArmed writeBuffer writeLength readBuffer readLength w) = some r ∧
      LPC24_I2c_WriteRead (some ()) writeBuffer writeLength readBuffer readLength result bus w
        = some out ∧
      out.world = r.world ∧
      (r.world.driver.writeI2cTransactionAction.bytesTransferred ≠ writeLength →
        r.world.driver.currentI2cTransactionAction = some .writeSlot ∧
        (∀ evs1 evs2,
          eventsDuring bus 0 (I2C_TRANSACTION_TIMEOUT - r.timeout) = evs1 ++ evs2 →
          ∃ w1, serve evs1 (writeReadArmed writeBuffer writeLength readBuffer readLength w)
              = some w1 ∧
            w1.driver.currentI2cTransactionAction = some .writeSlot) ∧
        r.world.driver.readI2cTransactionAction
          = armedTransaction true false readBuffer readLength ∧
        r.world.driver.readI2cTransactionAction.bytesTransferred = 0 ∧
        out.writeLength = r.world.driver.writeI2cTransactionAction.bytesTransferred ∧
        out.result = .PartialTransfer ∧
        out.readLength = readLength) := by
  obtain ⟨r, s, out, hr, hs, hinv, hout, hworld, _, _, hshort, _⟩ :=
    writeRead_returns writeBuffer writeLength readBuffer readLength result bus w hwl
  refine ⟨r, out, hr, hout, hworld, fun hne => ?_⟩
  obtain ⟨hw1, hw2, hw3⟩ := hshort hne
  have hcur : r.world.driver.currentI2cTransactionAction = some .writeSlot ∧
      r.world.driver.readI2cTransactionAction
        = armedTransaction true false readBuffer readLength := by
    obtain ⟨_, _, _, ⟨hc, hread, _⟩ | ⟨_, hfull⟩⟩ := hinv
    · exact ⟨hc, hread⟩
    · exact absurd hfull hne
  refine ⟨hcur.1, ?_, hcur.2, by rw [hcur.2]; rfl, hw1, hw3, hw2⟩
  intro evs1 evs2 hsplit
  obtain ⟨k, hk, hserve⟩ := waitLoop_serve bus _ _ r (le_refl _) hr
  have hk' : I2C_TRANSACTION_TIMEOUT - r.timeout = k := by omega
  rw [Nat.sub_self, ← hk', hsplit, serve_append] at hserve
  obtain ⟨w1, h1, hinv1⟩ := serve_inv
    (WriteReadInv writeLength (armedTransaction true false readBuffer readLength))
    (writeReadInv_step writeLength _) evs1 _
    (writeReadInv_armed writeBuffer writeLength readBuffer readLength w hwl)
  refine ⟨w1, h1, ?_⟩
  rw [h1, Option.some_bind] at hserve
  obtain ⟨_, _, _, ⟨hc, _⟩ | ⟨hc, _⟩⟩ := hinv1
  · exact hc
  · have := serve_current_read evs2 w1 r.world hc hserve
    rw [hcur.1] at this
    cases this

/-- C3 at a concrete input: a `WriteRead` of two bytes then two bytes whose
address is not acknowledged reports 0 bytes written, `PartialTransfer`, and
leaves `readLength` at 2. -/
theorem C3_failed_write_phase_witness :
    ∃ out, LPC24_I2c_WriteRead (some ()) [0x10, 0x11] 2 [0, 0] 2 (.other 9)
        (busAtOnce [⟨0x08, 0⟩, ⟨0x20, 0⟩]) idleWorld = some out ∧
      out.world.driver.currentI2cTransactionAction = some .writeSlot ∧
      out.world.driver.readI2cTransactionAction.bytesTransferred = 0 ∧
      out.writeLength = 0 ∧ out.result = .PartialTransfer ∧ out.readLength = 2 := by
  obtain ⟨r, out, hr, hout, hworld, h⟩ :=
    C3_failed_write_phase_skips_read [0x10, 0x11] 2 [0, 0] 2 (.other 9)
      (busAtOnce [⟨0x08, 0⟩, ⟨0x20, 0⟩]) idleWorld (by decide)
  have e : (waitLoop (busAtOnce [⟨0x08, 0⟩, ⟨0x20, 0⟩]) I2C_TRANSACTION_TIMEOUT
      (writeReadArmed [0x10, 0x11] 2 [0, 0] 2 idleWorld)).map
        (fun r => r.world.driver.writeI2cTransactionAction.bytesTransferred) = some 0 := by
    decide
  rw [hr] at e
  simp only [Option.map_some', Option.some.injEq] at e
  obtain ⟨h1, _, _, h4, h5, h6, h7⟩ := h (by rw [e]; decide)
  rw [e] at h5
  refine ⟨out, hout, ?_⟩
  rw [hworld]
  exact ⟨h1, h4, h5, h6, h7⟩

/-! ## C4 -/

/-- C4, the code at a failing input: a `WriteRead` whose one-byte write is
acknowledged and whose two-byte read loses arbitration after the first byte.
The read slot has transferred 1 of the 2 requested bytes, `readLength` is set
to 1, and status-out is `FullTransfer`: the comparison is made against
`readLength` after it was overwritten with the transferred count. -/
theorem C4_partial_chained_read_reported_full :
    ∃ out, LPC24_I2c_WriteRead (some ()) [0x10] 1 [0, 0] 2 (.other 9)
        (busAtOnce [⟨0x08, 0⟩, ⟨0x18, 0⟩, ⟨0x28, 0⟩, ⟨0x10, 0⟩, ⟨0x40, 0⟩, ⟨0x50, 7⟩,
          ⟨0x38, 0⟩]) idleWorld = some out ∧
      out.world.driver.writeI2cTransactionAction.bytesTransferred = 1 ∧
      out.world.driver.readI2cTransactionAction.bytesTransferred = 1 ∧
      out.readLength = 1 ∧ out.result = .FullTransfer ∧ out.result ≠ .PartialTransfer := by
  decide

/-! ## C5 -/

/-- What `LPC24_I2c_Read` and `LPC24_I2c_Write` report from a wait loop that
ends with the current transaction not done. -/
theorem transferFinish_timeout (length : Nat) (result : TinyCLR_I2c_TransferStatus)
    (bus : Nat → List IrqEvent) (w : I2cWorld) (r : WaitOut) (out : TransferOut)
    (hr : waitLoop bus I2C_TRANSACTION_TIMEOUT w = some r)
    (hf : transferFinish length result r = some out) :
    ∃ s, r.world.driver.currentI2cTransactionAction = some s ∧
      ((r.world.driver.slot s).isDone = false →
        out.delays = List.replicate 2000 1000 ∧ out.code = .TimedOut ∧
        out.length = (r.world.driver.slot s).bytesTransferred) := by
  obtain ⟨_, hdelays, s, hs, hnd⟩ := waitLoop_exit bus _ w r hr
  obtain ⟨s1, hs1, hf1⟩ := transferFinish_spec length result bus _ w r hr
  rw [hs] at hs1
  cases hs1
  rw [hf] at hf1
  cases hf1
  refine ⟨s, hs, fun hdone => ?_⟩
  have ht : r.timeout = 0 := hnd hdone
  refine ⟨?_, ?_, rfl⟩
  · show r.delays = _
    rw [hdelays, ht]
    rfl
  · show (if r.timeout > 0 then TinyCLR_Result.Success else TinyCLR_Result.TimedOut) = _
    rw [ht]
    rfl

/-- C5: `LPC24_I2c_Read`, `LPC24_I2c_Write` and `LPC24_I2c_WriteRead` called with
a non-null handle return, and when the current transaction's completion flag
is still clear as the wait loop ends, the loop has executed exactly 2000 delays
of 1000 microseconds, the result is `TimedOut`, and the length out-parameter
of the current transaction reports its `bytesTransferred`: `length` for `Read`
and `Write`; for `WriteRead`, `writeLength` reports the bytes written and,
when the chained read is current, `readLength` reports the bytes read. -/
theorem C5_timeout_reports_bytes_transferred (buffer : List Nat) (n : Nat)
    (writeBuffer : List Nat) (writeLength : Nat) (readBuffer : List Nat) (readLength : Nat)
    (result : TinyCLR_I2c_TransferStatus) (bus : Nat → List IrqEvent) (w : I2cWorld)
    (hwl : writeLength < 2 ^ 32) :
    (∃ r out s,
      waitLoop bus I2C_TRANSACTION_TIMEOUT (readArmed buffer n w) = some r ∧
      LPC24_I2c_Read (some ()) buffer n result bus w = some out ∧
      r.world.driver.currentI2cTransactionAction = some s ∧
      ((r.world.driver.slot s).isDone = false →
        out.delays = List.replicate 2000 1000 ∧ out.code = .TimedOut ∧
        out.length = (r.world.driver.slot s).bytesTransferred)) ∧
    (∃ r out s,
      waitLoop bus I2C_TRANSACTION_TIMEOUT (writeArmed buffer n w) = some r ∧
      LPC24_I2c_Write (some ()) buffer n result bus w = some out ∧
      r.world.driver.currentI2cTransactionAction = some s ∧
      ((r.world.driver.slot s).isDone = false →
        out.delays = List.replicate 2000 1000 ∧ out.code = .TimedOut ∧
        out.length = (r.world.driver.slot s).bytesTransferred)) ∧
    (∃ r out s,
      waitLoop bus I2C_TRANSACTION_TIMEOUT
        (writeReadArmed writeBuffer writeLength readBuffer readLength w) = some r ∧
      LPC24_I2c_WriteRead (some ()) writeBuffer writeLength readBuffer readLength
        result bus w = some out ∧
      r.world.driver.currentI2cTransactionAction = some s ∧
      ((r.world.driver.slot s).isDone = false →
        out.delays = List.replicate 2000 1000 ∧ out.code = .TimedOut ∧
        out.writeLength = r.world.driver.writeI2cTransactionAction.bytesTransferred ∧
        (s = .readSlot →
          out.readLength = r.world.driver.readI2cTransactionAction.bytesTransferred))) := by
  refine ⟨?_, ?_, ?_⟩
  · obtain ⟨r, out, hr, hf, hout⟩ := read_returns buffer n result bus w
    obtain ⟨s, hs, h⟩ := transferFinish_timeout n result bus _ r out hr hf
    exact ⟨r, out, s, hr, hout, hs, h⟩
  · obtain ⟨r, out, hr, hf, hout⟩ := write_returns buffer n result bus w
    obtain ⟨s, hs, h⟩ := transferFinish_timeout n result bus _ r out hr hf
    exact ⟨r, out, s, hr, hout, hs, h⟩
  · obtain ⟨r, s, out, hr, hs, hinv, hout, hworld, hdelays, hcode, hshort, hfull⟩ :=
      writeRead_returns writeBuffer writeLength readBuffer readLength result bus w hwl
    obtain ⟨_, hdel, s1, hs1, hnd⟩ := waitLoop_exit bus _ _ r hr
    rw [hs] at hs1
    cases hs1
    refine ⟨r, out, s, hr, hout, hs, ?_⟩
    intro hdone
    have ht : r.timeout = 0 := hnd hdone
    refine ⟨?_, ?_, ?_, ?_⟩
    · rw [hdelays, hdel, ht]
      rfl
    · rw [hcode, ht]
      rfl
    · by_cases hne : r.world.driver.writeI2cTransactionAction.bytesTransferred = writeLength
      · rw [(hfull hne).1, hne]
      · exact (hshort hne).1
    · intro hread
      subst hread
      obtain ⟨_, _, _, ⟨hc, _⟩ | ⟨_, hfullw⟩⟩ := hinv
      · rw [hs] at hc
        cases hc
      · exact (hfull hfullw).2

/-- A wait loop whose remaining delays raise no interrupt, entered with the
current transaction not done, runs down its `timeout` and changes nothing. -/
theorem waitLoop_quiet (bus : Nat → List IrqEvent) (n : Nat) (w : I2cWorld) (s : Slot)
    (hquiet : ∀ k, I2C_TRANSACTION_TIMEOUT - n ≤ k → bus k = [])
    (hc : w.driver.currentI2cTransactionAction = some s)
    (hd : (w.driver.slot s).isDone = false) :
    waitLoop bus n w = some { timeout := 0, delays := List.replicate n 1000, world := w } := by
  induction n with
  | zero => simp only [waitLoop, I2cDriver.current, hc, List.replicate]
  | succ n ih =>
    have h0 : bus (I2C_TRANSACTION_TIMEOUT - (n + 1)) = [] := hquiet _ (le_refl _)
    have ih' := ih (fun k hk => hquiet k (by omega))
    simp only [waitLoop, I2cDriver.current, hc, hd, if_true, h0, serve, ih', List.replicate]

/-- One turn of the wait loop, when the current transaction is not done. -/
theorem waitLoop_turn (bus : Nat → List IrqEvent) (n : Nat) (w w1 : I2cWorld) (s : Slot)
    (r : WaitOut)
    (hc : w.driver.currentI2cTransactionAction = some s)
    (hd : (w.driver.slot s).isDone = false)
    (h1 : serve (bus (I2C_TRANSACTION_TIMEOUT - (n + 1))) w = some w1)
    (hr : waitLoop bus n w1 = some r) :
    waitLoop bus (n + 1) w = some { r with delays := 1000 :: r.delays } := by
  simp only [waitLoop, I2cDriver.current, hc, hd, if_true, h1, hr]

/-- A wait loop of 2000 delays whose interrupts all come during the first
delay and leave the current transaction not done. -/
theorem waitLoop_busAtOnce (evs : List IrqEvent) (w w1 : I2cWorld) (s s1 : Slot)
    (hc : w.driver.currentI2cTransactionAction = some s)
    (hd : (w.driver.slot s).isDone = false)
    (h1 : serve evs w = some w1)
    (hc1 : w1.driver.currentI2cTransactionAction = some s1)
    (hd1 : (w1.driver.slot s1).isDone = false) :
    waitLoop (busAtOnce evs) I2C_TRANSACTION_TIMEOUT w =
      some { timeout := 0, delays := List.replicate 2000 1000, world := w1 } := by
  have hq : waitLoop (busAtOnce evs) 1999 w1 =
      some { timeout := 0, delays := List.replicate 1999 1000, world := w1 } :=
    waitLoop_quiet (busAtOnce evs) 1999 w1 s1
      (fun k hk => by
        have hk1 : k ≠ 0 := by
          simp only [I2C_TRANSACTION_TIMEOUT] at hk
          omega
        simp only [busAtOnce, hk1, if_false])
      hc1 hd1
  exact waitLoop_turn (busAtOnce evs) 1999 w w1 s _ hc hd h1 hq

/-- C5 at a concrete input: a two-byte read that receives one byte and then
nothing more, a two-byte write whose first byte is never acknowledged, and a
write-then-read that stalls in its read phase, each time out after 2000
delays and report the bytes moved so far. -/
theorem C5_timeout_witness :
    (∃ out, LPC24_I2c_Read (some ()) [0, 0] 2 (.other 9)
        (busAtOnce [⟨0x08, 0⟩, ⟨0x40, 0⟩, ⟨0x50, 7⟩]) idleWorld = some out ∧
      out.delays = List.replicate 2000 1000 ∧ out.code = .TimedOut ∧ out.length = 1) ∧
    (∃ out, LPC24_I2c_Write (some ()) [0xAA, 0xBB] 2 (.other 9)
        (busAtOnce [⟨0x08, 0⟩, ⟨0x18, 0⟩]) idleWorld = some out ∧
      out.delays = List.replicate 2000 1000 ∧ out.code = .TimedOut ∧ out.length = 1) ∧
    (∃ out, LPC24_I2c_WriteRead (some ()) [0x10] 1 [0, 0] 2 (.other 9)
        (busAtOnce [⟨0x08, 0⟩, ⟨0x18, 0⟩, ⟨0x28, 0⟩, ⟨0x10, 0⟩, ⟨0x40, 0⟩, ⟨0x50, 7⟩])
        idleWorld = some out ∧
      out.delays = List.replicate 2000 1000 ∧ out.code = .TimedOut ∧
      out.writeLength = 1 ∧ out.readLength = 1) := by
  refine ⟨?_, ?_, ?_⟩
  · obtain ⟨⟨r, out, s, hr, hout, hs, h⟩, _, _⟩ :=
      C5_timeout_reports_bytes_transferred [0, 0] 2 [] 0 [] 0 (.other 9)
        (busAtOnce [⟨0x08, 0⟩, ⟨0x40, 0⟩, ⟨0x50, 7⟩]) idleWorld (by decide)
    rw [waitLoop_busAtOnce [⟨0x08, 0⟩, ⟨0x40, 0⟩, ⟨0x50, 7⟩] (readArmed [0, 0] 2 idleWorld)
      (afterServing [⟨0x08, 0⟩, ⟨0x40, 0⟩, ⟨0x50, 7⟩] (readArmed [0, 0] 2 idleWorld))
      .readSlot .readSlot (by decide) (by decide) (by decide) (by decide) (by decide)] at hr
    cases hr
    have hs' : s = .readSlot := by
      have : some Slot.readSlot = some s := hs
      exact (Option.some.inj this).symm
    subst hs'
    obtain ⟨h1, h2, h3⟩ := h (by decide)
    exact ⟨out, hout, h1, h2, h3⟩
  · obtain ⟨_, ⟨r, out, s, hr, hout, hs, h⟩, _⟩ :=
      C5_timeout_reports_bytes_transferred [0xAA, 0xBB] 2 [] 0 [] 0 (.other 9)
        (busAtOnce [⟨0x08, 0⟩, ⟨0x18, 0⟩]) idleWorld (by decide)
    rw [waitLoop_busAtOnce [⟨0x08, 0⟩, ⟨0x18, 0⟩] (writeArmed [0xAA, 0xBB] 2 idleWorld)
      (afterServing [⟨0x08, 0⟩, ⟨0x18, 0⟩] (writeArmed [0xAA, 0xBB] 2 idleWorld))
      .writeSlot .writeSlot (by decide) (by decide) (by decide) (by decide) (by decide)] at hr
    cases hr
    have hs' : s = .writeSlot := by
      have : some Slot.writeSlot = some s := hs
      exact (Option.some.inj this).symm
    subst hs'
    obtain ⟨h1, h2, h3⟩ := h (by decide)
    exact ⟨out, hout, h1, h2, h3⟩
  · obtain ⟨_, _, ⟨r, out, s, hr, hout, hs, h⟩⟩ :=
      C5_timeout_reports_bytes_transferred [] 0 [0x10] 1 [0, 0] 2 (.other 9)
        (busAtOnce [⟨0x08, 0⟩, ⟨0x18, 0⟩, ⟨0x28, 0⟩, ⟨0x10, 0⟩, ⟨0x40, 0⟩, ⟨0x50, 7⟩])
        idleWorld (by decide)
    rw [waitLoop_busAtOnce [⟨0x08, 0⟩, ⟨0x18, 0⟩, ⟨0x28, 0⟩, ⟨0x10, 0⟩, ⟨0x40, 0⟩, ⟨0x50, 7⟩]
      (writeReadArmed [0x10] 1 [0, 0] 2 idleWorld)
      (afterServing [⟨0x08, 0⟩, ⟨0x18, 0⟩, ⟨0x28, 0⟩, ⟨0x10, 0⟩, ⟨0x40, 0⟩, ⟨0x50, 7⟩]
        (writeReadArmed [0x10] 1 [0, 0] 2 idleWorld))
      .writeSlot .readSlot (by decide) (by decide) (by decide) (by decide) (by decide)] at hr
    cases hr
    have hs' : s = .readSlot := by
      have : some Slot.readSlot = some s := hs
      exact (Option.some.inj this).symm
    subst hs'
    obtain ⟨h1, h2, h3, h4⟩ := h (by decide)
    exact ⟨out, hout, h1, h2, h3, h4 rfl⟩

/-! ## C6 -/

/-- C6, the code at a null handle: `LPC24_I2c_Read` and
`LPC24_I2c_SetActiveSettings` return `ArgumentNull` and leave the state
unchanged, while `LPC24_I2c_Write` and `LPC24_I2c_WriteRead` have no null test
and dereference the handle, whatever their other arguments. -/
theorem C6_write_and_writeRead_dereference_null_handle (buffer readBuffer : List Nat)
    (length readLength : Nat) (result : TinyCLR_I2c_TransferStatus)
    (bus : Nat → List IrqEvent) (w : I2cWorld) (c_I2C_Clk_KHz : Nat) (slaveAddress : Int)
    (busSpeed : TinyCLR_I2c_BusSpeed) :
    LPC24_I2c_Write none buffer length result bus w = none ∧
    LPC24_I2c_WriteRead none buffer length readBuffer readLength result bus w = none ∧
    LPC24_I2c_Read none buffer length result bus w =
      some { code := .ArgumentNull, length := length, result := result, delays := [],
             world := w } ∧
    LPC24_I2c_SetActiveSettings c_I2C_Clk_KHz none slaveAddress busSpeed w =
      (.ArgumentNull, w) :=
  ⟨rfl, rfl, rfl, rfl⟩

/-! ## C7 -/

/-- C7: with a non-null handle, `LPC24_I2c_SetActiveSettings` returns
`NotSupported` and leaves the whole state, hence the slave address and both
clock-divider bytes, unchanged for every bus speed other than `StandardMode`
and `FastMode`; for these two it returns `Success`. -/
theorem C7_setActiveSettings_bus_speed (c_I2C_Clk_KHz : Nat) (slaveAddress : Int)
    (w : I2cWorld) :
    (∀ busSpeed : TinyCLR_I2c_BusSpeed, busSpeed ≠ .StandardMode → busSpeed ≠ .FastMode →
      LPC24_I2c_SetActiveSettings c_I2C_Clk_KHz (some ()) slaveAddress busSpeed w =
        (.NotSupported, w)) ∧
    (LPC24_I2c_SetActiveSettings c_I2C_Clk_KHz (some ()) slaveAddress .StandardMode w).1 =
      .Success ∧
    (LPC24_I2c_SetActiveSettings c_I2C_Clk_KHz (some ()) slaveAddress .FastMode w).1 =
      .Success := by
  refine ⟨?_, rfl, rfl⟩
  intro busSpeed hs hf
  cases busSpeed with
  | StandardMode => exact absurd rfl hs
  | FastMode => exact absurd rfl hf
  | other raw => rfl

/-- C7 at a concrete input: an unrecognised bus speed is refused and the
configuration of the idle driver is unchanged. -/
theorem C7_setActiveSettings_witness :
    LPC24_I2c_SetActiveSettings 72000 (some ()) 0x3C (.other 2) idleWorld =
      (.NotSupported, idleWorld) :=
  (C7_setActiveSettings_bus_speed 72000 0x3C idleWorld).1 (.other 2)
    (by decide) (by decide)

/-! ## C8 -/

/-- C8: the divider that `LPC24_I2c_SetActiveSettings` computes from the
peripheral clock constant is strictly smaller for `FastMode` (400 kHz) than for
`StandardMode` (100 kHz).  The constant `c_I2C_Clk_KHz` is declared in
`LPC24.h`; the statement is for every value of it from 200 kHz up, below which
both quotients are 0. -/
theorem C8_fast_divider_below_standard_divider (c_I2C_Clk_KHz : Nat)
    (hclk : 200 ≤ c_I2C_Clk_KHz) :
    rateKhzOf .FastMode = some 400 ∧ rateKhzOf .StandardMode = some 100 ∧
      clockDivider c_I2C_Clk_KHz 400 < clockDivider c_I2C_Clk_KHz 100 := by
  refine ⟨rfl, rfl, ?_⟩
  unfold clockDivider
  norm_num
  omega

/-- C8 at a concrete input: a 72 MHz peripheral clock gives 90 and 360. -/
theorem C8_fast_divider_witness :
    clockDivider 72000 400 = 90 ∧ clockDivider 72000 100 = 360 ∧
      clockDivider 72000 400 < clockDivider 72000 100 :=
  ⟨by decide, by decide, (C8_fast_divider_below_standard_divider 72000 (by decide)).2.2⟩

/-- The bound of C8 on the clock constant is sharp: below 200 kHz both
dividers are 0. -/
theorem clockDivider_small_clock (c_I2C_Clk_KHz : Nat) (hclk : c_I2C_Clk_KHz < 200) :
    clockDivider c_I2C_Clk_KHz 400 = 0 ∧ clockDivider c_I2C_Clk_KHz 100 = 0 := by
  unfold clockDivider
  norm_num
  omega

/-! ## A write whose bytes are all acknowledged -/

@[simp] theorem setSlot_setSlot (d : I2cDriver) (s : Slot) (t t1 : I2cTransaction) :
    (d.setSlot s t).setSlot s t1 = d.setSlot s t1 := by
  cases s <;> rfl

/-- The handler on a start or repeated-start status: it sends the address
byte, clears `STA`, then `SI`, and leaves the driver alone. -/
theorem handler_startSent (ev : IrqEvent) (w : I2cWorld) (s : Slot)
    (hc : w.driver.currentI2cTransactionAction = some s)
    (hev : statusCase (ev.status % 256) = .startSent) :
    LPC24_I2c_InterruptHandler ev w = some
      { driver := w.driver
        regs := w.regs ++ [.I2DAT (addressByte w.driver.i2cConfiguration.address
          (w.driver.slot s).isReadTransaction), .I2CONCLR [.STA], .I2CONCLR [.SI]] } := by
  simp only [LPC24_I2c_InterruptHandler, hc, interruptSwitch, hev, I2cWorld.write,
    List.append_assoc, List.cons_append, List.nil_append]

/-- The handler on an acknowledge status while byte `j` of a plain write is
due: it sends the byte, counts it, and clears `SI`. -/
theorem handler_writeAck_send (ev : IrqEvent) (w : I2cWorld) (b : List Nat) (j : Nat)
    (hc : w.driver.currentI2cTransactionAction = some .writeSlot)
    (hslot : w.driver.writeI2cTransactionAction = writeProgress b j)
    (hj : j < b.length) (hlen : b.length < 2 ^ 32)
    (hev : statusCase (ev.status % 256) = .writeAck) :
    LPC24_I2c_InterruptHandler ev w = some
      { driver := w.driver.setSlot .writeSlot (writeProgress b (j + 1))
        regs := w.regs ++ [.I2DAT (b.getD j 0), .I2CONCLR [.SI]] } := by
  have hne : ¬ (b.length - j = 0) := by omega
  have hadv : (writeProgress b j).advance = writeProgress b (j + 1) := by
    simp only [writeProgress, I2cTransaction.advance, sizeIncrement, sizeDecrement,
      SIZE_MAX_PLUS_ONE, if_neg hne]
    congr 1
    omega
  simp only [LPC24_I2c_InterruptHandler, hc, interruptSwitch, hev, I2cDriver.slot, hslot]
  simp only [writeProgress, if_neg hne] at hadv ⊢
  simp only [hadv, I2cWorld.write, I2cWorld.setSlot, List.append_assoc, List.cons_append,
    List.nil_append]

/-- The handler on an acknowledge status once every byte of a plain write was
sent: it issues a stop, sets the completion flag, and clears `SI`. -/
theorem handler_writeAck_stop (ev : IrqEvent) (w : I2cWorld) (b : List Nat)
    (hc : w.driver.currentI2cTransactionAction = some .writeSlot)
    (hslot : w.driver.writeI2cTransactionAction = writeProgress b b.length)
    (hev : statusCase (ev.status % 256) = .writeAck) :
    LPC24_I2c_InterruptHandler ev w = some
      { driver := w.driver.setSlot .writeSlot { writeProgress b b.length with isDone := true }
        regs := w.regs ++ [.I2CONSET [.STO], .I2CONCLR [.AA, .SI, .STA], .I2CONCLR [.SI]] } := by
  simp only [LPC24_I2c_InterruptHandler, hc, interruptSwitch, hev, I2cDriver.slot, hslot]
  simp only [writeProgress, Nat.sub_self, if_true, stopOrChain]
  rw [stop_eq w .writeSlot hc]
  simp only [I2cDriver.slot, hslot, writeProgress, Nat.sub_self, I2cWorld.write,
    I2cWorld.setSlot, List.append_assoc, List.cons_append, List.nil_append]

/-- Serving `k` acknowledge statuses while at least `k` bytes of a plain
write remain sends the next `k` bytes of the buffer. -/
theorem serve_writeAcks (b : List Nat) (hlen : b.length < 2 ^ 32) (evs : List IrqEvent)
    (w : I2cWorld) (j : Nat)
    (hc : w.driver.currentI2cTransactionAction = some .writeSlot)
    (hslot : w.driver.writeI2cTransactionAction = writeProgress b j)
    (hroom : j + evs.length ≤ b.length)
    (hevs : ∀ ev ∈ evs, statusCase (ev.status % 256) = .writeAck) :
    serve evs w = some
      { driver := w.driver.setSlot .writeSlot (writeProgress b (j + evs.length))
        regs := w.regs ++ sentBytes ((b.drop j).take evs.length) } := by
  induction evs generalizing w j with
  | nil =>
    simp only [serve, List.length_nil, Nat.add_zero, List.take_zero, sentBytes,
      List.append_nil, ← hslot]
    cases w with
    | mk d regs => cases d; rfl
  | cons ev evs ih =>
    have hj : j < b.length := by
      simp only [List.length_cons] at hroom
      omega
    have h1 := handler_writeAck_send ev w b j hc hslot hj hlen
      (hevs ev (List.mem_cons_self _ _))
    have h2 := ih
      { driver := w.driver.setSlot .writeSlot (writeProgress b (j + 1))
        regs := w.regs ++ [.I2DAT (b.getD j 0), .I2CONCLR [.SI]] }
      (j + 1) (by simp only [current_setSlot, hc]) (by simp only [I2cDriver.setSlot])
      (by simp only [List.length_cons] at hroom; omega)
      (fun e he => hevs e (List.mem_cons_of_mem _ he))
    simp only [serve, h1, h2, setSlot_setSlot, List.length_cons]
    have e1 : j + 1 + evs.length = j + (evs.length + 1) := by omega
    have e2 : (b.drop j).take (evs.length + 1)
        = b.getD j 0 :: (b.drop (j + 1)).take evs.length := by
      rw [List.drop_eq_getElem_cons hj, List.take_succ_cons, List.getD_eq_getElem _ _ hj]
    rw [e1, e2]
    simp only [sentBytes, List.append_assoc, List.cons_append, List.nil_append]

/-- From the armed state of a plain write, the start status followed by at
most `b.length` acknowledge statuses leads to `writeRunState`. -/
theorem serve_write_started (b : List Nat) (hlen : b.length < 2 ^ 32) (w : I2cWorld)
    (ev0 : IrqEvent) (acks : List IrqEvent)
    (h0 : statusCase (ev0.status % 256) = .startSent)
    (hacks : ∀ ev ∈ acks, statusCase (ev.status % 256) = .writeAck)
    (hroom : acks.length ≤ b.length) :
    serve (ev0 :: acks) (writeArmed b b.length w) = some (writeRunState b w acks.length) := by
  have hc : (writeArmed b b.length w).driver.currentI2cTransactionAction = some .writeSlot := by
    simp only [writeArmed, start_driver]
  have hs : (writeArmed b b.length w).driver.writeI2cTransactionAction = writeProgress b 0 := by
    simp only [writeArmed, start_driver, armedTransaction, writeProgress, Nat.sub_zero]
  have hcfg : (writeArmed b b.length w).driver.i2cConfiguration = w.driver.i2cConfiguration := by
    simp only [writeArmed, start_driver]
  have h1 := handler_startSent ev0 (writeArmed b b.length w) .writeSlot hc h0
  have h2 := serve_writeAcks b hlen acks
    { driver := (writeArmed b b.length w).driver
      regs := (writeArmed b b.length w).regs ++
        [.I2DAT (addressByte (writeArmed b b.length w).driver.i2cConfiguration.address
          ((writeArmed b b.length w).driver.slot .writeSlot).isReadTransaction),
          .I2CONCLR [.STA], .I2CONCLR [.SI]] }
    0 hc hs (by omega) hacks
  have haddr : addressByte (writeArmed b b.length w).driver.i2cConfiguration.address
      ((writeArmed b b.length w).driver.slot .writeSlot).isReadTransaction
      = addressByte w.driver.i2cConfiguration.address false := by
    rw [hcfg]
    simp only [I2cDriver.slot, hs, writeProgress]
  rw [haddr] at h1 h2
  simp only [serve, h1]
  rw [h2]
  simp only [writeRunState, Nat.zero_add, List.drop_zero]

/-- One more acknowledge status after the last byte ends the write. -/
theorem serve_write_full (b : List Nat) (hlen : b.length < 2 ^ 32) (w : I2cWorld)
    (ev0 : IrqEvent) (acks : List IrqEvent) (last : IrqEvent)
    (h0 : statusCase (ev0.status % 256) = .startSent)
    (hacks : ∀ ev ∈ acks, statusCase (ev.status % 256) = .writeAck)
    (hlast : statusCase (last.status % 256) = .writeAck)
    (hcount : acks.length = b.length) :
    serve (ev0 :: (acks ++ [last])) (writeArmed b b.length w) = some (writeRunDone b w) := by
  have hp := serve_write_started b hlen w ev0 acks h0 hacks (le_of_eq hcount)
  have hstop := handler_writeAck_stop last (writeRunState b w b.length) b
    (by simp only [writeRunState, current_setSlot, writeArmed, start_driver])
    (by simp only [writeRunState, I2cDriver.setSlot])
    hlast
  rw [← List.cons_append, serve_append, hp, Option.some_bind, hcount]
  simp only [serve, hstop]
  simp only [writeRunState, writeRunDone, setSlot_setSlot, List.take_length]

/-- The data-register writes of a concatenation. -/
theorem dataWrites_append (xs ys : List I2cRegWrite) :
    dataWrites (xs ++ ys) = dataWrites xs ++ dataWrites ys := by
  induction xs with
  | nil => rfl
  | cons x xs ih =>
    cases x <;> simp [dataWrites, ih]

/-- The data-register writes of the interrupts that send bytes are the bytes. -/
theorem dataWrites_sentBytes (bs : List Nat) : dataWrites (sentBytes bs) = bs := by
  induction bs with
  | nil => rfl
  | cons x xs ih => simp only [sentBytes, dataWrites, ih]

/-- The register history of the armed state of a plain write: the clock
divider registers are programmed and a start is requested. -/
theorem writeArmed_regs (b : List Nat) (n : Nat) (w : I2cWorld) :
    (writeArmed b n w).regs = w.regs ++
      [.I2SCLH (w.driver.i2cConfiguration.clockRate
          ||| (w.driver.i2cConfiguration.clockRate2 <<< 8)),
       .I2SCLL (w.driver.i2cConfiguration.clockRate
          ||| (w.driver.i2cConfiguration.clockRate2 <<< 8)),
       .I2CONSET [.STA]] := by
  simp [writeArmed, LPC24_I2c_StartTransaction, armedTransaction]

/-- A bus that is silent from some delay on raises nothing from there on. -/
theorem eventsDuring_quiet (bus : Nat → List IrqEvent) (first count : Nat)
    (hquiet : ∀ k, first ≤ k → bus k = []) : eventsDuring bus first count = [] := by
  induction count generalizing first with
  | zero => rfl
  | succ count ih =>
    simp only [eventsDuring, hquiet first (le_refl _), List.nil_append]
    exact ih (first + 1) (fun k hk => hquiet k (by omega))

/-- The interrupts of `busAtOnce` over a whole wait are the given ones. -/
theorem eventsDuring_busAtOnce (evs : List IrqEvent) :
    eventsDuring (busAtOnce evs) 0 I2C_TRANSACTION_TIMEOUT = evs := by
  have hq := eventsDuring_quiet (busAtOnce evs) (0 + 1) 1999 (fun k hk => by
    have hk1 : k ≠ 0 := by omega
    simp only [busAtOnce, hk1, if_false])
  have hstep : eventsDuring (busAtOnce evs) 0 (1999 + 1)
      = busAtOnce evs 0 ++ eventsDuring (busAtOnce evs) (0 + 1) 1999 := rfl
  show eventsDuring (busAtOnce evs) 0 (1999 + 1) = evs
  rw [hstep, hq, List.append_nil]
  rfl

/-- The state a plain write of `b` is left in when the interrupts of the wait
are the start status followed by `b.length + 1` acknowledge statuses. -/
theorem write_run_world (b : List Nat) (bus : Nat → List IrqEvent) (w : I2cWorld)
    (r : WaitOut) (hlen : b.length < 2 ^ 32)
    (hbus : (eventsDuring bus 0 I2C_TRANSACTION_TIMEOUT).map (fun ev => ev.status)
      = 0x08 :: 0x18 :: List.replicate b.length 0x28)
    (hr : waitLoop bus I2C_TRANSACTION_TIMEOUT (writeArmed b b.length w) = some r) :
    r.world = writeRunDone b w := by
  obtain ⟨k, hk, hserve⟩ := waitLoop_serve bus _ _ r (le_refl _) hr
  rw [Nat.sub_self] at hserve
  obtain ⟨_, _, s, hs, hnd⟩ := waitLoop_exit bus _ _ r hr
  have hsplit : eventsDuring bus 0 I2C_TRANSACTION_TIMEOUT
      = eventsDuring bus 0 k ++ eventsDuring bus (0 + k) r.timeout := by
    rw [← hk]
    exact eventsDuring_add bus 0 k r.timeout
  -- the whole sequence of interrupts
  obtain ⟨ev0, rest, hall, hev0, hrest⟩ := List.map_eq_cons_iff.mp hbus
  have h0 : statusCase (ev0.status % 256) = .startSent := by
    rw [hev0]
    rfl
  have hrestlen : rest.length = b.length + 1 := by
    have := congrArg List.length hrest
    simpa using this
  have hrestack : ∀ ev ∈ rest, statusCase (ev.status % 256) = .writeAck := by
    intro ev hev
    have hmem : ev.status ∈ rest.map (fun ev => ev.status) := List.mem_map_of_mem _ hev
    rw [hrest] at hmem
    rcases List.mem_cons.mp hmem with h | h
    · rw [h]; rfl
    · rw [List.eq_of_mem_replicate h]; rfl
  have hne : rest ≠ [] := by
    intro h
    rw [h] at hrestlen
    simp at hrestlen
  have hfull : serve (eventsDuring bus 0 I2C_TRANSACTION_TIMEOUT) (writeArmed b b.length w)
      = some (writeRunDone b w) := by
    rw [hall, ← List.dropLast_append_getLast hne]
    apply serve_write_full b hlen w ev0 rest.dropLast (rest.getLast hne) h0
    · exact fun ev hev => hrestack ev (List.mem_of_mem_dropLast hev)
    · exact hrestack _ (List.getLast_mem hne)
    · simp [hrestlen]
  -- either nothing is left to serve, or the loop stopped early with the write not done
  by_cases hR : eventsDuring bus (0 + k) r.timeout = []
  · rw [hsplit, hR, List.append_nil, hserve] at hfull
    exact Option.some.inj hfull
  · exfalso
    have hnotdone : (r.world.driver.slot s).isDone = false := by
      cases hP : eventsDuring bus 0 k with
      | nil =>
        rw [hP] at hserve
        simp only [serve, Option.some.injEq] at hserve
        rw [← hserve] at hs ⊢
        have hcs : s = .writeSlot := by
          simp only [writeArmed, start_driver] at hs
          exact (Option.some.inj hs).symm
        subst hcs
        simp only [writeArmed, start_driver, I2cDriver.slot, armedTransaction]
      | cons e P' =>
        rw [hP] at hsplit hserve
        rw [hall] at hsplit
        simp only [List.cons_append, List.cons.injEq] at hsplit
        obtain ⟨he, hrest2⟩ := hsplit
        subst he
        have hP'len : P'.length ≤ b.length := by
          have := congrArg List.length hrest2
          simp only [List.length_append, hrestlen] at this
          have hRlen : 0 < (eventsDuring bus (0 + k) r.timeout).length :=
            List.length_pos.mpr hR
          omega
        have hP'ack : ∀ ev ∈ P', statusCase (ev.status % 256) = .writeAck := by
          intro ev hev
          apply hrestack
          rw [hrest2]
          exact List.mem_append_left _ hev
        rw [serve_write_started b hlen w ev0 P' h0 hP'ack hP'len] at hserve
        simp only [Option.some.injEq] at hserve
        rw [← hserve] at hs ⊢
        have hcs : s = .writeSlot := by
          simp only [writeRunState, current_setSlot, writeArmed, start_driver] at hs
          exact (Option.some.inj hs).symm
        subst hcs
        simp only [writeRunState, I2cDriver.slot, I2cDriver.setSlot, writeProgress]
    have ht : r.timeout = 0 := hnd hnotdone
    rw [ht] at hR
    exact hR rfl

/-! ## C9 -/

/-- C9: a `Write` of a buffer `b` on a bus whose interrupts during the wait are
the start status 0x08, the address acknowledge 0x18 and `b.length` data
acknowledges 0x28, however they are spread over the delays.  The call
returns; the register writes are the clock programming and start request of
`LPC24_I2c_StartTransaction`, the address byte with read bit 0, the bytes of
`b` in order, each followed by the clearing of `SI`, and at the last interrupt
the stop, so that the values written to the data register are the address
byte followed by `b`; the completion flag is set; and the call reports length
`b.length` with status `FullTransfer`.  (The statement covers every length
that fits a `size_t`, in particular `b.length ≥ 1`.) -/
theorem C9_write_all_bytes_acknowledged (b : List Nat) (result : TinyCLR_I2c_TransferStatus)
    (bus : Nat → List IrqEvent) (w : I2cWorld) (hlen : b.length < 2 ^ 32)
    (hbus : (eventsDuring bus 0 I2C_TRANSACTION_TIMEOUT).map (fun ev => ev.status)
      = 0x08 :: 0x18 :: List.replicate b.length 0x28) :
    ∃ out, LPC24_I2c_Write (some ()) b b.length result bus w = some out ∧
      out.world.regs = w.regs ++
        [.I2SCLH (w.driver.i2cConfiguration.clockRate
            ||| (w.driver.i2cConfiguration.clockRate2 <<< 8)),
         .I2SCLL (w.driver.i2cConfiguration.clockRate
            ||| (w.driver.i2cConfiguration.clockRate2 <<< 8)),
         .I2CONSET [.STA]]
        ++ [.I2DAT (addressByte w.driver.i2cConfiguration.address false), .I2CONCLR [.STA],
            .I2CONCLR [.SI]]
        ++ sentBytes b
        ++ [.I2CONSET [.STO], .I2CONCLR [.AA, .SI, .STA], .I2CONCLR [.SI]] ∧
      dataWrites out.world.regs
        = dataWrites w.regs ++ addressByte w.driver.i2cConfiguration.address false :: b ∧
      out.world.driver.writeI2cTransactionAction.isDone = true ∧
      out.length = b.length ∧ out.result = .FullTransfer := by
  obtain ⟨r, out, hr, hf, hout⟩ := write_returns b b.length result bus w
  have hworld := write_run_world b bus w r hlen hbus hr
  obtain ⟨s, hs, hf1⟩ := transferFinish_spec b.length result bus _ _ r hr
  rw [hf] at hf1
  have hcs : s = .writeSlot := by
    rw [hworld] at hs
    simp only [writeRunDone, current_setSlot, writeArmed, start_driver] at hs
    exact (Option.some.inj hs).symm
  subst hcs
  have hbt : (r.world.driver.slot .writeSlot).bytesTransferred = b.length := by
    rw [hworld]
    simp only [writeRunDone, I2cDriver.slot, I2cDriver.setSlot, writeProgress]
  rw [hbt] at hf1
  simp only [if_true, Option.some.injEq] at hf1
  subst hf1
  have hregs : r.world.regs = w.regs ++
        [.I2SCLH (w.driver.i2cConfiguration.clockRate
            ||| (w.driver.i2cConfiguration.clockRate2 <<< 8)),
         .I2SCLL (w.driver.i2cConfiguration.clockRate
            ||| (w.driver.i2cConfiguration.clockRate2 <<< 8)),
         .I2CONSET [.STA]]
        ++ [.I2DAT (addressByte w.driver.i2cConfiguration.address false), .I2CONCLR [.STA],
            .I2CONCLR [.SI]]
        ++ sentBytes b
        ++ [.I2CONSET [.STO], .I2CONCLR [.AA, .SI, .STA], .I2CONCLR [.SI]] := by
    rw [hworld]
    simp only [writeRunDone, writeArmed_regs]
  refine ⟨_, hout, hregs, ?_, ?_, rfl, rfl⟩
  · show dataWrites r.world.regs = _
    rw [hregs]
    simp only [dataWrites_append, dataWrites_sentBytes, dataWrites, List.append_nil,
      List.append_assoc, List.nil_append, List.cons_append]
  · show r.world.driver.writeI2cTransactionAction.isDone = true
    rw [hworld]
    simp only [writeRunDone, I2cDriver.setSlot]

/-- C9 at the input of the scenario: `Write([0xAA, 0xBB], 2)` to the slave at
address 0x50, every byte acknowledged.  The data register receives 0xA0, 0xAA,
0xBB, and the call reports length 2 with `FullTransfer`. -/
theorem C9_write_AA_BB_witness :
    ∃ out, LPC24_I2c_Write (some ()) [0xAA, 0xBB] 2 (.other 9)
        (busAtOnce [⟨0x08, 0⟩, ⟨0x18, 0⟩, ⟨0x28, 0⟩, ⟨0x28, 0⟩]) idleWorld = some out ∧
      dataWrites out.world.regs = [0xA0, 0xAA, 0xBB] ∧
      out.world.driver.writeI2cTransactionAction.isDone = true ∧
      out.length = 2 ∧ out.result = .FullTransfer := by
  obtain ⟨out, hout, _, hdat, hdone, hl, hres⟩ :=
    C9_write_all_bytes_acknowledged [0xAA, 0xBB] (.other 9)
      (busAtOnce [⟨0x08, 0⟩, ⟨0x18, 0⟩, ⟨0x28, 0⟩, ⟨0x28, 0⟩]) idleWorld (by decide)
      (by rw [eventsDuring_busAtOnce]; rfl)
  exact ⟨out, hout, hdat, hdone, hl, hres⟩

/-! ## C10 -/

/-- The busy-wait exits when one of the coming reads has a bit of the mask. -/
theorem spinUntil_some (mask : Nat) (reads : List Nat)
    (h : ∃ v ∈ reads, v &&& mask ≠ 0) : ∃ rest, spinUntil mask reads = some rest := by
  induction reads with
  | nil => simp at h
  | cons v vs ih =>
    unfold spinUntil
    by_cases hv : v &&& mask = 0
    · rw [if_pos hv]
      apply ih
      obtain ⟨x, hx, hx0⟩ := h
      rcases List.mem_cons.mp hx with rfl | hmem
      · exact absurd hv hx0
      · exact ⟨x, hmem, hx0⟩
    · rw [if_neg hv]
      exact ⟨vs, rfl⟩

/-- The loop over the endpoints leaves both flags false for every endpoint
below the count, and touches nothing but the two arrays. -/
theorem foldl_clearTxState (n : Nat) (d : UsbDeviceDriver) :
    (∀ ep, ep < n → ((List.range n).foldl clearTxState d).txRunning ep = false ∧
      ((List.range n).foldl clearTxState d).txNeedZLPS ep = false) ∧
    ((List.range n).foldl clearTxState d).previousDeviceState = d.previousDeviceState ∧
    ((List.range n).foldl clearTxState d).firstDescriptorPacket = d.firstDescriptorPacket := by
  induction n with
  | zero => exact ⟨fun ep h => absurd h (Nat.not_lt_zero ep), rfl, rfl⟩
  | succ n ih =>
    rw [List.range_succ, List.foldl_append]
    obtain ⟨ih1, ih2, ih3⟩ := ih
    refine ⟨fun ep hep => ?_, ih2, ih3⟩
    by_cases he : ep = n
    · subst he
      simp [clearTxState]
    · have hlt : ep < n := by omega
      simp [clearTxState, Function.update_noteq he, ih1 ep hlt]

/-- C10: `LPC24_UsbDevice_ResetEvent` returns once the hardware reports the
control endpoints realised, and then, whatever the state before:
`txRunning[ep]` and `txNeedZLPS[ep]` are false for every endpoint below
`LPC24_USB_ENDPOINT_COUNT`, the device state is `USB_DEVICE_STATE_DEFAULT`, and
the client's address and the pending device-address byte are 0.  The client
layer's state callback, which runs last, is taken to leave `deviceState` and
`address` as it finds them. -/
theorem C10_reset_event_clears_tx_state (k : UsbConstants) (client : UsbClientLayer)
    (w : UsbWorld)
    (hcallback : ∀ s, (client.TinyCLR_UsbClient_StateCallback s).deviceState = s.deviceState ∧
      (client.TinyCLR_UsbClient_StateCallback s).address = s.address)
    (hrealised : ∃ v ∈ w.devIntSt, v &&& EP_RLZED_INT ≠ 0) :
    ∃ w1, LPC24_UsbDevice_ResetEvent k client w = some w1 ∧
      (∀ ep, ep < k.LPC24_USB_ENDPOINT_COUNT →
        w1.driver.txRunning ep = false ∧ w1.driver.txNeedZLPS ep = false) ∧
      w1.usClientState.deviceState = k.USB_DEVICE_STATE_DEFAULT ∧
      w1.usClientState.address = 0 ∧
      w1.LPC24_UsbDevice_DeviceAddress = 0 := by
  obtain ⟨rest, hrest⟩ := spinUntil_some EP_RLZED_INT w.devIntSt hrealised
  have hreset : ∃ w0, LPC24_UsbDevice_HardwareReset w = some w0 := by
    unfold LPC24_UsbDevice_HardwareReset
    simp only [UsbWorld.write, hrest]
    exact ⟨_, rfl⟩
  obtain ⟨w0, hw0⟩ := hreset
  unfold LPC24_UsbDevice_ResetEvent
  simp only [hw0]
  refine ⟨_, rfl, ?_, ?_, ?_, rfl⟩
  · exact (foldl_clearTxState k.LPC24_USB_ENDPOINT_COUNT _).1
  · exact (hcallback _).1
  · exact (hcallback _).2

/-- C10 at a concrete input: reset of the busy device above, with 16 endpoints
and 3 as the value of `USB_DEVICE_STATE_DEFAULT`. -/
theorem C10_reset_event_witness :
    ∃ w1, LPC24_UsbDevice_ResetEvent ⟨16, 3⟩ quietClient busyUsbWorld = some w1 ∧
      (∀ ep, ep < 16 → w1.driver.txRunning ep = false ∧ w1.driver.txNeedZLPS ep = false) ∧
      w1.usClientState.deviceState = 3 ∧ w1.usClientState.address = 0 ∧
      w1.LPC24_UsbDevice_DeviceAddress = 0 :=
  C10_reset_event_clears_tx_state ⟨16, 3⟩ quietClient busyUsbWorld
    (fun _ => ⟨rfl, rfl⟩) ⟨0x100, by decide, by decide⟩

/-! ## The command engine -/

@[simp] theorem ran_driver (w : UsbWorld) (a : List UsbRegWrite) (r : List Nat) :
    (w.ran a r).driver = w.driver := rfl

@[simp] theorem ran_usClientState (w : UsbWorld) (a : List UsbRegWrite) (r : List Nat) :
    (w.ran a r).usClientState = w.usClientState := rfl

@[simp] theorem ran_deviceAddress (w : UsbWorld) (a : List UsbRegWrite) (r : List Nat) :
    (w.ran a r).LPC24_UsbDevice_DeviceAddress = w.LPC24_UsbDevice_DeviceAddress := rfl

@[simp] theorem ran_regs (w : UsbWorld) (a : List UsbRegWrite) (r : List Nat) :
    (w.ran a r).regs = w.regs ++ a := rfl

@[simp] theorem ran_devIntSt (w : UsbWorld) (a : List UsbRegWrite) (r : List Nat) :
    (w.ran a r).devIntSt = r := rfl

@[simp] theorem ran_nacking (w : UsbWorld) (a : List UsbRegWrite) (r : List Nat) :
    (w.ran a r).nacking_rx_OUT_data = w.nacking_rx_OUT_data := rfl

@[simp] theorem ran_rxPLen (w : UsbWorld) (a : List UsbRegWrite) (r : List Nat) :
    (w.ran a r).rxPLen = w.rxPLen := rfl

@[simp] theorem ran_rxData (w : UsbWorld) (a : List UsbRegWrite) (r : List Nat) :
    (w.ran a r).rxData = w.rxData := rfl

@[simp] theorem ran_epIntSt (w : UsbWorld) (a : List UsbRegWrite) (r : List Nat) :
    (w.ran a r).epIntSt = w.epIntSt := rfl

@[simp] theorem ran_cmdData (w : UsbWorld) (a : List UsbRegWrite) (r : List Nat) :
    (w.ran a r).cmdData = w.cmdData := rfl

@[simp] theorem ran_controlNextCalls (w : UsbWorld) (a : List UsbRegWrite) (r : List Nat) :
    (w.ran a r).controlNextCalls = w.controlNextCalls := rfl

/-- Two command sequences in a row. -/
@[simp] theorem ran_ran (w : UsbWorld) (a b : List UsbRegWrite) (r s : List Nat) :
    (w.ran a r).ran b s = w.ran (a ++ b) s := by
  simp only [UsbWorld.ran, List.append_assoc]

/-- Register writes without a wait. -/
theorem write_eq_ran (w : UsbWorld) (a : List UsbRegWrite) : w.write a = w.ran a w.devIntSt := rfl

/-- A busy-wait that ends leaves the reads that follow. -/
theorem await_eq (w : UsbWorld) (mask : Nat) (rest : List Nat)
    (h : afterWaits [mask] w.devIntSt = some rest) :
    w.await mask = some (w.ran [] rest) := by
  simp only [afterWaits] at h
  cases hs : spinUntil mask w.devIntSt with
  | none => simp [hs] at h
  | some r1 =>
    simp only [hs, Option.some.injEq] at h
    subst h
    simp only [UsbWorld.await, hs, UsbWorld.ran, List.append_nil]

/-- Successive busy-waits split where a first group ends. -/
theorem afterWaits_append (m1 m2 : List Nat) (reads rest : List Nat)
    (h : afterWaits (m1 ++ m2) reads = some rest) :
    ∃ mid, afterWaits m1 reads = some mid ∧ afterWaits m2 mid = some rest := by
  induction m1 generalizing reads with
  | nil => exact ⟨reads, rfl, h⟩
  | cons m ms ih =>
    simp only [List.cons_append, afterWaits] at h ⊢
    cases hs : spinUntil m reads with
    | none => simp [hs] at h
    | some r1 =>
      simp only [hs] at h ⊢
      exact ih r1 h

/-- `LPC24_UsbDevice_WrCmd` when its wait ends. -/
theorem wrCmd_eq (cmd : Nat) (w : UsbWorld) (rest : List Nat)
    (h : afterWaits [CCEMTY_INT] w.devIntSt = some rest) :
    LPC24_UsbDevice_WrCmd cmd w = some (w.ran (wrCmdWrites cmd) rest) := by
  have e := await_eq (w.write [.USBDevIntClr (CCEMTY_INT ||| CDFULL_INT), .USBCmdCode cmd])
    CCEMTY_INT rest h
  rw [LPC24_UsbDevice_WrCmd, e, write_eq_ran, ran_ran, List.append_nil, wrCmdWrites]

/-- `LPC24_UsbDevice_WrCmdDat` when its two waits end. -/
theorem wrCmdDat_eq (cmd val : Nat) (w : UsbWorld) (rest : List Nat)
    (h : afterWaits [CCEMTY_INT, CCEMTY_INT] w.devIntSt = some rest) :
    LPC24_UsbDevice_WrCmdDat cmd val w = some (w.ran (wrCmdDatWrites cmd val) rest) := by
  obtain ⟨mid, h1, h2⟩ := afterWaits_append [CCEMTY_INT] [CCEMTY_INT] _ _ h
  have e1 := await_eq (w.write [.USBDevIntClr CCEMTY_INT, .USBCmdCode cmd]) CCEMTY_INT mid h1
  have e2 := await_eq
    (((w.write [.USBDevIntClr CCEMTY_INT, .USBCmdCode cmd]).ran [] mid).write
      [.USBDevIntClr CCEMTY_INT, .USBCmdCode val]) CCEMTY_INT rest h2
  rw [LPC24_UsbDevice_WrCmdDat, e1]
  simp only []
  rw [e2]
  simp only [write_eq_ran, ran_ran, wrCmdDatWrites, List.append_nil, List.cons_append,
    List.nil_append]

/-- `USB_WriteEP` when the waits of its two commands end. -/
theorem writeEP_eq (EPNum : Nat) (pData : List Nat) (cnt : Nat) (w : UsbWorld) (rest : List Nat)
    (h : afterWaits [CCEMTY_INT, CCEMTY_INT] w.devIntSt = some rest) :
    USB_WriteEP EPNum pData cnt w = some (w.ran (writeEPWrites EPNum pData cnt) rest) := by
  obtain ⟨mid, h1, h2⟩ := afterWaits_append [CCEMTY_INT] [CCEMTY_INT] _ _ h
  have e1 := wrCmd_eq (CMD_SEL_EP (LPC24_UsbDevice_EPAdr EPNum 1))
    (w.write (txFifoWrites EPNum pData cnt)) mid h1
  have e2 := wrCmd_eq CMD_VALID_BUF
    ((w.write (txFifoWrites EPNum pData cnt)).ran
      (wrCmdWrites (CMD_SEL_EP (LPC24_UsbDevice_EPAdr EPNum 1))) mid) rest h2
  rw [USB_WriteEP, e1]
  simp only []
  rw [e2]
  simp only [write_eq_ran, ran_ran, writeEPWrites, List.append_assoc]

/-- `LPC24_UsbDevice_ReadEP` when the hardware reports a packet and the waits
of the commands that release the buffer end. -/
theorem readEP_eq (EPNum : Nat) (w : UsbWorld) (v : Nat) (lens rest : List Nat)
    (hp : awaitPacket w.rxPLen = some (v, lens))
    (h : afterWaits (readEPWaits EPNum) w.devIntSt = some rest) :
    LPC24_UsbDevice_ReadEP EPNum w
      = some (v &&& PKT_LNGTH_MASK, readEPBytes v w.rxData,
          ({ w with
            rxPLen := lens
            rxData := w.rxData.drop (((v &&& PKT_LNGTH_MASK) + 3) / 4) } : UsbWorld).ran
            (readEPWrites EPNum) rest) := by
  have hp1 : awaitPacket (w.write [.USBCtrl (((EPNum &&& 0x0F) <<< 2) ||| CTRL_RD_EN)]).rxPLen
      = some (v, lens) := hp
  by_cases hiso : (EP_MSK_ISO >>> EPNum) &&& 1 = 0
  · simp only [readEPWaits, hiso, if_true] at h
    obtain ⟨mid, h1, h2⟩ := afterWaits_append [CCEMTY_INT] [CCEMTY_INT] _ _ h
    have e1 := wrCmd_eq (CMD_SEL_EP (LPC24_UsbDevice_EPAdr EPNum 0))
      (({ w.write [.USBCtrl (((EPNum &&& 0x0F) <<< 2) ||| CTRL_RD_EN)] with
        rxPLen := lens
        rxData := (w.write [.USBCtrl (((EPNum &&& 0x0F) <<< 2) ||| CTRL_RD_EN)]).rxData.drop
          (((v &&& PKT_LNGTH_MASK) + 3) / 4) } : UsbWorld).write [.USBCtrl 0]) mid h1
    have e2 := wrCmd_eq CMD_CLR_BUF
      ((({ w.write [.USBCtrl (((EPNum &&& 0x0F) <<< 2) ||| CTRL_RD_EN)] with
        rxPLen := lens
        rxData := (w.write [.USBCtrl (((EPNum &&& 0x0F) <<< 2) ||| CTRL_RD_EN)]).rxData.drop
          (((v &&& PKT_LNGTH_MASK) + 3) / 4) } : UsbWorld).write [.USBCtrl 0]).ran
        (wrCmdWrites (CMD_SEL_EP (LPC24_UsbDevice_EPAdr EPNum 0))) mid) rest h2
    rw [LPC24_UsbDevice_ReadEP]
    simp only [hp1, hiso, if_true, e1, e2]
    simp only [UsbWorld.ran, UsbWorld.write, readEPWrites, readEPBytes, hiso, if_true,
      List.append_assoc, List.cons_append, List.nil_append]
  · simp only [readEPWaits, hiso, if_false, afterWaits, Option.some.injEq] at h
    subst h
    rw [LPC24_UsbDevice_ReadEP]
    simp only [hp1, hiso, if_false]
    simp only [UsbWorld.ran, UsbWorld.write, readEPWrites, readEPBytes, hiso, if_false,
      List.append_assoc, List.cons_append, List.nil_append, List.append_nil]

/-- `LPC24_UsbDevice_SetStallEP` when its two waits end. -/
theorem setStallEP_eq (EPNum inDir : Nat) (w : UsbWorld) (rest : List Nat)
    (h : afterWaits [CCEMTY_INT, CCEMTY_INT] w.devIntSt = some rest) :
    LPC24_UsbDevice_SetStallEP EPNum inDir w
      = some (w.ran (wrCmdDatWrites (CMD_SET_EP_STAT (LPC24_UsbDevice_EPAdr EPNum inDir))
          (DAT_WR_BYTE EP_STAT_ST)) rest) := by
  rw [LPC24_UsbDevice_SetStallEP, wrCmdDat_eq _ _ w rest h]

/-- `LPC24_UsbDevice_SetAddress` when its four waits end. -/
theorem setAddress_eq (adr : Nat) (w : UsbWorld) (rest : List Nat)
    (h : afterWaits [CCEMTY_INT, CCEMTY_INT, CCEMTY_INT, CCEMTY_INT] w.devIntSt = some rest) :
    LPC24_UsbDevice_SetAddress adr w
      = some (w.ran (setAddressWrites adr) rest) := by
  obtain ⟨mid, h1, h2⟩ :=
    afterWaits_append [CCEMTY_INT, CCEMTY_INT] [CCEMTY_INT, CCEMTY_INT] _ _ h
  have e1 := wrCmdDat_eq CMD_SET_ADDR (DAT_WR_BYTE (DEV_EN ||| adr)) w mid h1
  have e2 := wrCmdDat_eq CMD_SET_ADDR (DAT_WR_BYTE (DEV_EN ||| adr))
    (w.ran (wrCmdDatWrites CMD_SET_ADDR (DAT_WR_BYTE (DEV_EN ||| adr))) mid) rest h2
  rw [LPC24_UsbDevice_SetAddress, e1]
  simp only []
  rw [e2, ran_ran, setAddressWrites]

/-! ## C11 -/

/-- The dequeue loop ends at once on a packet of non-zero size. -/
theorem txDequeueLoop_packet (client : UsbClientEngine) (endpoint fuel : Nat)
    (s s1 : UsClientState) (p : Nat)
    (hd : client.TinyCLR_UsbClient_TxDequeue s endpoint = (some p, s1))
    (hsize : 0 < (s1.packets p).Size) :
    txDequeueLoop client endpoint (fuel + 1) s = some (some p, s1) := by
  simp only [txDequeueLoop, hd, gt_iff_lt, hsize, if_true]

/-- The dequeue loop ends at once on an empty queue. -/
theorem txDequeueLoop_empty (client : UsbClientEngine) (endpoint fuel : Nat)
    (s s1 : UsClientState)
    (hd : client.TinyCLR_UsbClient_TxDequeue s endpoint = (none, s1)) :
    txDequeueLoop client endpoint (fuel + 1) s = some (none, s1) := by
  simp only [txDequeueLoop, hd]

/-- `LPC24_UsbDevice_TxPacket` when the queue returns a packet of non-zero size
and the two commands of the write end. -/
theorem txPacket_packet (client : UsbClientEngine) (endpoint fuel : Nat) (w : UsbWorld)
    (s1 : UsClientState) (p : Nat) (rest : List Nat)
    (hd : client.TinyCLR_UsbClient_TxDequeue w.usClientState endpoint = (some p, s1))
    (hsize : 0 < (s1.packets p).Size)
    (hw : afterWaits [CCEMTY_INT, CCEMTY_INT] w.devIntSt = some rest) :
    LPC24_UsbDevice_TxPacket client (fuel + 1) endpoint w = some
      { w with
        usClientState := s1
        regs := w.regs ++ writeEPWrites endpoint (s1.packets p).Buffer (s1.packets p).Size
        devIntSt := rest
        driver :=
          { w.driver with
            txNeedZLPS := Function.update w.driver.txNeedZLPS endpoint
              (decide ((s1.packets p).Size = 64)) } } := by
  have e1 := txDequeueLoop_packet client endpoint fuel w.usClientState s1 p hd hsize
  have e2 := writeEP_eq endpoint (s1.packets p).Buffer (s1.packets p).Size
    { w with usClientState := s1 } rest hw
  rw [LPC24_UsbDevice_TxPacket, e1]
  simp only []
  rw [e2]
  simp only [UsbWorld.ran]

/-- `LPC24_UsbDevice_TxPacket` when the queue is empty: the zero-length packet
is written if it is pending, and the endpoint stops running. -/
theorem txPacket_empty (client : UsbClientEngine) (endpoint fuel : Nat) (w : UsbWorld)
    (s1 : UsClientState) (rest : List Nat)
    (hd : client.TinyCLR_UsbClient_TxDequeue w.usClientState endpoint = (none, s1))
    (hw : afterWaits (if w.driver.txNeedZLPS endpoint = true then [CCEMTY_INT, CCEMTY_INT] else [])
      w.devIntSt = some rest) :
    LPC24_UsbDevice_TxPacket client (fuel + 1) endpoint w = some
      { w with
        usClientState := s1
        regs := w.regs
          ++ (if w.driver.txNeedZLPS endpoint = true then writeEPWrites endpoint [] 0 else [])
        devIntSt := rest
        driver :=
          { w.driver with
            txNeedZLPS := Function.update w.driver.txNeedZLPS endpoint false
            txRunning := Function.update w.driver.txRunning endpoint false } } := by
  have e1 := txDequeueLoop_empty client endpoint fuel w.usClientState s1 hd
  rw [LPC24_UsbDevice_TxPacket, e1]
  by_cases hz : w.driver.txNeedZLPS endpoint = true
  · simp only [hz, if_true] at hw ⊢
    have e2 := writeEP_eq endpoint [] 0 { w with usClientState := s1 } rest hw
    simp only [e2, UsbWorld.ran]
  · simp only [hz, if_false, afterWaits, Option.some.injEq] at hw ⊢
    subst hw
    have hf : w.driver.txNeedZLPS endpoint = false := by simpa using hz
    have hupd : Function.update w.driver.txNeedZLPS endpoint false = w.driver.txNeedZLPS := by
      rw [← hf]
      exact Function.update_eq_self _ _
    simp only [hupd, hf, Bool.false_eq_true, if_false, List.append_nil]

/-- C11: `LPC24_UsbDevice_TxPacket` on an endpoint that is transmitting, when
the queue returns a last packet of non-zero size and then no packet.  The call
that takes the packet writes it to the endpoint and leaves `txRunning` set.
The next call finds the queue empty: if the packet had exactly 64 bytes, the
maximum packet size the driver configures for every endpoint, that call writes
one zero-length packet and only then clears `txRunning`; if the packet had any
other size, in particular a shorter one, that call writes nothing and clears
`txRunning`.  The calls return whenever the command engine ends the waits of
the writes. -/
theorem C11_tx_zero_length_packet_after_full_packet (client : UsbClientEngine)
    (fuel endpoint : Nat) (w : UsbWorld) (p : Nat) (s1 s2 : UsClientState) (r1 r2 : List Nat)
    (hd1 : client.TinyCLR_UsbClient_TxDequeue w.usClientState endpoint = (some p, s1))
    (hsize : 0 < (s1.packets p).Size)
    (hd2 : client.TinyCLR_UsbClient_TxDequeue s1 endpoint = (none, s2))
    (hrun : w.driver.txRunning endpoint = true)
    (hw1 : afterWaits [CCEMTY_INT, CCEMTY_INT] w.devIntSt = some r1)
    (hw2 : afterWaits (if (s1.packets p).Size = 64 then [CCEMTY_INT, CCEMTY_INT] else []) r1
      = some r2) :
    ∃ w1 w2, LPC24_UsbDevice_TxPacket client (fuel + 1) endpoint w = some w1 ∧
      w1.regs = w.regs ++ writeEPWrites endpoint (s1.packets p).Buffer (s1.packets p).Size ∧
      w1.driver.txRunning endpoint = true ∧
      LPC24_UsbDevice_TxPacket client (fuel + 1) endpoint w1 = some w2 ∧
      w2.regs = w1.regs
        ++ (if (s1.packets p).Size = 64 then writeEPWrites endpoint [] 0 else []) ∧
      w2.driver.txRunning endpoint = false ∧ w2.driver.txNeedZLPS endpoint = false := by
  have e1 := txPacket_packet client endpoint fuel w s1 p r1 hd1 hsize hw1
  have hz : (Function.update w.driver.txNeedZLPS endpoint
      (decide ((s1.packets p).Size = 64)) endpoint = true) ↔ (s1.packets p).Size = 64 := by
    rw [Function.update_same, decide_eq_true_eq]
  have e2 := txPacket_empty client endpoint fuel
    { w with
      usClientState := s1
      regs := w.regs ++ writeEPWrites endpoint (s1.packets p).Buffer (s1.packets p).Size
      devIntSt := r1
      driver :=
        { w.driver with
          txNeedZLPS := Function.update w.driver.txNeedZLPS endpoint
            (decide ((s1.packets p).Size = 64)) } }
    s2 r2 hd2 (by simp only [hz]; exact hw2)
  refine ⟨_, _, e1, rfl, hrun, e2, ?_, ?_, ?_⟩
  · simp only [hz]
  · simp only [Function.update_same]
  · simp only [Function.update_same]

/-- C11 on endpoint 2 of a device whose queue holds one packet: of 64 bytes,
the two calls write the packet (sixteen FIFO words) and then a zero-length
packet; of 8 bytes, the second call writes nothing.  Either way `txRunning`
is cleared by the second call. -/
theorem C11_tx_zero_length_packet_witness :
    (∃ w1 w2, LPC24_UsbDevice_TxPacket fifoClient 1 2 (queuedWorld 64) = some w1 ∧
      w1.regs = writeEPWrites 2 (List.replicate 64 0xAB) 64 ∧
      w1.driver.txRunning 2 = true ∧
      LPC24_UsbDevice_TxPacket fifoClient 1 2 w1 = some w2 ∧
      w2.regs = w1.regs ++ writeEPWrites 2 [] 0 ∧
      w2.driver.txRunning 2 = false ∧ w2.driver.txNeedZLPS 2 = false) ∧
    (∃ w1 w2, LPC24_UsbDevice_TxPacket fifoClient 1 2 (queuedWorld 8) = some w1 ∧
      w1.regs = writeEPWrites 2 (List.replicate 64 0xAB) 8 ∧
      w1.driver.txRunning 2 = true ∧
      LPC24_UsbDevice_TxPacket fifoClient 1 2 w1 = some w2 ∧
      w2.regs = w1.regs ∧
      w2.driver.txRunning 2 = false ∧ w2.driver.txNeedZLPS 2 = false) := by
  constructor
  · obtain ⟨w1, w2, h1, h2, h3, h4, h5, h6, h7⟩ :=
      C11_tx_zero_length_packet_after_full_packet fifoClient 0 2 (queuedWorld 64) 7
        { (queuedWorld 64).usClientState with
          queues := Function.update (queuedWorld 64).usClientState.queues 2 (some []) }
        { (queuedWorld 64).usClientState with
          queues := Function.update (queuedWorld 64).usClientState.queues 2 (some []) }
        [0, 0x10, 0, 0x10, 0, 0x10, 0, 0x10] [0, 0x10, 0, 0x10]
        rfl (by decide) rfl rfl rfl rfl
    exact ⟨w1, w2, h1, h2, h3, h4, h5, h6, h7⟩
  · obtain ⟨w1, w2, h1, h2, h3, h4, h5, h6, h7⟩ :=
      C11_tx_zero_length_packet_after_full_packet fifoClient 0 2 (queuedWorld 8) 7
        { (queuedWorld 8).usClientState with
          queues := Function.update (queuedWorld 8).usClientState.queues 2 (some []) }
        { (queuedWorld 8).usClientState with
          queues := Function.update (queuedWorld 8).usClientState.queues 2 (some []) }
        [0, 0x10, 0, 0x10, 0, 0x10, 0, 0x10] [0, 0x10, 0, 0x10, 0, 0x10, 0, 0x10]
        rfl (by decide) rfl rfl rfl rfl
    refine ⟨w1, w2, h1, h2, h3, h4, ?_, h6, h7⟩
    rw [h5]
    exact List.append_nil _

/-! ## The control endpoint -/

/-- `LPC24_UsbDevice_ControlNext` when the waits of its endpoint write end. -/
theorem controlNext_eq (k : UsbEngineConstants) (client : UsbClientEngine) (w : UsbWorld)
    (rest : List Nat)
    (hw : afterWaits (controlNextWaits w.usClientState) w.devIntSt = some rest) :
    LPC24_UsbDevice_ControlNext k client w = some
      { w with
        controlNextCalls := w.controlNextCalls + 1
        usClientState :=
          controlNextRecord k client w.driver.firstDescriptorPacket w.usClientState
        regs := w.regs ++ controlNextWrites client w.usClientState
        devIntSt := rest } := by
  cases hcb : w.usClientState.dataCallback with
  | none =>
    simp only [controlNextWaits, hcb, afterWaits, Option.some.injEq] at hw
    subst hw
    simp only [LPC24_UsbDevice_ControlNext, hcb, controlNextRecord, controlNextWrites,
      List.append_nil]
  | some callback =>
    simp only [controlNextWaits, hcb] at hw
    by_cases h0 : (client.dataCallback callback w.usClientState).dataSize = 0
    · have e := writeEP_eq CONTORL_EP_ADDR [] 0
        { w with
          controlNextCalls := w.controlNextCalls + 1
          usClientState := client.dataCallback callback w.usClientState } rest hw
      simp only [LPC24_UsbDevice_ControlNext, hcb, h0, if_true, e, UsbWorld.ran,
        controlNextRecord, controlNextWrites, true_or]
    · have e := writeEP_eq CONTORL_EP_ADDR (client.dataCallback callback w.usClientState).ptrData
        (client.dataCallback callback w.usClientState).dataSize
        { w with
          controlNextCalls := w.controlNextCalls + 1
          usClientState := client.dataCallback callback w.usClientState } rest hw
      simp only [LPC24_UsbDevice_ControlNext, hcb, h0, if_false, e, UsbWorld.ran,
        controlNextRecord, controlNextWrites, false_or]
      by_cases hshort : (client.dataCallback callback w.usClientState).dataSize
          < k.LPC24_USB_ENDPOINT_SIZE
      · simp only [hshort, if_true, true_or]
        split_ifs <;> rfl
      · simp only [hshort, if_false, false_or]
        split_ifs <;> rfl

/-- The setup branch up to the control callback, when the hardware reports
the setup packet and the commands that release the buffer end. -/
theorem setupRead_eq (k : UsbEngineConstants) (client : UsbClientEngine) (w : UsbWorld)
    (v : Nat) (lens rest : List Nat)
    (hp : awaitPacket w.rxPLen = some (v, lens))
    (hw : afterWaits [CCEMTY_INT, CCEMTY_INT] w.devIntSt = some rest) :
    setupRead k client w = some
      { w with
        regs := w.regs ++ readEPWrites 0
        devIntSt := rest
        rxPLen := lens
        rxData := w.rxData.drop (((v &&& PKT_LNGTH_MASK) + 3) / 4)
        driver :=
          { w.driver with
            firstDescriptorPacket := isFirstDescriptorRequest k client (setupBuffer w v) }
        usClientState := setupRecord w v } := by
  have e := readEP_eq 0 w v lens rest hp hw
  rw [setupRead, e]
  simp only [UsbWorld.ran, setupRecord, setupBuffer, isFirstDescriptorRequest]

/-- The `switch (result)` for a result that neither stalls nor configures. -/
theorem setupSwitch_plain (result : UsbSetupResult) (w : UsbWorld)
    (h1 : result ≠ .USB_STATE_STALL) (h2 : result ≠ .USB_STATE_CONFIGURATION) :
    setupSwitch result w = some
      { w with
        usClientState := switchRecord result w.usClientState
        LPC24_UsbDevice_DeviceAddress :=
          switchAddress result w.usClientState w.LPC24_UsbDevice_DeviceAddress } := by
  cases result with
  | USB_STATE_STALL => exact absurd rfl h1
  | USB_STATE_CONFIGURATION => exact absurd rfl h2
  | USB_STATE_ADDRESS => rfl
  | USB_STATE_DONE => rfl
  | other raw => rfl

/-- The `switch (result)` for a stall, when the waits of the two commands
end. -/
theorem setupSwitch_stall (w : UsbWorld) (rest : List Nat)
    (hw : afterWaits [CCEMTY_INT, CCEMTY_INT, CCEMTY_INT, CCEMTY_INT] w.devIntSt = some rest) :
    setupSwitch .USB_STATE_STALL w = some (w.ran stallWrites rest) := by
  obtain ⟨mid, h1, h2⟩ :=
    afterWaits_append [CCEMTY_INT, CCEMTY_INT] [CCEMTY_INT, CCEMTY_INT] _ _ hw
  have e1 := setStallEP_eq 0 0 w mid h1
  have e2 := setStallEP_eq 0 1
    (w.ran (wrCmdDatWrites (CMD_SET_EP_STAT (LPC24_UsbDevice_EPAdr 0 0))
      (DAT_WR_BYTE EP_STAT_ST)) mid) rest h2
  simp only [setupSwitch, e1, e2, ran_ran, stallWrites]

/-- The setup branch of `LPC24_UsbDevice_ProcessEP0` when the control callback
asks for a stall: the setup packet is read, endpoint 0 is stalled in both
directions, and nothing else happens. -/
theorem processEP0_stall (k : UsbEngineConstants) (client : UsbClientEngine)
    (fuel inDir setup : Nat) (w : UsbWorld) (v : Nat) (lens rest : List Nat)
    (s1 : UsClientState) (hsetup : setup ≠ 0)
    (hp : awaitPacket w.rxPLen = some (v, lens))
    (hres : client.TinyCLR_UsbClient_ControlCallback (setupRecord w v) = (.USB_STATE_STALL, s1))
    (hw : afterWaits (setupWaits .USB_STATE_STALL s1) w.devIntSt = some rest) :
    LPC24_UsbDevice_ProcessEP0 k client (fuel + 1) inDir setup w
      = some (setupOutcome k client w v lens rest .USB_STATE_STALL s1) := by
  have hw0 : afterWaits ([CCEMTY_INT, CCEMTY_INT]
      ++ [CCEMTY_INT, CCEMTY_INT, CCEMTY_INT, CCEMTY_INT]) w.devIntSt = some rest := by
    simpa [setupWaits, switchWaits] using hw
  obtain ⟨mid, h1, h2⟩ := afterWaits_append _ _ _ _ hw0
  have e1 := setupRead_eq k client w v lens mid hp h1
  have e2 := setupSwitch_stall (setupWorld k client w v lens mid s1) rest h2
  rw [LPC24_UsbDevice_ProcessEP0]
  simp only [hsetup, ne_eq, not_false_eq_true, if_true, e1, hres]
  simp only [setupWorld] at e2
  simp only [e2, not_true_eq_false, if_false]
  simp only [UsbWorld.ran, setupOutcome, switchWrites, switchAddress, if_true, List.append_nil,
    List.append_assoc, Nat.add_zero]

/-- The setup branch of `LPC24_UsbDevice_ProcessEP0` when the control callback
returns a result that neither stalls nor configures: the setup packet is read,
the switch records the address or clears the data callback, and
`LPC24_UsbDevice_ControlNext` runs once. -/
theorem processEP0_plain (k : UsbEngineConstants) (client : UsbClientEngine)
    (fuel inDir setup : Nat) (w : UsbWorld) (v : Nat) (lens rest : List Nat)
    (result : UsbSetupResult) (s1 : UsClientState) (hsetup : setup ≠ 0)
    (hp : awaitPacket w.rxPLen = some (v, lens))
    (hres : client.TinyCLR_UsbClient_ControlCallback (setupRecord w v) = (result, s1))
    (h1 : result ≠ .USB_STATE_STALL) (h2 : result ≠ .USB_STATE_CONFIGURATION)
    (hw : afterWaits (setupWaits result s1) w.devIntSt = some rest) :
    LPC24_UsbDevice_ProcessEP0 k client (fuel + 1) inDir setup w
      = some (setupOutcome k client w v lens rest result s1) := by
  have hsw : switchWaits result = [] := by
    cases result <;> first | rfl | exact absurd rfl h1 | exact absurd rfl h2
  have hswr : switchWrites result = [] := by
    cases result <;> first | rfl | exact absurd rfl h1 | exact absurd rfl h2
  have hw0 : afterWaits ([CCEMTY_INT, CCEMTY_INT] ++ controlNextWaits (switchRecord result s1))
      w.devIntSt = some rest := by
    simpa [setupWaits, hsw, h1] using hw
  obtain ⟨mid, hw1, hw2⟩ := afterWaits_append [CCEMTY_INT, CCEMTY_INT] _ _ _ hw0
  have e1 := setupRead_eq k client w v lens mid hp hw1
  have e2 := setupSwitch_plain result (setupWorld k client w v lens mid s1) h1 h2
  have e3 := controlNext_eq k client
    { setupWorld k client w v lens mid s1 with
      usClientState := switchRecord result s1
      LPC24_UsbDevice_DeviceAddress :=
        switchAddress result s1 w.LPC24_UsbDevice_DeviceAddress } rest hw2
  rw [LPC24_UsbDevice_ProcessEP0]
  simp only [hsetup, ne_eq, not_false_eq_true, if_true, e1, hres]
  simp only [setupWorld] at e2 e3
  simp only [e2, h1, h2, not_false_eq_true, if_true, if_false, e3]
  simp only [setupOutcome, hswr, h1, if_false, List.append_nil]

/-- The endpoint-0 IN branch of `LPC24_UsbDevice_ProcessEP0`:
`LPC24_UsbDevice_ControlNext` runs, and a pending address (bit 7 of
`LPC24_UsbDevice_DeviceAddress`) is masked to 7 bits and given to the
hardware. -/
theorem processEP0_in (k : UsbEngineConstants) (client : UsbClientEngine)
    (fuel inDir : Nat) (w : UsbWorld) (rest : List Nat) (hin : inDir ≠ 0)
    (hw : afterWaits (controlNextWaits w.usClientState
        ++ (if w.LPC24_UsbDevice_DeviceAddress &&& 0x80 ≠ 0 then
              [CCEMTY_INT, CCEMTY_INT, CCEMTY_INT, CCEMTY_INT] else []))
      w.devIntSt = some rest) :
    LPC24_UsbDevice_ProcessEP0 k client (fuel + 1) inDir 0 w
      = some (inOutcome k client w rest) := by
  unfold inOutcome
  obtain ⟨mid, hw1, hw2⟩ := afterWaits_append _ _ _ _ hw
  have e1 := controlNext_eq k client w mid hw1
  rw [LPC24_UsbDevice_ProcessEP0]
  simp only [ne_eq, not_true_eq_false, if_false, hin, not_false_eq_true, if_true, e1]
  by_cases hpend : w.LPC24_UsbDevice_DeviceAddress &&& 0x80 = 0
  · simp only [ne_eq, hpend, not_true_eq_false, if_false, afterWaits, Option.some.injEq] at hw2 ⊢
    subst hw2
    simp only [List.append_nil]
  · simp only [ne_eq, hpend, not_false_eq_true, if_true] at hw2 ⊢
    have e2 := setAddress_eq (w.LPC24_UsbDevice_DeviceAddress &&& 0x7F)
      { w with
        controlNextCalls := w.controlNextCalls + 1
        usClientState :=
          controlNextRecord k client w.driver.firstDescriptorPacket w.usClientState
        regs := w.regs ++ controlNextWrites client w.usClientState
        devIntSt := mid
        LPC24_UsbDevice_DeviceAddress := w.LPC24_UsbDevice_DeviceAddress &&& 0x7F } rest hw2
    simp only [e2, UsbWorld.ran]

/-- The register history the endpoint-0 IN branch leaves. -/
theorem inOutcome_regs (k : UsbEngineConstants) (client : UsbClientEngine) (w : UsbWorld)
    (rest : List Nat) :
    (inOutcome k client w rest).regs = w.regs ++ controlNextWrites client w.usClientState
      ++ (if w.LPC24_UsbDevice_DeviceAddress &&& 0x80 ≠ 0 then
            setAddressWrites (w.LPC24_UsbDevice_DeviceAddress &&& 0x7F) else []) := rfl

/-- The recorded address the endpoint-0 IN branch leaves. -/
theorem inOutcome_address (k : UsbEngineConstants) (client : UsbClientEngine) (w : UsbWorld)
    (rest : List Nat) :
    (inOutcome k client w rest).LPC24_UsbDevice_DeviceAddress
      = (if w.LPC24_UsbDevice_DeviceAddress &&& 0x80 ≠ 0 then
          w.LPC24_UsbDevice_DeviceAddress &&& 0x7F
        else w.LPC24_UsbDevice_DeviceAddress) := rfl

/-- The client record the endpoint-0 IN branch leaves. -/
theorem inOutcome_usClientState (k : UsbEngineConstants) (client : UsbClientEngine)
    (w : UsbWorld) (rest : List Nat) :
    (inOutcome k client w rest).usClientState
      = controlNextRecord k client w.driver.firstDescriptorPacket w.usClientState := rfl

/-- The command codes of two register histories in a row. -/
theorem commandCodes_append (a b : List UsbRegWrite) :
    commandCodes (a ++ b) = commandCodes a ++ commandCodes b := by
  induction a with
  | nil => rfl
  | cons x xs ih => cases x <;> simp [commandCodes, ih]

/-- Filling the FIFO writes no command code. -/
theorem commandCodes_txFifoWrites (EPNum : Nat) (pData : List Nat) (cnt : Nat) :
    commandCodes (txFifoWrites EPNum pData cnt) = [] := by
  have hmap : ∀ l : List Nat,
      commandCodes (l.map (fun n => UsbRegWrite.USBTxData (txWord pData n))) = [] := by
    intro l
    induction l with
    | nil => rfl
    | cons x xs ih => simp only [List.map_cons, commandCodes, ih]
  rw [txFifoWrites, commandCodes_append, commandCodes_append, hmap]
  rfl

/-- The command codes of `USB_WriteEP`: the endpoint is selected and its
buffer validated. -/
theorem commandCodes_writeEPWrites (EPNum : Nat) (pData : List Nat) (cnt : Nat) :
    commandCodes (writeEPWrites EPNum pData cnt)
      = [CMD_SEL_EP (LPC24_UsbDevice_EPAdr EPNum 1), CMD_VALID_BUF] := by
  rw [writeEPWrites, commandCodes_append, commandCodes_append, commandCodes_txFifoWrites]
  rfl

/-- The command codes of `LPC24_UsbDevice_ControlNext` are those of a write
to the control endpoint. -/
theorem commandCodes_controlNextWrites (client : UsbClientEngine) (s : UsClientState) :
    ∀ c ∈ commandCodes (controlNextWrites client s),
      c = CMD_SEL_EP (LPC24_UsbDevice_EPAdr CONTORL_EP_ADDR 1) ∨ c = CMD_VALID_BUF := by
  intro c hc
  unfold controlNextWrites at hc
  cases hcb : s.dataCallback with
  | none => simp [hcb, commandCodes] at hc
  | some callback =>
    simp only [hcb] at hc
    split_ifs at hc <;>
      simpa [commandCodes_writeEPWrites] using hc

/-- Bit 7 of a recorded address is set, and masking it leaves it clear. -/
theorem pending_address_bits (a : Nat) :
    ((a ||| 0x80) % 256) &&& 0x80 ≠ 0 ∧ ((((a ||| 0x80) % 256) &&& 0x7F) &&& 0x80) = 0 := by
  constructor
  · intro h
    have h7 : Nat.testBit (((a ||| 0x80) % 256) &&& 0x80) 7 = true := by
      have e : (256 : Nat) = 2 ^ 8 := by norm_num
      have h128 : Nat.testBit 0x80 7 = true := by decide
      rw [e, Nat.testBit_and, Nat.testBit_mod_two_pow, Nat.testBit_or, h128]
      simp
    rw [h, Nat.zero_testBit] at h7
    exact Bool.noConfusion h7
  · rw [Nat.and_assoc]
    have h0 : (0x7F : Nat) &&& 0x80 = 0 := by decide
    rw [h0, Nat.and_zero]

/-! ## C12 -/

/-- C12: a setup phase of `LPC24_UsbDevice_ProcessEP0` whose control callback
returns `USB_STATE_ADDRESS`, followed by two endpoint-0 IN events.  The setup
phase is a call with `setup` non-zero, whatever its `in` argument (the source
calls it with `in` 0 and `setup` 1); an IN event is a call with `in` non-zero
and `setup` 0 (the source passes 1 and 0).  The setup phase writes no
set-address command: its register writes are those of reading the setup
packet and of `LPC24_UsbDevice_ControlNext`, and it records the address of the
client record with bit 7 set.  The first IN event issues the set-address
command, twice as `LPC24_UsbDevice_SetAddress` does, with the recorded address
masked to 7 bits, and leaves the masked address recorded, so bit 7 is clear.
The second IN event writes no set-address command and leaves the recorded
address as it is.  The three calls return whenever the hardware delivers the
setup packet and the command engine ends the waits. -/
theorem C12_set_address_after_status_phase (k : UsbEngineConstants) (client : UsbClientEngine)
    (fuel setup setupIn inDir : Nat) (w : UsbWorld) (v : Nat) (lens r1 r2 r3 : List Nat)
    (s1 : UsClientState) (hsetup : setup ≠ 0) (hin : inDir ≠ 0)
    (hp : awaitPacket w.rxPLen = some (v, lens))
    (hres : client.TinyCLR_UsbClient_ControlCallback (setupRecord w v)
      = (.USB_STATE_ADDRESS, s1))
    (hw1 : afterWaits (setupWaits .USB_STATE_ADDRESS s1) w.devIntSt = some r1)
    (hw2 : afterWaits
      (controlNextWaits
          (controlNextRecord k client (isFirstDescriptorRequest k client (setupBuffer w v)) s1)
        ++ [CCEMTY_INT, CCEMTY_INT, CCEMTY_INT, CCEMTY_INT]) r1 = some r2)
    (hw3 : afterWaits
      (controlNextWaits
        (controlNextRecord k client (isFirstDescriptorRequest k client (setupBuffer w v))
          (controlNextRecord k client (isFirstDescriptorRequest k client (setupBuffer w v)) s1)))
      r2 = some r3) :
    ∃ wA wB wC,
      LPC24_UsbDevice_ProcessEP0 k client (fuel + 1) setupIn setup w = some wA ∧
      wA.regs = w.regs ++ readEPWrites 0 ++ controlNextWrites client s1 ∧
      CMD_SET_ADDR ∉ commandCodes (readEPWrites 0 ++ controlNextWrites client s1) ∧
      wA.LPC24_UsbDevice_DeviceAddress = (s1.address ||| 0x80) % 256 ∧
      wA.LPC24_UsbDevice_DeviceAddress &&& 0x80 ≠ 0 ∧
      LPC24_UsbDevice_ProcessEP0 k client (fuel + 1) inDir 0 wA = some wB ∧
      wB.regs = wA.regs
        ++ controlNextWrites client
            (controlNextRecord k client (isFirstDescriptorRequest k client (setupBuffer w v)) s1)
        ++ setAddressWrites (((s1.address ||| 0x80) % 256) &&& 0x7F) ∧
      wB.LPC24_UsbDevice_DeviceAddress = ((s1.address ||| 0x80) % 256) &&& 0x7F ∧
      wB.LPC24_UsbDevice_DeviceAddress &&& 0x80 = 0 ∧
      LPC24_UsbDevice_ProcessEP0 k client (fuel + 1) inDir 0 wB = some wC ∧
      wC.regs = wB.regs
        ++ controlNextWrites client
            (controlNextRecord k client (isFirstDescriptorRequest k client (setupBuffer w v))
              (controlNextRecord k client (isFirstDescriptorRequest k client (setupBuffer w v))
                s1)) ∧
      (∀ s, CMD_SET_ADDR ∉ commandCodes (controlNextWrites client s)) ∧
      wC.LPC24_UsbDevice_DeviceAddress = wB.LPC24_UsbDevice_DeviceAddress := by
  obtain ⟨hbit, hclear⟩ := pending_address_bits s1.address
  have hcn : ∀ s, CMD_SET_ADDR ∉ commandCodes (controlNextWrites client s) := by
    intro s hmem
    rcases commandCodes_controlNextWrites client s _ hmem with h | h
    · exact absurd h (by decide)
    · exact absurd h (by decide)
  have eA := processEP0_plain k client fuel setupIn setup w v lens r1
    .USB_STATE_ADDRESS s1 hsetup hp hres (by decide) (by decide) hw1
  have hAst : (setupOutcome k client w v lens r1 .USB_STATE_ADDRESS s1).usClientState
      = controlNextRecord k client (isFirstDescriptorRequest k client (setupBuffer w v)) s1 := by
    simp only [setupOutcome, switchRecord, reduceCtorEq, if_false]
  have hAregs : (setupOutcome k client w v lens r1 .USB_STATE_ADDRESS s1).regs
      = w.regs ++ readEPWrites 0 ++ controlNextWrites client s1 := by
    simp only [setupOutcome, switchWrites, switchRecord, reduceCtorEq, if_false,
      List.append_nil]
  have hAaddr : (setupOutcome k client w v lens r1
      .USB_STATE_ADDRESS s1).LPC24_UsbDevice_DeviceAddress = (s1.address ||| 0x80) % 256 := rfl
  have hAflag : (setupOutcome k client w v lens r1
      .USB_STATE_ADDRESS s1).driver.firstDescriptorPacket
      = isFirstDescriptorRequest k client (setupBuffer w v) := rfl
  have hAdev : (setupOutcome k client w v lens r1 .USB_STATE_ADDRESS s1).devIntSt = r1 := rfl
  have eB := processEP0_in k client fuel inDir
    (setupOutcome k client w v lens r1 .USB_STATE_ADDRESS s1) r2 hin
    (by
      rw [hAst, hAaddr, hAdev, if_pos hbit]
      exact hw2)
  have hBst : (inOutcome k client
      (setupOutcome k client w v lens r1 .USB_STATE_ADDRESS s1) r2).usClientState
      = controlNextRecord k client (isFirstDescriptorRequest k client (setupBuffer w v))
          (controlNextRecord k client (isFirstDescriptorRequest k client (setupBuffer w v))
            s1) := by
    rw [inOutcome_usClientState, hAst, hAflag]
  have hBaddr : (inOutcome k client
      (setupOutcome k client w v lens r1 .USB_STATE_ADDRESS s1) r2).LPC24_UsbDevice_DeviceAddress
      = ((s1.address ||| 0x80) % 256) &&& 0x7F := by
    rw [inOutcome_address, hAaddr, if_pos hbit]
  have hBregs : (inOutcome k client
      (setupOutcome k client w v lens r1 .USB_STATE_ADDRESS s1) r2).regs
      = (setupOutcome k client w v lens r1 .USB_STATE_ADDRESS s1).regs
        ++ controlNextWrites client
            (controlNextRecord k client (isFirstDescriptorRequest k client (setupBuffer w v)) s1)
        ++ setAddressWrites (((s1.address ||| 0x80) % 256) &&& 0x7F) := by
    rw [inOutcome_regs, hAst, hAaddr, if_pos hbit]
  have hnot : ¬ ((((s1.address ||| 0x80) % 256) &&& 0x7F) &&& 0x80 ≠ 0) := by
    rw [hclear]
    exact fun h => h rfl
  have eC := processEP0_in k client fuel inDir
    (inOutcome k client (setupOutcome k client w v lens r1 .USB_STATE_ADDRESS s1) r2) r3 hin
    (by
      rw [hBst, hBaddr, if_neg hnot, List.append_nil]
      exact hw3)
  have hCregs : (inOutcome k client (inOutcome k client
      (setupOutcome k client w v lens r1 .USB_STATE_ADDRESS s1) r2) r3).regs
      = (inOutcome k client (setupOutcome k client w v lens r1 .USB_STATE_ADDRESS s1) r2).regs
        ++ controlNextWrites client
            (controlNextRecord k client (isFirstDescriptorRequest k client (setupBuffer w v))
              (controlNextRecord k client (isFirstDescriptorRequest k client (setupBuffer w v))
                s1)) := by
    rw [inOutcome_regs, hBst, hBaddr, if_neg hnot, List.append_nil]
  have hCaddr : (inOutcome k client (inOutcome k client
      (setupOutcome k client w v lens r1 .USB_STATE_ADDRESS s1) r2) r3).LPC24_UsbDevice_DeviceAddress
      = (inOutcome k client (setupOutcome k client w v lens r1
          .USB_STATE_ADDRESS s1) r2).LPC24_UsbDevice_DeviceAddress := by
    rw [inOutcome_address, hBaddr, if_neg hnot]
  have hg3 : CMD_SET_ADDR ∉ commandCodes (readEPWrites 0 ++ controlNextWrites client s1) := by
    rw [commandCodes_append]
    intro hmem
    rcases List.mem_append.mp hmem with h | h
    · exact absurd h (by decide)
    · exact hcn _ h
  exact ⟨_, _, _, eA, hAregs, hg3, hAaddr, hAaddr ▸ hbit, eB, hBregs, hBaddr,
    hBaddr ▸ hclear, eC, hCregs, hcn, hCaddr⟩

/-- C12 on a device that receives SET_ADDRESS with address 0x12: the setup
phase writes only the two commands that release the setup packet and records
0x92; the first IN event writes the set-address command twice with the data
byte 0x92 (the enable bit and address 0x12) and leaves 0x12 recorded; the
second IN event writes nothing. -/
theorem C12_set_address_witness :
    ∃ wA wB wC,
      LPC24_UsbDevice_ProcessEP0 engineConstants fifoClient 1 0 1
        (enumeratingWorld [0x00120500, 0]) = some wA ∧
      commandCodes wA.regs = [CMD_SEL_EP 0, CMD_CLR_BUF] ∧
      wA.LPC24_UsbDevice_DeviceAddress = 0x92 ∧
      LPC24_UsbDevice_ProcessEP0 engineConstants fifoClient 1 1 0 wA = some wB ∧
      commandCodes wB.regs = [CMD_SEL_EP 0, CMD_CLR_BUF,
        CMD_SET_ADDR, DAT_WR_BYTE 0x92, CMD_SET_ADDR, DAT_WR_BYTE 0x92] ∧
      wB.LPC24_UsbDevice_DeviceAddress = 0x12 ∧
      LPC24_UsbDevice_ProcessEP0 engineConstants fifoClient 1 1 0 wB = some wC ∧
      wC.regs = wB.regs ∧ wC.LPC24_UsbDevice_DeviceAddress = 0x12 := by
  obtain ⟨wA, wB, wC, hA, hAregs, _, hAaddr, _, hB, hBregs, hBaddr, _, hC, hCregs, _, hCaddr⟩ :=
    C12_set_address_after_status_phase engineConstants fifoClient 0 1 0 1
      (enumeratingWorld [0x00120500, 0]) 0x808 [] (List.replicate 10 0x10)
      (List.replicate 6 0x10) (List.replicate 6 0x10)
      { setupRecord (enumeratingWorld [0x00120500, 0]) 0x808 with address := 0x12 }
      (by decide) (by decide) rfl rfl rfl rfl rfl
  refine ⟨wA, wB, wC, hA, ?_, ?_, hB, ?_, ?_, hC, ?_, ?_⟩
  · rw [hAregs]
    rfl
  · rw [hAaddr]
    rfl
  · rw [hBregs, hAregs]
    rfl
  · rw [hBaddr]
    rfl
  · rw [hCregs]
    exact List.append_nil _
  · rw [hCaddr, hBaddr]
    rfl

/-! ## The setup branch for every result -/

/-- `LPC24_UsbDevice_ConfigEP` when the endpoint is realised. -/
theorem configEP_eq (ep_addr inDir size : Nat) (w : UsbWorld) (rest : List Nat)
    (h : afterWaits [EP_RLZED_INT] w.devIntSt = some rest) :
    LPC24_UsbDevice_ConfigEP ep_addr inDir size w
      = some (w.ran (configEPWrites ep_addr inDir size) rest) := by
  have e := await_eq (w.write [.USBReEpOr (1 <<< LPC24_UsbDevice_EPAdr ep_addr inDir),
    .USBEpInd (LPC24_UsbDevice_EPAdr ep_addr inDir), .USBEpMaxPSize size]) EP_RLZED_INT rest h
  rw [LPC24_UsbDevice_ConfigEP]
  simp only [e]
  simp only [write_eq_ran, ran_ran, ran_devIntSt, configEPWrites, List.append_nil,
    List.cons_append, List.nil_append]

/-- `LPC24_UsbDevice_EnableEP` when its two waits end. -/
theorem enableEP_eq (EPNum inDir : Nat) (w : UsbWorld) (rest : List Nat)
    (h : afterWaits [CCEMTY_INT, CCEMTY_INT] w.devIntSt = some rest) :
    LPC24_UsbDevice_EnableEP EPNum inDir w = some (w.ran (enableEPWrites EPNum inDir) rest) := by
  rw [LPC24_UsbDevice_EnableEP, wrCmdDat_eq _ _ w rest h, enableEPWrites]

/-- `LPC24_UsbDevice_ResetEP` when its two waits end. -/
theorem resetEP_eq (EPNum inDir : Nat) (w : UsbWorld) (rest : List Nat)
    (h : afterWaits [CCEMTY_INT, CCEMTY_INT] w.devIntSt = some rest) :
    LPC24_UsbDevice_ResetEP EPNum inDir w = some (w.ran (enableEPWrites EPNum inDir) rest) := by
  rw [LPC24_UsbDevice_ResetEP, wrCmdDat_eq _ _ w rest h, enableEPWrites]

/-- `USB_HW_Configure` when its waits end. -/
theorem hwConfigure_eq (w : UsbWorld) (rest : List Nat)
    (h : afterWaits [CCEMTY_INT, CCEMTY_INT, EP_RLZED_INT] w.devIntSt = some rest) :
    USB_HW_Configure true w
      = some (w.ran (wrCmdDatWrites CMD_CFG_DEV (DAT_WR_BYTE CONF_DVICE)
          ++ [.USBReEp 0x00000003, .USBDevIntClr EP_RLZED_INT]) rest) := by
  obtain ⟨mid, h1, h2⟩ := afterWaits_append [CCEMTY_INT, CCEMTY_INT] [EP_RLZED_INT] _ _ h
  have e1 := wrCmdDat_eq CMD_CFG_DEV (DAT_WR_BYTE CONF_DVICE) w mid h1
  have e2 := await_eq
    ((w.ran (wrCmdDatWrites CMD_CFG_DEV (DAT_WR_BYTE CONF_DVICE)) mid).write
      [.USBReEp 0x00000003]) EP_RLZED_INT rest h2
  rw [USB_HW_Configure]
  simp only [if_true, e1, e2]
  simp only [write_eq_ran, ran_ran, ran_devIntSt, List.append_nil,
    List.append_assoc, List.cons_append, List.nil_append]

/-- The configuration of one endpoint when its waits end. -/
theorem configureEndpoint_eq (i : Nat) (w : UsbWorld) (rest : List Nat)
    (h : afterWaits configureEndpointWaits w.devIntSt = some rest) :
    configureEndpoint i w = some (w.ran (configureEndpointWrites i) rest) := by
  have hsplit : configureEndpointWaits = [EP_RLZED_INT] ++ ([CCEMTY_INT, CCEMTY_INT]
      ++ ([CCEMTY_INT, CCEMTY_INT] ++ ([EP_RLZED_INT] ++ ([CCEMTY_INT, CCEMTY_INT]
      ++ [CCEMTY_INT, CCEMTY_INT])))) := rfl
  rw [hsplit] at h
  obtain ⟨r1, h1, h⟩ := afterWaits_append _ _ _ _ h
  obtain ⟨r2, h2, h⟩ := afterWaits_append _ _ _ _ h
  obtain ⟨r3, h3, h⟩ := afterWaits_append _ _ _ _ h
  obtain ⟨r4, h4, h⟩ := afterWaits_append _ _ _ _ h
  obtain ⟨r5, h5, h6⟩ := afterWaits_append _ _ _ _ h
  have e1 := configEP_eq i 1 64 w r1 h1
  have e2 := enableEP_eq i 1 (w.ran (configEPWrites i 1 64) r1) r2 h2
  have e3 := resetEP_eq i 1 (w.ran (configEPWrites i 1 64 ++ enableEPWrites i 1) r2) r3 h3
  have e4 := configEP_eq i 0 64
    (w.ran (configEPWrites i 1 64 ++ enableEPWrites i 1 ++ enableEPWrites i 1) r3) r4 h4
  have e5 := enableEP_eq i 0
    (w.ran (configEPWrites i 1 64 ++ enableEPWrites i 1 ++ enableEPWrites i 1
      ++ configEPWrites i 0 64) r4) r5 h5
  have e6 := resetEP_eq i 0
    (w.ran (configEPWrites i 1 64 ++ enableEPWrites i 1 ++ enableEPWrites i 1
      ++ configEPWrites i 0 64 ++ enableEPWrites i 0) r5) rest h6
  rw [configureEndpoint, e1, Option.some_bind, e2, Option.some_bind, ran_ran,
    e3, Option.some_bind, ran_ran, e4, Option.some_bind, ran_ran, e5, Option.some_bind, ran_ran,
    e6, ran_ran, configureEndpointWrites]

/-- A loop whose body is a command sequence is a command sequence. -/
theorem forEach_ran (body : Nat → UsbWorld → Option UsbWorld) (waits : Nat → List Nat)
    (writes : Nat → List UsbRegWrite)
    (hbody : ∀ i (w : UsbWorld) rest, afterWaits (waits i) w.devIntSt = some rest →
      body i w = some (w.ran (writes i) rest))
    (l : List Nat) (w : UsbWorld) (rest : List Nat)
    (h : afterWaits (l.flatMap waits) w.devIntSt = some rest) :
    forEach body l w = some (w.ran (l.flatMap writes) rest) := by
  induction l generalizing w with
  | nil =>
    simp only [List.flatMap_nil, afterWaits, Option.some.injEq] at h
    subst h
    simp only [forEach, List.flatMap_nil, UsbWorld.ran, List.append_nil]
  | cons i is ih =>
    rw [List.flatMap_cons] at h
    obtain ⟨mid, h1, h2⟩ := afterWaits_append _ _ _ _ h
    have e1 := hbody i w mid h1
    have e2 := ih (w.ran (writes i) mid) h2
    simp only [forEach, e1, e2, ran_ran, List.flatMap_cons]

/-- The `switch (result)` for a configuration, when its waits end. -/
theorem setupSwitch_configuration (w : UsbWorld) (rest : List Nat)
    (hw : afterWaits (switchWaits .USB_STATE_CONFIGURATION) w.devIntSt = some rest) :
    setupSwitch .USB_STATE_CONFIGURATION w
      = some (w.ran (switchWrites .USB_STATE_CONFIGURATION) rest) := by
  simp only [switchWaits] at hw
  obtain ⟨mid, h1, h2⟩ := afterWaits_append _ _ _ _ hw
  have e1 := hwConfigure_eq w mid h1
  have e2 := forEach_ran configureEndpoint (fun _ => configureEndpointWaits)
    configureEndpointWrites (fun i w rest h => configureEndpoint_eq i w rest h)
    ((List.range 16).drop 1)
    (w.ran (wrCmdDatWrites CMD_CFG_DEV (DAT_WR_BYTE CONF_DVICE)
      ++ [.USBReEp 0x00000003, .USBDevIntClr EP_RLZED_INT]) mid) rest h2
  simp only [setupSwitch, e1, e2, ran_ran, switchWrites]

/-- The setup branch of `LPC24_UsbDevice_ProcessEP0` when the control callback
returns `USB_STATE_CONFIGURATION`: the setup packet is read, the device and
the endpoints are configured, `LPC24_UsbDevice_ControlNext` runs once, and the
loop that outputs withheld data starts. -/
theorem processEP0_configuration (k : UsbEngineConstants) (client : UsbClientEngine)
    (fuel inDir setup : Nat) (w : UsbWorld) (v : Nat) (lens rest : List Nat)
    (s1 : UsClientState) (hsetup : setup ≠ 0)
    (hp : awaitPacket w.rxPLen = some (v, lens))
    (hres : client.TinyCLR_UsbClient_ControlCallback (setupRecord w v)
      = (.USB_STATE_CONFIGURATION, s1))
    (hw : afterWaits (setupWaits .USB_STATE_CONFIGURATION s1) w.devIntSt = some rest) :
    LPC24_UsbDevice_ProcessEP0 k client (fuel + 1) inDir setup w =
      flushOutput
        (LPC24_UsbDevice_StartOutput k client (LPC24_UsbDevice_ProcessEP0 k client fuel) fuel)
        (List.range k.LPC24_USB_ENDPOINT_COUNT)
        (setupOutcome k client w v lens rest .USB_STATE_CONFIGURATION s1) := by
  have hw0 : afterWaits ([CCEMTY_INT, CCEMTY_INT] ++ switchWaits .USB_STATE_CONFIGURATION
      ++ controlNextWaits s1) w.devIntSt = some rest := by
    simpa only [setupWaits, reduceCtorEq, if_false, switchRecord] using hw
  obtain ⟨mid2, hw12, hw3⟩ := afterWaits_append _ _ _ _ hw0
  obtain ⟨mid, hw1, hw2⟩ := afterWaits_append _ _ _ _ hw12
  have e1 := setupRead_eq k client w v lens mid hp hw1
  have e2 := setupSwitch_configuration (setupWorld k client w v lens mid s1) mid2 hw2
  have e3 := controlNext_eq k client
    ((setupWorld k client w v lens mid s1).ran (switchWrites .USB_STATE_CONFIGURATION) mid2)
    rest hw3
  rw [LPC24_UsbDevice_ProcessEP0]
  simp only [hsetup, ne_eq, not_false_eq_true, if_true, e1, hres]
  simp only [setupWorld] at e2 e3
  simp only [e2, e3, reduceCtorEq, not_false_eq_true, if_true]
  simp only [UsbWorld.ran, setupOutcome, switchRecord, switchAddress, reduceCtorEq, if_false,
    List.append_assoc]

/-- The setup branch of `LPC24_UsbDevice_ProcessEP0` for every result of the
control callback: it ends in `setupOutcome`, or starts there the loop that
outputs withheld data when the result is `USB_STATE_CONFIGURATION`. -/
theorem processEP0_setup (k : UsbEngineConstants) (client : UsbClientEngine)
    (fuel inDir setup : Nat) (w : UsbWorld) (v : Nat) (lens rest : List Nat)
    (result : UsbSetupResult) (s1 : UsClientState) (hsetup : setup ≠ 0)
    (hp : awaitPacket w.rxPLen = some (v, lens))
    (hres : client.TinyCLR_UsbClient_ControlCallback (setupRecord w v) = (result, s1))
    (hw : afterWaits (setupWaits result s1) w.devIntSt = some rest) :
    LPC24_UsbDevice_ProcessEP0 k client (fuel + 1) inDir setup w
      = (if result = .USB_STATE_CONFIGURATION then
          flushOutput
            (LPC24_UsbDevice_StartOutput k client (LPC24_UsbDevice_ProcessEP0 k client fuel)
              fuel)
            (List.range k.LPC24_USB_ENDPOINT_COUNT)
            (setupOutcome k client w v lens rest result s1)
        else some (setupOutcome k client w v lens rest result s1)) := by
  by_cases hst : result = .USB_STATE_STALL
  · subst hst
    rw [processEP0_stall k client fuel inDir setup w v lens rest s1 hsetup hp hres hw]
    rfl
  · by_cases hcf : result = .USB_STATE_CONFIGURATION
    · subst hcf
      rw [processEP0_configuration k client fuel inDir setup w v lens rest s1 hsetup hp hres hw]
      rfl
    · rw [processEP0_plain k client fuel inDir setup w v lens rest result s1 hsetup hp hres
        hst hcf hw, if_neg hcf]

/-! ## The output of withheld data -/

/-- A busy-wait that ends changes only the reads left. -/
theorem await_some (w w1 : UsbWorld) (mask : Nat) (h : w.await mask = some w1) :
    ∃ rest, w1 = w.ran [] rest := by
  unfold UsbWorld.await at h
  cases hs : spinUntil mask w.devIntSt with
  | none => simp [hs] at h
  | some rest =>
    simp only [hs, Option.some.injEq] at h
    exact ⟨rest, by rw [← h]; simp only [UsbWorld.ran, List.append_nil]⟩

/-- `LPC24_UsbDevice_WrCmd`, whenever it returns. -/
theorem wrCmd_some (cmd : Nat) (w w1 : UsbWorld) (h : LPC24_UsbDevice_WrCmd cmd w = some w1) :
    ∃ rest, w1 = w.ran (wrCmdWrites cmd) rest := by
  obtain ⟨rest, e⟩ := await_some _ _ _ h
  exact ⟨rest, by rw [e, write_eq_ran, ran_ran, List.append_nil, wrCmdWrites]⟩

/-- `USB_WriteEP`, whenever it returns. -/
theorem writeEP_some (EPNum : Nat) (pData : List Nat) (cnt : Nat) (w w1 : UsbWorld)
    (h : USB_WriteEP EPNum pData cnt w = some w1) :
    ∃ rest, w1 = w.ran (writeEPWrites EPNum pData cnt) rest := by
  unfold USB_WriteEP at h
  cases h1 : LPC24_UsbDevice_WrCmd (CMD_SEL_EP (LPC24_UsbDevice_EPAdr EPNum 1))
      (w.write (txFifoWrites EPNum pData cnt)) with
  | none => simp [h1] at h
  | some w2 =>
    simp only [h1] at h
    obtain ⟨r1, e1⟩ := wrCmd_some _ _ _ h1
    obtain ⟨r2, e2⟩ := wrCmd_some _ _ _ h
    exact ⟨r2, by rw [e2, e1, write_eq_ran, ran_ran, ran_ran, writeEPWrites, List.append_assoc]⟩

/-- `LPC24_UsbDevice_ReadEP`, whenever it returns. -/
theorem readEP_some (EPNum : Nat) (w w1 : UsbWorld) (cnt : Nat) (bytes : List Nat)
    (h : LPC24_UsbDevice_ReadEP EPNum w = some (cnt, bytes, w1)) :
    ∃ lens data rest,
      w1 = ({ w with rxPLen := lens, rxData := data } : UsbWorld).ran (readEPWrites EPNum) rest := by
  unfold LPC24_UsbDevice_ReadEP at h
  simp only [] at h
  cases hp : awaitPacket (w.write [.USBCtrl (((EPNum &&& 0x0F) <<< 2) ||| CTRL_RD_EN)]).rxPLen with
  | none => simp [hp] at h
  | some vr =>
    obtain ⟨v, lens⟩ := vr
    simp only [hp] at h
    by_cases hiso : (EP_MSK_ISO >>> EPNum) &&& 1 = 0
    · simp only [hiso, if_true] at h
      cases h1 : LPC24_UsbDevice_WrCmd (CMD_SEL_EP (LPC24_UsbDevice_EPAdr EPNum 0))
          (({ w.write [.USBCtrl (((EPNum &&& 0x0F) <<< 2) ||| CTRL_RD_EN)] with
            rxPLen := lens
            rxData := (w.write [.USBCtrl (((EPNum &&& 0x0F) <<< 2) ||| CTRL_RD_EN)]).rxData.drop
              (((v &&& PKT_LNGTH_MASK) + 3) / 4) } : UsbWorld).write [.USBCtrl 0]) with
      | none => simp [h1] at h
      | some w4 =>
        simp only [h1] at h
        cases h2 : LPC24_UsbDevice_WrCmd CMD_CLR_BUF w4 with
        | none => simp [h2] at h
        | some w5 =>
          simp only [h2, Option.some.injEq, Prod.mk.injEq] at h
          obtain ⟨_, _, hw5⟩ := h
          obtain ⟨r1, e1⟩ := wrCmd_some _ _ _ h1
          obtain ⟨r2, e2⟩ := wrCmd_some _ _ _ h2
          refine ⟨lens, w.rxData.drop (((v &&& PKT_LNGTH_MASK) + 3) / 4), r2, ?_⟩
          rw [← hw5, e2, e1]
          simp only [UsbWorld.ran, UsbWorld.write, readEPWrites, hiso, if_true,
            List.append_assoc, List.cons_append, List.nil_append]
    · simp only [hiso, if_false, Option.some.injEq, Prod.mk.injEq] at h
      obtain ⟨_, _, hw3⟩ := h
      refine ⟨lens, w.rxData.drop (((v &&& PKT_LNGTH_MASK) + 3) / 4), w.devIntSt, ?_⟩
      rw [← hw3]
      simp only [UsbWorld.ran, UsbWorld.write, readEPWrites, hiso, if_false,
        List.append_assoc, List.cons_append, List.nil_append, List.append_nil]

/-- The stalls of endpoint 0 in two register histories in a row. -/
theorem endpoint0Stalls_append (a b : List UsbRegWrite) :
    endpoint0Stalls (a ++ b) = endpoint0Stalls a ++ endpoint0Stalls b := by
  simp only [endpoint0Stalls, commandCodes_append, List.filter_append]

/-- Selecting an endpoint is not a stall of endpoint 0. -/
theorem selEP_not_stall (EPNum inDir : Nat) :
    CMD_SEL_EP (LPC24_UsbDevice_EPAdr EPNum inDir) ≠ CMD_SET_EP_STAT 0 ∧
      CMD_SEL_EP (LPC24_UsbDevice_EPAdr EPNum inDir) ≠ CMD_SET_EP_STAT 1 := by
  have hx : EPNum &&& 0x0F ≤ 15 := Nat.and_le_right
  have hall : ∀ x, x ≤ 15 → ∀ d, d ≤ 1 →
      CMD_SEL_EP ((x <<< 1) + d) ≠ CMD_SET_EP_STAT 0 ∧
        CMD_SEL_EP ((x <<< 1) + d) ≠ CMD_SET_EP_STAT 1 := by
    decide
  unfold LPC24_UsbDevice_EPAdr
  exact hall _ hx _ (by split_ifs <;> omega)

/-- Writing a packet to an endpoint does not stall endpoint 0. -/
theorem endpoint0Stalls_writeEPWrites (EPNum : Nat) (pData : List Nat) (cnt : Nat) :
    endpoint0Stalls (writeEPWrites EPNum pData cnt) = [] := by
  obtain ⟨h0, h1⟩ := selEP_not_stall EPNum 1
  have h2 : CMD_VALID_BUF ≠ CMD_SET_EP_STAT 0 ∧ CMD_VALID_BUF ≠ CMD_SET_EP_STAT 1 := by decide
  simp only [endpoint0Stalls, commandCodes_writeEPWrites, List.filter_cons, List.filter_nil,
    h0, h1, h2.1, h2.2, or_self, decide_False, Bool.false_eq_true, if_false]

/-- Reading a packet from an endpoint does not stall endpoint 0. -/
theorem endpoint0Stalls_readEPWrites (EPNum : Nat) :
    endpoint0Stalls (readEPWrites EPNum) = [] := by
  obtain ⟨h0, h1⟩ := selEP_not_stall EPNum 0
  have h2 : CMD_CLR_BUF ≠ CMD_SET_EP_STAT 0 ∧ CMD_CLR_BUF ≠ CMD_SET_EP_STAT 1 := by decide
  unfold readEPWrites
  split_ifs
  · simp only [endpoint0Stalls, wrCmdWrites, commandCodes, List.cons_append, List.nil_append,
      List.filter_cons, List.filter_nil, h0, h1, h2.1, h2.2, or_self, decide_False,
      Bool.false_eq_true, if_false]
  · rfl

/-- The relation `flushKeeps` holds from a state to itself. -/
theorem flushKeeps_refl (w : UsbWorld) : flushKeeps w w := ⟨rfl, rfl, rfl, rfl⟩

/-- The relation `flushKeeps` composes. -/
theorem flushKeeps_trans (a b c : UsbWorld) (h1 : flushKeeps a b) (h2 : flushKeeps b c) :
    flushKeeps a c :=
  ⟨h2.1.trans h1.1, h2.2.1.trans h1.2.1, h2.2.2.1.trans h1.2.2.1, h2.2.2.2.trans h1.2.2.2⟩

/-- A step that appends register writes without a stall of endpoint 0 and
leaves the three variables as they are is kept. -/
theorem flushKeeps_of (w w1 : UsbWorld) (writes : List UsbRegWrite)
    (hc : w1.controlNextCalls = w.controlNextCalls)
    (hf : w1.driver.firstDescriptorPacket = w.driver.firstDescriptorPacket)
    (ha : w1.LPC24_UsbDevice_DeviceAddress = w.LPC24_UsbDevice_DeviceAddress)
    (hr : w1.regs = w.regs ++ writes) (hs : endpoint0Stalls writes = []) :
    flushKeeps w w1 :=
  ⟨hc, hf, ha, by rw [hr, endpoint0Stalls_append, hs, List.append_nil]⟩

/-- `LPC24_UsbDevice_TxPacket`, whenever it returns, is kept. -/
theorem txPacket_keeps (client : UsbClientEngine) (fuel endpoint : Nat) (w w1 : UsbWorld)
    (h : LPC24_UsbDevice_TxPacket client fuel endpoint w = some w1) : flushKeeps w w1 := by
  unfold LPC24_UsbDevice_TxPacket at h
  cases hd : txDequeueLoop client endpoint fuel w.usClientState with
  | none => simp [hd] at h
  | some r =>
    obtain ⟨op, s1⟩ := r
    cases op with
    | some p =>
      simp only [hd] at h
      cases hwr : USB_WriteEP endpoint (s1.packets p).Buffer (s1.packets p).Size
          { w with usClientState := s1 } with
      | none => simp [hwr] at h
      | some w2 =>
        simp only [hwr, Option.some.injEq] at h
        obtain ⟨rest, e⟩ := writeEP_some _ _ _ _ _ hwr
        subst h
        subst e
        exact flushKeeps_of _ _ _ rfl rfl rfl rfl (endpoint0Stalls_writeEPWrites _ _ _)
    | none =>
      simp only [hd] at h
      by_cases hz : w.driver.txNeedZLPS endpoint = true
      · simp only [hz, if_true] at h
        cases hwr : USB_WriteEP endpoint [] 0 { w with usClientState := s1 } with
        | none => simp [hwr] at h
        | some w2 =>
          simp only [hwr, Option.some.injEq] at h
          obtain ⟨rest, e⟩ := writeEP_some _ _ _ _ _ hwr
          subst h
          subst e
          exact flushKeeps_of _ _ _ rfl rfl rfl rfl (endpoint0Stalls_writeEPWrites _ _ _)
      · simp only [hz, Bool.false_eq_true, if_false, Option.some.injEq] at h
        subst h
        exact flushKeeps_of _ _ [] rfl rfl rfl (List.append_nil _).symm rfl

/-- `LPC24_UsbDevice_Enpoint_TxInterruptHandler`, whenever it returns, is
kept. -/
theorem txInterruptHandler_keeps (client : UsbClientEngine) (fuel endpoint : Nat)
    (w w1 : UsbWorld)
    (h : LPC24_UsbDevice_Enpoint_TxInterruptHandler client fuel endpoint w = some w1) :
    flushKeeps w w1 := by
  unfold LPC24_UsbDevice_Enpoint_TxInterruptHandler at h
  simp only [] at h
  split_ifs at h with hbit
  · cases ha : (({ w with epIntSt := w.epIntSt.tail } : UsbWorld).write
        [.USBEpIntClr (1 <<< LPC24_UsbDevice_EPAdr endpoint 1)]).await CDFULL_INT with
    | none => simp [ha] at h
    | some w2 =>
      simp only [ha] at h
      obtain ⟨rest, e⟩ := await_some _ _ _ ha
      have k1 : flushKeeps w { w2 with cmdData := w2.cmdData.tail } := by
        subst e
        exact flushKeeps_of _ _ [.USBEpIntClr (1 <<< LPC24_UsbDevice_EPAdr endpoint 1)]
          rfl rfl rfl (by simp [UsbWorld.ran, UsbWorld.write]) rfl
      exact flushKeeps_trans _ _ _ k1 (txPacket_keeps _ _ _ _ _ h)
  · simp only [Option.some.injEq] at h
    subst h
    exact flushKeeps_of _ _ [] rfl rfl rfl (List.append_nil _).symm rfl

/-- `LPC24_UsbDevice_Enpoint_RxInterruptHandler`, whenever it returns, is
kept. -/
theorem rxInterruptHandler_keeps (client : UsbClientEngine) (endpoint : Nat) (w w1 : UsbWorld)
    (h : LPC24_UsbDevice_Enpoint_RxInterruptHandler client endpoint w = some w1) :
    flushKeeps w w1 := by
  unfold LPC24_UsbDevice_Enpoint_RxInterruptHandler at h
  cases hq : client.TinyCLR_UsbClient_RxEnqueue w.usClientState endpoint with
  | mk op s1 =>
    cases op with
    | some p =>
      simp only [hq] at h
      cases hr : LPC24_UsbDevice_ReadEP endpoint { w with usClientState := s1 } with
      | none => simp [hr] at h
      | some r =>
        obtain ⟨cnt, bytes, w2⟩ := r
        simp only [hr, Option.some.injEq] at h
        obtain ⟨lens, data, rest, e⟩ := readEP_some _ _ _ _ _ hr
        subst h
        subst e
        exact flushKeeps_of _ _ _ rfl rfl rfl rfl (endpoint0Stalls_readEPWrites _)
    | none =>
      simp only [hq, Option.some.injEq] at h
      subst h
      exact flushKeeps_of _ _ [] rfl rfl rfl (List.append_nil _).symm rfl

/-- `LPC24_UsbDevice_ProcessEndPoint`, whenever it returns, is kept. -/
theorem processEndPoint_keeps (client : UsbClientEngine) (fuel ep inDir : Nat) (w w1 : UsbWorld)
    (h : LPC24_UsbDevice_ProcessEndPoint client fuel ep inDir w = some w1) :
    flushKeeps w w1 := by
  unfold LPC24_UsbDevice_ProcessEndPoint at h
  split_ifs at h with hin
  · exact txInterruptHandler_keeps _ _ _ _ _ h
  · cases ha : (w.write [.USBEpIntClr (1 <<< LPC24_UsbDevice_EPAdr ep inDir)]).await
        CDFULL_INT with
    | none => simp [ha] at h
    | some w2 =>
      simp only [ha] at h
      obtain ⟨rest, e⟩ := await_some _ _ _ ha
      have k1 : flushKeeps w { w2 with cmdData := w2.cmdData.tail } := by
        subst e
        exact flushKeeps_of _ _ [.USBEpIntClr (1 <<< LPC24_UsbDevice_EPAdr ep inDir)]
          rfl rfl rfl (by simp [UsbWorld.ran, UsbWorld.write]) rfl
      exact flushKeeps_trans _ _ _ k1 (rxInterruptHandler_keeps _ _ _ _ h)

/-- The endpoint number `LPC24_UsbDevice_StartOutput` derives for the
endpoints 1 to 15 is not that of endpoint 0. -/
theorem startOutput_not_endpoint0 (endpoint : Nat) (h1 : 1 ≤ endpoint) (h2 : endpoint < 16) :
    LPC24_UsbDevice_EPAdr endpoint 1 >>> 1 ≠ 0 := by
  interval_cases endpoint <;> decide

/-- `LPC24_UsbDevice_StartOutput` on one of the endpoints 1 to 15, whenever it
returns, is kept, whatever the function it would call for endpoint 0. -/
theorem startOutput_keeps (k : UsbEngineConstants) (client : UsbClientEngine)
    (processEP0 : Nat → Nat → UsbWorld → Option UsbWorld) (fuel endpoint : Nat)
    (w w1 : UsbWorld) (h1 : 1 ≤ endpoint) (h2 : endpoint < 16)
    (h : LPC24_UsbDevice_StartOutput k client processEP0 fuel endpoint w = some w1) :
    flushKeeps w w1 := by
  have hm := startOutput_not_endpoint0 endpoint h1 h2
  unfold LPC24_UsbDevice_StartOutput at h
  by_cases hhalt : w.usClientState.endpointStatus endpoint &&& k.USB_STATUS_ENDPOINT_HALT ≠ 0
  · rw [if_pos hhalt] at h
    simp only [Option.some.injEq] at h
    subst h
    exact flushKeeps_of _ _ [] rfl rfl rfl (List.append_nil _).symm rfl
  · rw [if_neg hhalt] at h
    by_cases hrun : ¬ w.driver.txRunning endpoint = true
    · rw [if_pos hrun] at h
      have k1 : flushKeeps w { w with driver :=
          { w.driver with txRunning := Function.update w.driver.txRunning endpoint true } } :=
        flushKeeps_of _ _ [] rfl rfl rfl (List.append_nil _).symm rfl
      exact flushKeeps_trans _ _ _ k1 (txPacket_keeps _ _ _ _ _ h)
    · rw [if_neg hrun] at h
      by_cases hirq : client.irqIsDisabled = true
      · rw [if_pos hirq] at h
        simp only [] at h
        have k1 : flushKeeps w { w with epIntSt := w.epIntSt.tail } :=
          flushKeeps_of _ _ [] rfl rfl rfl (List.append_nil _).symm rfl
        by_cases hbit : w.epIntSt.headD 0 &&& (1 <<< LPC24_UsbDevice_EPAdr endpoint 1) ≠ 0
        · rw [if_pos hbit, if_neg hm] at h
          by_cases hq : ((w.usClientState.queues (LPC24_UsbDevice_EPAdr endpoint 1 >>> 1)).isSome
              && w.usClientState.isTxQueue endpoint) = true
          · rw [if_pos hq] at h
            exact flushKeeps_trans _ _ _ k1 (processEndPoint_keeps _ _ _ _ _ _ h)
          · rw [if_neg hq] at h
            exact flushKeeps_trans _ _ _ k1 (processEndPoint_keeps _ _ _ _ _ _ h)
        · rw [if_neg hbit] at h
          simp only [Option.some.injEq] at h
          subst h
          exact k1
      · rw [if_neg hirq] at h
        simp only [Option.some.injEq] at h
        subst h
        exact flushKeeps_refl _

/-- The loop that outputs withheld data over endpoints among 1 to 15,
whenever it returns, is kept. -/
theorem flushOutput_keeps_tail (k : UsbEngineConstants) (client : UsbClientEngine)
    (processEP0 : Nat → Nat → UsbWorld → Option UsbWorld) (fuel : Nat) (l : List Nat)
    (hl : ∀ ep ∈ l, 1 ≤ ep ∧ ep < 16) (w w1 : UsbWorld)
    (h : flushOutput (LPC24_UsbDevice_StartOutput k client processEP0 fuel) l w = some w1) :
    flushKeeps w w1 := by
  induction l generalizing w with
  | nil =>
    simp only [flushOutput, forEach, Option.some.injEq] at h
    subst h
    exact flushKeeps_refl _
  | cons ep rest ih =>
    simp only [flushOutput, forEach] at h
    obtain ⟨h1, h2⟩ := hl ep (List.mem_cons_self _ _)
    by_cases hq : w.usClientState.isTxQueue ep = true
    · simp only [hq, if_true] at h
      cases hs : LPC24_UsbDevice_StartOutput k client processEP0 fuel ep w with
      | none => simp [hs] at h
      | some w2 =>
        simp only [hs] at h
        exact flushKeeps_trans _ _ _ (startOutput_keeps k client processEP0 fuel ep w w2 h1 h2 hs)
          (ih (fun e he => hl e (List.mem_cons_of_mem _ he)) w2 h)
    · simp only [hq, Bool.false_eq_true, if_false] at h
      exact ih (fun e he => hl e (List.mem_cons_of_mem _ he)) w h

/-- The loop of `LPC24_UsbDevice_ProcessEP0` that outputs withheld data, over
at most 16 endpoints of which endpoint 0 has no transmit queue: whenever it
returns, it has left the count of entries into `LPC24_UsbDevice_ControlNext`,
the flag `firstDescriptorPacket`, the recorded address and the stalls of
endpoint 0 as they were. -/
theorem flushOutput_keeps (k : UsbEngineConstants) (client : UsbClientEngine)
    (processEP0 : Nat → Nat → UsbWorld → Option UsbWorld) (fuel count : Nat)
    (hcount : count ≤ 16) (w w1 : UsbWorld) (h0 : w.usClientState.isTxQueue 0 = false)
    (h : flushOutput (LPC24_UsbDevice_StartOutput k client processEP0 fuel) (List.range count) w
      = some w1) :
    flushKeeps w w1 := by
  cases count with
  | zero =>
    simp only [List.range_zero, flushOutput, forEach, Option.some.injEq] at h
    subst h
    exact flushKeeps_refl _
  | succ n =>
    rw [List.range_succ_eq_map] at h
    have hstep : flushOutput (LPC24_UsbDevice_StartOutput k client processEP0 fuel)
        (0 :: List.map Nat.succ (List.range n)) w
        = flushOutput (LPC24_UsbDevice_StartOutput k client processEP0 fuel)
            (List.map Nat.succ (List.range n)) w := by
      simp only [flushOutput, forEach, h0, Bool.false_eq_true, if_false]
    rw [hstep] at h
    apply flushOutput_keeps_tail k client processEP0 fuel _ _ w w1 h
    intro ep hep
    obtain ⟨m, hm, rfl⟩ := List.mem_map.mp hep
    have := List.mem_range.mp hm
    exact ⟨Nat.succ_le_succ (Nat.zero_le _), by omega⟩

/-- The loop that outputs withheld data does nothing when no endpoint has a
transmit queue. -/
theorem flushOutput_idle (startOutput : Nat → UsbWorld → Option UsbWorld) (l : List Nat)
    (w : UsbWorld) (h : ∀ ep ∈ l, w.usClientState.isTxQueue ep = false) :
    flushOutput startOutput l w = some w := by
  induction l with
  | nil => rfl
  | cons ep rest ih =>
    have h1 := h ep (List.mem_cons_self _ _)
    have h2 := ih (fun e he => h e (List.mem_cons_of_mem _ he))
    simp only [flushOutput, forEach, h1, Bool.false_eq_true, if_false]
    exact h2

/-- `LPC24_UsbDevice_ControlNext` does not stall endpoint 0. -/
theorem endpoint0Stalls_controlNextWrites (client : UsbClientEngine) (s : UsClientState) :
    endpoint0Stalls (controlNextWrites client s) = [] := by
  unfold endpoint0Stalls
  rw [List.filter_eq_nil_iff]
  intro c hc
  rcases commandCodes_controlNextWrites client s c hc with h | h
  · rw [h]
    decide
  · rw [h]
    decide

/-- The stalls of endpoint 0 among the register writes of the `switch
(result)`: both directions for a stall, none for every other result. -/
theorem endpoint0Stalls_switchWrites (result : UsbSetupResult) :
    endpoint0Stalls (switchWrites result)
      = (if result = .USB_STATE_STALL then [CMD_SET_EP_STAT 0, CMD_SET_EP_STAT 1] else []) := by
  cases result with
  | USB_STATE_STALL => decide
  | USB_STATE_CONFIGURATION => decide
  | USB_STATE_ADDRESS => rfl
  | USB_STATE_DONE => rfl
  | other raw => rfl

/-- The stalls of endpoint 0 in the register history the setup branch
leaves. -/
theorem endpoint0Stalls_setupOutcome (k : UsbEngineConstants) (client : UsbClientEngine)
    (w : UsbWorld) (v : Nat) (lens rest : List Nat) (result : UsbSetupResult)
    (s : UsClientState) :
    endpoint0Stalls (setupOutcome k client w v lens rest result s).regs
      = endpoint0Stalls w.regs
        ++ (if result = .USB_STATE_STALL then [CMD_SET_EP_STAT 0, CMD_SET_EP_STAT 1] else []) := by
  have hregs : (setupOutcome k client w v lens rest result s).regs
      = w.regs ++ readEPWrites 0 ++ switchWrites result
        ++ (if result = .USB_STATE_STALL then []
            else controlNextWrites client (switchRecord result s)) := rfl
  have hlast : endpoint0Stalls (if result = .USB_STATE_STALL then []
      else controlNextWrites client (switchRecord result s)) = [] := by
    split_ifs
    · rfl
    · exact endpoint0Stalls_controlNextWrites _ _
  rw [hregs, endpoint0Stalls_append, endpoint0Stalls_append, endpoint0Stalls_append,
    endpoint0Stalls_readEPWrites, endpoint0Stalls_switchWrites, hlast, List.append_nil,
    List.append_nil]

/-! ## C13 -/

/-- C13: in the setup phase of `LPC24_UsbDevice_ProcessEP0`, for every setup
packet read into the control endpoint buffer, `firstDescriptorPacket` is
assigned `isFirstDescriptorRequest` of the buffer, which is true exactly when
the request is `USB_GET_DESCRIPTOR`, the high byte of `Value` is
`USB_DEVICE_DESCRIPTOR_TYPE` and `Length` is not 0x12 (18), and false for every
other packet.  The call returns with that value in the flag for every result
of the control callback other than `USB_STATE_CONFIGURATION`; for that result
the loop that outputs withheld data starts with that value in the flag, keeps
it whenever it returns if endpoint 0 has no transmit queue, and returns at once
if no endpoint has one. -/
theorem C13_first_descriptor_packet_flag (k : UsbEngineConstants) (client : UsbClientEngine)
    (fuel inDir setup : Nat) (w : UsbWorld) (v : Nat) (lens rest : List Nat)
    (result : UsbSetupResult) (s1 : UsClientState) (hsetup : setup ≠ 0)
    (hp : awaitPacket w.rxPLen = some (v, lens))
    (hres : client.TinyCLR_UsbClient_ControlCallback (setupRecord w v) = (result, s1))
    (hw : afterWaits (setupWaits result s1) w.devIntSt = some rest) :
    (isFirstDescriptorRequest k client (setupBuffer w v) = true ↔
      client.Request (setupBuffer w v) = k.USB_GET_DESCRIPTOR ∧
      (client.Value (setupBuffer w v) &&& 0xFF00) >>> 8 = k.USB_DEVICE_DESCRIPTOR_TYPE ∧
      client.Length (setupBuffer w v) ≠ 0x12) ∧
    (result ≠ .USB_STATE_CONFIGURATION →
      ∃ w1, LPC24_UsbDevice_ProcessEP0 k client (fuel + 1) inDir setup w = some w1 ∧
        w1.driver.firstDescriptorPacket
          = isFirstDescriptorRequest k client (setupBuffer w v)) ∧
    (result = .USB_STATE_CONFIGURATION →
      ∃ w3, LPC24_UsbDevice_ProcessEP0 k client (fuel + 1) inDir setup w
          = flushOutput
              (LPC24_UsbDevice_StartOutput k client (LPC24_UsbDevice_ProcessEP0 k client fuel)
                fuel)
              (List.range k.LPC24_USB_ENDPOINT_COUNT) w3 ∧
        w3.driver.firstDescriptorPacket
          = isFirstDescriptorRequest k client (setupBuffer w v) ∧
        (k.LPC24_USB_ENDPOINT_COUNT ≤ 16 → w3.usClientState.isTxQueue 0 = false →
          ∀ w1, LPC24_UsbDevice_ProcessEP0 k client (fuel + 1) inDir setup w = some w1 →
            w1.driver.firstDescriptorPacket
              = isFirstDescriptorRequest k client (setupBuffer w v)) ∧
        ((∀ ep ∈ List.range k.LPC24_USB_ENDPOINT_COUNT, w3.usClientState.isTxQueue ep = false) →
          LPC24_UsbDevice_ProcessEP0 k client (fuel + 1) inDir setup w = some w3)) := by
  have e := processEP0_setup k client fuel inDir setup w v lens rest result s1 hsetup hp hres hw
  refine ⟨?_, ?_, ?_⟩
  · simp only [isFirstDescriptorRequest, Bool.and_eq_true, decide_eq_true_eq, and_assoc]
  · intro hcf
    rw [if_neg hcf] at e
    exact ⟨_, e, rfl⟩
  · intro hcf
    rw [if_pos hcf] at e
    refine ⟨_, e, rfl, ?_, ?_⟩
    · intro hcount h0 w1 h1
      rw [e] at h1
      exact (flushOutput_keeps k client _ fuel _ hcount _ w1 h0 h1).2.1
    · intro hidle
      rw [e]
      exact flushOutput_idle _ _ _ hidle

/-- C13 at two requests for the device descriptor: with declared length 8 the
flag is set, with declared length 18 it is cleared. -/
theorem C13_first_descriptor_packet_witness :
    (∃ w1, LPC24_UsbDevice_ProcessEP0 engineConstants fifoClient 1 0 1
        (enumeratingWorld [0x01000680, 0x00080000]) = some w1 ∧
      w1.driver.firstDescriptorPacket = true) ∧
    (∃ w1, LPC24_UsbDevice_ProcessEP0 engineConstants fifoClient 1 0 1
        (enumeratingWorld [0x01000680, 0x00120000]) = some w1 ∧
      w1.driver.firstDescriptorPacket = false) := by
  constructor
  · obtain ⟨w1, h1, h2⟩ :=
      (C13_first_descriptor_packet_flag engineConstants fifoClient 0 0 1
        (enumeratingWorld [0x01000680, 0x00080000]) 0x808 [] (List.replicate 8 0x10) (.other 0)
        (fifoClient.TinyCLR_UsbClient_ControlCallback
          (setupRecord (enumeratingWorld [0x01000680, 0x00080000]) 0x808)).2
        (by decide) rfl rfl rfl).2.1 (by decide)
    exact ⟨w1, h1, by rw [h2]; decide⟩
  · obtain ⟨w1, h1, h2⟩ :=
      (C13_first_descriptor_packet_flag engineConstants fifoClient 0 0 1
        (enumeratingWorld [0x01000680, 0x00120000]) 0x808 [] (List.replicate 8 0x10) (.other 0)
        (fifoClient.TinyCLR_UsbClient_ControlCallback
          (setupRecord (enumeratingWorld [0x01000680, 0x00120000]) 0x808)).2
        (by decide) rfl rfl rfl).2.1 (by decide)
    exact ⟨w1, h1, by rw [h2]; decide⟩

/-! ## The return of the output of withheld data -/

/-- Fewer busy-waits are answered too. -/
theorem commandEngineAnswers_mono (n m : Nat) (l : List Nat) (hnm : n ≤ m)
    (h : commandEngineAnswers m l) : commandEngineAnswers n l :=
  ⟨Nat.le_trans hnm h.1, h.2⟩

/-- Fewer packets are ready too. -/
theorem packetsReady_mono (n m : Nat) (l : List Nat) (hnm : n ≤ m)
    (h : packetsReady m l) : packetsReady n l :=
  ⟨Nat.le_trans hnm h.1, h.2⟩

/-- A busy-wait of the command engine on answering reads ends at the first
read. -/
theorem spinUntil_answers (n mask : Nat) (l : List Nat)
    (hm : mask = CCEMTY_INT ∨ mask = CDFULL_INT) (h : commandEngineAnswers (n + 1) l) :
    ∃ rest, spinUntil mask l = some rest ∧ commandEngineAnswers n rest := by
  obtain ⟨hlen, hall⟩ := h
  cases l with
  | nil => simp at hlen
  | cons v vs =>
    have hv := hall v (List.mem_cons_self _ _)
    have hne : ¬ v &&& mask = 0 := by
      rcases hm with rfl | rfl
      · exact hv.1
      · exact hv.2
    refine ⟨vs, by simp only [spinUntil, if_neg hne], ?_, fun x hx => hall x (List.mem_cons_of_mem _ hx)⟩
    simp only [List.length_cons] at hlen
    omega

/-- Successive busy-waits of the command engine on answering reads end. -/
theorem afterWaits_answers (masks : List Nat) (n : Nat) (l : List Nat)
    (hm : ∀ m ∈ masks, m = CCEMTY_INT ∨ m = CDFULL_INT)
    (h : commandEngineAnswers (n + masks.length) l) :
    ∃ rest, afterWaits masks l = some rest ∧ commandEngineAnswers n rest := by
  induction masks generalizing l with
  | nil => exact ⟨l, rfl, h⟩
  | cons m ms ih =>
    have h1 : commandEngineAnswers (n + ms.length + 1) l := by
      simpa only [List.length_cons, Nat.add_assoc] using h
    obtain ⟨r1, e1, a1⟩ := spinUntil_answers _ m l (hm m (List.mem_cons_self _ _)) h1
    obtain ⟨r2, e2, a2⟩ := ih r1 (fun x hx => hm x (List.mem_cons_of_mem _ hx)) a1
    exact ⟨r2, by simp only [afterWaits, e1, e2], a2⟩

/-- `LPC24_UsbDevice_TxPacket` returns when its dequeue loop ends and the
command engine answers two busy-waits. -/
theorem txPacket_returns (client : UsbClientEngine) (fuel endpoint n : Nat) (w : UsbWorld)
    (hdq : ∀ s ep, txDequeueLoop client ep fuel s ≠ none)
    (ha : commandEngineAnswers (n + 2) w.devIntSt) :
    ∃ w1, LPC24_UsbDevice_TxPacket client fuel endpoint w = some w1 ∧
      commandEngineAnswers n w1.devIntSt ∧ w1.rxPLen = w.rxPLen := by
  obtain ⟨rest, hw, ar⟩ := afterWaits_answers [CCEMTY_INT, CCEMTY_INT] n w.devIntSt
    (by intro m hmem
        simp only [List.mem_cons, List.mem_singleton, List.not_mem_nil, or_false, or_self]
          at hmem
        exact Or.inl hmem) ha
  unfold LPC24_UsbDevice_TxPacket
  cases hd : txDequeueLoop client endpoint fuel w.usClientState with
  | none => exact absurd hd (hdq _ _)
  | some r =>
    obtain ⟨op, s1⟩ := r
    cases op with
    | some p =>
      have e2 := writeEP_eq endpoint (s1.packets p).Buffer (s1.packets p).Size
        { w with usClientState := s1 } rest hw
      simp only []
      rw [e2]
      exact ⟨_, rfl, ar, rfl⟩
    | none =>
      simp only []
      by_cases hz : w.driver.txNeedZLPS endpoint = true
      · have e2 := writeEP_eq endpoint [] 0 { w with usClientState := s1 } rest hw
        simp only [hz, if_true, e2]
        exact ⟨_, rfl, ar, rfl⟩
      · simp only [hz, Bool.false_eq_true, if_false]
        exact ⟨_, rfl, commandEngineAnswers_mono _ _ _ (Nat.le_add_right _ _) ha, rfl⟩

/-- `LPC24_UsbDevice_Enpoint_TxInterruptHandler` returns when the dequeue loop
ends and the command engine answers three busy-waits. -/
theorem txInterruptHandler_returns (client : UsbClientEngine) (fuel endpoint n : Nat)
    (w : UsbWorld) (hdq : ∀ s ep, txDequeueLoop client ep fuel s ≠ none)
    (ha : commandEngineAnswers (n + 3) w.devIntSt) :
    ∃ w1, LPC24_UsbDevice_Enpoint_TxInterruptHandler client fuel endpoint w = some w1 ∧
      commandEngineAnswers n w1.devIntSt ∧ w1.rxPLen = w.rxPLen := by
  unfold LPC24_UsbDevice_Enpoint_TxInterruptHandler
  simp only []
  by_cases hbit : w.epIntSt.headD 0 &&& (1 <<< LPC24_UsbDevice_EPAdr endpoint 1) ≠ 0
  · rw [if_pos hbit]
    obtain ⟨rest, hw, ar⟩ := afterWaits_answers [CDFULL_INT] (n + 2) w.devIntSt
      (by intro m hmem
          simp only [List.mem_singleton] at hmem
          exact Or.inr hmem) ha
    have e := await_eq (({ w with epIntSt := w.epIntSt.tail } : UsbWorld).write
      [.USBEpIntClr (1 <<< LPC24_UsbDevice_EPAdr endpoint 1)]) CDFULL_INT rest hw
    rw [e]
    simp only []
    exact txPacket_returns client fuel endpoint n _ hdq ar
  · rw [if_neg hbit]
    exact ⟨_, rfl, commandEngineAnswers_mono _ _ _ (Nat.le_add_right _ _) ha, rfl⟩

/-- `LPC24_UsbDevice_Enpoint_RxInterruptHandler` returns when a packet is
ready and the command engine answers two busy-waits. -/
theorem rxInterruptHandler_returns (client : UsbClientEngine) (endpoint n m : Nat)
    (w : UsbWorld) (ha : commandEngineAnswers (n + 2) w.devIntSt)
    (hr : packetsReady (m + 1) w.rxPLen) :
    ∃ w1, LPC24_UsbDevice_Enpoint_RxInterruptHandler client endpoint w = some w1 ∧
      commandEngineAnswers n w1.devIntSt ∧ packetsReady m w1.rxPLen := by
  unfold LPC24_UsbDevice_Enpoint_RxInterruptHandler
  cases hq : client.TinyCLR_UsbClient_RxEnqueue w.usClientState endpoint with
  | mk op s1 =>
    cases op with
    | some p =>
      simp only []
      obtain ⟨hlen, hall⟩ := hr
      have hex : ∃ v vs, w.rxPLen = v :: vs := by
        cases hl : w.rxPLen with
        | nil =>
          rw [hl] at hlen
          simp at hlen
        | cons v vs => exact ⟨v, vs, rfl⟩
      obtain ⟨v, vs, hl⟩ := hex
      · rw [hl] at hlen hall
        have hv : ¬ v &&& PKT_RDY = 0 := hall v (List.mem_cons_self _ _)
        have hp : awaitPacket ({ w with usClientState := s1 } : UsbWorld).rxPLen
            = some (v, vs) := by
          show awaitPacket w.rxPLen = _
          rw [hl]
          simp only [awaitPacket, if_neg hv]
        have hready : packetsReady m vs :=
          ⟨by simp only [List.length_cons] at hlen; omega,
            fun x hx => hall x (List.mem_cons_of_mem _ hx)⟩
        have hm : ∀ x ∈ readEPWaits endpoint, x = CCEMTY_INT ∨ x = CDFULL_INT := by
          intro x hx
          unfold readEPWaits at hx
          split_ifs at hx
          · simp only [List.mem_cons, List.mem_singleton, List.not_mem_nil, or_false, or_self]
              at hx
            exact Or.inl hx
          · simp at hx
        have hle : n + (readEPWaits endpoint).length ≤ n + 2 := by
          unfold readEPWaits
          split_ifs <;> simp
        obtain ⟨rest, hw, ar⟩ := afterWaits_answers (readEPWaits endpoint) n w.devIntSt hm
          (commandEngineAnswers_mono _ _ _ hle ha)
        have e := readEP_eq endpoint { w with usClientState := s1 } v vs rest hp hw
        rw [e]
        exact ⟨_, rfl, ar, hready⟩
    | none =>
      simp only []
      exact ⟨_, rfl, commandEngineAnswers_mono _ _ _ (Nat.le_add_right _ _) ha,
        packetsReady_mono _ _ _ (Nat.le_add_right _ _) hr⟩

/-- `LPC24_UsbDevice_ProcessEndPoint` returns when the dequeue loop ends, a
packet is ready and the command engine answers three busy-waits. -/
theorem processEndPoint_returns (client : UsbClientEngine) (fuel ep inDir n m : Nat)
    (w : UsbWorld) (hdq : ∀ s e, txDequeueLoop client e fuel s ≠ none)
    (ha : commandEngineAnswers (n + 3) w.devIntSt) (hr : packetsReady (m + 1) w.rxPLen) :
    ∃ w1, LPC24_UsbDevice_ProcessEndPoint client fuel ep inDir w = some w1 ∧
      commandEngineAnswers n w1.devIntSt ∧ packetsReady m w1.rxPLen := by
  unfold LPC24_UsbDevice_ProcessEndPoint
  by_cases hin : inDir ≠ 0
  · rw [if_pos hin]
    obtain ⟨w1, e, a1, r1⟩ := txInterruptHandler_returns client fuel ep n w hdq ha
    exact ⟨w1, e, a1, r1 ▸ packetsReady_mono _ _ _ (Nat.le_add_right _ _) hr⟩
  · rw [if_neg hin]
    obtain ⟨rest, hw, ar⟩ := afterWaits_answers [CDFULL_INT] (n + 2) w.devIntSt
      (by intro x hx
          simp only [List.mem_singleton] at hx
          exact Or.inr hx) ha
    have e := await_eq (w.write [.USBEpIntClr (1 <<< LPC24_UsbDevice_EPAdr ep inDir)])
      CDFULL_INT rest hw
    rw [e]
    simp only []
    exact rxInterruptHandler_returns client ep n m _ ar hr

/-- `LPC24_UsbDevice_StartOutput` returns, on an endpoint 1 to 15 and on
endpoint 0 unless it calls `LPC24_UsbDevice_ProcessEP0`, when the dequeue loop
ends, a packet is ready and the command engine answers three busy-waits. -/
theorem startOutput_returns (k : UsbEngineConstants) (client : UsbClientEngine)
    (processEP0 : Nat → Nat → UsbWorld → Option UsbWorld) (fuel endpoint n m : Nat)
    (w : UsbWorld) (h2 : endpoint < 16)
    (hsafe : 1 ≤ endpoint
      ∨ w.usClientState.endpointStatus endpoint &&& k.USB_STATUS_ENDPOINT_HALT ≠ 0
      ∨ w.driver.txRunning endpoint = false ∨ client.irqIsDisabled = false
      ∨ w.epIntSt.headD 0 &&& (1 <<< LPC24_UsbDevice_EPAdr endpoint 1) = 0)
    (hdq : ∀ s e, txDequeueLoop client e fuel s ≠ none)
    (ha : commandEngineAnswers (n + 3) w.devIntSt) (hr : packetsReady (m + 1) w.rxPLen) :
    ∃ w1, LPC24_UsbDevice_StartOutput k client processEP0 fuel endpoint w = some w1 ∧
      commandEngineAnswers n w1.devIntSt ∧ packetsReady m w1.rxPLen := by
  have ha0 : commandEngineAnswers n w.devIntSt :=
    commandEngineAnswers_mono _ _ _ (Nat.le_add_right _ _) ha
  have hr0 : packetsReady m w.rxPLen := packetsReady_mono _ _ _ (Nat.le_add_right _ _) hr
  unfold LPC24_UsbDevice_StartOutput
  by_cases hhalt : w.usClientState.endpointStatus endpoint &&& k.USB_STATUS_ENDPOINT_HALT ≠ 0
  · rw [if_pos hhalt]
    exact ⟨_, rfl, ha0, hr0⟩
  · rw [if_neg hhalt]
    by_cases hrun : ¬ w.driver.txRunning endpoint = true
    · rw [if_pos hrun]
      obtain ⟨w1, e, a1, r1⟩ := txPacket_returns client fuel endpoint n
        { w with driver :=
          { w.driver with txRunning := Function.update w.driver.txRunning endpoint true } }
        hdq (commandEngineAnswers_mono _ _ _ (by omega) ha)
      exact ⟨w1, e, a1, r1 ▸ hr0⟩
    · rw [if_neg hrun]
      by_cases hirq : client.irqIsDisabled = true
      · rw [if_pos hirq]
        simp only []
        by_cases hbit : w.epIntSt.headD 0 &&& (1 <<< LPC24_UsbDevice_EPAdr endpoint 1) ≠ 0
        · have h1 : 1 ≤ endpoint := by
            rcases hsafe with h | h | h | h | h
            · exact h
            · exact absurd h hhalt
            · rw [h] at hrun
              exact absurd (fun e => Bool.noConfusion e) hrun
            · rw [h] at hirq
              exact Bool.noConfusion hirq
            · exact absurd h hbit
          have hm := startOutput_not_endpoint0 endpoint h1 h2
          rw [if_pos hbit, if_neg hm]
          by_cases hq : ((w.usClientState.queues (LPC24_UsbDevice_EPAdr endpoint 1 >>> 1)).isSome
              && w.usClientState.isTxQueue endpoint) = true
          · rw [if_pos hq]
            exact processEndPoint_returns client fuel _ 1 n m
              { w with epIntSt := w.epIntSt.tail } hdq ha hr
          · rw [if_neg hq]
            exact processEndPoint_returns client fuel _ 0 n m
              { w with epIntSt := w.epIntSt.tail } hdq ha hr
        · rw [if_neg hbit]
          exact ⟨_, rfl, ha0, hr0⟩
      · rw [if_neg hirq]
        exact ⟨_, rfl, ha0, hr0⟩

/-- The loop that outputs withheld data over endpoints among 1 to 15 returns
when the dequeue loop ends and, for each endpoint, a packet is ready and the
command engine answers three busy-waits. -/
theorem flushOutput_returns_tail (k : UsbEngineConstants) (client : UsbClientEngine)
    (processEP0 : Nat → Nat → UsbWorld → Option UsbWorld) (fuel : Nat)
    (hdq : ∀ s e, txDequeueLoop client e fuel s ≠ none) (l : List Nat)
    (hl : ∀ ep ∈ l, 1 ≤ ep ∧ ep < 16) (n m : Nat) (w : UsbWorld)
    (ha : commandEngineAnswers (n + 3 * l.length) w.devIntSt)
    (hr : packetsReady (m + l.length) w.rxPLen) :
    ∃ w1, flushOutput (LPC24_UsbDevice_StartOutput k client processEP0 fuel) l w = some w1 ∧
      commandEngineAnswers n w1.devIntSt ∧ packetsReady m w1.rxPLen := by
  induction l generalizing w with
  | nil => exact ⟨w, rfl, ha, hr⟩
  | cons ep rest ih =>
    obtain ⟨h1, h2⟩ := hl ep (List.mem_cons_self _ _)
    have hl1 : ∀ e ∈ rest, 1 ≤ e ∧ e < 16 := fun e he => hl e (List.mem_cons_of_mem _ he)
    simp only [List.length_cons] at ha hr
    by_cases hq : w.usClientState.isTxQueue ep = true
    · obtain ⟨w2, e2, a2, r2⟩ := startOutput_returns k client processEP0 fuel ep
        (n + 3 * rest.length) (m + rest.length) w h2 (Or.inl h1) hdq
        (commandEngineAnswers_mono _ _ _ (by omega) ha)
        (packetsReady_mono _ _ _ (by omega) hr)
      obtain ⟨w1, e1, a1, r1⟩ := ih hl1 w2 a2 r2
      refine ⟨w1, ?_, a1, r1⟩
      simp only [flushOutput, forEach, hq, if_true, e2]
      exact e1
    · obtain ⟨w1, e1, a1, r1⟩ := ih hl1 w
        (commandEngineAnswers_mono _ _ _ (by omega) ha)
        (packetsReady_mono _ _ _ (by omega) hr)
      refine ⟨w1, ?_, a1, r1⟩
      simp only [flushOutput, forEach, hq, Bool.false_eq_true, if_false]
      exact e1

/-- The loop of `LPC24_UsbDevice_ProcessEP0` that outputs withheld data, over
at most 16 endpoints, returns when it does not call
`LPC24_UsbDevice_ProcessEP0` again through endpoint 0, the dequeue loop ends
and, for each endpoint, a packet is ready and the command engine answers
three busy-waits. -/
theorem flushOutput_returns (k : UsbEngineConstants) (client : UsbClientEngine)
    (processEP0 : Nat → Nat → UsbWorld → Option UsbWorld) (fuel count : Nat)
    (hcount : count ≤ 16) (w : UsbWorld)
    (hsafe : w.usClientState.isTxQueue 0 = false
      ∨ w.usClientState.endpointStatus 0 &&& k.USB_STATUS_ENDPOINT_HALT ≠ 0
      ∨ w.driver.txRunning 0 = false ∨ client.irqIsDisabled = false
      ∨ w.epIntSt.headD 0 &&& (1 <<< LPC24_UsbDevice_EPAdr 0 1) = 0)
    (hdq : ∀ s e, txDequeueLoop client e fuel s ≠ none)
    (ha : commandEngineAnswers (3 * count) w.devIntSt)
    (hr : packetsReady count w.rxPLen) :
    ∃ w1, flushOutput (LPC24_UsbDevice_StartOutput k client processEP0 fuel)
      (List.range count) w = some w1 := by
  cases count with
  | zero => exact ⟨w, rfl⟩
  | succ n =>
    rw [List.range_succ_eq_map]
    have hl : ∀ ep ∈ List.map Nat.succ (List.range n), 1 ≤ ep ∧ ep < 16 := by
      intro ep hep
      obtain ⟨m, hm, rfl⟩ := List.mem_map.mp hep
      have := List.mem_range.mp hm
      exact ⟨Nat.succ_le_succ (Nat.zero_le _), by omega⟩
    have hlen : (List.map Nat.succ (List.range n)).length = n := by
      simp only [List.length_map, List.length_range]
    by_cases hq : w.usClientState.isTxQueue 0 = true
    · have hsafe1 : 1 ≤ 0
          ∨ w.usClientState.endpointStatus 0 &&& k.USB_STATUS_ENDPOINT_HALT ≠ 0
          ∨ w.driver.txRunning 0 = false ∨ client.irqIsDisabled = false
          ∨ w.epIntSt.headD 0 &&& (1 <<< LPC24_UsbDevice_EPAdr 0 1) = 0 := by
        rcases hsafe with h | h
        · rw [h] at hq
          exact Bool.noConfusion hq
        · exact Or.inr h
      obtain ⟨w2, e2, a2, r2⟩ := startOutput_returns k client processEP0 fuel 0
        (3 * n) n w (by decide) hsafe1 hdq
        (commandEngineAnswers_mono _ _ _ (by omega) ha)
        (packetsReady_mono _ _ _ (by omega) hr)
      obtain ⟨w1, e1, _, _⟩ := flushOutput_returns_tail k client processEP0 fuel hdq
        (List.map Nat.succ (List.range n)) hl 0 0 w2
        (by rw [hlen, Nat.zero_add]; exact a2) (by rw [hlen, Nat.zero_add]; exact r2)
      refine ⟨w1, ?_⟩
      simp only [flushOutput, forEach, hq, if_true, e2]
      exact e1
    · obtain ⟨w1, e1, _, _⟩ := flushOutput_returns_tail k client processEP0 fuel hdq
        (List.map Nat.succ (List.range n)) hl 0 0 w
        (by rw [hlen, Nat.zero_add]; exact commandEngineAnswers_mono _ _ _ (by omega) ha)
        (by rw [hlen, Nat.zero_add]; exact packetsReady_mono _ _ _ (by omega) hr)
      refine ⟨w1, ?_⟩
      simp only [flushOutput, forEach, hq, Bool.false_eq_true, if_false]
      exact e1

/-- The dequeue loop of the client `readyClient` ends at its first turn. -/
theorem readyClient_dequeue (s : UsClientState) (ep : Nat) :
    txDequeueLoop readyClient ep 1 s ≠ none := by
  simp only [txDequeueLoop, readyClient]
  cases hq : s.queues ep with
  | none => simp
  | some q =>
    cases q with
    | nil => simp
    | cons p rest =>
      by_cases hs : 0 < (s.packets p).Size
      · simp [hs]
      · simp [hs]

/-! ## C14 -/

/-- `LPC24_UsbDevice_StartOutput` on endpoint 0, whenever it returns, is kept
unless it takes the branch that calls `LPC24_UsbDevice_ProcessEP0`: the
endpoint is not halted, `txRunning[0]` is set, interrupts are disabled and the
IN interrupt of endpoint 0 is pending. -/
theorem startOutput_keeps_endpoint0 (k : UsbEngineConstants) (client : UsbClientEngine)
    (processEP0 : Nat → Nat → UsbWorld → Option UsbWorld) (fuel : Nat) (w w1 : UsbWorld)
    (hsafe : w.usClientState.endpointStatus 0 &&& k.USB_STATUS_ENDPOINT_HALT ≠ 0
      ∨ w.driver.txRunning 0 = false ∨ client.irqIsDisabled = false
      ∨ w.epIntSt.headD 0 &&& (1 <<< LPC24_UsbDevice_EPAdr 0 1) = 0)
    (h : LPC24_UsbDevice_StartOutput k client processEP0 fuel 0 w = some w1) :
    flushKeeps w w1 := by
  unfold LPC24_UsbDevice_StartOutput at h
  by_cases hhalt : w.usClientState.endpointStatus 0 &&& k.USB_STATUS_ENDPOINT_HALT ≠ 0
  · rw [if_pos hhalt] at h
    simp only [Option.some.injEq] at h
    subst h
    exact flushKeeps_of _ _ [] rfl rfl rfl (List.append_nil _).symm rfl
  · rw [if_neg hhalt] at h
    by_cases hrun : ¬ w.driver.txRunning 0 = true
    · rw [if_pos hrun] at h
      have k1 : flushKeeps w { w with driver :=
          { w.driver with txRunning := Function.update w.driver.txRunning 0 true } } :=
        flushKeeps_of _ _ [] rfl rfl rfl (List.append_nil _).symm rfl
      exact flushKeeps_trans _ _ _ k1 (txPacket_keeps _ _ _ _ _ h)
    · rw [if_neg hrun] at h
      by_cases hirq : client.irqIsDisabled = true
      · rw [if_pos hirq] at h
        simp only [] at h
        have k1 : flushKeeps w { w with epIntSt := w.epIntSt.tail } :=
          flushKeeps_of _ _ [] rfl rfl rfl (List.append_nil _).symm rfl
        by_cases hbit : w.epIntSt.headD 0 &&& (1 <<< LPC24_UsbDevice_EPAdr 0 1) ≠ 0
        · rcases hsafe with h1 | h1 | h1 | h1
          · exact absurd h1 hhalt
          · rw [h1] at hrun
            exact absurd (fun e => Bool.noConfusion e) hrun
          · rw [h1] at hirq
            exact Bool.noConfusion hirq
          · exact absurd h1 hbit
        · rw [if_neg hbit] at h
          simp only [Option.some.injEq] at h
          subst h
          exact k1
      · rw [if_neg hirq] at h
        simp only [Option.some.injEq] at h
        subst h
        exact flushKeeps_refl _

/-- The loop of `LPC24_UsbDevice_ProcessEP0` that outputs withheld data, over
at most 16 endpoints: whenever it returns, it has left the count of entries
into `LPC24_UsbDevice_ControlNext`, the flag `firstDescriptorPacket`, the
recorded address and the stalls of endpoint 0 as they were, unless
`LPC24_UsbDevice_StartOutput` is called on endpoint 0 and calls
`LPC24_UsbDevice_ProcessEP0`. -/
theorem flushOutput_keeps_unless_reentered (k : UsbEngineConstants) (client : UsbClientEngine)
    (processEP0 : Nat → Nat → UsbWorld → Option UsbWorld) (fuel count : Nat)
    (hcount : count ≤ 16) (w w1 : UsbWorld)
    (hsafe : w.usClientState.isTxQueue 0 = false
      ∨ w.usClientState.endpointStatus 0 &&& k.USB_STATUS_ENDPOINT_HALT ≠ 0
      ∨ w.driver.txRunning 0 = false ∨ client.irqIsDisabled = false
      ∨ w.epIntSt.headD 0 &&& (1 <<< LPC24_UsbDevice_EPAdr 0 1) = 0)
    (h : flushOutput (LPC24_UsbDevice_StartOutput k client processEP0 fuel) (List.range count) w
      = some w1) :
    flushKeeps w w1 := by
  by_cases h0 : w.usClientState.isTxQueue 0 = false
  · exact flushOutput_keeps k client processEP0 fuel count hcount w w1 h0 h
  · have hq : w.usClientState.isTxQueue 0 = true := by
      cases hx : w.usClientState.isTxQueue 0
      · exact absurd hx h0
      · rfl
    have hsafe1 : w.usClientState.endpointStatus 0 &&& k.USB_STATUS_ENDPOINT_HALT ≠ 0
        ∨ w.driver.txRunning 0 = false ∨ client.irqIsDisabled = false
        ∨ w.epIntSt.headD 0 &&& (1 <<< LPC24_UsbDevice_EPAdr 0 1) = 0 := by
      rcases hsafe with h1 | h1
      · exact absurd h1 h0
      · exact h1
    cases count with
    | zero =>
      simp only [List.range_zero, flushOutput, forEach, Option.some.injEq] at h
      subst h
      exact flushKeeps_refl _
    | succ n =>
      rw [List.range_succ_eq_map] at h
      simp only [flushOutput, forEach, hq, if_true] at h
      cases hs : LPC24_UsbDevice_StartOutput k client processEP0 fuel 0 w with
      | none => simp [hs] at h
      | some w2 =>
        simp only [hs] at h
        have k1 := startOutput_keeps_endpoint0 k client processEP0 fuel w w2 hsafe1 hs
        have k2 := flushOutput_keeps_tail k client processEP0 fuel
          (List.map Nat.succ (List.range n))
          (fun ep hep => by
            obtain ⟨m, hm, rfl⟩ := List.mem_map.mp hep
            have := List.mem_range.mp hm
            exact ⟨Nat.succ_le_succ (Nat.zero_le _), by omega⟩)
          w2 w1 h
        exact flushKeeps_trans _ _ _ k1 k2


set_option maxRecDepth 100000 in
/-- C14, the claim at an input where it fails: a SET_CONFIGURATION request,
which the control callback answers with `USB_STATE_CONFIGURATION`, on a device
whose endpoint 0 has a transmit queue with a transmission marked as running
and its IN interrupt pending.  The loop that outputs withheld data calls
`LPC24_UsbDevice_StartOutput` on endpoint 0, which acknowledges the interrupt
and calls `LPC24_UsbDevice_ProcessEP0` again: as an IN event it enters
`LPC24_UsbDevice_ControlNext` a second time; as a setup phase whose request is
answered with a stall it stalls endpoint 0 in both directions, although the
result of the outer setup phase is not a stall. -/
theorem C14_configuration_reenters_endpoint0 :
    (fifoClient.TinyCLR_UsbClient_ControlCallback
        (setupRecord (configuringWorld true 0) 0x808)).1 = .USB_STATE_CONFIGURATION ∧
    (∃ w1, LPC24_UsbDevice_ProcessEP0 engineConstants fifoClient 2 0 1 (configuringWorld true 0)
        = some w1 ∧
      w1.controlNextCalls = 2 ∧ endpoint0Stalls w1.regs = []) ∧
    (∃ w1, LPC24_UsbDevice_ProcessEP0 engineConstants fifoClient 2 0 1
        (configuringWorld true EP_SEL_STP) = some w1 ∧
      w1.controlNextCalls = 1 ∧
      endpoint0Stalls w1.regs = [CMD_SET_EP_STAT 0, CMD_SET_EP_STAT 1]) :=
  ⟨by decide, ⟨_, rfl, by decide, by decide⟩, ⟨_, rfl, by decide, by decide⟩⟩

/-- C14 as amended: the setup phase of `LPC24_UsbDevice_ProcessEP0`, for the
result the control callback returns.  For `USB_STATE_STALL` the call returns
having written, after the commands that read the setup packet, the two
commands that stall endpoint 0, OUT and IN; `LPC24_UsbDevice_ControlNext` was
not entered and nothing was written to an endpoint FIFO.  For every other
result, once the switch and the data phase are done,
`LPC24_UsbDevice_ControlNext` was entered exactly once and no command that
stalls endpoint 0 was written.  For the results other than
`USB_STATE_CONFIGURATION` this is the return of the call.  For
`USB_STATE_CONFIGURATION` it is the state `setupOutcome` in which the loop
that outputs withheld data starts.  With at most 16 endpoints the loop keeps
both facts at every return of the call, unless its call of
`LPC24_UsbDevice_StartOutput` on endpoint 0 calls `LPC24_UsbDevice_ProcessEP0`
again, which takes a transmit queue on endpoint 0, the endpoint not halted,
`txRunning[0]` set, interrupts disabled and the IN interrupt of endpoint 0
pending.  Short of that the call returns, with both facts, when the dequeue
loop of the client layer ends and the hardware answers three busy-waits of
the command engine and reports one packet for each endpoint; and with no
transmit queue at all it returns in the state `setupOutcome`. -/
theorem C14_stall_skips_control_next (k : UsbEngineConstants) (client : UsbClientEngine)
    (fuel inDir setup : Nat) (w : UsbWorld) (v : Nat) (lens rest : List Nat)
    (result : UsbSetupResult) (s1 : UsClientState) (hsetup : setup ≠ 0)
    (hp : awaitPacket w.rxPLen = some (v, lens))
    (hres : client.TinyCLR_UsbClient_ControlCallback (setupRecord w v) = (result, s1))
    (hw : afterWaits (setupWaits result s1) w.devIntSt = some rest) :
    (result = .USB_STATE_STALL →
      ∃ w1, LPC24_UsbDevice_ProcessEP0 k client (fuel + 1) inDir setup w = some w1 ∧
        w1.regs = w.regs ++ readEPWrites 0 ++ stallWrites ∧
        endpoint0Stalls w1.regs
          = endpoint0Stalls w.regs ++ [CMD_SET_EP_STAT 0, CMD_SET_EP_STAT 1] ∧
        w1.controlNextCalls = w.controlNextCalls ∧
        (∀ x ∈ readEPWrites 0 ++ stallWrites, isTxWrite x = false)) ∧
    (result ≠ .USB_STATE_STALL → result ≠ .USB_STATE_CONFIGURATION →
      ∃ w1, LPC24_UsbDevice_ProcessEP0 k client (fuel + 1) inDir setup w = some w1 ∧
        w1.controlNextCalls = w.controlNextCalls + 1 ∧
        endpoint0Stalls w1.regs = endpoint0Stalls w.regs) ∧
    (result = .USB_STATE_CONFIGURATION →
      LPC24_UsbDevice_ProcessEP0 k client (fuel + 1) inDir setup w
          = flushOutput
              (LPC24_UsbDevice_StartOutput k client (LPC24_UsbDevice_ProcessEP0 k client fuel)
                fuel)
              (List.range k.LPC24_USB_ENDPOINT_COUNT)
              (setupOutcome k client w v lens rest result s1) ∧
        (setupOutcome k client w v lens rest result s1).controlNextCalls
          = w.controlNextCalls + 1 ∧
        endpoint0Stalls (setupOutcome k client w v lens rest result s1).regs
          = endpoint0Stalls w.regs ∧
        (k.LPC24_USB_ENDPOINT_COUNT ≤ 16 →
          ((setupOutcome k client w v lens rest result s1).usClientState.isTxQueue 0 = false
            ∨ (setupOutcome k client w v lens rest result s1).usClientState.endpointStatus 0
                &&& k.USB_STATUS_ENDPOINT_HALT ≠ 0
            ∨ (setupOutcome k client w v lens rest result s1).driver.txRunning 0 = false
            ∨ client.irqIsDisabled = false
            ∨ (setupOutcome k client w v lens rest result s1).epIntSt.headD 0
                &&& (1 <<< LPC24_UsbDevice_EPAdr 0 1) = 0) →
          ∀ w1, LPC24_UsbDevice_ProcessEP0 k client (fuel + 1) inDir setup w = some w1 →
            w1.controlNextCalls = w.controlNextCalls + 1 ∧
            endpoint0Stalls w1.regs = endpoint0Stalls w.regs) ∧
        (k.LPC24_USB_ENDPOINT_COUNT ≤ 16 →
          ((setupOutcome k client w v lens rest result s1).usClientState.isTxQueue 0 = false
            ∨ (setupOutcome k client w v lens rest result s1).usClientState.endpointStatus 0
                &&& k.USB_STATUS_ENDPOINT_HALT ≠ 0
            ∨ (setupOutcome k client w v lens rest result s1).driver.txRunning 0 = false
            ∨ client.irqIsDisabled = false
            ∨ (setupOutcome k client w v lens rest result s1).epIntSt.headD 0
                &&& (1 <<< LPC24_UsbDevice_EPAdr 0 1) = 0) →
          (∀ s e, txDequeueLoop client e fuel s ≠ none) →
          commandEngineAnswers (3 * k.LPC24_USB_ENDPOINT_COUNT) rest →
          packetsReady k.LPC24_USB_ENDPOINT_COUNT lens →
          ∃ w1, LPC24_UsbDevice_ProcessEP0 k client (fuel + 1) inDir setup w = some w1 ∧
            w1.controlNextCalls = w.controlNextCalls + 1 ∧
            endpoint0Stalls w1.regs = endpoint0Stalls w.regs) ∧
        ((∀ ep ∈ List.range k.LPC24_USB_ENDPOINT_COUNT,
            (setupOutcome k client w v lens rest result s1).usClientState.isTxQueue ep = false) →
          LPC24_UsbDevice_ProcessEP0 k client (fuel + 1) inDir setup w
            = some (setupOutcome k client w v lens rest result s1))) := by
  have e := processEP0_setup k client fuel inDir setup w v lens rest result s1 hsetup hp hres hw
  have hst := endpoint0Stalls_setupOutcome k client w v lens rest result s1
  have hcalls : (setupOutcome k client w v lens rest result s1).controlNextCalls
      = w.controlNextCalls + (if result = .USB_STATE_STALL then 0 else 1) := rfl
  refine ⟨?_, ?_, ?_⟩
  · intro hs
    subst hs
    rw [if_neg (by decide)] at e
    rw [if_pos rfl] at hst hcalls
    refine ⟨_, e, ?_, hst, hcalls, by decide⟩
    simp only [setupOutcome, switchWrites, if_true, List.append_nil]
  · intro hs hcf
    rw [if_neg hcf] at e
    rw [if_neg hs] at hst hcalls
    exact ⟨_, e, hcalls, by rw [hst, List.append_nil]⟩
  · intro hcf
    have hs : result ≠ .USB_STATE_STALL := by
      rw [hcf]
      decide
    rw [if_pos hcf] at e
    rw [if_neg hs] at hst hcalls
    rw [List.append_nil] at hst
    refine ⟨e, hcalls, hst, ?_, ?_, ?_⟩
    · intro hcount h0 w1 h1
      rw [e] at h1
      have hk := flushOutput_keeps_unless_reentered k client _ fuel _ hcount _ w1 h0 h1
      exact ⟨hk.1.trans hcalls, hk.2.2.2.trans hst⟩
    · intro hcount h0 hdq ha hr
      obtain ⟨w1, h1⟩ := flushOutput_returns k client (LPC24_UsbDevice_ProcessEP0 k client fuel)
        fuel _ hcount (setupOutcome k client w v lens rest result s1) h0 hdq ha hr
      have hk := flushOutput_keeps_unless_reentered k client _ fuel _ hcount _ w1 h0 h1
      exact ⟨w1, e.trans h1, hk.1.trans hcalls, hk.2.2.2.trans hst⟩
    · intro hidle
      rw [e]
      exact flushOutput_idle _ _ _ hidle

set_option maxRecDepth 100000 in
/-- C14 as amended, at four setup packets: one the control callback answers
with a stall, after which the command codes written are those of reading the
packet and of the stalls of endpoint 0 in both directions, with no entry into
`LPC24_UsbDevice_ControlNext`; a request for the device descriptor, after
which `LPC24_UsbDevice_ControlNext` was entered once and endpoint 0 is not
stalled; and SET_CONFIGURATION, on a device without transmit queues and on a
device with a packet withheld on endpoint 2, after which the same holds. -/
theorem C14_stall_skips_control_next_witness :
    (∃ w1, LPC24_UsbDevice_ProcessEP0 engineConstants fifoClient 1 0 1
        (enumeratingWorld [0x0000FF00, 0]) = some w1 ∧
      commandCodes w1.regs = [CMD_SEL_EP 0, CMD_CLR_BUF,
        CMD_SET_EP_STAT 0, DAT_WR_BYTE EP_STAT_ST, CMD_SET_EP_STAT 1, DAT_WR_BYTE EP_STAT_ST] ∧
      w1.controlNextCalls = 0) ∧
    (∃ w1, LPC24_UsbDevice_ProcessEP0 engineConstants fifoClient 1 0 1
        (enumeratingWorld [0x01000680, 0x00080000]) = some w1 ∧
      w1.controlNextCalls = 1 ∧ endpoint0Stalls w1.regs = []) ∧
    (∃ w1, LPC24_UsbDevice_ProcessEP0 engineConstants fifoClient 1 0 1
        (configuringWorld false 0) = some w1 ∧
      w1.controlNextCalls = 1 ∧ endpoint0Stalls w1.regs = []) ∧
    (∃ w1, LPC24_UsbDevice_ProcessEP0 engineConstants readyClient 2 0 1 withheldWorld
        = some w1 ∧
      w1.controlNextCalls = 1 ∧ endpoint0Stalls w1.regs = []) := by
  refine ⟨?_, ?_, ?_, ?_⟩
  · obtain ⟨w1, h1, h2, _, h3, _⟩ :=
      (C14_stall_skips_control_next engineConstants fifoClient 0 0 1
        (enumeratingWorld [0x0000FF00, 0]) 0x808 [] (List.replicate 6 0x10) .USB_STATE_STALL
        (fifoClient.TinyCLR_UsbClient_ControlCallback
          (setupRecord (enumeratingWorld [0x0000FF00, 0]) 0x808)).2
        (by decide) rfl rfl rfl).1 rfl
    exact ⟨w1, h1, by rw [h2]; decide, h3⟩
  · obtain ⟨w1, h1, h2, h3⟩ :=
      (C14_stall_skips_control_next engineConstants fifoClient 0 0 1
        (enumeratingWorld [0x01000680, 0x00080000]) 0x808 [] (List.replicate 8 0x10) (.other 0)
        (fifoClient.TinyCLR_UsbClient_ControlCallback
          (setupRecord (enumeratingWorld [0x01000680, 0x00080000]) 0x808)).2
        (by decide) rfl rfl rfl).2.1 (by decide) (by decide)
    exact ⟨w1, h1, h2, h3⟩
  · obtain ⟨_, h2, h3, _, _, h6⟩ :=
      (C14_stall_skips_control_next engineConstants fifoClient 0 0 1
        (configuringWorld false 0) 0x808 [0x808] (List.replicate 15 0x130)
        .USB_STATE_CONFIGURATION
        (fifoClient.TinyCLR_UsbClient_ControlCallback
          (setupRecord (configuringWorld false 0) 0x808)).2
        (by decide) rfl rfl (by decide)).2.2 rfl
    exact ⟨_, h6 (by decide), h2, h3⟩
  · obtain ⟨_, _, _, _, h5, _⟩ :=
      (C14_stall_skips_control_next engineConstants readyClient 1 0 1
        withheldWorld 0x808 (List.replicate 16 0x808) (List.replicate 55 0x130)
        .USB_STATE_CONFIGURATION
        (readyClient.TinyCLR_UsbClient_ControlCallback (setupRecord withheldWorld 0x808)).2
        (by decide) rfl rfl (by decide)).2.2 rfl
    exact h5 (by decide) (Or.inl rfl) readyClient_dequeue (by decide) (by decide)

/-! ## C15 -/

/-- C15: for every device state `s` that fits the `uint8_t` slot in which it is
saved, and a state callback that leaves the device state as it is: after
`LPC24_UsbDevice_SuspendEvent` the device state is
`USB_DEVICE_STATE_SUSPENDED` and the saved state is `s`, and after a following
`LPC24_UsbDevice_ResumeEvent` the device state is `s` again. -/
theorem C15_suspend_resume_round_trip (k : UsbEngineConstants) (client : UsbClientLayer)
    (w : UsbWorld)
    (hcb : ∀ s, (client.TinyCLR_UsbClient_StateCallback s).deviceState = s.deviceState)
    (hs : w.usClientState.deviceState < 256) :
    (LPC24_UsbDevice_SuspendEvent k client w).usClientState.deviceState
        = k.USB_DEVICE_STATE_SUSPENDED ∧
      (LPC24_UsbDevice_SuspendEvent k client w).driver.previousDeviceState
        = w.usClientState.deviceState ∧
      (LPC24_UsbDevice_ResumeEvent client
        (LPC24_UsbDevice_SuspendEvent k client w)).usClientState.deviceState
        = w.usClientState.deviceState := by
  refine ⟨?_, ?_, ?_⟩
  · simp only [LPC24_UsbDevice_SuspendEvent, hcb]
  · simp only [LPC24_UsbDevice_SuspendEvent]
    exact Nat.mod_eq_of_lt hs
  · simp only [LPC24_UsbDevice_ResumeEvent, LPC24_UsbDevice_SuspendEvent, hcb]
    exact Nat.mod_eq_of_lt hs

/-- C15 on a configured device (device state 5): suspended it is in state 6,
resumed it is in state 5 again. -/
theorem C15_suspend_resume_witness :
    (LPC24_UsbDevice_SuspendEvent engineConstants quietClient busyUsbWorld).usClientState.deviceState
        = 6 ∧
      (LPC24_UsbDevice_SuspendEvent engineConstants quietClient busyUsbWorld).driver.previousDeviceState
        = 5 ∧
      (LPC24_UsbDevice_ResumeEvent quietClient
        (LPC24_UsbDevice_SuspendEvent engineConstants quietClient
          busyUsbWorld)).usClientState.deviceState = 5 :=
  C15_suspend_resume_round_trip engineConstants quietClient busyUsbWorld (fun _ => rfl)
    (by decide)

/-! ## C16 -/

/-- `LPC24_UsbDevice_Enpoint_RxInterruptHandler` when the queue has no slot. -/
theorem rxInterruptHandler_full (client : UsbClientEngine) (endpoint : Nat) (w : UsbWorld)
    (s1 : UsClientState)
    (hq : client.TinyCLR_UsbClient_RxEnqueue w.usClientState endpoint = (none, s1)) :
    LPC24_UsbDevice_Enpoint_RxInterruptHandler client endpoint w = some
      { w with
        usClientState := s1
        nacking_rx_OUT_data := Function.update w.nacking_rx_OUT_data endpoint 1 } := by
  simp only [LPC24_UsbDevice_Enpoint_RxInterruptHandler, hq]

/-- `LPC24_UsbDevice_Enpoint_RxInterruptHandler` when the queue hands out the
slot `p`, the hardware reports a packet and the commands that release the
buffer end. -/
theorem rxInterruptHandler_slot (client : UsbClientEngine) (endpoint : Nat) (w : UsbWorld)
    (s1 : UsClientState) (p v : Nat) (lens rest : List Nat)
    (hq : client.TinyCLR_UsbClient_RxEnqueue w.usClientState endpoint = (some p, s1))
    (hp : awaitPacket w.rxPLen = some (v, lens))
    (hw : afterWaits (readEPWaits endpoint) w.devIntSt = some rest) :
    LPC24_UsbDevice_Enpoint_RxInterruptHandler client endpoint w = some
      { w with
        regs := w.regs ++ readEPWrites endpoint
        devIntSt := rest
        rxPLen := lens
        rxData := w.rxData.drop (((v &&& PKT_LNGTH_MASK) + 3) / 4)
        nacking_rx_OUT_data := Function.update w.nacking_rx_OUT_data endpoint 0
        usClientState :=
          { s1 with
            packets := Function.update s1.packets p
              { Size := (v &&& PKT_LNGTH_MASK) % 256
                Buffer := storeBytes (s1.packets p).Buffer (readEPBytes v w.rxData) } } } := by
  have e := readEP_eq endpoint { w with usClientState := s1 } v lens rest hp hw
  rw [LPC24_UsbDevice_Enpoint_RxInterruptHandler]
  simp only [hq, e, UsbWorld.ran]

/-- C16: `LPC24_UsbDevice_Enpoint_RxInterruptHandler`, when the queue returns
no slot, sets the endpoint's `nacking_rx_OUT_data` to 1, writes no register and
consumes nothing of the receive FIFO; when the queue returns a slot and the
hardware delivers a packet, it reads the packet into the slot's buffer, sets
the slot's `Size` to the length read (held in a `uint8_t`, hence the length
itself when it is below 256) and sets the flag to 0.  `LPC24_UsbDevice_RxEnable` returns false and does nothing for
every endpoint at or above `LPC24_USB_ENDPOINT_COUNT`; for an endpoint below it
returns true, having run the receive handler if the endpoint's flag is set and
having done nothing if it is not. -/
theorem C16_receive_back_pressure (k : UsbEngineConstants) (client : UsbClientEngine)
    (endpoint : Nat) (w : UsbWorld) :
    (∀ s1, client.TinyCLR_UsbClient_RxEnqueue w.usClientState endpoint = (none, s1) →
      ∃ w1, LPC24_UsbDevice_Enpoint_RxInterruptHandler client endpoint w = some w1 ∧
        w1.nacking_rx_OUT_data endpoint = 1 ∧ w1.regs = w.regs ∧
        w1.rxPLen = w.rxPLen ∧ w1.rxData = w.rxData ∧ w1.usClientState = s1) ∧
    (∀ s1 p v lens rest,
      client.TinyCLR_UsbClient_RxEnqueue w.usClientState endpoint = (some p, s1) →
      awaitPacket w.rxPLen = some (v, lens) →
      afterWaits (readEPWaits endpoint) w.devIntSt = some rest →
      ∃ w1, LPC24_UsbDevice_Enpoint_RxInterruptHandler client endpoint w = some w1 ∧
        w1.nacking_rx_OUT_data endpoint = 0 ∧
        (w1.usClientState.packets p).Size = (v &&& PKT_LNGTH_MASK) % 256 ∧
        (v &&& PKT_LNGTH_MASK < 256 →
          (w1.usClientState.packets p).Size = v &&& PKT_LNGTH_MASK) ∧
        (w1.usClientState.packets p).Buffer
          = storeBytes (s1.packets p).Buffer (readEPBytes v w.rxData) ∧
        w1.regs = w.regs ++ readEPWrites endpoint ∧
        w1.rxData = w.rxData.drop (((v &&& PKT_LNGTH_MASK) + 3) / 4)) ∧
    (∀ e : Int, (k.LPC24_USB_ENDPOINT_COUNT : Int) ≤ e →
      LPC24_UsbDevice_RxEnable k client e w = some (false, w)) ∧
    (endpoint < k.LPC24_USB_ENDPOINT_COUNT → w.nacking_rx_OUT_data endpoint ≠ 0 →
      LPC24_UsbDevice_RxEnable k client (endpoint : Int) w
        = (LPC24_UsbDevice_Enpoint_RxInterruptHandler client endpoint w).map
            (fun w1 => (true, w1))) ∧
    (endpoint < k.LPC24_USB_ENDPOINT_COUNT → w.nacking_rx_OUT_data endpoint = 0 →
      LPC24_UsbDevice_RxEnable k client (endpoint : Int) w = some (true, w)) := by
  refine ⟨?_, ?_, ?_, ?_, ?_⟩
  · intro s1 hq
    exact ⟨_, rxInterruptHandler_full client endpoint w s1 hq,
      by simp only [Function.update_same], rfl, rfl, rfl, rfl⟩
  · intro s1 p v lens rest hq hp hw
    exact ⟨_, rxInterruptHandler_slot client endpoint w s1 p v lens rest hq hp hw,
      by simp only [Function.update_same], by simp only [Function.update_same],
      fun hlt => by simp only [Function.update_same]; exact Nat.mod_eq_of_lt hlt,
      by simp only [Function.update_same], rfl, rfl⟩
  · intro e he
    simp only [LPC24_UsbDevice_RxEnable, ge_iff_le, he, if_true]
  · intro hlt hflag
    have h1 : ¬ ((k.LPC24_USB_ENDPOINT_COUNT : Int) ≤ (endpoint : Int)) := by omega
    have h2 : ¬ ((endpoint : Int) < 0) := by omega
    simp only [LPC24_UsbDevice_RxEnable, ge_iff_le, h1, h2, if_false, Int.toNat_ofNat, ne_eq,
      hflag, not_false_eq_true, if_true]
    cases LPC24_UsbDevice_Enpoint_RxInterruptHandler client endpoint w <;> rfl
  · intro hlt hflag
    have h1 : ¬ ((k.LPC24_USB_ENDPOINT_COUNT : Int) ≤ (endpoint : Int)) := by omega
    have h2 : ¬ ((endpoint : Int) < 0) := by omega
    simp only [LPC24_UsbDevice_RxEnable, ge_iff_le, h1, h2, if_false, Int.toNat_ofNat, ne_eq,
      hflag, not_true_eq_false]

/-- C16 on endpoint 1 of a device with an empty receive queue and an 11-byte
packet in the FIFO: the handler stores the bytes 1 to 11 in the slot handed
out, sets its `Size` to 11 and clears the flag; with a full queue it sets the
flag and reads nothing; `LPC24_UsbDevice_RxEnable` refuses endpoint 16, and on
endpoint 1 with the flag clear it returns true and does nothing. -/
theorem C16_receive_back_pressure_witness :
    (∃ w1, LPC24_UsbDevice_Enpoint_RxInterruptHandler fifoClient 1 (queuedWorld 8) = some w1 ∧
      w1.nacking_rx_OUT_data 1 = 0 ∧ (w1.usClientState.packets 10).Size = 11 ∧
      (w1.usClientState.packets 10).Buffer.take 13 = [1, 2, 3, 4, 5, 6, 7, 8, 9, 10, 11, 0, 0] ∧
      w1.rxData = [0x77777777]) ∧
    (∃ w1, LPC24_UsbDevice_Enpoint_RxInterruptHandler fifoClient 3 (queuedWorld 8) = some w1 ∧
      w1.nacking_rx_OUT_data 3 = 1 ∧ w1.regs = [] ∧ w1.rxPLen = [0, 0x80B]) ∧
    LPC24_UsbDevice_RxEnable engineConstants fifoClient 16 (queuedWorld 8)
      = some (false, queuedWorld 8) ∧
    LPC24_UsbDevice_RxEnable engineConstants fifoClient 1 (queuedWorld 8)
      = some (true, queuedWorld 8) := by
  refine ⟨?_, ?_, ?_, ?_⟩
  · obtain ⟨w1, h1, h2, _, h3, h4, _, h5⟩ :=
      (C16_receive_back_pressure engineConstants fifoClient 1 (queuedWorld 8)).2.1
        { (queuedWorld 8).usClientState with
          queues := Function.update (queuedWorld 8).usClientState.queues 1 (some [10]) }
        10 0x80B [] [0, 0x10, 0, 0x10, 0, 0x10, 0, 0x10] rfl rfl rfl
    refine ⟨w1, h1, h2, h3 (by decide), ?_, ?_⟩
    · rw [h4]
      decide
    · rw [h5]
      decide
  · obtain ⟨w1, h1, h2, h3, h4, _, _⟩ :=
      (C16_receive_back_pressure engineConstants fifoClient 3 (queuedWorld 8)).1
        (queuedWorld 8).usClientState rfl
    exact ⟨w1, h1, h2, h3, h4⟩
  · exact (C16_receive_back_pressure engineConstants fifoClient 1 (queuedWorld 8)).2.2.1 16
      (by decide)
  · exact (C16_receive_back_pressure engineConstants fifoClient 1 (queuedWorld 8)).2.2.2.2
      (by decide) rfl

/-! ## C17 -/

/-- C17, the code at a failing input: a `Read` armed with length 0 and served
the statuses 0x08, 0x40, 0x50 (the slave acknowledges its address and sends a
byte).  The data-received case counts the byte without testing
`bytesToTransfer`: `bytesTransferred` becomes 1, above the requested 0, and
`bytesToTransfer` wraps to `2 ^ 32 - 1`, so the two counters no longer add up
to the requested length.  The same happens to a `Write` of one byte that is
served a data-received status after its byte was sent. -/
theorem C17_data_received_overruns_requested_length :
    (∃ w1, serve [⟨0x08, 0⟩, ⟨0x40, 0⟩, ⟨0x50, 7⟩] (readArmed [] 0 idleWorld) = some w1 ∧
      w1.driver.readI2cTransactionAction.bytesTransferred = 1 ∧
      ¬ w1.driver.readI2cTransactionAction.bytesTransferred ≤ 0 ∧
      w1.driver.readI2cTransactionAction.bytesToTransfer = 2 ^ 32 - 1 ∧
      w1.driver.readI2cTransactionAction.bytesTransferred
        + w1.driver.readI2cTransactionAction.bytesToTransfer ≠ 0) ∧
    (∃ w1, serve [⟨0x08, 0⟩, ⟨0x18, 0⟩, ⟨0x50, 7⟩] (writeArmed [0xAA] 1 idleWorld) = some w1 ∧
      w1.driver.writeI2cTransactionAction.bytesTransferred = 2 ∧
      ¬ w1.driver.writeI2cTransactionAction.bytesTransferred ≤ 1 ∧
      w1.driver.writeI2cTransactionAction.bytesToTransfer = 2 ^ 32 - 1) := by
  decide

/-! ## A read whose bytes all arrive -/

/-- The handler on the acknowledge of the read address: `AA` is cleared when
one byte is to come and set otherwise, then `SI` is cleared. -/
theorem handler_readAddressAck (ev : IrqEvent) (w : I2cWorld) (s : Slot)
    (hc : w.driver.currentI2cTransactionAction = some s)
    (hev : statusCase (ev.status % 256) = .readAddressAck) :
    LPC24_I2c_InterruptHandler ev w = some
      { driver := w.driver
        regs := w.regs ++ readAddressAckRegs (w.driver.slot s).bytesToTransfer } := by
  simp only [LPC24_I2c_InterruptHandler, hc, interruptSwitch, hev, readAddressAckRegs]
  split_ifs <;> simp [I2cWorld.write]

/-- The handler on a data-received status while a plain read of `n` bytes has
stored `received` and expects more: the byte is stored and counted, `AA` is
cleared if one byte remains, the stop is issued and the completion flag set if
none remains, and `SI` is cleared. -/
theorem handler_dataReceived (ev : IrqEvent) (w : I2cWorld) (buffer : List Nat) (n : Nat)
    (received : List Nat)
    (hc : w.driver.currentI2cTransactionAction = some .readSlot)
    (hslot : w.driver.readI2cTransactionAction = readProgress buffer n received)
    (hroom : received.length < n) (hbuf : n ≤ buffer.length) (hn : n < 2 ^ 32)
    (hev : statusCase (ev.status % 256) = .dataReceived) :
    LPC24_I2c_InterruptHandler ev w = some
      { driver := w.driver.setSlot .readSlot
          (readProgress buffer n (received ++ [ev.dat % 256]))
        regs := w.regs ++ receivedRegs (n - received.length - 1) } := by
  have hne : ¬ (n - received.length = 0) := by omega
  have hlt : received.length < buffer.length := by omega
  have hset : (received ++ buffer.drop received.length).set received.length (ev.dat % 256)
      = (received ++ [ev.dat % 256]) ++ buffer.drop (received.length + 1) := by
    rw [List.set_append_right _ _ (le_refl _), Nat.sub_self,
      List.drop_eq_getElem_cons hlt, List.set_cons_zero]
    simp
  have hadv : ((readProgress buffer n received).store ev.dat).advance
      = { readProgress buffer n (received ++ [ev.dat % 256]) with isDone := false } := by
    simp only [readProgress, I2cTransaction.store, I2cTransaction.advance, sizeIncrement,
      sizeDecrement, SIZE_MAX_PLUS_ONE, if_neg hne, hset, List.length_append,
      List.length_singleton]
    have h1 : decide (received.length = n) = false := by
      simp only [decide_eq_false_iff_not]
      omega
    have h2 : (received.length + 1) % 4294967296 = received.length + 1 := by omega
    have h3 : n - received.length - 1 = n - (received.length + 1) := by omega
    rw [h1, h2, h3]
  simp only [LPC24_I2c_InterruptHandler, hc, interruptSwitch, hev, I2cDriver.slot, hslot, hadv]
  by_cases h0 : n - (received.length + 1) = 0
  · have hdone : decide (received.length + 1 = n) = true := by
      simp only [decide_eq_true_eq]
      omega
    have hne1 : ¬ (n - (received.length + 1) = 1) := by omega
    have e0 : n - received.length - 1 = 0 := by omega
    simp only [readProgress, List.length_append, List.length_singleton, h0, hne1, if_true,
      if_false, stopOrChain]
    rw [if_neg (by decide : ¬ ((0 : Nat) = 1)),
      stop_eq _ .readSlot (by simp only [setSlot_driver, current_setSlot, hc])]
    simp only [setSlot_driver, slot_setSlot, setSlot_setSlot, I2cWorld.write, I2cWorld.setSlot,
      receivedRegs, e0, hdone, if_true, List.append_assoc, List.cons_append, List.nil_append,
      Nat.zero_ne_one, if_false]
  · have hnd : decide (received.length + 1 = n) = false := by
      simp only [decide_eq_false_iff_not]
      omega
    have e0 : ¬ (n - received.length - 1 = 0) := by omega
    simp only [readProgress, List.length_append, List.length_singleton, h0, if_false, hnd]
    by_cases h1 : n - (received.length + 1) = 1
    · have e1 : n - received.length - 1 = 1 := by omega
      simp only [h1, if_true, receivedRegs, e1, I2cWorld.write, I2cWorld.setSlot,
        List.append_assoc, List.cons_append, List.nil_append, Nat.one_ne_zero, if_false]
    · have e1 : ¬ (n - received.length - 1 = 1) := by omega
      simp only [h1, if_false, receivedRegs, e1, e0, I2cWorld.setSlot, I2cWorld.write,
        List.nil_append]

/-- Serving data-received statuses while a plain read still expects at least
as many bytes stores them in order. -/
theorem serve_dataReceived (buffer : List Nat) (n : Nat) (hbuf : n ≤ buffer.length)
    (hn : n < 2 ^ 32) (evs : List IrqEvent) (w : I2cWorld) (received : List Nat)
    (hc : w.driver.currentI2cTransactionAction = some .readSlot)
    (hslot : w.driver.readI2cTransactionAction = readProgress buffer n received)
    (hroom : received.length + evs.length ≤ n)
    (hevs : ∀ ev ∈ evs, statusCase (ev.status % 256) = .dataReceived) :
    serve evs w = some
      { driver := w.driver.setSlot .readSlot
          (readProgress buffer n (received ++ evs.map (fun ev => ev.dat % 256)))
        regs := w.regs ++ receiveRegs (n - received.length) evs.length } := by
  induction evs generalizing w received with
  | nil =>
    simp only [serve, List.map_nil, List.append_nil, List.length_nil, receiveRegs, ← hslot]
    cases w with
    | mk d regs => cases d; rfl
  | cons ev evs ih =>
    have hj : received.length < n := by
      simp only [List.length_cons] at hroom
      omega
    have h1 := handler_dataReceived ev w buffer n received hc hslot hj hbuf hn
      (hevs ev (List.mem_cons_self _ _))
    have h2 := ih
      { driver := w.driver.setSlot .readSlot (readProgress buffer n (received ++ [ev.dat % 256]))
        regs := w.regs ++ receivedRegs (n - received.length - 1) }
      (received ++ [ev.dat % 256]) (by simp only [current_setSlot, hc])
      (by simp only [I2cDriver.setSlot])
      (by simp only [List.length_cons, List.length_append, List.length_nil, Nat.zero_add]
            at hroom ⊢
          omega)
      (fun e he => hevs e (List.mem_cons_of_mem _ he))
    simp only [serve, h1, h2, setSlot_setSlot, List.length_cons, List.map_cons,
      List.length_append, List.length_nil, Nat.zero_add, receiveRegs, List.append_assoc,
      List.cons_append, List.nil_append]
    have e1 : n - (received.length + 1) = n - received.length - 1 := by omega
    rw [e1]

/-- From the armed state of a plain read of `n ≥ 1` bytes, the start status,
the address acknowledge and at most `n` data-received statuses lead to
`readRunState`. -/
theorem serve_read_started (buffer : List Nat) (n : Nat) (hpos : 1 ≤ n)
    (hbuf : n ≤ buffer.length) (hn : n < 2 ^ 32) (w : I2cWorld)
    (ev0 ev1 : IrqEvent) (datas : List IrqEvent)
    (h0 : statusCase (ev0.status % 256) = .startSent)
    (h1 : statusCase (ev1.status % 256) = .readAddressAck)
    (hdatas : ∀ ev ∈ datas, statusCase (ev.status % 256) = .dataReceived)
    (hroom : datas.length ≤ n) :
    serve (ev0 :: ev1 :: datas) (readArmed buffer n w) = some (readRunState buffer n w datas) := by
  have hc : (readArmed buffer n w).driver.currentI2cTransactionAction = some .readSlot := by
    simp only [readArmed, start_driver]
  have hs : (readArmed buffer n w).driver.readI2cTransactionAction = readProgress buffer n [] := by
    have hd : decide (0 = n) = false := by
      simp only [decide_eq_false_iff_not]
      omega
    simp only [readArmed, start_driver, armedTransaction, readProgress, List.length_nil,
      List.nil_append, List.drop_zero, Nat.sub_zero, hd]
  have hcfg : (readArmed buffer n w).driver.i2cConfiguration = w.driver.i2cConfiguration := by
    simp only [readArmed, start_driver]
  have e1 := handler_startSent ev0 (readArmed buffer n w) .readSlot hc h0
  have e2 := handler_readAddressAck ev1
    { driver := (readArmed buffer n w).driver
      regs := (readArmed buffer n w).regs ++
        [.I2DAT (addressByte (readArmed buffer n w).driver.i2cConfiguration.address
          ((readArmed buffer n w).driver.slot .readSlot).isReadTransaction),
          .I2CONCLR [.STA], .I2CONCLR [.SI]] }
    .readSlot hc h1
  have e3 := serve_dataReceived buffer n hbuf hn datas
    { driver := (readArmed buffer n w).driver
      regs := (readArmed buffer n w).regs ++
        [.I2DAT (addressByte (readArmed buffer n w).driver.i2cConfiguration.address
          ((readArmed buffer n w).driver.slot .readSlot).isReadTransaction),
          .I2CONCLR [.STA], .I2CONCLR [.SI]]
        ++ readAddressAckRegs ((readArmed buffer n w).driver.slot .readSlot).bytesToTransfer }
    [] hc hs (by simpa using hroom) hdatas
  have haddr : addressByte (readArmed buffer n w).driver.i2cConfiguration.address
      ((readArmed buffer n w).driver.slot .readSlot).isReadTransaction
      = addressByte w.driver.i2cConfiguration.address true := by
    rw [hcfg]
    simp only [I2cDriver.slot, hs, readProgress]
  have hrem : ((readArmed buffer n w).driver.slot .readSlot).bytesToTransfer = n := by
    simp only [I2cDriver.slot, hs, readProgress, List.length_nil, Nat.sub_zero]
  rw [haddr, hrem] at e3
  rw [haddr] at e1 e2
  rw [hrem] at e2
  simp only [serve, e1, e2, e3, readRunState, List.nil_append, List.length_nil, Nat.sub_zero]

/-- The wait loop over a run of interrupts that completes the transaction only
at its last interrupt: if every proper initial part of the interrupts of the
whole wait leaves the current transaction not done, the loop ends in the state
reached by serving all of them. -/
theorem waitLoop_run (bus : Nat → List IrqEvent) (a f : I2cWorld) (r : WaitOut)
    (hfull : serve (eventsDuring bus 0 I2C_TRANSACTION_TIMEOUT) a = some f)
    (hpre : ∀ p q, eventsDuring bus 0 I2C_TRANSACTION_TIMEOUT = p ++ q → q ≠ [] →
      ∃ wp, serve p a = some wp ∧
        ∀ s, wp.driver.currentI2cTransactionAction = some s → (wp.driver.slot s).isDone = false)
    (hr : waitLoop bus I2C_TRANSACTION_TIMEOUT a = some r) :
    r.world = f := by
  obtain ⟨k, hk, hserve⟩ := waitLoop_serve bus _ _ r (le_refl _) hr
  rw [Nat.sub_self] at hserve
  obtain ⟨_, hex, s, hs, hnd⟩ := waitLoop_exit bus _ _ r hr
  have hsplit : eventsDuring bus 0 I2C_TRANSACTION_TIMEOUT
      = eventsDuring bus 0 k ++ eventsDuring bus (0 + k) r.timeout := by
    rw [← hk]
    exact eventsDuring_add bus 0 k r.timeout
  by_cases hq : eventsDuring bus (0 + k) r.timeout = []
  · rw [hsplit, hq, List.append_nil, hserve] at hfull
    exact Option.some.inj hfull
  · exfalso
    obtain ⟨wp, hwp, hnot⟩ := hpre _ _ hsplit hq
    rw [hserve] at hwp
    have hwp2 : r.world = wp := Option.some.inj hwp
    have hnotdone := hnot s (hwp2 ▸ hs)
    rw [← hwp2] at hnotdone
    have hpos : 0 < r.timeout := by
      cases hrt : r.timeout with
      | zero =>
        rw [hrt] at hq
        exact absurd (by simp [eventsDuring]) hq
      | succ m => omega
    have := hnd hnotdone
    omega

/-- The register writes of the `n` data-received interrupts of a plain read of
`n ≥ 1` bytes: `SI` alone is cleared while two or more bytes remain, `AA` is
cleared by the interrupt that leaves one byte, and the last interrupt stops. -/
theorem receiveRegs_all (n : Nat) (hpos : 1 ≤ n) :
    receiveRegs n n = List.replicate (n - 2) (.I2CONCLR [.SI])
      ++ (if n = 1 then [] else [.I2CONCLR [.AA], .I2CONCLR [.SI]])
      ++ [.I2CONSET [.STO], .I2CONCLR [.AA, .SI, .STA], .I2CONCLR [.SI]] := by
  obtain ⟨m, rfl⟩ : ∃ m, n = m + 1 := ⟨n - 1, by omega⟩
  cases m with
  | zero => rfl
  | succ m =>
    induction m with
    | zero => rfl
    | succ m ih =>
      have ih1 := ih (by omega)
      have hstep : receiveRegs (m + 1 + 1 + 1) (m + 1 + 1 + 1)
          = receivedRegs (m + 1 + 1) ++ receiveRegs (m + 1 + 1) (m + 1 + 1) := rfl
      have hone : receivedRegs (m + 1 + 1) = [.I2CONCLR [.SI]] := by
        have a1 : ¬ (m + 1 + 1 = 1) := by omega
        have a0 : ¬ (m + 1 + 1 = 0) := by omega
        simp only [receivedRegs, a1, a0, if_false, List.nil_append]
      have b1 : ¬ (m + 1 + 1 = 1) := by omega
      have b2 : ¬ (m + 1 + 1 + 1 = 1) := by omega
      have c1 : m + 1 + 1 + 1 - 2 = (m + 1 + 1 - 2) + 1 := by omega
      rw [hstep, hone, ih1, c1, List.replicate_succ]
      simp only [b1, b2, if_false, List.append_assoc, List.cons_append, List.nil_append]

/-! ## C18 -/

/-- C18: a `Read` of `n ≥ 1` bytes into a buffer of at least `n` bytes, on a
bus whose interrupts during the wait are the start status 0x08, the address
acknowledge 0x40 and `n` data-received statuses (0x50 or 0x58) carrying the
bytes of `datas`, however they are spread over the delays.  The call returns
with length `n` and `FullTransfer`; the address byte written has low bit 1;
the buffer ends holding the received bytes in order (followed by what it held
beyond `n`); at the 0x40 interrupt `AA` is cleared when `n = 1` and set
otherwise; when `n ≠ 1` the interrupt that leaves one byte remaining clears
`AA`, the earlier data interrupts clear `SI` only; and the last interrupt
issues the stop and sets the completion flag. -/
theorem C18_read_all_bytes_received (buffer : List Nat) (n : Nat)
    (result : TinyCLR_I2c_TransferStatus) (bus : Nat → List IrqEvent) (w : I2cWorld)
    (ev0 ev1 : IrqEvent) (datas : List IrqEvent)
    (hpos : 1 ≤ n) (hbuf : n ≤ buffer.length) (hn : n < 2 ^ 32)
    (hbus : eventsDuring bus 0 I2C_TRANSACTION_TIMEOUT = ev0 :: ev1 :: datas)
    (h0 : ev0.status = 0x08) (h1 : ev1.status = 0x40)
    (hdatas : ∀ ev ∈ datas, ev.status = 0x50 ∨ ev.status = 0x58)
    (hlen : datas.length = n) :
    ∃ out, LPC24_I2c_Read (some ()) buffer n result bus w = some out ∧
      out.world.regs = (readArmed buffer n w).regs
        ++ [.I2DAT (addressByte w.driver.i2cConfiguration.address true), .I2CONCLR [.STA],
            .I2CONCLR [.SI]]
        ++ [if n = 1 then .I2CONCLR [.AA] else .I2CONSET [.AA], .I2CONCLR [.SI]]
        ++ List.replicate (n - 2) (.I2CONCLR [.SI])
        ++ (if n = 1 then [] else [.I2CONCLR [.AA], .I2CONCLR [.SI]])
        ++ [.I2CONSET [.STO], .I2CONCLR [.AA, .SI, .STA], .I2CONCLR [.SI]] ∧
      addressByte w.driver.i2cConfiguration.address true % 2 = 1 ∧
      out.world.driver.readI2cTransactionAction.buffer
        = datas.map (fun ev => ev.dat % 256) ++ buffer.drop n ∧
      out.world.driver.readI2cTransactionAction.isDone = true ∧
      out.world.driver.readI2cTransactionAction.bytesToTransfer = 0 ∧
      out.length = n ∧ out.result = .FullTransfer := by
  obtain ⟨r, out, hr, hf, hout⟩ := read_returns buffer n result bus w
  have hs0 : statusCase (ev0.status % 256) = .startSent := by rw [h0]; rfl
  have hs1 : statusCase (ev1.status % 256) = .readAddressAck := by rw [h1]; rfl
  have hsd : ∀ ev ∈ datas, statusCase (ev.status % 256) = .dataReceived := by
    intro ev hev
    rcases hdatas ev hev with h | h <;> rw [h] <;> rfl
  have hfull : serve (eventsDuring bus 0 I2C_TRANSACTION_TIMEOUT) (readArmed buffer n w)
      = some (readRunState buffer n w datas) := by
    rw [hbus]
    exact serve_read_started buffer n hpos hbuf hn w ev0 ev1 datas hs0 hs1 hsd (le_of_eq hlen)
  have harmed : ∀ s, (readArmed buffer n w).driver.currentI2cTransactionAction = some s →
      ((readArmed buffer n w).driver.slot s).isDone = false := by
    intro s hs
    have hcs : s = .readSlot := by
      simp only [readArmed, start_driver] at hs
      exact (Option.some.inj hs).symm
    subst hcs
    simp only [readArmed, start_driver, I2cDriver.slot, armedTransaction]
  have hworld : r.world = readRunState buffer n w datas := by
    apply waitLoop_run bus _ _ r hfull _ hr
    intro p q hpq hq
    rw [hbus] at hpq
    cases p with
    | nil => exact ⟨_, rfl, harmed⟩
    | cons e0 p1 =>
      simp only [List.cons_append, List.cons.injEq] at hpq
      obtain ⟨he0, hpq⟩ := hpq
      subst he0
      cases p1 with
      | nil =>
        have e := handler_startSent ev0 (readArmed buffer n w) .readSlot
          (by simp only [readArmed, start_driver]) hs0
        refine ⟨{ driver := (readArmed buffer n w).driver
                  regs := (readArmed buffer n w).regs ++
                    [.I2DAT (addressByte (readArmed buffer n w).driver.i2cConfiguration.address
                      ((readArmed buffer n w).driver.slot .readSlot).isReadTransaction),
                      .I2CONCLR [.STA], .I2CONCLR [.SI]] }, by simp only [serve, e], ?_⟩
        exact harmed
      | cons e1 p2 =>
        simp only [List.cons_append, List.cons.injEq] at hpq
        obtain ⟨he1, hpq⟩ := hpq
        subst he1
        have hp2len : p2.length < n := by
          have := congrArg List.length hpq
          simp only [List.length_append, hlen] at this
          have hqlen : 0 < q.length := List.length_pos.mpr hq
          omega
        have hp2 : ∀ ev ∈ p2, statusCase (ev.status % 256) = .dataReceived := by
          intro ev hev
          apply hsd
          rw [hpq]
          exact List.mem_append_left _ hev
        refine ⟨_, serve_read_started buffer n hpos hbuf hn w ev0 ev1 p2 hs0 hs1 hp2
          (le_of_lt hp2len), ?_⟩
        intro s hs
        have hcs : s = .readSlot := by
          simp only [readRunState, current_setSlot, readArmed, start_driver] at hs
          exact (Option.some.inj hs).symm
        subst hcs
        simp only [readRunState, I2cDriver.slot, I2cDriver.setSlot, readProgress,
          List.length_map, decide_eq_false_iff_not]
        omega
  obtain ⟨s, hs, hf1⟩ := transferFinish_spec n result bus _ _ r hr
  rw [hf] at hf1
  have hcs : s = .readSlot := by
    rw [hworld] at hs
    simp only [readRunState, current_setSlot, readArmed, start_driver] at hs
    exact (Option.some.inj hs).symm
  subst hcs
  have hbt : (r.world.driver.slot .readSlot).bytesTransferred = n := by
    rw [hworld]
    simp only [readRunState, I2cDriver.slot, I2cDriver.setSlot, readProgress, List.length_map,
      hlen]
  rw [hbt] at hf1
  simp only [if_true, Option.some.injEq] at hf1
  subst hf1
  refine ⟨_, hout, ?_, ?_, ?_, ?_, ?_, rfl, rfl⟩
  · show r.world.regs = _
    rw [hworld]
    simp only [readRunState, readAddressAckRegs, hlen, receiveRegs_all n hpos,
      List.append_assoc]
  · simp only [addressByte, if_true]
    exact Nat.or_mod_two_eq_one.mpr (Or.inr rfl)
  · show r.world.driver.readI2cTransactionAction.buffer = _
    rw [hworld]
    simp only [readRunState, I2cDriver.setSlot, readProgress, List.length_map, hlen]
  · show r.world.driver.readI2cTransactionAction.isDone = true
    rw [hworld]
    simp only [readRunState, I2cDriver.setSlot, readProgress, List.length_map, hlen,
      decide_True]
  · show r.world.driver.readI2cTransactionAction.bytesToTransfer = 0
    rw [hworld]
    simp only [readRunState, I2cDriver.setSlot, readProgress, List.length_map, hlen,
      Nat.sub_self]

/-- C18 at a three-byte read from the slave at address 0x50 that sends 0x11,
0x22, 0x33: the address byte is 0xA1, `AA` is set at the address acknowledge
and cleared when the second byte has arrived, the third byte stops the
transaction, and the buffer holds the three bytes. -/
theorem C18_read_three_bytes_witness :
    ∃ out, LPC24_I2c_Read (some ()) [0, 0, 0, 9] 3 (.other 9)
        (busAtOnce [⟨0x08, 0⟩, ⟨0x40, 0⟩, ⟨0x50, 0x11⟩, ⟨0x50, 0x22⟩, ⟨0x58, 0x33⟩]) idleWorld
        = some out ∧
      out.world.regs.drop 3
        = [.I2DAT 0xA1, .I2CONCLR [.STA], .I2CONCLR [.SI],
           .I2CONSET [.AA], .I2CONCLR [.SI],
           .I2CONCLR [.SI],
           .I2CONCLR [.AA], .I2CONCLR [.SI],
           .I2CONSET [.STO], .I2CONCLR [.AA, .SI, .STA], .I2CONCLR [.SI]] ∧
      out.world.driver.readI2cTransactionAction.buffer = [0x11, 0x22, 0x33, 9] ∧
      out.world.driver.readI2cTransactionAction.isDone = true ∧
      out.length = 3 ∧ out.result = .FullTransfer := by
  obtain ⟨out, hout, hregs, _, hbuf, hdone, _, hl, hres⟩ :=
    C18_read_all_bytes_received [0, 0, 0, 9] 3 (.other 9)
      (busAtOnce [⟨0x08, 0⟩, ⟨0x40, 0⟩, ⟨0x50, 0x11⟩, ⟨0x50, 0x22⟩, ⟨0x58, 0x33⟩]) idleWorld
      ⟨0x08, 0⟩ ⟨0x40, 0⟩ [⟨0x50, 0x11⟩, ⟨0x50, 0x22⟩, ⟨0x58, 0x33⟩]
      (by decide) (by decide) (by decide) (by rw [eventsDuring_busAtOnce]) rfl rfl
      (by decide) rfl
  refine ⟨out, hout, ?_, ?_, hdone, hl, hres⟩
  · rw [hregs]
    decide
  · rw [hbuf]
    decide

/-! ## C19 -/

/-- The statuses of the abort paths: the three not-acknowledged codes,
arbitration lost, bus error, and every code that has no `case` label. -/
theorem statusCase_abort (status : Nat)
    (h : status ∉ [0x08, 0x10, 0x18, 0x28, 0x40, 0x50, 0x58]) :
    statusCase status = .notAck ∨ statusCase status = .arbitrationLost ∨
      statusCase status = .busError ∨ statusCase status = .unrecognised := by
  simp only [List.mem_cons, List.mem_singleton, List.not_mem_nil, or_false, not_or] at h
  obtain ⟨h1, h2, h3, h4, h5, h6, h7⟩ := h
  unfold statusCase
  simp only [h1, h2, h3, h4, h5, h6, h7, or_self, if_false]
  split_ifs <;> simp

/-- The handler on a not-acknowledged, arbitration-lost or unrecognised
status: the shared stop, then the clearing of `SI`. -/
theorem handler_abort (ev : IrqEvent) (w : I2cWorld) (s : Slot)
    (hc : w.driver.currentI2cTransactionAction = some s)
    (hev : statusCase (ev.status % 256) = .notAck ∨
      statusCase (ev.status % 256) = .arbitrationLost ∨
      statusCase (ev.status % 256) = .unrecognised) :
    LPC24_I2c_InterruptHandler ev w = some
      { driver := w.driver.setSlot s { w.driver.slot s with isDone := true }
        regs := w.regs ++ [.I2CONSET [.STO], .I2CONCLR [.AA, .SI, .STA], .I2CONCLR [.SI]] } := by
  have hstop := stop_eq w s hc
  rcases hev with h | h | h
  all_goals
    simp only [LPC24_I2c_InterruptHandler, hc, interruptSwitch, h, hstop]
    simp only [write_driver, write_regs, I2cWorld.setSlot, I2cWorld.write, List.append_assoc,
      List.cons_append, List.nil_append]

/-- The handler on the bus-error status: `STO` is set, then the shared stop,
then the clearing of `SI`. -/
theorem handler_busError (ev : IrqEvent) (w : I2cWorld) (s : Slot)
    (hc : w.driver.currentI2cTransactionAction = some s)
    (hev : statusCase (ev.status % 256) = .busError) :
    LPC24_I2c_InterruptHandler ev w = some
      { driver := w.driver.setSlot s { w.driver.slot s with isDone := true }
        regs := w.regs ++ [.I2CONSET [.STO], .I2CONSET [.STO], .I2CONCLR [.AA, .SI, .STA],
          .I2CONCLR [.SI]] } := by
  have hstop := stop_eq (w.write [.I2CONSET [.STO]]) s (by simp only [write_driver, hc])
  simp only [LPC24_I2c_InterruptHandler, hc, interruptSwitch, hev, hstop]
  simp only [write_driver, write_regs, I2cWorld.setSlot, I2cWorld.write, List.append_assoc,
    List.cons_append, List.nil_append]

/-- C19: with a current transaction in slot `s`, for every status whose low
byte is none of the codes of the transfer paths (0x08, 0x10, 0x18, 0x28, 0x40,
0x50, 0x58), hence for 0x20, 0x30, 0x48, 0x38, 0x00 and for every code without
a `case` label, `LPC24_I2c_InterruptHandler` returns; its register writes are
the setting of `STO` (twice for the bus error 0x00), the clearing of
`AA | SI | STA`, and the final clearing of `SI`; the completion flag of the
current slot is set; and nothing else in the driver changes, in particular
neither `bytesTransferred` nor `bytesToTransfer` of either slot. -/
theorem C19_abort_paths_stop_the_transaction (ev : IrqEvent) (w : I2cWorld) (s : Slot)
    (hc : w.driver.currentI2cTransactionAction = some s)
    (hst : ev.status % 256 ∉ [0x08, 0x10, 0x18, 0x28, 0x40, 0x50, 0x58]) :
    LPC24_I2c_InterruptHandler ev w = some
      { driver := w.driver.setSlot s { w.driver.slot s with isDone := true }
        regs := w.regs ++ (if ev.status % 256 = 0x00 then [.I2CONSET [.STO]] else [])
          ++ [.I2CONSET [.STO], .I2CONCLR [.AA, .SI, .STA], .I2CONCLR [.SI]] } := by
  have hcase := statusCase_abort (ev.status % 256) hst
  by_cases h0 : ev.status % 256 = 0
  · have hb : statusCase (ev.status % 256) = .busError := by
      rw [h0]
      rfl
    rw [handler_busError ev w s hc hb, if_pos h0]
    simp only [List.append_assoc, List.cons_append, List.nil_append]
  · have hnb : statusCase (ev.status % 256) ≠ .busError := by
      unfold statusCase
      split_ifs <;> simp
    rw [if_neg h0, List.append_nil]
    rcases hcase with h | h | h | h
    · exact handler_abort ev w s hc (Or.inl h)
    · exact handler_abort ev w s hc (Or.inr (Or.inl h))
    · exact absurd h hnb
    · exact handler_abort ev w s hc (Or.inr (Or.inr h))

/-- C19 at two of the named statuses, a not-acknowledged data byte (0x30) and
a bus error (0x00), on a three-byte read that has received one byte: the
completion flag is set, the counters are as before, and the register writes
are the ones listed. -/
theorem C19_abort_paths_witness :
    (∃ w1, LPC24_I2c_InterruptHandler ⟨0x30, 0⟩
        (afterServing [⟨0x08, 0⟩, ⟨0x40, 0⟩, ⟨0x50, 7⟩] (readArmed [0, 0, 0] 3 idleWorld))
        = some w1 ∧
      w1.driver.readI2cTransactionAction.isDone = true ∧
      w1.driver.readI2cTransactionAction.bytesTransferred = 1 ∧
      w1.driver.readI2cTransactionAction.bytesToTransfer = 2 ∧
      w1.regs.drop 9 = [.I2CONSET [.STO], .I2CONCLR [.AA, .SI, .STA], .I2CONCLR [.SI]]) ∧
    (∃ w1, LPC24_I2c_InterruptHandler ⟨0x00, 0⟩
        (afterServing [⟨0x08, 0⟩, ⟨0x40, 0⟩, ⟨0x50, 7⟩] (readArmed [0, 0, 0] 3 idleWorld))
        = some w1 ∧
      w1.driver.readI2cTransactionAction.isDone = true ∧
      w1.driver.readI2cTransactionAction.bytesTransferred = 1 ∧
      w1.driver.readI2cTransactionAction.bytesToTransfer = 2 ∧
      w1.regs.drop 9 = [.I2CONSET [.STO], .I2CONSET [.STO], .I2CONCLR [.AA, .SI, .STA],
        .I2CONCLR [.SI]]) :=
  ⟨⟨_, C19_abort_paths_stop_the_transaction ⟨0x30, 0⟩
      (afterServing [⟨0x08, 0⟩, ⟨0x40, 0⟩, ⟨0x50, 7⟩] (readArmed [0, 0, 0] 3 idleWorld))
      .readSlot (by decide) (by decide), by decide⟩,
   ⟨_, C19_abort_paths_stop_the_transaction ⟨0x00, 0⟩
      (afterServing [⟨0x08, 0⟩, ⟨0x40, 0⟩, ⟨0x50, 7⟩] (readArmed [0, 0, 0] 3 idleWorld))
      .readSlot (by decide) (by decide), by decide⟩⟩

/-! ## C20 -/

/-- Starting a transaction only appends register writes. -/
theorem start_regs (w : I2cWorld) :
    ∃ mid, (LPC24_I2c_StartTransaction w).regs = w.regs ++ mid := by
  unfold LPC24_I2c_StartTransaction
  dsimp only
  split_ifs
  · exact ⟨_, rfl⟩
  · exact ⟨_, rfl⟩

/-- The stop-or-chain block only appends register writes. -/
theorem stopOrChain_regs (b : Bool) (w w1 : I2cWorld) (h : stopOrChain b w = some w1) :
    ∃ mid, w1.regs = w.regs ++ mid := by
  unfold stopOrChain at h
  split_ifs at h
  · unfold LPC24_I2c_StopTransaction at h
    cases hc : w.driver.currentI2cTransactionAction with
    | none => simp [hc] at h
    | some s =>
      simp only [write_driver, hc, Option.some.injEq] at h
      subst h
      exact ⟨_, rfl⟩
  · simp only [Option.some.injEq] at h
    subst h
    obtain ⟨mid, hmid⟩ := start_regs (w.setCurrent (some .readSlot))
    exact ⟨mid, hmid⟩

/-- The switch only appends register writes. -/
theorem interruptSwitch_regs (ev : IrqEvent) (s : Slot) (w w1 : I2cWorld)
    (h : interruptSwitch ev s w = some w1) : ∃ mid, w1.regs = w.regs ++ mid := by
  have hstop : ∀ w0 w2 : I2cWorld, LPC24_I2c_StopTransaction w0 = some w2 →
      ∃ mid, w2.regs = w0.regs ++ mid := by
    intro w0 w2 h0
    unfold LPC24_I2c_StopTransaction at h0
    cases hc : w0.driver.currentI2cTransactionAction with
    | none => simp [hc] at h0
    | some s0 =>
      simp only [write_driver, hc, Option.some.injEq] at h0
      subst h0
      exact ⟨_, rfl⟩
  unfold interruptSwitch at h
  cases hcase : statusCase (ev.status % 256) with
  | startSent =>
    simp only [hcase, Option.some.injEq] at h
    subst h
    exact ⟨_, rfl⟩
  | writeAck =>
    simp only [hcase] at h
    split_ifs at h
    · exact stopOrChain_regs _ w w1 h
    · simp only [Option.some.injEq] at h
      subst h
      exact ⟨_, rfl⟩
  | notAck =>
    simp only [hcase] at h
    exact hstop w w1 h
  | arbitrationLost =>
    simp only [hcase] at h
    exact hstop w w1 h
  | readAddressAck =>
    simp only [hcase] at h
    split_ifs at h
    · simp only [Option.some.injEq] at h
      subst h
      exact ⟨_, rfl⟩
    · simp only [Option.some.injEq] at h
      subst h
      exact ⟨_, rfl⟩
  | dataReceived =>
    simp only [hcase] at h
    generalize hg : (if ((w.driver.slot s).store ev.dat).advance.bytesToTransfer = 1 then
        (w.setSlot s ((w.driver.slot s).store ev.dat).advance).write [.I2CONCLR [.AA]]
      else w.setSlot s ((w.driver.slot s).store ev.dat).advance) = w2 at h
    have hw2 : ∃ mid, w2.regs = w.regs ++ mid := by
      rw [← hg]
      split_ifs
      · exact ⟨_, rfl⟩
      · exact ⟨[], by simp⟩
    obtain ⟨mid2, hmid2⟩ := hw2
    split_ifs at h with h0
    · obtain ⟨mid, hmid⟩ := stopOrChain_regs _ _ w1 h
      rw [hmid2, List.append_assoc] at hmid
      exact ⟨_, hmid⟩
    · simp only [Option.some.injEq] at h
      subst h
      exact ⟨mid2, hmid2⟩
  | busError =>
    simp only [hcase] at h
    obtain ⟨mid, hmid⟩ := hstop _ w1 h
    rw [write_regs, List.append_assoc] at hmid
    exact ⟨_, hmid⟩
  | unrecognised =>
    simp only [hcase] at h
    exact hstop w w1 h

/-- C20: for every status code and every driver state,
`LPC24_I2c_InterruptHandler` returns, and the register writes it performs end
with the write that clears `SI`; when no transaction is current that write is
the only one and the driver is unchanged. -/
theorem C20_handler_clears_SI_last (ev : IrqEvent) (w : I2cWorld) :
    ∃ w1 mid, LPC24_I2c_InterruptHandler ev w = some w1 ∧
      w1.regs = w.regs ++ mid ++ [.I2CONCLR [.SI]] ∧
      (w.driver.currentI2cTransactionAction = none → mid = [] ∧ w1.driver = w.driver) := by
  cases hc : w.driver.currentI2cTransactionAction with
  | none =>
    refine ⟨w.write [.I2CONCLR [.SI]], [], ?_, by simp, fun _ => ⟨rfl, rfl⟩⟩
    simp only [LPC24_I2c_InterruptHandler, hc]
  | some s =>
    obtain ⟨w2, h2, _⟩ := interruptSwitch_spec ev s w hc
    obtain ⟨mid, hmid⟩ := interruptSwitch_regs ev s w w2 h2
    refine ⟨w2.write [.I2CONCLR [.SI]], mid, ?_, by rw [write_regs, hmid], fun h => by cases h⟩
    simp only [LPC24_I2c_InterruptHandler, hc, h2]

/-! ## C21 -/

/-- The statuses 0x18 and 0x28 select the acknowledge case of the switch. -/
theorem statusCase_writeAck (status : Nat) (h : status % 256 = 0x18 ∨ status % 256 = 0x28) :
    statusCase (status % 256) = .writeAck := by
  rcases h with h | h <;> rw [h] <;> rfl

/-- C21: the handler on status 0x18 or 0x28, with a current transaction.
With no byte left and `repeatedStart` set, the read slot becomes current and a
start is requested (after the clock registers when the write slot has
transferred no byte), nothing else is written before `SI` is cleared, so no
stop is issued, and both slots are left as they were, completion flags
included.  With no byte left and `repeatedStart` clear, a stop is issued and
the completion flag of the current slot is set.  With bytes left, the byte of
the buffer at index `bytesTransferred` is written to the data register,
`bytesTransferred` grows by one (it is below `2 ^ 32 - 1`, as the counters of
a transfer add up to a `size_t` length) and `bytesToTransfer` shrinks by
one. -/
theorem C21_write_ack_chains_stops_or_sends (ev : IrqEvent) (w : I2cWorld) (s : Slot)
    (hc : w.driver.currentI2cTransactionAction = some s)
    (hev : ev.status % 256 = 0x18 ∨ ev.status % 256 = 0x28) :
    ((w.driver.slot s).bytesToTransfer = 0 → (w.driver.slot s).repeatedStart = true →
      LPC24_I2c_InterruptHandler ev w = some
        { driver := { w.driver with currentI2cTransactionAction := some .readSlot }
          regs := w.regs ++
            (if w.driver.writeI2cTransactionAction.repeatedStart = false
                ∨ w.driver.writeI2cTransactionAction.bytesTransferred = 0 then
              [.I2SCLH (w.driver.i2cConfiguration.clockRate
                  ||| (w.driver.i2cConfiguration.clockRate2 <<< 8)),
               .I2SCLL (w.driver.i2cConfiguration.clockRate
                  ||| (w.driver.i2cConfiguration.clockRate2 <<< 8))]
            else []) ++ [.I2CONSET [.STA], .I2CONCLR [.SI]] }) ∧
    ((w.driver.slot s).bytesToTransfer = 0 → (w.driver.slot s).repeatedStart = false →
      LPC24_I2c_InterruptHandler ev w = some
        { driver := w.driver.setSlot s { w.driver.slot s with isDone := true }
          regs := w.regs ++
            [.I2CONSET [.STO], .I2CONCLR [.AA, .SI, .STA], .I2CONCLR [.SI]] }) ∧
    ((w.driver.slot s).bytesToTransfer ≠ 0 →
      (w.driver.slot s).bytesTransferred + 1 < 2 ^ 32 →
      LPC24_I2c_InterruptHandler ev w = some
        { driver := w.driver.setSlot s
            { w.driver.slot s with
              bytesTransferred := (w.driver.slot s).bytesTransferred + 1
              bytesToTransfer := (w.driver.slot s).bytesToTransfer - 1 }
          regs := w.regs ++
            [.I2DAT ((w.driver.slot s).buffer.getD (w.driver.slot s).bytesTransferred 0),
             .I2CONCLR [.SI]] }) := by
  have hcase := statusCase_writeAck ev.status hev
  refine ⟨fun h0 hrs => ?_, fun h0 hrs => ?_, fun hne hlt => ?_⟩
  · simp only [LPC24_I2c_InterruptHandler, hc, interruptSwitch, hcase, h0, if_true,
      stopOrChain, hrs, LPC24_I2c_StartTransaction]
    by_cases hw : w.driver.writeI2cTransactionAction.repeatedStart = false
        ∨ w.driver.writeI2cTransactionAction.bytesTransferred = 0
    · rcases hw with hw | hw <;>
        simp [hw, I2cWorld.write, I2cWorld.setCurrent]
    · have h1 : w.driver.writeI2cTransactionAction.repeatedStart = true := by
        cases h : w.driver.writeI2cTransactionAction.repeatedStart
        · exact absurd (Or.inl h) hw
        · rfl
      have h2 : ¬ w.driver.writeI2cTransactionAction.bytesTransferred = 0 :=
        fun h => hw (Or.inr h)
      simp [h1, h2, I2cWorld.write, I2cWorld.setCurrent]
  · simp only [LPC24_I2c_InterruptHandler, hc, interruptSwitch, hcase, h0, if_true,
      stopOrChain, hrs]
    rw [stop_eq w s hc]
    simp only [I2cWorld.write, I2cWorld.setSlot, List.append_assoc, List.cons_append,
      List.nil_append, h0, hrs]
  · have hadv : (w.driver.slot s).advance =
        { w.driver.slot s with
          bytesTransferred := (w.driver.slot s).bytesTransferred + 1
          bytesToTransfer := (w.driver.slot s).bytesToTransfer - 1 } := by
      have h2 : ((w.driver.slot s).bytesTransferred + 1) % 4294967296
          = (w.driver.slot s).bytesTransferred + 1 := by
        apply Nat.mod_eq_of_lt
        have : (2 : Nat) ^ 32 = 4294967296 := by norm_num
        omega
      simp only [I2cTransaction.advance, sizeIncrement, sizeDecrement, SIZE_MAX_PLUS_ONE,
        if_neg hne, h2]
    simp only [LPC24_I2c_InterruptHandler, hc, interruptSwitch, hcase, if_neg hne, hadv,
      I2cWorld.write, I2cWorld.setSlot, List.append_assoc, List.cons_append,
      List.nil_append]

/-- C21 at concrete inputs: a one-byte write phase of a `WriteRead`, a
one-byte `Write`, both after their byte was sent, and a one-byte `Write` whose
address was just acknowledged. -/
theorem C21_write_ack_witness :
    (∃ w1, LPC24_I2c_InterruptHandler ⟨0x28, 0⟩
        (afterServing [⟨0x08, 0⟩, ⟨0x18, 0⟩] (writeReadArmed [0x10] 1 [0] 1 idleWorld)) = some w1 ∧
      w1.driver.currentI2cTransactionAction = some .readSlot ∧
      w1.driver.writeI2cTransactionAction.isDone = false ∧
      w1.driver.readI2cTransactionAction.isDone = false ∧
      w1.regs.drop 8 = [.I2CONSET [.STA], .I2CONCLR [.SI]]) ∧
    (∃ w1, LPC24_I2c_InterruptHandler ⟨0x28, 0⟩
        (afterServing [⟨0x08, 0⟩, ⟨0x18, 0⟩] (writeArmed [0xAA] 1 idleWorld)) = some w1 ∧
      w1.driver.writeI2cTransactionAction.isDone = true ∧
      w1.regs.drop 8 = [.I2CONSET [.STO], .I2CONCLR [.AA, .SI, .STA], .I2CONCLR [.SI]]) ∧
    (∃ w1, LPC24_I2c_InterruptHandler ⟨0x18, 0⟩
        (afterServing [⟨0x08, 0⟩] (writeArmed [0xAA] 1 idleWorld)) = some w1 ∧
      w1.driver.writeI2cTransactionAction.bytesTransferred = 1 ∧
      w1.driver.writeI2cTransactionAction.bytesToTransfer = 0 ∧
      w1.regs.drop 6 = [.I2DAT 0xAA, .I2CONCLR [.SI]]) :=
  ⟨⟨_, (C21_write_ack_chains_stops_or_sends ⟨0x28, 0⟩
        (afterServing [⟨0x08, 0⟩, ⟨0x18, 0⟩] (writeReadArmed [0x10] 1 [0] 1 idleWorld))
        .writeSlot (by decide) (by decide)).1 (by decide) (by decide),
      by decide, by decide, by decide, by decide⟩,
   ⟨_, (C21_write_ack_chains_stops_or_sends ⟨0x28, 0⟩
        (afterServing [⟨0x08, 0⟩, ⟨0x18, 0⟩] (writeArmed [0xAA] 1 idleWorld))
        .writeSlot (by decide) (by decide)).2.1 (by decide) (by decide),
      by decide, by decide⟩,
   ⟨_, (C21_write_ack_chains_stops_or_sends ⟨0x18, 0⟩
        (afterServing [⟨0x08, 0⟩] (writeArmed [0xAA] 1 idleWorld))
        .writeSlot (by decide) (by decide)).2.2 (by decide) (by decide),
      by decide, by decide, by decide⟩⟩

/-! ## C22 -/

/-- What `LPC24_I2c_StartTransaction` does, in one equation: the driver is
left alone, the clock registers are written when the write slot has
`repeatedStart` clear or `bytesTransferred` at 0, and the start is
requested. -/
theorem start_eq (w : I2cWorld) :
    LPC24_I2c_StartTransaction w =
      { driver := w.driver
        regs := w.regs ++
          (if w.driver.writeI2cTransactionAction.repeatedStart = false
              ∨ w.driver.writeI2cTransactionAction.bytesTransferred = 0 then
            [.I2SCLH (w.driver.i2cConfiguration.clockRate
                ||| (w.driver.i2cConfiguration.clockRate2 <<< 8)),
             .I2SCLL (w.driver.i2cConfiguration.clockRate
                ||| (w.driver.i2cConfiguration.clockRate2 <<< 8))]
          else []) ++ [.I2CONSET [.STA]] } := by
  by_cases hw : w.driver.writeI2cTransactionAction.repeatedStart = false
      ∨ w.driver.writeI2cTransactionAction.bytesTransferred = 0
  · rcases hw with hw | hw <;>
      simp [LPC24_I2c_StartTransaction, hw, I2cWorld.write]
  · have h1 : w.driver.writeI2cTransactionAction.repeatedStart = true := by
      cases h : w.driver.writeI2cTransactionAction.repeatedStart
      · exact absurd (Or.inl h) hw
      · rfl
    have h2 : ¬ w.driver.writeI2cTransactionAction.bytesTransferred = 0 :=
      fun h => hw (Or.inr h)
    simp [LPC24_I2c_StartTransaction, h1, h2, I2cWorld.write]

/-- C22, the code at a failing input: a `Read` that follows a `WriteRead`
whose write phase sent its byte.  The `WriteRead` succeeds and leaves the
write slot with `repeatedStart` set and one byte transferred;
`LPC24_I2c_Read` re-arms the read slot only, so the test in
`LPC24_I2c_StartTransaction` takes this fresh transfer for a chained phase:
the call requests the start without writing `I2SCLH` and `I2SCLL`, also
after `LPC24_I2c_SetActiveSettings` has stored another divider.  The same
test errs the other way in the chained read phase of a `WriteRead` with an
empty write phase, where the clock registers are written again. -/
theorem C22_read_after_writeRead_skips_clock :
    (∃ out, LPC24_I2c_WriteRead (some ()) [0x10] 1 [0] 1 (.other 9)
        (busAtOnce [⟨0x08, 0⟩, ⟨0x18, 0⟩, ⟨0x28, 0⟩, ⟨0x10, 0⟩, ⟨0x40, 0⟩, ⟨0x58, 7⟩])
        idleWorld = some out ∧
      out.code = .Success ∧
      out.world.driver.writeI2cTransactionAction.repeatedStart = true ∧
      out.world.driver.writeI2cTransactionAction.bytesTransferred = 1 ∧
      (readArmed [0] 1 out.world).regs = out.world.regs ++ [.I2CONSET [.STA]] ∧
      (readArmed [0] 1
          (LPC24_I2c_SetActiveSettings 72000 (some ()) 0x3C .StandardMode out.world).2).regs
        = out.world.regs ++ [.I2CONSET [.STA]]) ∧
    (∃ w1, LPC24_I2c_InterruptHandler ⟨0x18, 0⟩
        (afterServing [⟨0x08, 0⟩] (writeReadArmed [] 0 [0] 1 idleWorld)) = some w1 ∧
      (afterServing [⟨0x08, 0⟩] (writeReadArmed [] 0 [0] 1 idleWorld)).regs.length = 6 ∧
      w1.driver.currentI2cTransactionAction = some .readSlot ∧
      w1.regs.drop 6 = [.I2SCLH 90, .I2SCLL 90, .I2CONSET [.STA], .I2CONCLR [.SI]]) := by
  decide

/-- What holds of the clock programming: `LPC24_I2c_StartTransaction` leaves
the driver alone and requests a start as its last write in every case, after
the two clock registers or after nothing.  It writes `I2SCLH` and `I2SCLL`
whenever the write slot has `repeatedStart` clear or `bytesTransferred` at 0:
so at the beginning of every `Write` and `WriteRead`, and at the beginning of a
`Read` entered with the write slot in that condition.  It does not write them
when the handler calls it for the chained read phase of a `WriteRead` whose
write phase has transferred at least one byte: the request of the start is
then the only write before `SI` is cleared. -/
theorem start_clock_cases (w : I2cWorld) :
    (LPC24_I2c_StartTransaction w).driver = w.driver ∧
    (∃ clock, (LPC24_I2c_StartTransaction w).regs = w.regs ++ clock ++ [.I2CONSET [.STA]] ∧
      (clock = [] ∨
        clock = [.I2SCLH (w.driver.i2cConfiguration.clockRate
                    ||| (w.driver.i2cConfiguration.clockRate2 <<< 8)),
                 .I2SCLL (w.driver.i2cConfiguration.clockRate
                    ||| (w.driver.i2cConfiguration.clockRate2 <<< 8))]) ∧
      ((w.driver.writeI2cTransactionAction.repeatedStart = false
          ∨ w.driver.writeI2cTransactionAction.bytesTransferred = 0) →
        clock = [.I2SCLH (w.driver.i2cConfiguration.clockRate
                    ||| (w.driver.i2cConfiguration.clockRate2 <<< 8)),
                 .I2SCLL (w.driver.i2cConfiguration.clockRate
                    ||| (w.driver.i2cConfiguration.clockRate2 <<< 8))])) ∧
    (∀ buffer length, (writeArmed buffer length w).regs = w.regs ++
      [.I2SCLH (w.driver.i2cConfiguration.clockRate
          ||| (w.driver.i2cConfiguration.clockRate2 <<< 8)),
       .I2SCLL (w.driver.i2cConfiguration.clockRate
          ||| (w.driver.i2cConfiguration.clockRate2 <<< 8)),
       .I2CONSET [.STA]]) ∧
    (∀ writeBuffer writeLength readBuffer readLength,
      (writeReadArmed writeBuffer writeLength readBuffer readLength w).regs = w.regs ++
      [.I2SCLH (w.driver.i2cConfiguration.clockRate
          ||| (w.driver.i2cConfiguration.clockRate2 <<< 8)),
       .I2SCLL (w.driver.i2cConfiguration.clockRate
          ||| (w.driver.i2cConfiguration.clockRate2 <<< 8)),
       .I2CONSET [.STA]]) ∧
    (∀ buffer length,
      (w.driver.writeI2cTransactionAction.repeatedStart = false
        ∨ w.driver.writeI2cTransactionAction.bytesTransferred = 0) →
      (readArmed buffer length w).regs = w.regs ++
      [.I2SCLH (w.driver.i2cConfiguration.clockRate
          ||| (w.driver.i2cConfiguration.clockRate2 <<< 8)),
       .I2SCLL (w.driver.i2cConfiguration.clockRate
          ||| (w.driver.i2cConfiguration.clockRate2 <<< 8)),
       .I2CONSET [.STA]]) ∧
    (∀ ev : IrqEvent, w.driver.currentI2cTransactionAction = some .writeSlot →
      (ev.status % 256 = 0x18 ∨ ev.status % 256 = 0x28) →
      w.driver.writeI2cTransactionAction.bytesToTransfer = 0 →
      w.driver.writeI2cTransactionAction.repeatedStart = true →
      w.driver.writeI2cTransactionAction.bytesTransferred ≠ 0 →
      LPC24_I2c_InterruptHandler ev w = some
        { driver := { w.driver with currentI2cTransactionAction := some .readSlot }
          regs := w.regs ++ [.I2CONSET [.STA], .I2CONCLR [.SI]] }) := by
  refine ⟨by rw [start_eq], ?_, ?_, ?_, ?_, ?_⟩
  · refine ⟨_, by rw [start_eq], ?_, fun h => by rw [if_pos h]⟩
    split_ifs
    · exact Or.inr rfl
    · exact Or.inl rfl
  · intro buffer length
    simp [writeArmed, start_eq, armedTransaction]
  · intro writeBuffer writeLength readBuffer readLength
    simp [writeReadArmed, start_eq, armedTransaction]
  · intro buffer length h
    rcases h with h | h <;> simp [readArmed, start_eq, h]
  · intro ev hc hev h0 hrs ht
    have hcase := statusCase_writeAck ev.status hev
    simp only [LPC24_I2c_InterruptHandler, hc, interruptSwitch, hcase, I2cDriver.slot, h0,
      if_true, stopOrChain, hrs, start_eq]
    simp [I2cWorld.setCurrent, I2cWorld.write, hrs, ht]

/-- The clock programming at concrete inputs: a `Write` on the idle driver
programs the clock, and the chained read phase of a `WriteRead` whose one
byte was sent does not. -/
theorem start_clock_cases_example :
    (writeArmed [0xAA] 1 idleWorld).regs = [.I2SCLH 90, .I2SCLL 90, .I2CONSET [.STA]] ∧
    (∃ w1, LPC24_I2c_InterruptHandler ⟨0x28, 0⟩
        (afterServing [⟨0x08, 0⟩, ⟨0x18, 0⟩] (writeReadArmed [0x10] 1 [0] 1 idleWorld)) = some w1 ∧
      w1.driver.currentI2cTransactionAction = some .readSlot ∧
      w1.regs.drop 8 = [.I2CONSET [.STA], .I2CONCLR [.SI]]) :=
  ⟨((start_clock_cases idleWorld).2.2.1 [0xAA] 1).trans (by decide),
   ⟨_, (start_clock_cases
        (afterServing [⟨0x08, 0⟩, ⟨0x18, 0⟩] (writeReadArmed [0x10] 1 [0] 1 idleWorld))).2.2.2.2.2
        ⟨0x28, 0⟩ (by decide) (by decide) (by decide) (by decide) (by decide),
      by decide, by decide⟩⟩

/-! ## C23 -/

/-- A value below `2 ^ 16` is the low byte joined with the high byte shifted
back into place. -/
theorem split_bytes_join (d : Nat) (h : d < 65536) :
    (d % 256) ||| (((d >>> 8) % 256) <<< 8) = d := by
  have h1 : d >>> 8 = d / 256 := by
    rw [Nat.shiftRight_eq_div_pow]
  have h2 : d / 256 < 256 := by omega
  have h3 : d % 256 < 2 ^ 8 := by
    have : (2 : Nat) ^ 8 = 256 := by norm_num
    omega
  rw [h1, Nat.mod_eq_of_lt h2, Nat.lor_comm, Nat.shiftLeft_eq, Nat.mul_comm,
    ← Nat.mul_add_lt_is_or h3]
  have : (2 : Nat) ^ 8 = 256 := by norm_num
  omega

/-- The rates selected by `LPC24_I2c_SetActiveSettings` do not overflow the
32-bit product `2 * rateKhz`. -/
theorem clockDivider_of_rate (c_I2C_Clk_KHz : Nat) (busSpeed : TinyCLR_I2c_BusSpeed)
    (rateKhz : Nat) (hrate : rateKhzOf busSpeed = some rateKhz) :
    clockDivider c_I2C_Clk_KHz rateKhz = c_I2C_Clk_KHz / (2 * rateKhz) := by
  cases busSpeed with
  | StandardMode =>
    simp only [rateKhzOf, Option.some.injEq] at hrate
    subst hrate
    rfl
  | FastMode =>
    simp only [rateKhzOf, Option.some.injEq] at hrate
    subst hrate
    rfl
  | other raw => cases hrate

/-- C23: when `LPC24_I2c_SetActiveSettings` succeeds for a bus speed of rate
`rateKhz` and the divider `c_I2C_Clk_KHz / (2 * rateKhz)` is below 65536, the
stored slave address is the requested one, the two stored bytes joined as
`clockRate | (clockRate2 << 8)` give the divider back, and every call of
`LPC24_I2c_StartTransaction` that programs the clock under this configuration
writes the divider to `I2SCLH` and to `I2SCLL`. -/
theorem C23_divider_bytes_lossless (c_I2C_Clk_KHz : Nat) (slaveAddress : Int)
    (busSpeed : TinyCLR_I2c_BusSpeed) (rateKhz : Nat) (w : I2cWorld)
    (hrate : rateKhzOf busSpeed = some rateKhz)
    (hdiv : c_I2C_Clk_KHz / (2 * rateKhz) < 65536) :
    ∃ w1, LPC24_I2c_SetActiveSettings c_I2C_Clk_KHz (some ()) slaveAddress busSpeed w
        = (.Success, w1) ∧
      w1.driver.i2cConfiguration.address = slaveAddress ∧
      w1.driver.i2cConfiguration.clockRate ||| (w1.driver.i2cConfiguration.clockRate2 <<< 8)
        = c_I2C_Clk_KHz / (2 * rateKhz) ∧
      ∀ w2 : I2cWorld, w2.driver.i2cConfiguration = w1.driver.i2cConfiguration →
        (w2.driver.writeI2cTransactionAction.repeatedStart = false
          ∨ w2.driver.writeI2cTransactionAction.bytesTransferred = 0) →
        (LPC24_I2c_StartTransaction w2).regs = w2.regs ++
          [.I2SCLH (c_I2C_Clk_KHz / (2 * rateKhz)), .I2SCLL (c_I2C_Clk_KHz / (2 * rateKhz)),
           .I2CONSET [.STA]] := by
  have hd := clockDivider_of_rate c_I2C_Clk_KHz busSpeed rateKhz hrate
  have hjoin := split_bytes_join (clockDivider c_I2C_Clk_KHz rateKhz) (by rw [hd]; exact hdiv)
  rw [hd] at hjoin
  refine ⟨{ w with driver :=
      { w.driver with i2cConfiguration :=
        { w.driver.i2cConfiguration with
          clockRate := clockDivider c_I2C_Clk_KHz rateKhz % 256
          clockRate2 := (clockDivider c_I2C_Clk_KHz rateKhz >>> 8) % 256
          address := slaveAddress } } },
    by simp only [LPC24_I2c_SetActiveSettings, hrate], rfl, ?_, ?_⟩
  · simp only [hd]
    exact hjoin
  · intro w2 hcfg hfresh
    simp only [hd] at hcfg
    rcases hfresh with hf | hf <;>
      simp [LPC24_I2c_StartTransaction, hf, I2cWorld.write, hcfg, hjoin]

/-- C23 at a concrete input: a 72 MHz peripheral clock in standard mode gives
the divider 360, stored as the bytes 104 and 1, and a `Write` started under
this configuration programs 360 into both clock registers. -/
theorem C23_divider_bytes_witness :
    ∃ w1, LPC24_I2c_SetActiveSettings 72000 (some ()) 0x3C .StandardMode idleWorld
        = (.Success, w1) ∧
      w1.driver.i2cConfiguration.address = 0x3C ∧
      w1.driver.i2cConfiguration.clockRate = 104 ∧
      w1.driver.i2cConfiguration.clockRate2 = 1 ∧
      (writeArmed [0xAA] 1 w1).regs = [.I2SCLH 360, .I2SCLL 360, .I2CONSET [.STA]] := by
  obtain ⟨w1, h1, h2, _, h4⟩ :=
    C23_divider_bytes_lossless 72000 0x3C .StandardMode 100 idleWorld rfl (by decide)
  have e : w1 = (LPC24_I2c_SetActiveSettings 72000 (some ()) 0x3C .StandardMode idleWorld).2 := by
    rw [h1]
  refine ⟨w1, h1, h2, by rw [e]; decide, by rw [e]; decide, ?_⟩
  have h5 := h4 { w1 with driver :=
      { w1.driver with
        writeI2cTransactionAction := armedTransaction false false [0xAA] 1
        currentI2cTransactionAction := some .writeSlot } } rfl (Or.inl rfl)
  have h6 : w1.regs = [] := by rw [e]; rfl
  show (LPC24_I2c_StartTransaction { w1 with driver :=
      { w1.driver with
        writeI2cTransactionAction := armedTransaction false false [0xAA] 1
        currentI2cTransactionAction := some .writeSlot } }).regs = _
  rw [h5]
  show w1.regs ++ _ = _
  rw [h6]
  decide

/-! ## C24 -/

/-- C24: `LPC24_UsbDevice_ControlNext`.  With no data callback registered the
call returns with the registers, the client record, the driver and the
hardware inputs as they were (only the history count of entries grows).  With
a callback registered, and the two commands of the endpoint write answered,
the callback runs once on the client record; if it leaves `dataSize` at 0 one
packet of length 0 is written to endpoint 0 and the callback is cleared;
otherwise one packet of `dataSize` bytes from `ptrData` is written to
endpoint 0, and the callback is cleared when `dataSize` is below
`LPC24_USB_ENDPOINT_SIZE` or `firstDescriptorPacket` is set, and is otherwise
as the callback left it.  The write to endpoint 0 enables the FIFO of logical
endpoint 0 for writing, gives the length once, and validates the buffer of
the physical endpoint 1. -/
theorem C24_control_next_cases (k : UsbEngineConstants) (client : UsbClientEngine)
    (w : UsbWorld) :
    (w.usClientState.dataCallback = none →
      LPC24_UsbDevice_ControlNext k client w = some
        { w with controlNextCalls := w.controlNextCalls + 1 }) ∧
    (∀ callback rest, w.usClientState.dataCallback = some callback →
      afterWaits [CCEMTY_INT, CCEMTY_INT] w.devIntSt = some rest →
      ((client.dataCallback callback w.usClientState).dataSize = 0 →
        LPC24_UsbDevice_ControlNext k client w = some
          { w with
            controlNextCalls := w.controlNextCalls + 1
            usClientState :=
              { client.dataCallback callback w.usClientState with dataCallback := none }
            regs := w.regs ++ writeEPWrites CONTORL_EP_ADDR [] 0
            devIntSt := rest }) ∧
      ((client.dataCallback callback w.usClientState).dataSize ≠ 0 →
        LPC24_UsbDevice_ControlNext k client w = some
          { w with
            controlNextCalls := w.controlNextCalls + 1
            usClientState :=
              if (client.dataCallback callback w.usClientState).dataSize
                    < k.LPC24_USB_ENDPOINT_SIZE
                  ∨ w.driver.firstDescriptorPacket = true then
                { client.dataCallback callback w.usClientState with dataCallback := none }
              else client.dataCallback callback w.usClientState
            regs := w.regs ++ writeEPWrites CONTORL_EP_ADDR
              (client.dataCallback callback w.usClientState).ptrData
              (client.dataCallback callback w.usClientState).dataSize
            devIntSt := rest })) ∧
    (∀ pData cnt, writeEPWrites CONTORL_EP_ADDR pData cnt =
      [.USBCtrl CTRL_WR_EN, .USBTxPLen cnt]
        ++ (List.range ((cnt + 3) / 4)).map (fun n => .USBTxData (txWord pData n))
        ++ [.USBCtrl 0]
        ++ wrCmdWrites (CMD_SEL_EP 1) ++ wrCmdWrites CMD_VALID_BUF) := by
  refine ⟨fun hcb => ?_, fun callback rest hcb hw => ⟨fun h0 => ?_, fun h0 => ?_⟩,
    fun pData cnt => rfl⟩
  · have e := controlNext_eq k client w w.devIntSt
      (by simp only [controlNextWaits, hcb, afterWaits])
    rw [e]
    simp only [controlNextRecord, controlNextWrites, hcb, List.append_nil]
  · have e := controlNext_eq k client w rest (by simpa only [controlNextWaits, hcb] using hw)
    rw [e]
    simp only [controlNextRecord, controlNextWrites, hcb, h0, if_true, true_or]
  · have e := controlNext_eq k client w rest (by simpa only [controlNextWaits, hcb] using hw)
    rw [e]
    simp only [controlNextRecord, controlNextWrites, hcb, h0, if_false, false_or]

/-- C24 at concrete inputs: no callback; a callback that reports 0 bytes, 18
bytes (one length and five data words go to the FIFO), and a full packet of
64 bytes without and with the quirk flag. -/
theorem C24_control_next_witness :
    (∃ w1, LPC24_UsbDevice_ControlNext engineConstants fifoClient (enumeratingWorld [])
        = some w1 ∧ w1.regs = [] ∧ w1.devIntSt = List.replicate 12 0x10) ∧
    (∃ w1, LPC24_UsbDevice_ControlNext engineConstants (chunkClient 0) (answeringWorld false)
        = some w1 ∧ w1.usClientState.dataCallback = none ∧
      w1.regs.take 3 = [.USBCtrl 2, .USBTxPLen 0, .USBCtrl 0]) ∧
    (∃ w1, LPC24_UsbDevice_ControlNext engineConstants (chunkClient 18) (answeringWorld false)
        = some w1 ∧ w1.usClientState.dataCallback = none ∧
      w1.regs.take 2 = [.USBCtrl 2, .USBTxPLen 18] ∧
      (w1.regs.filter isTxWrite).length = 6) ∧
    (∃ w1, LPC24_UsbDevice_ControlNext engineConstants (chunkClient 64) (answeringWorld false)
        = some w1 ∧ w1.usClientState.dataCallback = some 1 ∧
      w1.regs.take 2 = [.USBCtrl 2, .USBTxPLen 64]) ∧
    (∃ w1, LPC24_UsbDevice_ControlNext engineConstants (chunkClient 64) (answeringWorld true)
        = some w1 ∧ w1.usClientState.dataCallback = none ∧
      w1.regs.take 2 = [.USBCtrl 2, .USBTxPLen 64]) :=
  ⟨⟨_, (C24_control_next_cases engineConstants fifoClient (enumeratingWorld [])).1 rfl,
      rfl, rfl⟩,
   ⟨_, ((C24_control_next_cases engineConstants (chunkClient 0) (answeringWorld false)).2.1
        1 (List.replicate 10 0x10) rfl (by decide)).1 rfl, rfl, by decide⟩,
   ⟨_, ((C24_control_next_cases engineConstants (chunkClient 18) (answeringWorld false)).2.1
        1 (List.replicate 10 0x10) rfl (by decide)).2 (by decide), by decide, by decide,
      by decide⟩,
   ⟨_, ((C24_control_next_cases engineConstants (chunkClient 64) (answeringWorld false)).2.1
        1 (List.replicate 10 0x10) rfl (by decide)).2 (by decide), by decide, by decide⟩,
   ⟨_, ((C24_control_next_cases engineConstants (chunkClient 64) (answeringWorld true)).2.1
        1 (List.replicate 10 0x10) rfl (by decide)).2 (by decide), by decide, by decide⟩⟩

/-! ## C25 -/

/-- C25, the claim at two inputs where it fails.  Endpoint 2, idle with one
packet of 64 bytes queued: `LPC24_UsbDevice_StartOutput` writes the packet;
its completion interrupt makes `LPC24_UsbDevice_TxPacket` write the trailing
zero-length packet and clear `txRunning[2]` in the same call, so the
zero-length packet is in the FIFO, its completion interrupt has not been
processed, and `txRunning[2]` is false.  Endpoint 0, idle with one packet
queued: `LPC24_UsbDevice_StartOutput` writes the packet; a second call finds
`txRunning[0]` set and the interrupt pending, acknowledges it and calls
`LPC24_UsbDevice_ProcessEP0` where the other endpoints call
`LPC24_UsbDevice_TxPacket`, so nothing is in flight and `txRunning[0]` is
still true. -/
theorem C25_flag_and_packets_in_flight_disagree :
    (∃ w1 w2, LPC24_UsbDevice_StartOutput engineConstants fifoClient (fun _ _ _ => none) 1 2
        txIdleWorld = some w1 ∧
      w1.driver.txRunning 2 = true ∧ packetsInFlight 2 w1.regs = 1 ∧
      LPC24_UsbDevice_Enpoint_TxInterruptHandler fifoClient 1 2 w1 = some w2 ∧
      w2.regs = w1.regs ++ txCompletionClear 2 :: writeEPWrites 2 [] 0 ∧
      packetsInFlight 2 w2.regs = 1 ∧
      w2.driver.txRunning 2 = false ∧
      ¬ (w2.driver.txRunning 2 = true ↔ 1 ≤ packetsInFlight 2 w2.regs)) ∧
    (∃ w1 w2, LPC24_UsbDevice_StartOutput engineConstants fifoClient
        (LPC24_UsbDevice_ProcessEP0 engineConstants fifoClient 1) 1 0
        controlQueueWorld = some w1 ∧
      w1.driver.txRunning 0 = true ∧ packetsInFlight 0 w1.regs = 1 ∧
      LPC24_UsbDevice_StartOutput engineConstants fifoClient
        (LPC24_UsbDevice_ProcessEP0 engineConstants fifoClient 1) 1 0 w1 = some w2 ∧
      w2.regs = w1.regs ++ [txCompletionClear 0] ∧
      w2.controlNextCalls = w1.controlNextCalls + 1 ∧
      packetsInFlight 0 w2.regs = 0 ∧
      w2.driver.txRunning 0 = true ∧
      ¬ (w2.driver.txRunning 0 = true → 1 ≤ packetsInFlight 0 w2.regs)) :=
  ⟨⟨_, _, rfl, by decide, by decide, rfl, by decide, by decide, by decide, by decide⟩,
    ⟨_, _, rfl, by decide, by decide, rfl, by decide, by decide, by decide, by decide,
      by decide⟩⟩

/-- The count of packets in flight over two register histories in a row. -/
theorem packetsInFlight_append (endpoint : Nat) (a b : List UsbRegWrite) :
    packetsInFlight endpoint (a ++ b)
      = b.foldl (inFlightStep endpoint) (packetsInFlight endpoint a) := by
  simp only [packetsInFlight, List.foldl_append]

/-- Register writes that neither open the FIFO of the endpoint nor acknowledge
its completion interrupt leave the count of packets in flight. -/
theorem inFlight_neutral (endpoint : Nat) (l : List UsbRegWrite) (n : Nat)
    (h : ∀ r ∈ l, r ≠ txFifoOpen endpoint ∧ r ≠ txCompletionClear endpoint) :
    l.foldl (inFlightStep endpoint) n = n := by
  induction l generalizing n with
  | nil => rfl
  | cons r rest ih =>
    obtain ⟨h1, h2⟩ := h r (List.mem_cons_self _ _)
    simp only [List.foldl_cons, inFlightStep, if_neg h1, if_neg h2]
    exact ih n (fun x hx => h x (List.mem_cons_of_mem _ hx))

/-- The values written to `USBCtrl` and `USBEpIntClr` for an endpoint: opening
the FIFO for writing is neither closing it nor opening it for reading, and the
two directions of an endpoint have different interrupt bits, none of them the
word that clears every interrupt. -/
theorem endpoint_values_differ (endpoint : Nat) :
    ((endpoint &&& 0x0F) <<< 2) ||| CTRL_WR_EN ≠ 0 ∧
    ((endpoint &&& 0x0F) <<< 2) ||| CTRL_RD_EN ≠ ((endpoint &&& 0x0F) <<< 2) ||| CTRL_WR_EN ∧
    1 <<< LPC24_UsbDevice_EPAdr endpoint 0 ≠ 1 <<< LPC24_UsbDevice_EPAdr endpoint 1 ∧
    0xFFFFFFFF ≠ 1 <<< LPC24_UsbDevice_EPAdr endpoint 1 := by
  have hx : endpoint &&& 0x0F ≤ 15 := Nat.and_le_right
  have hall : ∀ x, x ≤ 15 →
      (x <<< 2) ||| CTRL_WR_EN ≠ 0 ∧
      (x <<< 2) ||| CTRL_RD_EN ≠ (x <<< 2) ||| CTRL_WR_EN ∧
      1 <<< ((x <<< 1) + 0) ≠ 1 <<< ((x <<< 1) + 1) ∧
      0xFFFFFFFF ≠ 1 <<< ((x <<< 1) + 1) := by
    decide
  have h := hall _ hx
  simpa only [LPC24_UsbDevice_EPAdr, ne_eq, not_true_eq_false, if_false, Nat.one_ne_zero,
    not_false_eq_true, if_true] using h

/-- Writing a packet to an endpoint adds one to its packets in flight. -/
theorem inFlight_writeEPWrites (endpoint : Nat) (pData : List Nat) (cnt n : Nat) :
    (writeEPWrites endpoint pData cnt).foldl (inFlightStep endpoint) n = n + 1 := by
  obtain ⟨h0, _, _, _⟩ := endpoint_values_differ endpoint
  have hsplit : writeEPWrites endpoint pData cnt = txFifoOpen endpoint ::
      (.USBTxPLen cnt :: ((List.range ((cnt + 3) / 4)).map (fun n => .USBTxData (txWord pData n))
        ++ [.USBCtrl 0] ++ wrCmdWrites (CMD_SEL_EP (LPC24_UsbDevice_EPAdr endpoint 1))
        ++ wrCmdWrites CMD_VALID_BUF)) := by
    simp only [writeEPWrites, txFifoWrites, txFifoOpen, List.cons_append, List.nil_append,
      List.append_assoc]
  rw [hsplit, List.foldl_cons]
  have hfirst : inFlightStep endpoint n (txFifoOpen endpoint) = n + 1 := by
    simp only [inFlightStep, if_true]
  rw [hfirst]
  apply inFlight_neutral
  intro r hr
  simp only [List.mem_cons, List.mem_append, List.mem_map, List.mem_range, wrCmdWrites,
    List.mem_singleton, List.not_mem_nil, or_false] at hr
  rcases hr with rfl | ((⟨a, _, rfl⟩ | rfl) | rfl | rfl) | rfl | rfl
  all_goals
    refine ⟨fun e => ?_, fun e => ?_⟩ <;>
      simp only [txFifoOpen, txCompletionClear] at e <;>
      first
        | exact UsbRegWrite.noConfusion e
        | exact h0 (UsbRegWrite.USBCtrl.inj e).symm

/-- `LPC24_UsbDevice_TxPacket`, whenever it returns with `txRunning` set for
its endpoint, has written a packet to the endpoint's FIFO in this call. -/
theorem txPacket_running (client : UsbClientEngine) (fuel endpoint : Nat) (w w1 : UsbWorld)
    (h : LPC24_UsbDevice_TxPacket client fuel endpoint w = some w1)
    (hrun : w1.driver.txRunning endpoint = true) :
    1 ≤ packetsInFlight endpoint w1.regs := by
  unfold LPC24_UsbDevice_TxPacket at h
  cases hd : txDequeueLoop client endpoint fuel w.usClientState with
  | none => simp [hd] at h
  | some r =>
    obtain ⟨op, s1⟩ := r
    cases op with
    | some p =>
      simp only [hd] at h
      cases hwr : USB_WriteEP endpoint (s1.packets p).Buffer (s1.packets p).Size
          { w with usClientState := s1 } with
      | none => simp [hwr] at h
      | some w2 =>
        simp only [hwr, Option.some.injEq] at h
        obtain ⟨rest, e⟩ := writeEP_some _ _ _ _ _ hwr
        subst h
        subst e
        show 1 ≤ packetsInFlight endpoint (w.regs ++ writeEPWrites endpoint _ _)
        rw [packetsInFlight_append, inFlight_writeEPWrites]
        exact Nat.le_add_left 1 _
    | none =>
      simp only [hd] at h
      by_cases hz : w.driver.txNeedZLPS endpoint = true
      · simp only [hz, if_true] at h
        cases hwr : USB_WriteEP endpoint [] 0 { w with usClientState := s1 } with
        | none => simp [hwr] at h
        | some w2 =>
          simp only [hwr, Option.some.injEq] at h
          subst h
          simp only [Function.update_same, Bool.false_eq_true] at hrun
      · simp only [hz, Bool.false_eq_true, if_false, Option.some.injEq] at h
        subst h
        simp only [Function.update_same, Bool.false_eq_true] at hrun

/-- `LPC24_UsbDevice_Enpoint_TxInterruptHandler`, whenever it returns, keeps:
`txRunning` set for the endpoint only with a packet in flight. -/
theorem txInterruptHandler_running (client : UsbClientEngine) (fuel endpoint : Nat)
    (w w1 : UsbWorld)
    (hinv : w.driver.txRunning endpoint = true → 1 ≤ packetsInFlight endpoint w.regs)
    (h : LPC24_UsbDevice_Enpoint_TxInterruptHandler client fuel endpoint w = some w1)
    (hrun : w1.driver.txRunning endpoint = true) :
    1 ≤ packetsInFlight endpoint w1.regs := by
  unfold LPC24_UsbDevice_Enpoint_TxInterruptHandler at h
  simp only [] at h
  split_ifs at h with hbit
  · cases ha : (({ w with epIntSt := w.epIntSt.tail } : UsbWorld).write
        [.USBEpIntClr (1 <<< LPC24_UsbDevice_EPAdr endpoint 1)]).await CDFULL_INT with
    | none => simp [ha] at h
    | some w2 =>
      simp only [ha] at h
      exact txPacket_running _ _ _ _ _ h hrun
  · simp only [Option.some.injEq] at h
    subst h
    exact hinv hrun

/-- Reading a packet from an endpoint leaves its packets in flight. -/
theorem inFlight_readEPWrites (endpoint n : Nat) :
    (readEPWrites endpoint).foldl (inFlightStep endpoint) n = n := by
  obtain ⟨h0, h1, _, _⟩ := endpoint_values_differ endpoint
  apply inFlight_neutral
  intro r hr
  unfold readEPWrites at hr
  split_ifs at hr <;>
    simp only [List.mem_cons, List.mem_append, wrCmdWrites, List.mem_singleton,
      List.not_mem_nil, or_false, List.append_nil] at hr
  · rcases hr with (rfl | rfl) | (rfl | rfl) | rfl | rfl
    all_goals
      refine ⟨fun e => ?_, fun e => ?_⟩ <;>
        simp only [txFifoOpen, txCompletionClear] at e <;>
        first
          | exact UsbRegWrite.noConfusion e
          | exact h0 (UsbRegWrite.USBCtrl.inj e).symm
          | exact h1 (UsbRegWrite.USBCtrl.inj e)
  · rcases hr with rfl | rfl
    all_goals
      refine ⟨fun e => ?_, fun e => ?_⟩ <;>
        simp only [txFifoOpen, txCompletionClear] at e <;>
        first
          | exact UsbRegWrite.noConfusion e
          | exact h0 (UsbRegWrite.USBCtrl.inj e).symm
          | exact h1 (UsbRegWrite.USBCtrl.inj e)

/-- `LPC24_UsbDevice_Enpoint_RxInterruptHandler`, whenever it returns, leaves
the driver record and the packets in flight of the endpoint. -/
theorem rxInterruptHandler_running (client : UsbClientEngine) (endpoint : Nat)
    (w w1 : UsbWorld)
    (h : LPC24_UsbDevice_Enpoint_RxInterruptHandler client endpoint w = some w1) :
    w1.driver = w.driver ∧ packetsInFlight endpoint w1.regs = packetsInFlight endpoint w.regs := by
  unfold LPC24_UsbDevice_Enpoint_RxInterruptHandler at h
  cases hq : client.TinyCLR_UsbClient_RxEnqueue w.usClientState endpoint with
  | mk op s1 =>
    cases op with
    | some p =>
      simp only [hq] at h
      cases hr : LPC24_UsbDevice_ReadEP endpoint { w with usClientState := s1 } with
      | none => simp [hr] at h
      | some r =>
        obtain ⟨cnt, bytes, w2⟩ := r
        simp only [hr, Option.some.injEq] at h
        obtain ⟨lens, data, rest, e⟩ := readEP_some _ _ _ _ _ hr
        subst h
        subst e
        refine ⟨rfl, ?_⟩
        show packetsInFlight endpoint (w.regs ++ readEPWrites endpoint) = _
        rw [packetsInFlight_append, inFlight_readEPWrites]
    | none =>
      simp only [hq, Option.some.injEq] at h
      subst h
      exact ⟨rfl, rfl⟩

/-- `LPC24_UsbDevice_ProcessEndPoint` for the OUT direction of an endpoint,
whenever it returns, leaves the driver record and the packets in flight of
the endpoint. -/
theorem processEndPoint_out_running (client : UsbClientEngine) (fuel endpoint : Nat)
    (w w1 : UsbWorld)
    (h : LPC24_UsbDevice_ProcessEndPoint client fuel endpoint 0 w = some w1) :
    w1.driver = w.driver ∧ packetsInFlight endpoint w1.regs = packetsInFlight endpoint w.regs := by
  obtain ⟨_, _, h2, _⟩ := endpoint_values_differ endpoint
  have hclr : ∀ n, inFlightStep endpoint n (.USBEpIntClr (1 <<< LPC24_UsbDevice_EPAdr endpoint 0))
      = n := by
    intro n
    have e1 : UsbRegWrite.USBEpIntClr (1 <<< LPC24_UsbDevice_EPAdr endpoint 0)
        ≠ txFifoOpen endpoint := fun e => UsbRegWrite.noConfusion e
    have e2 : UsbRegWrite.USBEpIntClr (1 <<< LPC24_UsbDevice_EPAdr endpoint 0)
        ≠ txCompletionClear endpoint := fun e => h2 (UsbRegWrite.USBEpIntClr.inj e)
    simp only [inFlightStep, if_neg e1, if_neg e2]
  unfold LPC24_UsbDevice_ProcessEndPoint at h
  rw [if_neg (by decide : ¬ ((0 : Nat) ≠ 0))] at h
  cases ha : (w.write [.USBEpIntClr (1 <<< LPC24_UsbDevice_EPAdr endpoint 0)]).await
      CDFULL_INT with
  | none => simp [ha] at h
  | some w2 =>
    simp only [ha] at h
    obtain ⟨rest, e⟩ := await_some _ _ _ ha
    obtain ⟨hd, hn⟩ := rxInterruptHandler_running _ _ _ _ h
    subst e
    refine ⟨hd, ?_⟩
    rw [hn]
    show packetsInFlight endpoint
      (w.regs ++ [.USBEpIntClr (1 <<< LPC24_UsbDevice_EPAdr endpoint 0)] ++ []) = _
    rw [List.append_nil, packetsInFlight_append, List.foldl_cons, List.foldl_nil, hclr]

/-- The endpoint number `LPC24_UsbDevice_StartOutput` derives for an endpoint
below 16 is the endpoint itself. -/
theorem startOutput_endpoint (endpoint : Nat) (h2 : endpoint < 16) :
    LPC24_UsbDevice_EPAdr endpoint 1 >>> 1 = endpoint := by
  interval_cases endpoint <;> rfl

/-- `LPC24_UsbDevice_StartOutput` on one of the endpoints 1 to 15, whenever it
returns, keeps: `txRunning` set for the endpoint only with a packet in
flight. -/
theorem startOutput_running (k : UsbEngineConstants) (client : UsbClientEngine)
    (processEP0 : Nat → Nat → UsbWorld → Option UsbWorld) (fuel endpoint : Nat)
    (w w1 : UsbWorld) (h1 : 1 ≤ endpoint) (h2 : endpoint < 16)
    (hinv : w.driver.txRunning endpoint = true → 1 ≤ packetsInFlight endpoint w.regs)
    (h : LPC24_UsbDevice_StartOutput k client processEP0 fuel endpoint w = some w1)
    (hrun : w1.driver.txRunning endpoint = true) :
    1 ≤ packetsInFlight endpoint w1.regs := by
  have hm := startOutput_not_endpoint0 endpoint h1 h2
  have hme := startOutput_endpoint endpoint h2
  unfold LPC24_UsbDevice_StartOutput at h
  by_cases hhalt : w.usClientState.endpointStatus endpoint &&& k.USB_STATUS_ENDPOINT_HALT ≠ 0
  · rw [if_pos hhalt] at h
    simp only [Option.some.injEq] at h
    subst h
    exact hinv hrun
  · rw [if_neg hhalt] at h
    by_cases hnot : ¬ w.driver.txRunning endpoint = true
    · rw [if_pos hnot] at h
      exact txPacket_running _ _ _ _ _ h hrun
    · rw [if_neg hnot] at h
      by_cases hirq : client.irqIsDisabled = true
      · rw [if_pos hirq] at h
        simp only [] at h
        by_cases hbit : w.epIntSt.headD 0 &&& (1 <<< LPC24_UsbDevice_EPAdr endpoint 1) ≠ 0
        · rw [if_pos hbit, if_neg hm, hme] at h
          by_cases hq : ((w.usClientState.queues endpoint).isSome
              && w.usClientState.isTxQueue endpoint) = true
          · rw [if_pos hq] at h
            unfold LPC24_UsbDevice_ProcessEndPoint at h
            rw [if_pos (by decide : (1 : Nat) ≠ 0)] at h
            exact txInterruptHandler_running client fuel endpoint
              { w with epIntSt := w.epIntSt.tail } w1 hinv h hrun
          · rw [if_neg hq] at h
            obtain ⟨hd, hn⟩ := processEndPoint_out_running _ _ _ _ _ h
            rw [hn]
            rw [hd] at hrun
            exact hinv hrun
        · rw [if_neg hbit] at h
          simp only [Option.some.injEq] at h
          subst h
          exact hinv hrun
      · rw [if_neg hirq] at h
        simp only [Option.some.injEq] at h
        subst h
        exact hinv hrun

/-- The loop of `LPC24_UsbDevice_ResetEvent` sets no `txRunning` flag. -/
theorem foldl_clearTxState_running (l : List Nat) (d : UsbDeviceDriver) (endpoint : Nat)
    (h : (l.foldl clearTxState d).txRunning endpoint = true) : d.txRunning endpoint = true := by
  induction l generalizing d with
  | nil => exact h
  | cons ep rest ih =>
    have h3 := ih (clearTxState d ep) h
    by_cases he : endpoint = ep
    · subst he
      simp only [clearTxState, Function.update_same, Bool.false_eq_true] at h3
    · simpa only [clearTxState, Function.update_noteq he] using h3

/-- `LPC24_UsbDevice_ResetEvent`, whenever it returns, keeps: `txRunning` set
for an endpoint only with a packet in flight. -/
theorem resetEvent_running (k : UsbConstants) (client : UsbClientLayer) (endpoint : Nat)
    (w w1 : UsbWorld)
    (hinv : w.driver.txRunning endpoint = true → 1 ≤ packetsInFlight endpoint w.regs)
    (h : LPC24_UsbDevice_ResetEvent k client w = some w1)
    (hrun : w1.driver.txRunning endpoint = true) :
    1 ≤ packetsInFlight endpoint w1.regs := by
  obtain ⟨_, _, _, h3⟩ := endpoint_values_differ endpoint
  unfold LPC24_UsbDevice_ResetEvent LPC24_UsbDevice_HardwareReset at h
  simp only [] at h
  cases hs : spinUntil EP_RLZED_INT (w.write [.USBEpInd 0, .USBEpMaxPSize USB_MAX_PACKET0,
      .USBEpInd 1, .USBEpMaxPSize USB_MAX_PACKET0]).devIntSt with
  | none => simp [hs] at h
  | some rest =>
    simp only [hs, Option.some.injEq] at h
    subst h
    have hold : w.driver.txRunning endpoint = true :=
      foldl_clearTxState_running _ _ _ hrun
    have hregs : packetsInFlight endpoint
        (w.regs ++ [.USBEpInd 0, .USBEpMaxPSize USB_MAX_PACKET0,
            .USBEpInd 1, .USBEpMaxPSize USB_MAX_PACKET0]
          ++ [.USBEpIntClr 0xFFFFFFFF, .USBEpIntEn (0xFFFFFFFF ^^^ USB_DMA_EP),
            .USBDevIntClr 0xFFFFFFFF, .USBDevIntEn (DEV_STAT_INT ||| EP_SLOW_INT)])
        = packetsInFlight endpoint w.regs := by
      rw [List.append_assoc, packetsInFlight_append]
      apply inFlight_neutral
      intro r hr
      simp only [List.mem_cons, List.mem_append, List.mem_singleton, List.not_mem_nil,
        or_false] at hr
      rcases hr with (rfl | rfl | rfl | rfl) | rfl | rfl | rfl | rfl
      all_goals
        refine ⟨fun e => ?_, fun e => ?_⟩ <;>
          simp only [txFifoOpen, txCompletionClear] at e <;>
          first
            | exact UsbRegWrite.noConfusion e
            | exact h3 (UsbRegWrite.USBEpIntClr.inj e)
    have := hinv hold
    exact hregs ▸ this

/-- A step of `txRun`, whenever it returns, keeps: `txRunning` set for the
endpoint only with a packet in flight. -/
theorem txStep_running (k : UsbEngineConstants) (client : UsbClientEngine)
    (processEP0 : Nat → Nat → UsbWorld → Option UsbWorld) (fuel endpoint : Nat)
    (h1 : 1 ≤ endpoint) (h2 : endpoint < 16) (ev : TxEvent) (w w1 : UsbWorld)
    (hinv : w.driver.txRunning endpoint = true → 1 ≤ packetsInFlight endpoint w.regs)
    (h : txStep k client processEP0 fuel endpoint ev w = some w1)
    (hrun : w1.driver.txRunning endpoint = true) :
    1 ≤ packetsInFlight endpoint w1.regs := by
  cases ev with
  | startOutput => exact startOutput_running k client processEP0 fuel endpoint w w1 h1 h2 hinv h hrun
  | txInterrupt => exact txInterruptHandler_running client fuel endpoint w w1 hinv h hrun
  | reset => exact resetEvent_running _ _ endpoint w w1 hinv h hrun
  | environment s d e c =>
    simp only [txStep, Option.some.injEq] at h
    subst h
    exact hinv hrun

/-- A run of `txRun`, whenever it returns, keeps: `txRunning` set for the
endpoint only with a packet in flight. -/
theorem txRun_running (k : UsbEngineConstants) (client : UsbClientEngine)
    (processEP0 : Nat → Nat → UsbWorld → Option UsbWorld) (fuel endpoint : Nat)
    (h1 : 1 ≤ endpoint) (h2 : endpoint < 16) (events : List TxEvent) (w w1 : UsbWorld)
    (hinv : w.driver.txRunning endpoint = true → 1 ≤ packetsInFlight endpoint w.regs)
    (h : txRun k client processEP0 fuel endpoint events w = some w1)
    (hrun : w1.driver.txRunning endpoint = true) :
    1 ≤ packetsInFlight endpoint w1.regs := by
  induction events generalizing w with
  | nil =>
    simp only [txRun, Option.some.injEq] at h
    subst h
    exact hinv hrun
  | cons ev rest ih =>
    simp only [txRun] at h
    cases hs : txStep k client processEP0 fuel endpoint ev w with
    | none => simp [hs] at h
    | some w2 =>
      simp only [hs] at h
      exact ih w2 (txStep_running k client processEP0 fuel endpoint h1 h2 ev w w2 hinv hs) h

/-- C25 as amended: over every sequence of `LPC24_UsbDevice_StartOutput`
calls, transmit-completion interrupts and reset events on one of the
endpoints 1 to 15, with the client layer and the hardware free to change
what is theirs in between, started where `txRunning[ep]` is set only with a
packet in flight: whenever `txRunning[ep]` is true at the end, a packet
written to the endpoint's FIFO has not had its completion interrupt
processed.  The converse is not kept: in any state the run reaches, the call
of `LPC24_UsbDevice_TxPacket` that finds the queue empty with a zero-length
packet due writes that packet, which adds one to the packets in flight, and
clears `txRunning[ep]`.  Endpoint 0 is left out: there
`LPC24_UsbDevice_StartOutput` hands a pending completion to
`LPC24_UsbDevice_ProcessEP0`, which writes no packet and leaves `txRunning[0]`
set. -/
theorem C25_tx_running_only_with_packet_in_flight (k : UsbEngineConstants)
    (client : UsbClientEngine) (processEP0 : Nat → Nat → UsbWorld → Option UsbWorld)
    (fuel endpoint : Nat) (h1 : 1 ≤ endpoint) (h2 : endpoint < 16) (events : List TxEvent)
    (w w1 : UsbWorld)
    (hinv : w.driver.txRunning endpoint = true → 1 ≤ packetsInFlight endpoint w.regs)
    (h : txRun k client processEP0 fuel endpoint events w = some w1) :
    (w1.driver.txRunning endpoint = true → 1 ≤ packetsInFlight endpoint w1.regs) ∧
    (∀ s1 rest, client.TinyCLR_UsbClient_TxDequeue w1.usClientState endpoint = (none, s1) →
      w1.driver.txNeedZLPS endpoint = true →
      afterWaits [CCEMTY_INT, CCEMTY_INT] w1.devIntSt = some rest →
      ∃ w2, LPC24_UsbDevice_TxPacket client (fuel + 1) endpoint w1 = some w2 ∧
        w2.regs = w1.regs ++ writeEPWrites endpoint [] 0 ∧
        w2.driver.txRunning endpoint = false ∧
        packetsInFlight endpoint w2.regs = packetsInFlight endpoint w1.regs + 1) := by
  refine ⟨txRun_running k client processEP0 fuel endpoint h1 h2 events w w1 hinv h, ?_⟩
  intro s1 rest hd hz hw
  have e := txPacket_empty client endpoint fuel w1 s1 rest hd (by rw [if_pos hz]; exact hw)
  rw [if_pos hz] at e
  refine ⟨_, e, rfl, ?_, ?_⟩
  · simp only [Function.update_same]
  · show packetsInFlight endpoint (w1.regs ++ writeEPWrites endpoint [] 0) = _
    rw [packetsInFlight_append, inFlight_writeEPWrites]

/-- C25 as amended, on endpoint 2 of a device with one packet of 64 bytes
queued.  After the packet, its completion, the zero-length packet, a new
packet queued by the client layer and a second `LPC24_UsbDevice_StartOutput`,
`txRunning[2]` is true with two packets in flight.  After the first
`LPC24_UsbDevice_StartOutput` alone, the next `LPC24_UsbDevice_TxPacket`
writes the zero-length packet and clears `txRunning[2]`. -/
theorem C25_tx_running_witness :
    (txRun engineConstants fifoClient (fun _ _ _ => none) 1 2
        [.startOutput, .txInterrupt,
          .environment (queuedWorld 8).usClientState (List.replicate 8 0x30) [] [],
          .startOutput] txIdleWorld
      = some (afterTxEvents [.startOutput, .txInterrupt,
          .environment (queuedWorld 8).usClientState (List.replicate 8 0x30) [] [],
          .startOutput] txIdleWorld) ∧
      (afterTxEvents [.startOutput, .txInterrupt,
          .environment (queuedWorld 8).usClientState (List.replicate 8 0x30) [] [],
          .startOutput] txIdleWorld).driver.txRunning 2 = true ∧
      packetsInFlight 2 (afterTxEvents [.startOutput, .txInterrupt,
          .environment (queuedWorld 8).usClientState (List.replicate 8 0x30) [] [],
          .startOutput] txIdleWorld).regs = 2 ∧
      1 ≤ packetsInFlight 2 (afterTxEvents [.startOutput, .txInterrupt,
          .environment (queuedWorld 8).usClientState (List.replicate 8 0x30) [] [],
          .startOutput] txIdleWorld).regs) ∧
    (∃ w2, LPC24_UsbDevice_TxPacket fifoClient 2 2 (afterTxEvents [.startOutput] txIdleWorld)
        = some w2 ∧
      w2.regs = (afterTxEvents [.startOutput] txIdleWorld).regs ++ writeEPWrites 2 [] 0 ∧
      w2.driver.txRunning 2 = false ∧
      packetsInFlight 2 w2.regs
        = packetsInFlight 2 (afterTxEvents [.startOutput] txIdleWorld).regs + 1) :=
  ⟨⟨rfl, by decide, by decide,
      (C25_tx_running_only_with_packet_in_flight engineConstants fifoClient
        (fun _ _ _ => none) 1 2 (by decide) (by decide)
        [.startOutput, .txInterrupt,
          .environment (queuedWorld 8).usClientState (List.replicate 8 0x30) [] [],
          .startOutput] txIdleWorld _ (by decide) rfl).1 (by decide)⟩,
    (C25_tx_running_only_with_packet_in_flight engineConstants fifoClient
        (fun _ _ _ => none) 1 2 (by decide) (by decide) [.startOutput] txIdleWorld
        (afterTxEvents [.startOutput] txIdleWorld) (by decide) rfl).2
      (afterTxEvents [.startOutput] txIdleWorld).usClientState (List.replicate 4 0x30)
      rfl (by decide) (by decide)⟩

/-! ## C26 -/

/-- A wait loop whose interrupts all come during the last of its delays: the
loop serves them with `timeout` at 1 and leaves with `timeout` at 0, whatever
they did to the completion flag. -/
theorem waitLoop_lastDelay (evs : List IrqEvent) (w w1 : I2cWorld) (s s1 : Slot)
    (hc : w.driver.currentI2cTransactionAction = some s)
    (hd : (w.driver.slot s).isDone = false)
    (h1 : serve evs w = some w1)
    (hc1 : w1.driver.currentI2cTransactionAction = some s1) (n : Nat) :
    waitLoop (busAtLastDelay evs) (n + 1) w =
      some { timeout := 0, delays := List.replicate (n + 1) 1000, world := w1 } := by
  induction n with
  | zero =>
    have h0 : waitLoop (busAtLastDelay evs) 0 w1 = some { timeout := 0, delays := [], world := w1 } := by
      simp only [waitLoop, I2cDriver.current, hc1]
    exact waitLoop_turn (busAtLastDelay evs) 0 w w1 s _ hc hd
      (by simpa only [busAtLastDelay, I2C_TRANSACTION_TIMEOUT] using h1) h0
  | succ n ih =>
    have hq : busAtLastDelay evs (I2C_TRANSACTION_TIMEOUT - (n + 1 + 1)) = [] := by
      have hk : I2C_TRANSACTION_TIMEOUT - (n + 1 + 1) ≠ 1999 := by
        simp only [I2C_TRANSACTION_TIMEOUT]
        omega
      simp only [busAtLastDelay, hk, if_false]
    exact waitLoop_turn (busAtLastDelay evs) (n + 1) w w s _ hc hd
      (by rw [hq]; rfl) ih

/-- C26, the code at a failing input: a one-byte `Write` and a one-byte `Read`
on a bus that is silent for 1999 delays and completes the transfer during the
2000th.  The handler sets the completion flag while `timeout` is 1; the loop
then decrements `timeout` to 0 and leaves, and the return value is taken from
`timeout > 0` alone: both calls return `TimedOut` with the completion flag
set, the byte transferred and status-out `FullTransfer`. -/
theorem C26_completion_in_final_delay_times_out :
    (∃ out, LPC24_I2c_Write (some ()) [0xAA] 1 (.other 9)
        (busAtLastDelay [⟨0x08, 0⟩, ⟨0x18, 0⟩, ⟨0x28, 0⟩]) idleWorld = some out ∧
      out.code = .TimedOut ∧
      out.world.driver.currentI2cTransactionAction = some .writeSlot ∧
      out.world.driver.writeI2cTransactionAction.isDone = true ∧
      out.delays = List.replicate 2000 1000 ∧
      out.length = 1 ∧ out.result = .FullTransfer) ∧
    (∃ out, LPC24_I2c_Read (some ()) [0] 1 (.other 9)
        (busAtLastDelay [⟨0x08, 0⟩, ⟨0x40, 0⟩, ⟨0x58, 7⟩]) idleWorld = some out ∧
      out.code = .TimedOut ∧
      out.world.driver.currentI2cTransactionAction = some .readSlot ∧
      out.world.driver.readI2cTransactionAction.isDone = true ∧
      out.world.driver.readI2cTransactionAction.buffer = [7] ∧
      out.delays = List.replicate 2000 1000 ∧
      out.length = 1 ∧ out.result = .FullTransfer) := by
  have hw := waitLoop_lastDelay [⟨0x08, 0⟩, ⟨0x18, 0⟩, ⟨0x28, 0⟩] (writeArmed [0xAA] 1 idleWorld)
    (afterServing [⟨0x08, 0⟩, ⟨0x18, 0⟩, ⟨0x28, 0⟩] (writeArmed [0xAA] 1 idleWorld))
    .writeSlot .writeSlot (by decide) (by decide) (by decide) (by decide) 1999
  have hr := waitLoop_lastDelay [⟨0x08, 0⟩, ⟨0x40, 0⟩, ⟨0x58, 7⟩] (readArmed [0] 1 idleWorld)
    (afterServing [⟨0x08, 0⟩, ⟨0x40, 0⟩, ⟨0x58, 7⟩] (readArmed [0] 1 idleWorld))
    .readSlot .readSlot (by decide) (by decide) (by decide) (by decide) 1999
  refine ⟨?_, ?_⟩
  · simp only [LPC24_I2c_Write, I2C_TRANSACTION_TIMEOUT, hw]
    exact ⟨_, rfl, by decide, by decide, by decide, rfl, by decide, by decide⟩
  · simp only [LPC24_I2c_Read, I2C_TRANSACTION_TIMEOUT, hr]
    exact ⟨_, rfl, by decide, by decide, by decide, by decide, rfl, by decide, by decide⟩

end LPC24
